import Mathlib

/-!
# Half-edge mesh editing kernel (student/meshedit.cpp)

A shallow embedding of the local topology operators of `Halfedge_Mesh`
(`collapse_edge`, `flip_edge`, `split_edge`, `bevel_face`) and theorems about them.

Elements are addressed by natural-number ids, one id space per element kind.
Every relation of the half-edge structure is a total map on ids; the lists
`halfedges`, `vertices`, `edges`, `faces` are the mesh's live sets and
`herased`, `verased`, `eerased`, `ferased` are the pending (soft) erasures.
Loops of the source that need not terminate on an arbitrary web of references
take a `fuel` argument and report `Fault.out_of_fuel` when it is used up.
Positions are triples of rationals: floating-point rounding is not modelled.
-/

namespace MeshEdit

/-! ## Data model -/

/-- Vec3 of the source, with exact rational coordinates. -/
structure Vec3 where
  x : Rat
  y : Rat
  z : Rat
deriving DecidableEq, Repr

/-- Sum of two vectors (`operator+`). -/
def Vec3.add (a b : Vec3) : Vec3 := ⟨a.x + b.x, a.y + b.y, a.z + b.z⟩

/-- Division of a vector by a scalar (`operator/`). -/
def Vec3.div (a : Vec3) (s : Rat) : Vec3 := ⟨a.x / s, a.y / s, a.z / s⟩

/-- Difference of two vectors (`operator-`). -/
def Vec3.sub (a b : Vec3) : Vec3 := ⟨a.x - b.x, a.y - b.y, a.z - b.z⟩

/-- Product of a vector by a scalar (`operator*`). -/
def Vec3.smul (a : Vec3) (s : Rat) : Vec3 := ⟨a.x * s, a.y * s, a.z * s⟩

/-! ## Quadric simplification: vectors and matrices -/

/-- Dot product of two vectors (`dot`). -/
def Vec3.dot (a b : Vec3) : Rat := a.x * b.x + a.y * b.y + a.z * b.z

/-- Cross product of two vectors (`cross`). -/
def Vec3.cross (a b : Vec3) : Vec3 :=
  ⟨a.y * b.z - a.z * b.y, a.z * b.x - a.x * b.z, a.x * b.y - a.y * b.x⟩

/-- Modelled from the spec: Vec4 (lib/vec4.h, absent), with exact rational coordinates. -/
structure Vec4 where
  x : Rat
  y : Rat
  z : Rat
  w : Rat
deriving DecidableEq, Repr

/-- Sum of two vectors (`operator+`). -/
def Vec4.add (a b : Vec4) : Vec4 := ⟨a.x + b.x, a.y + b.y, a.z + b.z, a.w + b.w⟩

/-- Product of a vector by a scalar (`operator*`). -/
def Vec4.smul (a : Vec4) (s : Rat) : Vec4 := ⟨a.x * s, a.y * s, a.z * s, a.w * s⟩

/-- Dot product of two vectors (`dot`). -/
def Vec4.dot (a b : Vec4) : Rat := a.x * b.x + a.y * b.y + a.z * b.z + a.w * b.w

/-- Modelled from the spec: Mat4 (lib/mat4.h, absent), a 4x4 matrix stored by columns:
`A[i]` is the column `i`, written `ci` here, and `A[i][j]` its entry in the row `j`. -/
structure Mat4 where
  c0 : Vec4
  c1 : Vec4
  c2 : Vec4
  c3 : Vec4
deriving DecidableEq, Repr

/-- The matrix `Mat4::Zero`. -/
def Mat4.Zero : Mat4 := ⟨⟨0, 0, 0, 0⟩, ⟨0, 0, 0, 0⟩, ⟨0, 0, 0, 0⟩, ⟨0, 0, 0, 0⟩⟩

/-- Sum of two matrices (`operator+`). -/
def Mat4.add (A B : Mat4) : Mat4 := ⟨A.c0.add B.c0, A.c1.add B.c1, A.c2.add B.c2, A.c3.add B.c3⟩

/-- The matrix `outer(u, v)`, with `B[i][j] = u[i] * v[j]`. -/
def Mat4.outer (u v : Vec4) : Mat4 := ⟨v.smul u.x, v.smul u.y, v.smul u.z, v.smul u.w⟩

/-- Product of a matrix by a vector (`operator*`): the combination of the columns. -/
def Mat4.mulv (A : Mat4) (v : Vec4) : Vec4 :=
  (((A.c0.smul v.x).add (A.c1.smul v.y)).add (A.c2.smul v.z)).add (A.c3.smul v.w)

/-- Determinant of the 3x3 matrix with the rows `a b c`, `d e f`, `g h i`. -/
def det3 (a b c d e f g h i : Rat) : Rat :=
  a * (e * i - f * h) - b * (d * i - f * g) + c * (d * h - e * g)

/-- Modelled from the spec: `Mat4::det()` (absent), the determinant, expanded along the last
row. -/
def Mat4.det (A : Mat4) : Rat :=
  - A.c0.w * (det3 A.c1.x A.c2.x A.c3.x A.c1.y A.c2.y A.c3.y A.c1.z A.c2.z A.c3.z)
  + A.c1.w * (det3 A.c0.x A.c2.x A.c3.x A.c0.y A.c2.y A.c3.y A.c0.z A.c2.z A.c3.z)
  - A.c2.w * (det3 A.c0.x A.c1.x A.c3.x A.c0.y A.c1.y A.c3.y A.c0.z A.c1.z A.c3.z)
  + A.c3.w * (det3 A.c0.x A.c1.x A.c2.x A.c0.y A.c1.y A.c2.y A.c0.z A.c1.z A.c2.z)

/-- Modelled from the spec: `Mat4::inverse()` (absent), the inverse matrix: the transposed
matrix of the cofactors, divided by the determinant. -/
def Mat4.inverse (A : Mat4) : Mat4 :=
  let d := A.det
  ⟨⟨(det3 A.c1.y A.c2.y A.c3.y A.c1.z A.c2.z A.c3.z A.c1.w A.c2.w A.c3.w) / d,
    -(det3 A.c0.y A.c2.y A.c3.y A.c0.z A.c2.z A.c3.z A.c0.w A.c2.w A.c3.w) / d,
    (det3 A.c0.y A.c1.y A.c3.y A.c0.z A.c1.z A.c3.z A.c0.w A.c1.w A.c3.w) / d,
    -(det3 A.c0.y A.c1.y A.c2.y A.c0.z A.c1.z A.c2.z A.c0.w A.c1.w A.c2.w) / d⟩,
   ⟨-(det3 A.c1.x A.c2.x A.c3.x A.c1.z A.c2.z A.c3.z A.c1.w A.c2.w A.c3.w) / d,
    (det3 A.c0.x A.c2.x A.c3.x A.c0.z A.c2.z A.c3.z A.c0.w A.c2.w A.c3.w) / d,
    -(det3 A.c0.x A.c1.x A.c3.x A.c0.z A.c1.z A.c3.z A.c0.w A.c1.w A.c3.w) / d,
    (det3 A.c0.x A.c1.x A.c2.x A.c0.z A.c1.z A.c2.z A.c0.w A.c1.w A.c2.w) / d⟩,
   ⟨(det3 A.c1.x A.c2.x A.c3.x A.c1.y A.c2.y A.c3.y A.c1.w A.c2.w A.c3.w) / d,
    -(det3 A.c0.x A.c2.x A.c3.x A.c0.y A.c2.y A.c3.y A.c0.w A.c2.w A.c3.w) / d,
    (det3 A.c0.x A.c1.x A.c3.x A.c0.y A.c1.y A.c3.y A.c0.w A.c1.w A.c3.w) / d,
    -(det3 A.c0.x A.c1.x A.c2.x A.c0.y A.c1.y A.c2.y A.c0.w A.c1.w A.c2.w) / d⟩,
   ⟨-(det3 A.c1.x A.c2.x A.c3.x A.c1.y A.c2.y A.c3.y A.c1.z A.c2.z A.c3.z) / d,
    (det3 A.c0.x A.c2.x A.c3.x A.c0.y A.c2.y A.c3.y A.c0.z A.c2.z A.c3.z) / d,
    -(det3 A.c0.x A.c1.x A.c3.x A.c0.y A.c1.y A.c3.y A.c0.z A.c1.z A.c3.z) / d,
    (det3 A.c0.x A.c1.x A.c2.x A.c0.y A.c1.y A.c2.y A.c0.z A.c1.z A.c2.z) / d⟩⟩

/-- Reasons for which a run of an operator has no result. -/
inductive Fault where
  | out_of_fuel
  | out_of_bounds
  | uninitialized
deriving DecidableEq, Repr

/-- Pointwise update of a total map: the assignment `f(a) = b`. -/
def upd {α : Type} (f : Nat → α) (a : Nat) (b : α) : Nat → α :=
  fun x => if x = a then b else f x

/-- Modelled from the spec: the mesh substrate `Halfedge_Mesh` of geometry/halfedge.h
(absent from the sources). Half-edges carry `next`, `twin`, `vertex`, `edge`, `face`;
vertices, edges and faces carry one incident half-edge (`vhalfedge`, `ehalfedge`,
`fhalfedge`); vertices carry a position and faces a boundary flag. The four lists are
the live sets, the four `*erased` lists are the elements marked for removal, and
`next_id` is the id the next factory call hands out. -/
structure Halfedge_Mesh where
  next : Nat → Nat
  twin : Nat → Nat
  vertex : Nat → Nat
  edge : Nat → Nat
  face : Nat → Nat
  vhalfedge : Nat → Nat
  ehalfedge : Nat → Nat
  fhalfedge : Nat → Nat
  pos : Nat → Vec3
  boundary : Nat → Bool
  halfedges : List Nat
  vertices : List Nat
  edges : List Nat
  faces : List Nat
  herased : List Nat
  verased : List Nat
  eerased : List Nat
  ferased : List Nat
  next_id : Nat

namespace Halfedge_Mesh

/-! ### Assignments to the relations -/

/-- Assignment `h->next() = x`. -/
def set_next (m : Halfedge_Mesh) (h x : Nat) : Halfedge_Mesh := { m with next := upd m.next h x }
/-- Assignment `h->twin() = x`. -/
def set_twin (m : Halfedge_Mesh) (h x : Nat) : Halfedge_Mesh := { m with twin := upd m.twin h x }
/-- Assignment `h->vertex() = x`. -/
def set_vertex (m : Halfedge_Mesh) (h x : Nat) : Halfedge_Mesh :=
  { m with vertex := upd m.vertex h x }
/-- Assignment `h->edge() = x`. -/
def set_edge (m : Halfedge_Mesh) (h x : Nat) : Halfedge_Mesh := { m with edge := upd m.edge h x }
/-- Assignment `h->face() = x`. -/
def set_face (m : Halfedge_Mesh) (h x : Nat) : Halfedge_Mesh := { m with face := upd m.face h x }
/-- Assignment `v->halfedge() = x` on a vertex. -/
def set_vhalfedge (m : Halfedge_Mesh) (v x : Nat) : Halfedge_Mesh :=
  { m with vhalfedge := upd m.vhalfedge v x }
/-- Assignment `e->halfedge() = x` on an edge. -/
def set_ehalfedge (m : Halfedge_Mesh) (e x : Nat) : Halfedge_Mesh :=
  { m with ehalfedge := upd m.ehalfedge e x }
/-- Assignment `f->halfedge() = x` on a face. -/
def set_fhalfedge (m : Halfedge_Mesh) (f x : Nat) : Halfedge_Mesh :=
  { m with fhalfedge := upd m.fhalfedge f x }
/-- Assignment `v->pos = p`. -/
def set_pos (m : Halfedge_Mesh) (v : Nat) (p : Vec3) : Halfedge_Mesh :=
  { m with pos := upd m.pos v p }

/-- Self-assignment `h->next() = h->next()`. -/
def keep_next (m : Halfedge_Mesh) (h : Nat) : Halfedge_Mesh := m.set_next h (m.next h)
/-- Self-assignment `h->twin() = h->twin()`. -/
def keep_twin (m : Halfedge_Mesh) (h : Nat) : Halfedge_Mesh := m.set_twin h (m.twin h)
/-- Self-assignment `h->vertex() = h->vertex()`. -/
def keep_vertex (m : Halfedge_Mesh) (h : Nat) : Halfedge_Mesh := m.set_vertex h (m.vertex h)
/-- Self-assignment `h->edge() = h->edge()`. -/
def keep_edge (m : Halfedge_Mesh) (h : Nat) : Halfedge_Mesh := m.set_edge h (m.edge h)
/-- Self-assignment `h->face() = h->face()`. -/
def keep_face (m : Halfedge_Mesh) (h : Nat) : Halfedge_Mesh := m.set_face h (m.face h)

/-! ### Substrate: navigation queries -/

/-- The loop `while (step(h) != target) h = step(h);`, returning the final `h`. -/
def walk_to (step : Nat → Nat) (target : Nat) : Nat → Nat → Except Fault Nat
  | 0, _ => .error .out_of_fuel
  | fuel + 1, h => if step h = target then .ok h else walk_to step target fuel (step h)

/-- The loop `d = 0; h = start; do { d++; h = step(h); } while (h != start); return d;`,
entered with the count `d` reached so far. -/
def count_loop (step : Nat → Nat) (start : Nat) : Nat → Nat → Nat → Except Fault Nat
  | 0, _, _ => .error .out_of_fuel
  | fuel + 1, h, d =>
    if step h = start then .ok (d + 1) else count_loop step start fuel (step h) (d + 1)

/-- One step of the rotation around a vertex: `h->twin()->next()`. -/
def rot (m : Halfedge_Mesh) (h : Nat) : Nat := m.next (m.twin h)

/-- Modelled from the spec: `Vertex::degree()` (geometry/halfedge.h, absent), the number
of outgoing half-edges, computed by walking the rotation around the vertex. -/
def vdegree (m : Halfedge_Mesh) (fuel : Nat) (v : Nat) : Except Fault Nat :=
  count_loop m.rot (m.vhalfedge v) fuel (m.vhalfedge v) 0

/-- Modelled from the spec: `Face::degree()` (geometry/halfedge.h, absent), the length of
the face's boundary loop, computed by walking `next` from the face's half-edge. -/
def fdegree (m : Halfedge_Mesh) (fuel : Nat) (f : Nat) : Except Fault Nat :=
  count_loop m.next (m.fhalfedge f) fuel (m.fhalfedge f) 0

/-- Modelled from the spec: `Halfedge::is_boundary()` (absent), whether the half-edge
lies in a boundary face. -/
def is_boundary (m : Halfedge_Mesh) (h : Nat) : Bool := m.boundary (m.face h)

/-- Modelled from the spec: `Edge::on_boundary()` (absent), whether either incident face
of the edge is a boundary face. -/
def on_boundary (m : Halfedge_Mesh) (e : Nat) : Bool :=
  m.is_boundary (m.ehalfedge e) || m.is_boundary (m.twin (m.ehalfedge e))

/-- Modelled from the spec: `center_of(edge)` (absent), the midpoint of the positions of
the edge's two endpoints. -/
def center_of (m : Halfedge_Mesh) (e : Nat) : Vec3 :=
  ((m.pos (m.vertex (m.ehalfedge e))).add (m.pos (m.vertex (m.twin (m.ehalfedge e))))).div 2

/-! ### Substrate: factories and soft erasure -/

/-- Modelled from the spec: `new_halfedge()` (absent): a fresh, unlinked half-edge is
added to the live set; its relations are whatever the maps hold at the fresh id. -/
def new_halfedge (m : Halfedge_Mesh) : Nat × Halfedge_Mesh :=
  (m.next_id, { m with halfedges := m.halfedges ++ [m.next_id], next_id := m.next_id + 1 })

/-- Modelled from the spec: `new_vertex()` (absent): a fresh, unlinked vertex is added to
the live set. -/
def new_vertex (m : Halfedge_Mesh) : Nat × Halfedge_Mesh :=
  (m.next_id, { m with vertices := m.vertices ++ [m.next_id], next_id := m.next_id + 1 })

/-- Modelled from the spec: `new_edge()` (absent): a fresh, unlinked edge is added to the
live set. -/
def new_edge (m : Halfedge_Mesh) : Nat × Halfedge_Mesh :=
  (m.next_id, { m with edges := m.edges ++ [m.next_id], next_id := m.next_id + 1 })

/-- Modelled from the spec: `new_face()` (absent): a fresh, unlinked, non-boundary face is
added to the live set. -/
def new_face (m : Halfedge_Mesh) : Nat × Halfedge_Mesh :=
  (m.next_id, { m with faces := m.faces ++ [m.next_id],
                       boundary := upd m.boundary m.next_id false,
                       next_id := m.next_id + 1 })

/-- Modelled from the spec: `erase(HalfedgeRef)` (absent): the half-edge is marked for
removal and stays dereferenceable. -/
def erase_halfedge (m : Halfedge_Mesh) (h : Nat) : Halfedge_Mesh :=
  { m with herased := m.herased.insert h }

/-- Modelled from the spec: `erase(VertexRef)` (absent). -/
def erase_vertex_mark (m : Halfedge_Mesh) (v : Nat) : Halfedge_Mesh :=
  { m with verased := m.verased.insert v }

/-- Modelled from the spec: `erase(EdgeRef)` (absent). -/
def erase_edge_mark (m : Halfedge_Mesh) (e : Nat) : Halfedge_Mesh :=
  { m with eerased := m.eerased.insert e }

/-- Modelled from the spec: `erase(FaceRef)` (absent). -/
def erase_face (m : Halfedge_Mesh) (f : Nat) : Halfedge_Mesh :=
  { m with ferased := m.ferased.insert f }

/-! ### Counting live elements -/

/-- Number of half-edges that are live and not marked erased. -/
def n_halfedges (m : Halfedge_Mesh) : Nat := (m.halfedges.filter (fun h => h ∉ m.herased)).length
/-- Number of vertices that are live and not marked erased. -/
def n_vertices (m : Halfedge_Mesh) : Nat := (m.vertices.filter (fun v => v ∉ m.verased)).length
/-- Number of edges that are live and not marked erased. -/
def n_edges (m : Halfedge_Mesh) : Nat := (m.edges.filter (fun e => e ∉ m.eerased)).length
/-- Number of faces that are live and not marked erased. -/
def n_faces (m : Halfedge_Mesh) : Nat := (m.faces.filter (fun f => f ∉ m.ferased)).length

/-! ## flip_edge (meshedit.cpp, lines 216-338) -/

/-- Lines 238-336 of flip_edge: the relations are read and then assigned, given the
half-edges `h0`, `h1`, `h1n`, `h2`, `h3`, `h4`, `h4n`, `h5` found by lines 224-237. -/
def flip_wire (m : Halfedge_Mesh) (e h0 h1 h1n h2 h3 h4 h4n h5 : Nat) : Halfedge_Mesh :=
  let h6 := m.twin h1
  let h7 := m.twin h2
  let h8 := m.twin h4
  let h9 := m.twin h5
  -- VERTICES
  let v0 := m.vertex h0
  let v1 := m.vertex h3
  let v2 := m.vertex h8
  let v3 := m.vertex h6
  -- EDGES
  let e1 := m.edge h5
  let e2 := m.edge h4
  let e3 := m.edge h2
  let e4 := m.edge h1
  -- FACES
  let f0 := m.face h0
  let f1 := m.face h3
  -- Update data relationships: HALFEDGES
  let m := ((((m.set_next h0 h1n).set_twin h0 h3).set_vertex h0 v2).set_edge h0 e).set_face h0 f0
  let m := ((((m.set_next h1 h3).set_twin h1 h6).set_vertex h1 v1).set_edge h1 e4).set_face h1 f1
  let m := ((((m.set_next h2 h4).set_twin h2 h7).keep_vertex h2).set_edge h2 e3).set_face h2 f0
  let m := ((((m.set_next h3 h4n).set_twin h3 h0).set_vertex h3 v3).set_edge h3 e).set_face h3 f1
  let m := ((((m.set_next h4 h0).set_twin h4 h8).set_vertex h4 v0).set_edge h4 e2).set_face h4 f0
  let m := ((((m.set_next h5 h1).set_twin h5 h9).keep_vertex h5).set_edge h5 e1).set_face h5 f1
  let m := ((((m.keep_next h6).set_twin h6 h1).set_vertex h6 v3).set_edge h6 e4).keep_face h6
  let m := ((((m.keep_next h7).set_twin h7 h2).set_vertex h7 v0).set_edge h7 e3).keep_face h7
  let m := ((((m.keep_next h8).set_twin h8 h4).set_vertex h8 v2).set_edge h8 e2).keep_face h8
  let m := ((((m.keep_next h9).set_twin h9 h5).set_vertex h9 v1).set_edge h9 e1).keep_face h9
  -- VERTICES: assign with an outgoing halfedge
  let m := (((m.set_vhalfedge v0 h4).set_vhalfedge v1 h1).set_vhalfedge v2 h8).set_vhalfedge v3 h6
  -- EDGES: assign with an adjacent halfedge
  let m := (((m.set_ehalfedge e h0).set_ehalfedge e1 h9).set_ehalfedge e2 h4).set_ehalfedge e3 h7
  -- FACES: assign with an interior halfedge
  (m.set_fhalfedge f0 h0).set_fhalfedge f1 h3

/-- Lines 222-336 of flip_edge: what the call does once the test of line 219 has let the
edge through. -/
def flip_run (m : Halfedge_Mesh) (fuel : Nat) (e : Nat) : Except Fault Halfedge_Mesh :=
  -- HALFEDGES
  let h0 := m.ehalfedge e
  let h1 := m.next h0
  let h1n := m.next h1
  (walk_to m.next h0 fuel (m.next h1)).bind fun h2 =>
  let h3 := m.twin h0
  let h4 := m.next h3
  let h4n := m.next h4
  (walk_to m.next h3 fuel (m.next h4)).bind fun h5 =>
  .ok (flip_wire m e h0 h1 h1n h2 h3 h4 h4n h5)

/-- `Halfedge_Mesh::flip_edge`: the first component of the result is the returned
optional (`none` for `std::nullopt`), the second the mesh after the call. -/
def flip_edge (m : Halfedge_Mesh) (fuel : Nat) (e : Nat) :
    Except Fault (Option Nat × Halfedge_Mesh) :=
  -- Handle Edge Case: e is an outer edge
  if m.on_boundary e then .ok (none, m) else
  (flip_run m fuel e).bind fun m => .ok (some e, m)

/-! ## collapse_edge (meshedit.cpp, lines 58-200) -/

/-- Lines 73-78: the loop `while (hIterator->twin()->next() != h1)` that advances
`hIterator` and pushes it on `v1_halfedges`, followed by the final `push_back`. -/
def collect_v1 (m : Halfedge_Mesh) (h1 : Nat) : Nat → Nat → List Nat → Except Fault (List Nat)
  | 0, _, _ => .error .out_of_fuel
  | fuel + 1, it, acc =>
    if m.rot it = h1 then .ok (acc ++ [it])
    else collect_v1 m h1 fuel (m.rot it) (acc ++ [m.rot it])

/-- Lines 88-117 (with `h = h0`) and lines 131-160 (with `h = h1`): the branch taken when the
face on that side of the edge is a triangle. The two blocks of the source differ only in the
names of their locals; the extra statement of line 163 is in `collapse_edge`. -/
def collapse_triangle (m : Halfedge_Mesh) (fuel : Nat) (h : Nat) : Except Fault Halfedge_Mesh :=
  -- Store for deletion
  let h2 := m.next h
  let h2_twin := m.twin h2
  let f2 := m.face h2_twin
  -- Update remaining face and vertex
  let h4 := m.next h2
  let m := m.set_fhalfedge f2 h4
  let v2 := m.vertex h4
  let m := m.set_vhalfedge v2 h4
  -- Update incoming edge in combined face for collapsed edge
  let m := m.set_next h4 (m.next h2_twin)
  let m := ((((m.set_face h4 f2).keep_twin h4).set_vertex h4 v2).keep_edge h4)
  -- Update outgoing edge in combined face for collapsed edge
  (walk_to m.next h2_twin fuel h2_twin).bind fun h6 =>
  let m := m.set_next h6 h4
  .ok ((((m.keep_twin h6).set_face h6 f2).keep_vertex h6).keep_edge h6)

/-- Lines 119-125 (with `f = f0`, `h = h0`) and lines 165-171 (with `f = f1`, `h = h1`): the
branch taken when the face on that side of the edge is not a triangle. -/
def collapse_polygon (m : Halfedge_Mesh) (fuel : Nat) (f h : Nat) : Except Fault Halfedge_Mesh :=
  let m := m.set_fhalfedge f (m.next h)
  let h2 := m.next h
  (walk_to m.next h fuel (m.next h)).bind fun h4 =>
  .ok (m.set_next h4 h2)

/-- Lines 174-178: every collected half-edge is re-pointed to `v0`, last one first. -/
def repoint (m : Halfedge_Mesh) (v0 : Nat) (v1_halfedges : List Nat) : Halfedge_Mesh :=
  v1_halfedges.foldr (fun h acc => acc.set_vertex h v0) m

/-- Lines 71-197 of collapse_edge: what the call does once the test of line 67 has let the
edge through, up to the final `erase` calls. -/
def collapse_run (m : Halfedge_Mesh) (fuel : Nat) (e : Nat) : Except Fault Halfedge_Mesh :=
  let h0 := m.ehalfedge e
  let v0 := m.vertex h0
  let f0 := m.face h0
  let h1 := m.twin h0
  let v1 := m.vertex h1
  let f1 := m.face h1
  -- Collect edges referencing v1
  (collect_v1 m h1 fuel h1 []).bind fun v1_halfedges =>
  (m.fdegree fuel f0).bind fun df0 =>
  (m.fdegree fuel f1).bind fun df1 =>
  let f0_triangle := decide (df0 = 3)
  let f1_triangle := decide (df1 = 3)
  let h2 := m.next h0
  let e2 := m.edge h2
  let h2_twin := m.twin h2
  (if f0_triangle then collapse_triangle m fuel h0 else collapse_polygon m fuel f0 h0).bind fun m1 =>
  let h3 := m1.next h1
  let e3 := m1.edge h3
  let h3_twin := m1.twin h3
  let h5 := m1.next h3
  (if f1_triangle then
      (collapse_triangle m1 fuel h1).bind fun m2 => .ok (m2.set_vhalfedge v0 (m2.twin h5))
    else collapse_polygon m1 fuel f1 h1).bind fun m2 =>
  let m3 := repoint m2 v0 v1_halfedges
  let m4 := m3.set_pos v0 (m3.center_of e)
  let m5 := if f0_triangle then
      (((m4.erase_halfedge h2_twin).erase_halfedge h2).erase_face f0).erase_edge_mark e2
    else m4
  let m6 := if f1_triangle then
      ((((m5.erase_halfedge h3_twin).erase_halfedge h3_twin).erase_halfedge h3).erase_face
        f1).erase_edge_mark e3
    else m5
  .ok ((((m6.erase_halfedge h0).erase_halfedge h1).erase_edge_mark e).erase_vertex_mark v1)

/-- `Halfedge_Mesh::collapse_edge`: the first component of the result is the returned
optional (`none` for `std::nullopt`), the second the mesh after the call. -/
def collapse_edge (m : Halfedge_Mesh) (fuel : Nat) (e : Nat) :
    Except Fault (Option Nat × Halfedge_Mesh) :=
  let h0 := m.ehalfedge e
  let v0 := m.vertex h0
  let h1 := m.twin h0
  let v1 := m.vertex h1
  (m.vdegree fuel v1).bind fun d1 =>
  if d1 ≤ 2 then .ok (none, m) else
  (m.vdegree fuel v0).bind fun d0 =>
  if d0 ≤ 2 then .ok (none, m) else
  if v0 = v1 then .ok (none, m) else
  (collapse_run m fuel e).bind fun m => .ok (some v0, m)

/-! ## split_edge (meshedit.cpp, lines 345-598) -/

/-- Reading a local that the source declares and assigns only under
`!(e->on_boundary())`. -/
def use (x : Option Nat) : Except Fault Nat :=
  match x with
  | some a => .ok a
  | none => .error .uninitialized

/-- Lines 449-471 of split_edge: `h0`, `h1`, `h2` and the `next` of `h13`. In this and the
following steps, `e->on_boundary()` is evaluated on the current mesh wherever the source
evaluates it, and the locals the source assigns only under `!(e->on_boundary())` are
optional. -/
def split_w1 (m : Halfedge_Mesh) (e h0 h1 h2 h3 h6 h7 h10 h12 h13 v1 v4 e3 e4 f0 f2 : Nat)
    (h4 : Option Nat) : Except Fault Halfedge_Mesh :=
  let m := ((((m.set_next h0 h1).set_twin h0 h3).set_vertex h0 v4).set_edge h0 e).set_face h0 f0
  let m := ((((m.set_next h1 h10).set_twin h1 h6).set_vertex h1 v1).set_edge h1 e4).set_face h1 f0
  let m := ((((m.set_next h2 h12).set_twin h2 h7).keep_vertex h2).set_edge h2 e3).set_face h2 f2
  if m.on_boundary e then .ok (m.set_next h13 (m.next h3))
  else (use h4).bind fun h4 => .ok (m.set_next h13 h4)

/-- Lines 472-479 of split_edge: the other relations of `h13`. -/
def split_w2 (m : Halfedge_Mesh) (e h3 h12 h13 v4 e6 : Nat) (f3 : Option Nat) :
    Except Fault Halfedge_Mesh :=
  let m := ((m.set_twin h13 h12).set_vertex h13 v4).set_edge h13 e6
  if m.on_boundary e then .ok (m.set_face h13 (m.face h3))
  else (use f3).bind fun f3 => .ok (m.set_face h13 f3)

/-- Lines 481-485 of split_edge: the `next` of `h3`. -/
def split_w3 (m : Halfedge_Mesh) (e h3 h13 : Nat) (h15 : Option Nat) :
    Except Fault Halfedge_Mesh :=
  if m.on_boundary e then .ok (m.set_next h3 h13)
  else (use h15).bind fun h15 => .ok (m.set_next h3 h15)

/-- Lines 486-493 of split_edge: the other relations of `h3`. -/
def split_w4 (m : Halfedge_Mesh) (e h0 h3 v1 : Nat) (f1 : Option Nat) :
    Except Fault Halfedge_Mesh :=
  let m := ((m.set_twin h3 h0).set_vertex h3 v1).set_edge h3 e
  if m.on_boundary e then .ok (m.keep_face h3)
  else (use f1).bind fun f1 => .ok (m.set_face h3 f1)

/-- Lines 495-507 of split_edge: `h4` and `h5`, for an edge off the boundary. -/
def split_w5 (m : Halfedge_Mesh) (e h3 v0 : Nat) (h4 h5 h8 h9 e1 e2 f1 h14 f3 : Option Nat) :
    Except Fault Halfedge_Mesh :=
  if !(m.on_boundary e) then
    (use h4).bind fun h4 => (use h14).bind fun h14 => (use h8).bind fun h8 =>
    (use e2).bind fun e2 => (use f3).bind fun f3 =>
    let m := ((((m.set_next h4 h14).set_twin h4 h8).set_vertex h4 v0).set_edge h4 e2).set_face h4 f3
    (use h5).bind fun h5 => (use h9).bind fun h9 => (use e1).bind fun e1 =>
    (use f1).bind fun f1 =>
    .ok (((((m.set_next h5 h3).set_twin h5 h9).keep_vertex h5).set_edge h5 e1).set_face h5 f1)
  else .ok m

/-- Lines 509-533 of split_edge: `h6`, `h7` and, for an edge off the boundary, `h8`, `h9`. -/
def split_w6 (m : Halfedge_Mesh) (e h1 h2 h6 h7 v0 v1 v3 e3 e4 : Nat)
    (h4 h5 h8 h9 v2 e1 e2 : Option Nat) : Except Fault Halfedge_Mesh :=
  let m := ((((m.keep_next h6).set_twin h6 h1).set_vertex h6 v3).set_edge h6 e4).keep_face h6
  let m := ((((m.keep_next h7).set_twin h7 h2).set_vertex h7 v0).set_edge h7 e3).keep_face h7
  if !(m.on_boundary e) then
    (use h8).bind fun h8 => (use h4).bind fun h4 => (use v2).bind fun v2 =>
    (use e2).bind fun e2 =>
    let m := ((((m.keep_next h8).set_twin h8 h4).set_vertex h8 v2).set_edge h8 e2).keep_face h8
    (use h9).bind fun h9 => (use h5).bind fun h5 => (use e1).bind fun e1 =>
    .ok (((((m.keep_next h9).set_twin h9 h5).set_vertex h9 v1).set_edge h9 e1).keep_face h9)
  else .ok m

/-- Lines 535-565 of split_edge: `h10`, `h11`, `h12` and, for an edge off the boundary,
`h14`, `h15`. -/
def split_w7 (m : Halfedge_Mesh) (e h0 h1n h10 h11 h12 h13 v0 v3 v4 e5 e6 f0 f2 : Nat)
    (h4n v2 f1 h14 h15 e7 f3 : Option Nat) : Except Fault Halfedge_Mesh :=
  let m := ((((m.set_next h10 h0).set_twin h10 h11).set_vertex h10 v3).set_edge h10 e5).set_face h10 f0
  let m := ((((m.set_next h11 h1n).set_twin h11 h10).set_vertex h11 v4).set_edge h11 e5).set_face h11 f2
  let m := ((((m.set_next h12 h11).set_twin h12 h13).set_vertex h12 v0).set_edge h12 e6).set_face h12 f2
  if !(m.on_boundary e) then
    (use h14).bind fun h14 => (use h15).bind fun h15 => (use v2).bind fun v2 =>
    (use e7).bind fun e7 => (use f3).bind fun f3 =>
    let m := ((((m.set_next h14 h13).set_twin h14 h15).set_vertex h14 v2).set_edge h14 e7).set_face h14 f3
    (use h4n).bind fun h4n => (use f1).bind fun f1 =>
    .ok (((((m.set_next h15 h4n).set_twin h15 h14).set_vertex h15 v4).set_edge h15 e7).set_face h15 f1)
  else .ok m

/-- Lines 567-575 of split_edge: the half-edges of the vertices and the position of the new
vertex. -/
def split_w8 (m : Halfedge_Mesh) (e h0 h1 h7 h10 v0 v1 v3 v4 : Nat) (v2 h14 : Option Nat) :
    Except Fault Halfedge_Mesh :=
  let m := (((m.set_vhalfedge v0 h7).set_vhalfedge v1 h1).set_vhalfedge v3 h10).set_vhalfedge v4 h0
  let m := m.set_pos v4 (((m.pos v1).div 2).add ((m.pos v0).div 2))
  if !(m.on_boundary e) then
    (use v2).bind fun v2 => (use h14).bind fun h14 => .ok (m.set_vhalfedge v2 h14)
  else .ok m

/-- Lines 577-587 of split_edge: the half-edges of the edges. -/
def split_w9 (m : Halfedge_Mesh) (e h0 h1 h2 h10 h12 e3 e4 e5 e6 : Nat)
    (h4 h5 e1 e2 h14 e7 : Option Nat) : Except Fault Halfedge_Mesh :=
  let m := ((((m.set_ehalfedge e h0).set_ehalfedge e3 h2).set_ehalfedge e4 h1).set_ehalfedge e5
    h10).set_ehalfedge e6 h12
  if !(m.on_boundary e) then
    (use e1).bind fun e1 => (use h5).bind fun h5 => (use e2).bind fun e2 =>
    (use h4).bind fun h4 => (use e7).bind fun e7 => (use h14).bind fun h14 =>
    .ok (((m.set_ehalfedge e1 h5).set_ehalfedge e2 h4).set_ehalfedge e7 h14)
  else .ok m

/-- Lines 589-595 of split_edge: the half-edges of the faces. -/
def split_w10 (m : Halfedge_Mesh) (e h0 h11 f0 f2 : Nat) (h4 h5 f1 f3 : Option Nat) :
    Except Fault Halfedge_Mesh :=
  let m := (m.set_fhalfedge f0 h0).set_fhalfedge f2 h11
  if !(m.on_boundary e) then
    (use f1).bind fun f1 => (use h5).bind fun h5 => (use f3).bind fun f3 =>
    (use h4).bind fun h4 => .ok ((m.set_fhalfedge f1 h5).set_fhalfedge f3 h4)
  else .ok m

/-- Lines 447-595 of split_edge: the assignments to the relations, step after step. -/
def split_wire (m : Halfedge_Mesh)
    (e h0 h1 h1n h2 h3 h6 h7 v0 v1 v3 e3 e4 f0 h10 h11 h12 h13 v4 e5 e6 f2 : Nat)
    (h4 h4n h5 h8 h9 v2 e1 e2 f1 h14 h15 e7 f3 : Option Nat) : Except Fault Halfedge_Mesh :=
  (split_w1 m e h0 h1 h2 h3 h6 h7 h10 h12 h13 v1 v4 e3 e4 f0 f2 h4).bind fun m =>
  (split_w2 m e h3 h12 h13 v4 e6 f3).bind fun m =>
  (split_w3 m e h3 h13 h15).bind fun m =>
  (split_w4 m e h0 h3 v1 f1).bind fun m =>
  (split_w5 m e h3 v0 h4 h5 h8 h9 e1 e2 f1 h14 f3).bind fun m =>
  (split_w6 m e h1 h2 h6 h7 v0 v1 v3 e3 e4 h4 h5 h8 h9 v2 e1 e2).bind fun m =>
  (split_w7 m e h0 h1n h10 h11 h12 h13 v0 v3 v4 e5 e6 f0 f2 h4n v2 f1 h14 h15 e7 f3).bind fun m =>
  (split_w8 m e h0 h1 h7 h10 v0 v1 v3 v4 v2 h14).bind fun m =>
  (split_w9 m e h0 h1 h2 h10 h12 e3 e4 e5 e6 h4 h5 e1 e2 h14 e7).bind fun m =>
  split_w10 m e h0 h11 f0 f2 h4 h5 f1 f3

/-- The elements created by split_edge, with the mesh that holds them; `h14`, `h15`, `e7`
and `f3` are created for an edge off the boundary only. -/
structure SplitNew where
  h10 : Nat
  h11 : Nat
  h12 : Nat
  h13 : Nat
  h14 : Option Nat
  h15 : Option Nat
  v4 : Nat
  e5 : Nat
  e6 : Nat
  e7 : Option Nat
  f2 : Nat
  f3 : Option Nat
  mesh : Halfedge_Mesh

/-- Lines 416-445 of split_edge: the new elements. `ob` is the value of `e->on_boundary()`
at line 348; between line 348 and line 441 the source only reads the mesh and calls
`new_halfedge`, `new_vertex` and `new_edge`, none of which touches a relation read by
`on_boundary`, so `ob` is also the value of every test up to line 436. The test of line 443
comes after `new_face` and is evaluated on the mesh of that point. -/
def split_alloc (m : Halfedge_Mesh) (e : Nat) (ob : Bool) : SplitNew :=
  -- HALFEDGES
  let a10 := m.new_halfedge
  let a11 := a10.2.new_halfedge
  let a12 := a11.2.new_halfedge
  let a13 := a12.2.new_halfedge
  let a14 := if ob then (none, a13.2) else (some a13.2.new_halfedge.1, a13.2.new_halfedge.2)
  let a15 := if ob then (none, a14.2) else (some a14.2.new_halfedge.1, a14.2.new_halfedge.2)
  -- VERTICES
  let b4 := a15.2.new_vertex
  -- EDGES
  let c5 := b4.2.new_edge
  let c6 := c5.2.new_edge
  let c7 := if ob then (none, c6.2) else (some c6.2.new_edge.1, c6.2.new_edge.2)
  -- FACES
  let d2 := c7.2.new_face
  let d3 := if !(d2.2.on_boundary e) then (some d2.2.new_face.1, d2.2.new_face.2)
    else (none, d2.2)
  { h10 := a10.1, h11 := a11.1, h12 := a12.1, h13 := a13.1, h14 := a14.1, h15 := a15.1,
    v4 := b4.1, e5 := c5.1, e6 := c6.1, e7 := c7.1, f2 := d2.1, f3 := d3.1, mesh := d3.2 }

/-- Lines 390-597 of split_edge: what the call does once the two triangle tests have let
the edge through. `ob` is the value of `e->on_boundary()` at line 348, which is also its
value at the tests of lines 376, 395, 402 and 412, the mesh being the same. The result is
the new vertex and the mesh. -/
def split_run (m : Halfedge_Mesh) (e : Nat) (ob : Bool) (h0 h1 h1n h2 h3 h6 h7 : Nat)
    (h4 h4n h5 : Option Nat) : Except Fault (Nat × Halfedge_Mesh) :=
  let h8 := h4.map m.twin
  let h9 := h5.map m.twin
  -- VERTICES
  let v0 := m.vertex h0
  let v1 := m.vertex h3
  let v3 := m.vertex h6
  let v2 := h8.map m.vertex
  -- EDGES
  let e1 := h5.map m.edge
  let e2 := h4.map m.edge
  let e3 := m.edge h2
  let e4 := m.edge h1
  -- FACES
  let f0 := m.face h0
  let f1 := if ob then none else some (m.face h3)
  -- Add new elements
  let n := m.split_alloc e ob
  (split_wire n.mesh e h0 h1 h1n h2 h3 h6 h7 v0 v1 v3 e3 e4 f0 n.h10 n.h11 n.h12 n.h13 n.v4
    n.e5 n.e6 n.f2 h4 h4n h5 h8 h9 v2 e1 e2 f1 n.h14 n.h15 n.e7 n.f3).bind fun m =>
  .ok (n.v4, m)

/-- Lines 347-356 of split_edge: the half-edge `h0` the routine works from. -/
def split_h0 (m : Halfedge_Mesh) (e : Nat) : Nat :=
  if m.on_boundary e then
    (if m.is_boundary (m.ehalfedge e) then m.twin (m.ehalfedge e) else m.ehalfedge e)
  else m.ehalfedge e

/-- `Halfedge_Mesh::split_edge`: the first component of the result is the returned
optional (`none` for `std::nullopt`), the second the mesh after the call. -/
def split_edge (m : Halfedge_Mesh) (fuel : Nat) (e : Nat) :
    Except Fault (Option Nat × Halfedge_Mesh) :=
  let ob := m.on_boundary e
  let h0 := m.split_h0 e
  -- HALFEDGES
  let h1 := m.next h0
  let h1n := m.next h1
  (walk_to m.next h0 fuel (m.next h1)).bind fun h2 =>
  if h1n ≠ h2 then .ok (none, m) else
  let h3 := m.twin h0
  let h6 := m.twin h1
  let h7 := m.twin h2
  let h4 := if ob then none else some (m.next h3)
  let h4n := if ob then none else some (m.next (m.next h3))
  (if ob then .ok none
    else (walk_to m.next h3 fuel (m.next (m.next h3))).bind fun h5 => .ok (some h5)).bind fun h5 =>
  if !ob ∧ h4n ≠ h5 then .ok (none, m) else
  (split_run m e ob h0 h1 h1n h2 h3 h6 h7 h4 h4n h5).bind fun r => .ok (some r.1, r.2)

/-! ## bevel_face (meshedit.cpp, lines 667-828) -/

/-- The five vectors that bevel_face fills. -/
structure BevelBank where
  original_halfedges : List Nat
  new_faces : List Nat
  new_halfedges : List Nat
  new_vertices : List Nat
  new_edges : List Nat

/-- Element access `vec[i]` on a vector; an index past the end has no defined result. -/
def vec_at (l : List Nat) (i : Nat) : Except Fault Nat :=
  match l.get? i with
  | some a => .ok a
  | none => .error .out_of_bounds

/-- Lines 696-709: the do-while loop around the face `f` that records the original
half-edges and creates, per half-edge, one face, one vertex, two edges and four
half-edges. -/
def bevel_alloc (f : Nat) :
    Nat → Halfedge_Mesh → Nat → BevelBank → Except Fault (Halfedge_Mesh × BevelBank)
  | 0, _, _, _ => .error .out_of_fuel
  | fuel + 1, m, halfedge_iter_ref, b =>
    let original_halfedges := b.original_halfedges ++ [halfedge_iter_ref]
    let halfedge_iter_ref := m.next halfedge_iter_ref
    let (nf, m) := m.new_face
    let (nv, m) := m.new_vertex
    let (ne0, m) := m.new_edge
    let (ne1, m) := m.new_edge
    let (nh0, m) := m.new_halfedge
    let (nh1, m) := m.new_halfedge
    let (nh2, m) := m.new_halfedge
    let (nh3, m) := m.new_halfedge
    let b : BevelBank :=
      { original_halfedges := original_halfedges
        new_faces := b.new_faces ++ [nf]
        new_halfedges := b.new_halfedges ++ [nh0, nh1, nh2, nh3]
        new_vertices := b.new_vertices ++ [nv]
        new_edges := b.new_edges ++ [ne0, ne1] }
    if halfedge_iter_ref ≠ m.fhalfedge f then bevel_alloc f fuel m halfedge_iter_ref b
    else .ok (m, b)

/-- Lines 714-758: the body of the wiring loop for the index `i`. -/
def bevel_wire_step (m : Halfedge_Mesh) (f N i : Nat) (b : BevelBank) :
    Except Fault Halfedge_Mesh := do
  let halfedge_idx := i * 4
  let edge_idx := i * 2
  -- Upkeep: new vertices, new edges, new faces
  let nv_i ← vec_at b.new_vertices i
  let oh_i ← vec_at b.original_halfedges i
  let m := m.set_pos nv_i (m.pos (m.vertex oh_i))
  let nh3 ← vec_at b.new_halfedges (halfedge_idx + 3)
  let m := m.set_vhalfedge nv_i nh3
  let ne0 ← vec_at b.new_edges edge_idx
  let m := m.set_ehalfedge ne0 nh3
  let ne1 ← vec_at b.new_edges (edge_idx + 1)
  let nh0 ← vec_at b.new_halfedges halfedge_idx
  let m := m.set_ehalfedge ne1 nh0
  let nf_i ← vec_at b.new_faces i
  let m := m.set_fhalfedge nf_i nh0
  -- bottom (defined as the original halfedge)
  let m := (m.set_face oh_i nf_i).set_next oh_i nh0
  -- right
  let tw0 ← vec_at b.new_halfedges (((i + 1) * 4 + 2) % (N * 4))
  let nh1 ← vec_at b.new_halfedges (halfedge_idx + 1)
  let oh_n ← vec_at b.original_halfedges ((i + 1) % N)
  let m := (m.set_twin nh0 tw0).set_next nh0 nh1
  let m := ((m.set_vertex nh0 (m.vertex oh_n)).set_edge nh0 ne1).set_face nh0 nf_i
  -- top
  let nh2 ← vec_at b.new_halfedges (halfedge_idx + 2)
  let nv_n ← vec_at b.new_vertices ((i + 1) % N)
  let m := ((((m.set_twin nh1 nh3).set_next nh1 nh2).set_vertex nh1 nv_n).set_edge nh1
    ne0).set_face nh1 nf_i
  -- left
  let tw2 ← if i = 0 then vec_at b.new_halfedges ((N - 1) * 4)
    else vec_at b.new_halfedges ((i - 1) * 4)
  let m := ((m.set_twin nh2 tw2).set_next nh2 oh_i).set_vertex nh2 nv_i
  let ne2 ← if i = 0 then vec_at b.new_edges (N * 2 - 1) else vec_at b.new_edges (edge_idx - 1)
  let m := (m.set_edge nh2 ne2).set_face nh2 nf_i
  -- up
  let nx3 ← vec_at b.new_halfedges ((((i + 1) * 4) % (N * 4)) + 3)
  pure (((((m.set_twin nh3 nh1).set_next nh3 nx3).set_vertex nh3 nv_i).set_edge nh3
    ne0).set_face nh3 f)

/-- Lines 712-759: the loop `for (size_t i = 0; i < f->degree(); i++)`, entered at index
`i`; the bound `f->degree()` is computed on the current mesh before every iteration. -/
def bevel_wire (f N : Nat) (b : BevelBank) (fuel : Nat) :
    Nat → Nat → Halfedge_Mesh → Except Fault Halfedge_Mesh
  | 0, _, _ => .error .out_of_fuel
  | k + 1, i, m =>
    (m.fdegree fuel f).bind fun d =>
    if i < d then (bevel_wire_step m f N i b).bind fun m => bevel_wire f N b fuel k (i + 1) m
    else .ok m

/-- Lines 682-816 of bevel_face: what the call does on a face that is not a boundary
face. -/
def bevel_run (m : Halfedge_Mesh) (fuel : Nat) (f : Nat) : Except Fault Halfedge_Mesh :=
  (bevel_alloc f fuel m (m.fhalfedge f) ⟨[], [], [], [], []⟩).bind fun r =>
  let N := r.2.original_halfedges.length
  (bevel_wire f N r.2 fuel fuel 0 r.1).bind fun m =>
  -- Give f its new starting half-edge
  (vec_at r.2.new_halfedges 3).bind fun nh3 =>
  .ok (m.set_fhalfedge f nh3)

/-- `Halfedge_Mesh::bevel_face`: the first component of the result is the returned
optional, the second the mesh after the call. The message written to `std::cout` is not
part of the mesh state and is left out. -/
def bevel_face (m : Halfedge_Mesh) (fuel : Nat) (f : Nat) :
    Except Fault (Option Nat × Halfedge_Mesh) :=
  -- Don't bevel a boundary...
  if m.boundary f then .ok (some f, m) else
  (bevel_run m fuel f).bind fun m => .ok (some f, m)

/-! ## What assignments to the relations leave alone -/

/-- The meshes `a` and `b` have the same live sets, the same erased sets, the same boundary
flags and the same id counter: they differ by assignments to the relations only. -/
structure SameSets (a b : Halfedge_Mesh) : Prop where
  halfedges : a.halfedges = b.halfedges
  vertices : a.vertices = b.vertices
  edges : a.edges = b.edges
  faces : a.faces = b.faces
  herased : a.herased = b.herased
  verased : a.verased = b.verased
  eerased : a.eerased = b.eerased
  ferased : a.ferased = b.ferased
  boundary : a.boundary = b.boundary
  next_id : a.next_id = b.next_id

/-! ## Validity of a mesh -/

/-- A half-edge that is live and not marked erased. -/
def live_h (m : Halfedge_Mesh) (h : Nat) : Prop := h ∈ m.halfedges ∧ h ∉ m.herased
/-- A vertex that is live and not marked erased. -/
def live_v (m : Halfedge_Mesh) (v : Nat) : Prop := v ∈ m.vertices ∧ v ∉ m.verased
/-- An edge that is live and not marked erased. -/
def live_e (m : Halfedge_Mesh) (e : Nat) : Prop := e ∈ m.edges ∧ e ∉ m.eerased
/-- A face that is live and not marked erased. -/
def live_f (m : Halfedge_Mesh) (f : Nat) : Prop := f ∈ m.faces ∧ f ∉ m.ferased

instance (m : Halfedge_Mesh) (h : Nat) : Decidable (m.live_h h) := by unfold live_h; infer_instance
instance (m : Halfedge_Mesh) (h : Nat) : Decidable (m.live_v h) := by unfold live_v; infer_instance
instance (m : Halfedge_Mesh) (h : Nat) : Decidable (m.live_e h) := by unfold live_e; infer_instance
instance (m : Halfedge_Mesh) (h : Nat) : Decidable (m.live_f h) := by unfold live_f; infer_instance

/-- Modelled from the spec: the invariants of section 3, which `validate()` (absent) checks,
over the elements that are live and not marked erased. Ids are unique, below `next_id`, and
only elements of the mesh are marked erased. References of live elements are live;
`twin` is an involution without fixed point that stays on the edge; `next` is a permutation
that stays on the face; the rotation `twin` then `next` stays on the vertex; the half-edge of
a vertex, edge or face is incident to it; and the half-edges of a vertex, of a face and of an
edge are exactly those reached from its half-edge by the rotation, by `next` and by `twin`. -/
structure Valid (m : Halfedge_Mesh) : Prop where
  nodup_h : m.halfedges.Nodup
  nodup_v : m.vertices.Nodup
  nodup_e : m.edges.Nodup
  nodup_f : m.faces.Nodup
  fresh_h : ∀ h ∈ m.halfedges, h < m.next_id
  fresh_v : ∀ v ∈ m.vertices, v < m.next_id
  fresh_e : ∀ e ∈ m.edges, e < m.next_id
  fresh_f : ∀ f ∈ m.faces, f < m.next_id
  erased_h : ∀ h ∈ m.herased, h ∈ m.halfedges
  erased_v : ∀ v ∈ m.verased, v ∈ m.vertices
  erased_e : ∀ e ∈ m.eerased, e ∈ m.edges
  erased_f : ∀ f ∈ m.ferased, f ∈ m.faces
  refs : ∀ h ∈ m.halfedges, m.live_h h → m.live_h (m.next h) ∧ m.live_h (m.twin h) ∧
    m.live_v (m.vertex h) ∧ m.live_e (m.edge h) ∧ m.live_f (m.face h)
  twin_twin : ∀ h ∈ m.halfedges, m.live_h h →
    m.twin (m.twin h) = h ∧ m.twin h ≠ h ∧ m.edge (m.twin h) = m.edge h
  next_face : ∀ h ∈ m.halfedges, m.live_h h →
    m.face (m.next h) = m.face h ∧ m.vertex (m.next (m.twin h)) = m.vertex h
  next_inj : ∀ a ∈ m.halfedges, ∀ b ∈ m.halfedges, m.live_h a → m.live_h b →
    m.next a = m.next b → a = b
  vertex_he : ∀ v ∈ m.vertices, m.live_v v →
    m.live_h (m.vhalfedge v) ∧ m.vertex (m.vhalfedge v) = v
  edge_he : ∀ e ∈ m.edges, m.live_e e → m.live_h (m.ehalfedge e) ∧ m.edge (m.ehalfedge e) = e
  face_he : ∀ f ∈ m.faces, m.live_f f → m.live_h (m.fhalfedge f) ∧ m.face (m.fhalfedge f) = f
  vertex_orbit : ∀ h ∈ m.halfedges, m.live_h h →
    ∃ n < m.halfedges.length, m.rot^[n] (m.vhalfedge (m.vertex h)) = h
  face_orbit : ∀ h ∈ m.halfedges, m.live_h h →
    ∃ n < m.halfedges.length, m.next^[n] (m.fhalfedge (m.face h)) = h
  edge_orbit : ∀ h ∈ m.halfedges, m.live_h h →
    h = m.ehalfedge (m.edge h) ∨ h = m.twin (m.ehalfedge (m.edge h))

/-- The conditions of `Valid` on the ids. -/
def valid_ids (m : Halfedge_Mesh) : Prop :=
  (m.halfedges.Nodup ∧ m.vertices.Nodup ∧ m.edges.Nodup ∧ m.faces.Nodup) ∧
  ((∀ h ∈ m.halfedges, h < m.next_id) ∧ (∀ v ∈ m.vertices, v < m.next_id) ∧
    (∀ e ∈ m.edges, e < m.next_id) ∧ (∀ f ∈ m.faces, f < m.next_id)) ∧
  ((∀ h ∈ m.herased, h ∈ m.halfedges) ∧ (∀ v ∈ m.verased, v ∈ m.vertices) ∧
    (∀ e ∈ m.eerased, e ∈ m.edges) ∧ (∀ f ∈ m.ferased, f ∈ m.faces))

/-- The conditions of `Valid` on the relations of the half-edges. -/
def valid_links (m : Halfedge_Mesh) : Prop :=
  (∀ h ∈ m.halfedges, m.live_h h → m.live_h (m.next h) ∧ m.live_h (m.twin h) ∧
    m.live_v (m.vertex h) ∧ m.live_e (m.edge h) ∧ m.live_f (m.face h)) ∧
  (∀ h ∈ m.halfedges, m.live_h h →
    m.twin (m.twin h) = h ∧ m.twin h ≠ h ∧ m.edge (m.twin h) = m.edge h) ∧
  (∀ h ∈ m.halfedges, m.live_h h →
    m.face (m.next h) = m.face h ∧ m.vertex (m.next (m.twin h)) = m.vertex h) ∧
  (∀ a ∈ m.halfedges, ∀ b ∈ m.halfedges, m.live_h a → m.live_h b →
    m.next a = m.next b → a = b)

/-- The conditions of `Valid` on the half-edge of a vertex, an edge, a face. -/
def valid_elements (m : Halfedge_Mesh) : Prop :=
  (∀ v ∈ m.vertices, m.live_v v → m.live_h (m.vhalfedge v) ∧ m.vertex (m.vhalfedge v) = v) ∧
  (∀ e ∈ m.edges, m.live_e e → m.live_h (m.ehalfedge e) ∧ m.edge (m.ehalfedge e) = e) ∧
  (∀ f ∈ m.faces, m.live_f f → m.live_h (m.fhalfedge f) ∧ m.face (m.fhalfedge f) = f)

/-- The conditions of `Valid` on the half-edges around a vertex, a face, an edge. -/
def valid_orbits (m : Halfedge_Mesh) : Prop :=
  (∀ h ∈ m.halfedges, m.live_h h →
    ∃ n < m.halfedges.length, m.rot^[n] (m.vhalfedge (m.vertex h)) = h) ∧
  (∀ h ∈ m.halfedges, m.live_h h →
    ∃ n < m.halfedges.length, m.next^[n] (m.fhalfedge (m.face h)) = h) ∧
  (∀ h ∈ m.halfedges, m.live_h h →
    h = m.ehalfedge (m.edge h) ∨ h = m.twin (m.ehalfedge (m.edge h)))

instance (m : Halfedge_Mesh) : Decidable (valid_ids m) := by unfold valid_ids; infer_instance
instance (m : Halfedge_Mesh) : Decidable (valid_links m) := by
  unfold valid_links; infer_instance
instance (m : Halfedge_Mesh) : Decidable (valid_elements m) := by
  unfold valid_elements; infer_instance
instance (m : Halfedge_Mesh) : Decidable (valid_orbits m) := by
  unfold valid_orbits; infer_instance

instance (m : Halfedge_Mesh) : Decidable (Valid m) :=
  decidable_of_iff (valid_ids m ∧ valid_links m ∧ valid_elements m ∧ valid_orbits m)
    ⟨fun ⟨⟨⟨a1, a2, a3, a4⟩, ⟨b1, b2, b3, b4⟩, ⟨x1, x2, x3, x4⟩⟩, ⟨c, d, e, f⟩, ⟨g1, g2, g3⟩,
        ⟨i, j, k⟩⟩ =>
      ⟨a1, a2, a3, a4, b1, b2, b3, b4, x1, x2, x3, x4, c, d, e, f, g1, g2, g3, i, j, k⟩,
     fun ⟨a1, a2, a3, a4, b1, b2, b3, b4, x1, x2, x3, x4, c, d, e, f, g1, g2, g3, i, j, k⟩ =>
      ⟨⟨⟨a1, a2, a3, a4⟩, ⟨b1, b2, b3, b4⟩, ⟨x1, x2, x3, x4⟩⟩, ⟨c, d, e, f⟩, ⟨g1, g2, g3⟩,
        ⟨i, j, k⟩⟩⟩

/-! ## The neighbourhood of an edge shared by two triangles -/

/-- The loop of `next` through `h` is a triangle: it closes after three steps and not
before. -/
def triangle (m : Halfedge_Mesh) (h : Nat) : Prop :=
  m.next (m.next (m.next h)) = h ∧ m.next h ≠ h

instance (m : Halfedge_Mesh) (h : Nat) : Decidable (m.triangle h) := by
  unfold triangle; infer_instance

/-- The half-edges `h0, h1, h2` and `h3, h4, h5` are two triangles glued along the edge `e`,
whose half-edges are `h0` and `h3`; the six half-edges are distinct, `twin` is an involution
on them, and the vertex, edge and face relations agree along `next` and `twin`. These are
the facts of a valid mesh that flip_edge relies on. -/
structure FlipConfig (m : Halfedge_Mesh) (e h0 h1 h2 h3 h4 h5 : Nat) : Prop where
  he : m.ehalfedge e = h0
  interior : m.on_boundary e = false
  n0 : m.next h0 = h1
  n1 : m.next h1 = h2
  n2 : m.next h2 = h0
  n3 : m.next h3 = h4
  n4 : m.next h4 = h5
  n5 : m.next h5 = h3
  t0 : m.twin h0 = h3
  t3 : m.twin h3 = h0
  tt1 : m.twin (m.twin h1) = h1
  tt2 : m.twin (m.twin h2) = h2
  tt4 : m.twin (m.twin h4) = h4
  tt5 : m.twin (m.twin h5) = h5
  tn1 : m.twin h1 ≠ h1
  tn2 : m.twin h2 ≠ h2
  tn4 : m.twin h4 ≠ h4
  tn5 : m.twin h5 ≠ h5
  nodup : [h0, h1, h2, h3, h4, h5].Nodup
  v1 : m.vertex h1 = m.vertex h3
  v4 : m.vertex h4 = m.vertex h0
  vt1 : m.vertex (m.twin h1) = m.vertex h2
  vt2 : m.vertex (m.twin h2) = m.vertex h0
  vt4 : m.vertex (m.twin h4) = m.vertex h5
  vt5 : m.vertex (m.twin h5) = m.vertex h3
  e0 : m.edge h0 = e
  e3 : m.edge h3 = e
  en1 : m.edge h1 ≠ e
  en2 : m.edge h2 ≠ e
  en4 : m.edge h4 ≠ e
  en5 : m.edge h5 ≠ e
  et1 : m.edge (m.twin h1) = m.edge h1
  et2 : m.edge (m.twin h2) = m.edge h2
  et4 : m.edge (m.twin h4) = m.edge h4
  et5 : m.edge (m.twin h5) = m.edge h5
  f1 : m.face h1 = m.face h0
  f2 : m.face h2 = m.face h0
  f4 : m.face h4 = m.face h3
  f5 : m.face h5 = m.face h3

/-! ## collapse_edge, between its two halves -/

/-- What the test of line 67 grants about the half-edge `h0` of the edge once it has let
the edge through: neither endpoint has a single outgoing half-edge, and the endpoints
differ. -/
structure CollapseGuard (m : Halfedge_Mesh) (h0 : Nat) : Prop where
  live : m.live_h h0
  r0 : m.rot h0 ≠ h0
  r1 : m.rot (m.twin h0) ≠ m.twin h0
  vne : m.vertex h0 ≠ m.vertex (m.twin h0)

/-- The relations and the sets that neither half of collapse_edge changes. -/
structure Frame (a b : Halfedge_Mesh) : Prop where
  sets : SameSets a b
  twin : b.twin = a.twin
  vertex : b.vertex = a.vertex
  edge : b.edge = a.edge
  pos : b.pos = a.pos
  ehalfedge : b.ehalfedge = a.ehalfedge

/-- The mesh `m1` that the first half of collapse_edge (lines 81-126) makes of `m`: on the
set `P` of half-edges, which holds the twin `h1` of `h0` and not `h0`, the new `next` is
still a permutation, and it still closes the loop of `h1` after three steps if `next` did. -/
structure Halfway (m m1 : Halfedge_Mesh) (h0 : Nat) (P : Nat → Prop) : Prop where
  frame : Frame m m1
  sub : ∀ x, P x → m.live_h x
  maps : ∀ x, P x → P (m1.next x)
  inj : ∀ a b, P a → P b → m1.next a = m1.next b → a = b
  h1 : P (m.twin h0)
  not_h0 : ¬ P h0
  step : m1.next (m.twin h0) ≠ m.twin h0
  side : P (m.twin (m1.next (m.twin h0)))
  tri : m.next (m.next (m.next (m.twin h0))) = m.twin h0 →
    m1.next (m1.next (m1.next (m.twin h0))) = m.twin h0

/-! ## The edge being split stays on the boundary -/

/-- The loop of `next` through `h` closes after three steps. -/
def closes3 (m : Halfedge_Mesh) (h : Nat) : Prop := m.next (m.next (m.next h)) = h

instance (m : Halfedge_Mesh) (h : Nat) : Decidable (m.closes3 h) := by
  unfold closes3; infer_instance

/-- What keeps `e->on_boundary()` true while split_edge rewires a boundary edge: the
boundary flags are `B`, the half-edge of `e` is `h0` or `h3`, these two are twins, and the
face of the half-edge `X`, one of the two, is a boundary face. -/
structure SplitBoundaryInv (B : Nat → Bool) (e h0 h3 X : Nat) (cur : Halfedge_Mesh) : Prop where
  flags : cur.boundary = B
  side : X = h0 ∨ X = h3
  eh : cur.ehalfedge e = h0 ∨ cur.ehalfedge e = h3
  t0 : cur.twin h0 = h3
  t3 : cur.twin h3 = h0
  fx : B (cur.face X) = true

/-! ## bevel_face_positions (meshedit.cpp, lines 913-936) -/

/-- Modelled from the spec: the geometric helper queries `Vec3::unit()`, `Face::normal()`
and `Face::center()` (lib/vec3.h and geometry/halfedge.h, absent). `unit` takes a square
root and has no exact value, so the three queries are parameters of the model: any three
functions. -/
structure Geometry where
  unit : Vec3 → Vec3
  normal : Halfedge_Mesh → Nat → Vec3
  center : Halfedge_Mesh → Nat → Vec3

/-- Lines 919-923: the loop `do { new_halfedges.push_back(h); h = h->next(); }
while (h != face->halfedge());`, entered with the vector filled so far. -/
def collect_face (m : Halfedge_Mesh) (start : Nat) :
    Nat → Nat → List Nat → Except Fault (List Nat)
  | 0, _, _ => .error .out_of_fuel
  | fuel + 1, h, new_halfedges =>
    let new_halfedges := new_halfedges ++ [h]
    let h := m.next h
    if h ≠ start then collect_face m start fuel h new_halfedges else .ok new_halfedges

/-- Lines 931-933: the body of the loop over the positions, for the index `i`. -/
def position_step (unit : Vec3 → Vec3) (start_positions : List Vec3)
    (new_halfedges : List Nat) (curr_center norm_vector : Vec3) (tangent_offset : Rat)
    (m : Halfedge_Mesh) (i : Nat) : Except Fault Halfedge_Mesh :=
  match start_positions.get? i, new_halfedges.get? i with
  | some start_pos, some h =>
    let tangent_vector := start_pos.sub curr_center
    .ok (m.set_pos (m.vertex h)
      ((start_pos.sub norm_vector).add ((unit tangent_vector).smul tangent_offset)))
  | _, _ => .error .out_of_bounds

/-- Lines 929-934: the loop `for (size_t i = 0; i < new_halfedges.size(); i++)`, with `k`
iterations left and entered at the index `i`. -/
def positions_loop (unit : Vec3 → Vec3) (start_positions : List Vec3)
    (new_halfedges : List Nat) (curr_center norm_vector : Vec3) (tangent_offset : Rat) :
    Nat → Nat → Halfedge_Mesh → Except Fault Halfedge_Mesh
  | 0, _, m => .ok m
  | k + 1, i, m =>
    (position_step unit start_positions new_halfedges curr_center norm_vector tangent_offset
      m i).bind fun m =>
    positions_loop unit start_positions new_halfedges curr_center norm_vector tangent_offset
      k (i + 1) m

/-- `Halfedge_Mesh::bevel_face_positions`. Modelled from the spec: the member
`flip_orientation` of the mesh (geometry/halfedge.h, absent), which no function of
meshedit.cpp assigns, is the parameter `flip_orientation`; the coordinates and the offsets
are exact rationals, where the source computes in `float`. -/
def bevel_face_positions (g : Geometry) (flip_orientation : Bool) (m : Halfedge_Mesh)
    (fuel : Nat) (start_positions : List Vec3) (face : Nat)
    (tangent_offset normal_offset : Rat) : Except Fault Halfedge_Mesh :=
  let normal_offset := if flip_orientation then -normal_offset else normal_offset
  (collect_face m (m.fhalfedge face) fuel (m.fhalfedge face) []).bind fun new_halfedges =>
  let curr_normal := g.normal m face
  let curr_center := g.center m face
  let norm_vector := curr_normal.smul normal_offset
  positions_loop g.unit start_positions new_halfedges curr_center norm_vector tangent_offset
    new_halfedges.length 0 m

/-- The position that bevel_face_positions computes from the start position `p`: with
`s = -1` when the flag `flip_orientation` is set and `s = 1` otherwise,
`p - normal * (s * normal_offset) + unit(p - center) * tangent_offset`. -/
def bevel_position (g : Geometry) (flip_orientation : Bool) (m : Halfedge_Mesh) (face : Nat)
    (tangent_offset normal_offset : Rat) (p : Vec3) : Vec3 :=
  (p.sub ((g.normal m face).smul ((if flip_orientation then -1 else 1) * normal_offset))).add
    ((g.unit (p.sub (g.center m face))).smul tangent_offset)

/-! ## triangulate (meshedit.cpp, lines 941-989) -/

/-- Lines 958-981: the body of the inner loop of triangulate, run with the current values
of `hIterator` and `h_incoming`; the result holds the mesh, `hIterator` and `h_incoming`
after the body. -/
def triangulate_body (m : Halfedge_Mesh) (vStart hIterator h_incoming : Nat) :
    Halfedge_Mesh × Nat × Nat :=
  let hNext := m.next hIterator
  let (h_outgoing, m) := m.new_halfedge
  let (e, m) := m.new_edge
  let m := m.set_ehalfedge e h_outgoing
  let (f, m) := m.new_face
  let m := m.set_fhalfedge f h_outgoing
  let m := m.set_face h_outgoing f
  let m := m.set_next h_outgoing h_incoming
  let m := m.set_edge h_outgoing e
  let m := m.set_vertex h_outgoing (m.vertex hNext)
  let m := m.set_face h_incoming f
  let (h_incoming, m) := m.new_halfedge
  let m := m.set_next h_incoming hNext
  let m := m.set_vertex h_incoming vStart
  let m := m.set_twin h_incoming h_outgoing
  let m := m.set_edge h_incoming e
  let m := m.set_twin h_outgoing h_incoming
  let m := m.set_next hIterator h_outgoing
  let m := m.set_face hIterator f
  (m, hNext, h_incoming)

/-- Lines 957-982: the loop `while (hIterator->next()->next() != hStart)`. -/
def triangulate_fan (hStart vStart : Nat) :
    Nat → Halfedge_Mesh → Nat → Nat → Except Fault (Halfedge_Mesh × Nat × Nat)
  | 0, _, _, _ => .error .out_of_fuel
  | fuel + 1, m, hIterator, h_incoming =>
    if m.next (m.next hIterator) ≠ hStart then
      let r := m.triangulate_body vStart hIterator h_incoming
      triangulate_fan hStart vStart fuel r.1 r.2.1 r.2.2
    else .ok (m, hIterator, h_incoming)

/-- Lines 950-986: what triangulate does with the face `f0` taken from the stack. -/
def triangulate_face (m : Halfedge_Mesh) (fuel : Nat) (f0 : Nat) : Except Fault Halfedge_Mesh :=
  let hStart := m.fhalfedge f0
  let vStart := m.vertex hStart
  let hIterator := m.next hStart
  let h_incoming := hStart
  if m.next (m.next hIterator) ≠ hStart ∧ ¬ m.boundary f0 = true then
    (triangulate_fan hStart vStart fuel m hIterator h_incoming).bind fun r =>
    let m := r.1.set_next (r.1.next r.2.1) r.2.2
    let m := m.set_face r.2.2 f0
    .ok (m.set_fhalfedge f0 r.2.2)
  else .ok m

/-- Lines 949-988: the loop `while (!original_faces.empty())`, on the faces still on the
stack, the top of the stack first. -/
def triangulate_stack (fuel : Nat) : List Nat → Halfedge_Mesh → Except Fault Halfedge_Mesh
  | [], m => .ok m
  | f0 :: original_faces, m =>
    (m.triangulate_face fuel f0).bind fun m => triangulate_stack fuel original_faces m

/-- `Halfedge_Mesh::triangulate`: the stack `original_faces` holds the faces of the mesh in
the order of the list of faces, and is emptied from its back. -/
def triangulate (m : Halfedge_Mesh) (fuel : Nat) : Except Fault Halfedge_Mesh :=
  triangulate_stack fuel m.faces.reverse m

/-- The half-edge of the face `f` and the two half-edges that follow it. -/
def corners (m : Halfedge_Mesh) (f : Nat) : List Nat :=
  [m.fhalfedge f, m.next (m.fhalfedge f), m.next (m.next (m.fhalfedge f))]

/-- The face `f` is a triangle: the loop of `next` from its half-edge closes after three
steps and not before, and its three half-edges reference `f`. -/
def face_triangle (m : Halfedge_Mesh) (f : Nat) : Prop :=
  m.triangle (m.fhalfedge f) ∧ ∀ h ∈ m.corners f, m.face h = f

instance (m : Halfedge_Mesh) (f : Nat) : Decidable (m.face_triangle f) := by
  unfold face_triangle; infer_instance

/-! ### triangulate: the invariants of its loops -/

/-- What the processing of the face `f0` of the mesh `c0` leaves alone in the mesh `c`:
`next` and `face` of the half-edges that existed and were not in `f0`; `twin`, `vertex`
and `edge` of the half-edges that existed; the half-edge of the edges that existed and of
the faces other than `f0` that existed; the boundary flags, the vertices, the positions and
the erased sets. The elements of `c` that are not in `c0` have fresh ids. -/
structure TriFrame (c0 : Halfedge_Mesh) (f0 : Nat) (c : Halfedge_Mesh) : Prop where
  next_id : c0.next_id ≤ c.next_id
  next : ∀ h, h < c0.next_id → c0.face h ≠ f0 → c.next h = c0.next h
  face : ∀ h, h < c0.next_id → c0.face h ≠ f0 → c.face h = c0.face h
  twin : ∀ h, h < c0.next_id → c.twin h = c0.twin h
  vertex : ∀ h, h < c0.next_id → c.vertex h = c0.vertex h
  edge : ∀ h, h < c0.next_id → c.edge h = c0.edge h
  ehalfedge : ∀ e, e < c0.next_id → c.ehalfedge e = c0.ehalfedge e
  fhalfedge : ∀ f, f < c0.next_id → f ≠ f0 → c.fhalfedge f = c0.fhalfedge f
  boundary : ∀ f, f < c0.next_id → c.boundary f = c0.boundary f
  vhalfedge : c.vhalfedge = c0.vhalfedge
  pos : c.pos = c0.pos
  vertices : c.vertices = c0.vertices
  herased : c.herased = c0.herased
  verased : c.verased = c0.verased
  eerased : c.eerased = c0.eerased
  ferased : c.ferased = c0.ferased
  halfedges : ∃ l, c.halfedges = c0.halfedges ++ l ∧ ∀ x ∈ l, c0.next_id ≤ x ∧ x < c.next_id
  edges : ∃ l, c.edges = c0.edges ++ l ∧ ∀ x ∈ l, c0.next_id ≤ x ∧ x < c.next_id
  faces : ∃ l, c.faces = c0.faces ++ l ∧ ∀ x ∈ l, c0.next_id ≤ x ∧ x < c.next_id

/-- The loop of the face `f0` in the mesh `c0`: `a j` is the half-edge reached from the
half-edge of `f0` by `j` steps of `next`; the loop closes after `D` steps and not before;
its half-edges exist and reference `f0`. The ids of the faces and of the edges are in use. -/
structure TriLoop (c0 : Halfedge_Mesh) (f0 D : Nat) (a : Nat → Nat) : Prop where
  start : a 0 = c0.fhalfedge f0
  step : ∀ j, c0.next (a j) = a (j + 1)
  period : a D = a 0
  inj : ∀ i j, i < j → j < D → a i ≠ a j
  lt : ∀ j, a j < c0.next_id
  face : ∀ j, c0.face (a j) = f0
  f0_lt : f0 < c0.next_id
  faces_lt : ∀ f ∈ c0.faces, f < c0.next_id
  edges_lt : ∀ e ∈ c0.edges, e < c0.next_id

/-- The edge `e` created by triangulate in the mesh `c` joins the vertex `v` to the vertex
of a half-edge `a j`: its half-edge starts at the vertex of `a j`, the twin of its half-edge
starts at `v`, and the two half-edges are twins on the edge `e`. -/
def fan_edge (c0 c : Halfedge_Mesh) (a : Nat → Nat) (v e : Nat) : Prop :=
  c.vertex (c.twin (c.ehalfedge e)) = v ∧ (∃ j, c.vertex (c.ehalfedge e) = c0.vertex (a j)) ∧
  c.edge (c.ehalfedge e) = e ∧ c.edge (c.twin (c.ehalfedge e)) = e ∧
  c.twin (c.twin (c.ehalfedge e)) = c.ehalfedge e ∧ c.twin (c.ehalfedge e) ≠ c.ehalfedge e ∧
  c.ehalfedge e < c.next_id ∧ c.twin (c.ehalfedge e) < c.next_id

/-- The state of the inner loop of triangulate on the face `f0` of the mesh `c0`, when the
loop test is evaluated with `hIterator = a k` and `h_incoming = y` on the mesh `c`. -/
structure TriState (c0 : Halfedge_Mesh) (f0 D : Nat) (a : Nat → Nat) (v : Nat)
    (c : Halfedge_Mesh) (k y : Nat) : Prop where
  frame : TriFrame c0 f0 c
  fh0 : c.fhalfedge f0 = c0.fhalfedge f0
  tail_next : ∀ j, k ≤ j → j < D → c.next (a j) = a (j + 1)
  tail_face : ∀ j, k ≤ j → j < D → c.face (a j) = f0
  y_next : c.next y = a k
  y_lt : y < c.next_id
  y_old : y < c0.next_id → y = a 0
  done : ∀ f ∈ c.faces, c0.next_id ≤ f → c.face_triangle f ∧
    ∀ h ∈ c.corners f, h < c.next_id ∧ h ≠ y ∧ ∀ j, k ≤ j → j < D → h ≠ a j
  fan : ∀ e ∈ c.edges, c0.next_id ≤ e → fan_edge c0 c a v e
  n_halfedges : c.halfedges.length = c0.halfedges.length + 2 * (k - 1)
  n_edges : c.edges.length = c0.edges.length + (k - 1)
  n_faces : c.faces.length = c0.faces.length + (k - 1)

/-- What triangulate has made of the face `f0` of the mesh `c0`, in the mesh `c`: the rest
of the mesh is as it was, `f0` and the created faces are triangles, the created edges join
the vertex `v` to vertices of the loop `a`, and `2 * d` half-edges, `d` edges and `d` faces
were created. -/
structure TriResult (c0 : Halfedge_Mesh) (f0 : Nat) (a : Nat → Nat) (v d : Nat)
    (c : Halfedge_Mesh) : Prop where
  frame : TriFrame c0 f0 c
  triangles : ∀ f ∈ c.faces, (f = f0 ∨ c0.next_id ≤ f) →
    c.face_triangle f ∧ ∀ h ∈ c.corners f, h < c.next_id
  fan : ∀ e ∈ c.edges, c0.next_id ≤ e → fan_edge c0 c a v e
  n_halfedges : c.halfedges.length = c0.halfedges.length + 2 * d
  n_edges : c.edges.length = c0.edges.length + d
  n_faces : c.faces.length = c0.faces.length + d

/-- What triangulate has made of the face `f0` of the mesh `c0`, in the mesh `c`, whatever
the degree of `f0`: the rest of the mesh is as it was, and the loops of `f0` and of the
created faces close after three steps, on half-edges that reference `f0` or created
faces. -/
structure TriWeak (c0 : Halfedge_Mesh) (f0 : Nat) (c : Halfedge_Mesh) : Prop where
  frame : TriFrame c0 f0 c
  closed : ∀ f ∈ c.faces, (f = f0 ∨ c0.next_id ≤ f) → c.closes3 (c.fhalfedge f) ∧
    ∀ h ∈ c.corners f, h < c.next_id ∧ (c.face h = f0 ∨ c0.next_id ≤ c.face h)

/-- The edge `e` of the mesh `c` is an edge of the fan of a face `f0` of the mesh `m` that is
not a boundary face and whose loop does not close after three steps: it joins the vertex of
the half-edge of `f0` to the vertex of a half-edge of the loop of `f0`. -/
def tri_edge (m c : Halfedge_Mesh) (e : Nat) : Prop :=
  ∃ f0 ∈ m.faces, m.boundary f0 = false ∧ ¬ m.closes3 (m.fhalfedge f0) ∧
    fan_edge m c (fun j => m.next^[j] (m.fhalfedge f0)) (m.vertex (m.fhalfedge f0)) e

/-- The state of triangulate on the mesh `m` when the faces `todo` are still on the stack
and the mesh is `cur`: the faces on the stack are as they were in `m`; the loop of every
other face that is not a boundary face closes after three steps, on half-edges of faces
that are not on the stack; only fresh elements were added and nothing was erased. Under
the condition `G` every such face is a triangle and every created edge is an edge of a
fan. -/
structure TriInv (m : Halfedge_Mesh) (G : Prop) (todo : List Nat) (cur : Halfedge_Mesh) :
    Prop where
  next_id : m.next_id ≤ cur.next_id
  next : ∀ h, h < m.next_id → m.face h ∈ todo → cur.next h = m.next h
  face : ∀ h, h < m.next_id → m.face h ∈ todo → cur.face h = m.face h
  vertex : ∀ h, h < m.next_id → cur.vertex h = m.vertex h
  fhalfedge : ∀ f ∈ todo, cur.fhalfedge f = m.fhalfedge f
  boundary : ∀ f, f < m.next_id → cur.boundary f = m.boundary f
  vertices : cur.vertices = m.vertices
  herased : cur.herased = m.herased
  verased : cur.verased = m.verased
  eerased : cur.eerased = m.eerased
  ferased : cur.ferased = m.ferased
  halfedges : ∃ l, cur.halfedges = m.halfedges ++ l ∧ ∀ x ∈ l, m.next_id ≤ x ∧ x < cur.next_id
  edges : ∃ l, cur.edges = m.edges ++ l ∧ ∀ x ∈ l, m.next_id ≤ x ∧ x < cur.next_id
  faces : ∃ l, cur.faces = m.faces ++ l ∧ ∀ x ∈ l, m.next_id ≤ x ∧ x < cur.next_id
  closed : ∀ f ∈ cur.faces, f ∉ todo → cur.boundary f = false →
    cur.closes3 (cur.fhalfedge f) ∧ ∀ h ∈ cur.corners f, h < cur.next_id ∧ cur.face h ∉ todo
  triangles : G → ∀ f ∈ cur.faces, f ∉ todo → cur.boundary f = false → cur.face_triangle f
  fan : G → ∀ e ∈ cur.edges, m.next_id ≤ e → tri_edge m cur e

/-! ## Concrete meshes -/

/-- A mesh given by the tables of its relations: element `i` of a table is the value of the
relation at id `i`. Nothing is marked erased, positions are at the origin, and the ids in
use are `0 .. n - 1` for each kind of element. -/
def of_tables (nxt twn vtx edg fac vh eh fh : List Nat) (bd : List Bool) : Halfedge_Mesh :=
  { next := fun h => nxt.getD h 0, twin := fun h => twn.getD h 0,
    vertex := fun h => vtx.getD h 0, edge := fun h => edg.getD h 0,
    face := fun h => fac.getD h 0, vhalfedge := fun v => vh.getD v 0,
    ehalfedge := fun e => eh.getD e 0, fhalfedge := fun f => fh.getD f 0,
    pos := fun _ => ⟨0, 0, 0⟩, boundary := fun f => bd.getD f false,
    halfedges := List.range nxt.length, vertices := List.range vh.length,
    edges := List.range eh.length, faces := List.range fh.length,
    herased := [], verased := [], eerased := [], ferased := [],
    next_id := nxt.length }

/-- Two triangles (0,1,2) and (1,0,3) sharing the edge 0 and surrounded by a boundary face. -/
def two_triangles : Halfedge_Mesh :=
  of_tables [1, 2, 0, 4, 5, 3, 9, 6, 7, 8]
    [3, 6, 7, 0, 8, 9, 1, 2, 4, 5]
    [0, 1, 2, 1, 0, 3, 2, 0, 3, 1]
    [0, 1, 2, 0, 3, 4, 1, 2, 3, 4]
    [0, 0, 0, 1, 1, 1, 2, 2, 2, 2]
    [0, 1, 2, 5] [0, 1, 2, 4, 5] [0, 3, 6]
    [false, false, true]

/-- The triangular bipyramid: apexes 0 and 1 over the triangle 2, 3, 4; six triangles. -/
def bipyramid : Halfedge_Mesh :=
  of_tables [1, 2, 0, 4, 5, 3, 7, 8, 6, 10, 11, 9, 13, 14, 12, 16, 17, 15]
    [8, 10, 3, 2, 13, 6, 5, 16, 0, 14, 1, 15, 17, 4, 9, 11, 7, 12]
    [0, 2, 3, 0, 3, 4, 0, 4, 2, 1, 3, 2, 1, 4, 3, 1, 2, 4]
    [0, 1, 2, 2, 3, 4, 4, 5, 0, 6, 1, 7, 8, 3, 6, 7, 5, 8]
    [0, 0, 0, 1, 1, 1, 2, 2, 2, 3, 3, 3, 4, 4, 4, 5, 5, 5]
    [0, 9, 1, 2, 5] [0, 1, 2, 4, 5, 7, 9, 11, 12] [0, 3, 6, 9, 12, 15]
    [false, false, false, false, false, false]

/-- A single quadrilateral 0, 1, 2, 3 surrounded by a boundary face. -/
def quad : Halfedge_Mesh :=
  of_tables [1, 2, 3, 0, 7, 4, 5, 6]
    [4, 5, 6, 7, 0, 1, 2, 3]
    [0, 1, 2, 3, 1, 2, 3, 0]
    [0, 1, 2, 3, 0, 1, 2, 3]
    [0, 0, 0, 0, 1, 1, 1, 1]
    [0, 1, 2, 3] [0, 1, 2, 3] [0, 4]
    [false, true]

/-- Two quadrilaterals (0,1,2,3) and (1,0,4,5) sharing the edge 0, surrounded by a boundary
face. -/
def two_quads : Halfedge_Mesh :=
  of_tables [1, 2, 3, 0, 5, 6, 7, 4, 13, 8, 9, 10, 11, 12]
    [4, 8, 9, 10, 0, 11, 12, 13, 1, 2, 3, 5, 6, 7]
    [0, 1, 2, 3, 1, 0, 4, 5, 2, 3, 0, 4, 5, 1]
    [0, 1, 2, 3, 0, 4, 5, 6, 1, 2, 3, 4, 5, 6]
    [0, 0, 0, 0, 1, 1, 1, 1, 2, 2, 2, 2, 2, 2]
    [0, 1, 2, 3, 6, 7] [0, 1, 2, 3, 5, 6, 7] [0, 4, 8]
    [false, false, true]

/-- Two edges 0-1 and 0-2 hanging in a single boundary face: what is left of
`two_triangles` once its common edge has been collapsed. Both sides of each edge are on the
boundary. -/
def two_spokes : Halfedge_Mesh :=
  of_tables [1, 2, 3, 0]
    [3, 2, 1, 0]
    [1, 0, 2, 0]
    [0, 1, 1, 0]
    [0, 0, 0, 0]
    [1, 0, 2] [0, 1] [0]
    [true]

/-- A single pentagon 0, 1, 2, 3, 4 surrounded by a boundary face. -/
def pentagon : Halfedge_Mesh :=
  of_tables [1, 2, 3, 4, 0, 9, 5, 6, 7, 8]
    [5, 6, 7, 8, 9, 0, 1, 2, 3, 4]
    [0, 1, 2, 3, 4, 1, 2, 3, 4, 0]
    [0, 1, 2, 3, 4, 0, 1, 2, 3, 4]
    [0, 0, 0, 0, 0, 1, 1, 1, 1, 1]
    [0, 1, 2, 3, 4] [0, 1, 2, 3, 4] [0, 5]
    [false, true]

/-- A single edge from the vertex 0 to itself, with a face of one half-edge on one side
and a boundary face of one half-edge on the other. -/
def loop_edge : Halfedge_Mesh :=
  of_tables [0, 1] [1, 0] [0, 0] [0, 0] [0, 1] [0] [0] [0, 1] [false, true]

/-- A lens: the two half-edges 0 and 1 between the vertices 0 and 1 bound the face 0, a
face of degree 2 that is not a boundary face; their twins 2 and 3 bound the boundary
face 1. -/
def lens : Halfedge_Mesh :=
  of_tables [1, 0, 3, 2] [2, 3, 0, 1] [0, 1, 1, 0] [0, 1, 0, 1] [0, 0, 1, 1]
    [0, 1] [0, 1] [0, 2] [false, true]

/-- Two spokes on a sphere: the mesh of `two_spokes`, with its only face not a boundary
face. The loop of the face 0 is 0, 1, 2, 3 and passes twice through the vertex 0, at the
half-edges 1 and 3. -/
def spokes_sphere : Halfedge_Mesh :=
  of_tables [1, 2, 3, 0] [3, 2, 1, 0] [1, 0, 2, 0] [0, 1, 1, 0] [0, 0, 0, 0]
    [1, 0, 2] [0, 1] [0] [false]

/-- A tetrahedron with its face 3 made a boundary face. -/
def open_tetra : Halfedge_Mesh :=
  of_tables [1, 2, 0, 4, 5, 3, 7, 8, 6, 10, 11, 9]
    [3, 6, 9, 0, 11, 7, 1, 5, 10, 2, 8, 4]
    [0, 1, 2, 1, 0, 3, 2, 1, 3, 0, 2, 3]
    [0, 1, 2, 0, 3, 4, 1, 4, 5, 2, 5, 3]
    [0, 0, 0, 1, 1, 1, 2, 2, 2, 3, 3, 3]
    [0, 1, 2, 5] [0, 1, 2, 4, 5, 8] [0, 3, 6, 9]
    [false, false, false, true]

/-- A strip of three triangles (3,0,2), (0,1,2) and (2,1,4) surrounded by a boundary face
of degree 5. The edge 0 joins the vertices 0 and 1 of degree 3; its half-edge 0 is in the
triangle (0,1,2), its twin 9 on the boundary, and the half-edge of the vertex 0 is the
half-edge 0. -/
def strip : Halfedge_Mesh :=
  of_tables [1, 2, 0, 4, 5, 3, 7, 8, 6, 10, 11, 12, 13, 9]
    [9, 6, 4, 10, 2, 11, 1, 13, 12, 0, 3, 5, 8, 7]
    [0, 1, 2, 3, 0, 2, 2, 1, 4, 1, 0, 3, 2, 4]
    [0, 1, 2, 3, 2, 4, 1, 5, 6, 0, 3, 4, 6, 5]
    [0, 0, 0, 1, 1, 1, 2, 2, 2, 3, 3, 3, 3, 3]
    [0, 1, 2, 3, 8] [0, 1, 2, 3, 5, 7, 8] [0, 3, 6, 9]
    [false, false, false, true]

/-! ## Edge_Record (meshedit.cpp, lines 1163-1213) -/

/-- The struct `Edge_Record`. -/
structure Edge_Record where
  edge : Nat
  optimal : Vec3
  edgeQuadric : Mat4
  cost : Rat
deriving DecidableEq, Repr

/-- Lines 1188-1195: the matrix `A` of the linear system, made of the sum of the two
quadrics by the seven assignments of the source: `A[3][0]`, `A[3][1]`, `A[3][2]` and
`A[3][0]` again are set to 0, then `A[1][3]` and `A[2][3]`, and `A[3][3]` is set to 1. The
entry `A[0][3]` keeps its value. -/
def Edge_Record.system (Q : Mat4) : Mat4 :=
  let A := Q
  let A := { A with c3 := { A.c3 with x := 0 } }
  let A := { A with c3 := { A.c3 with y := 0 } }
  let A := { A with c3 := { A.c3 with z := 0 } }
  let A := { A with c3 := { A.c3 with x := 0 } }
  let A := { A with c1 := { A.c1 with w := 0 } }
  let A := { A with c2 := { A.c2 with w := 0 } }
  { A with c3 := { A.c3 with w := 1 } }

/-- The constructor `Edge_Record(vertex_quadrics, e)` (lines 1170-1202), on the mesh `m`.
The costs and the threshold 0.1 are exact rationals, where the source computes in
`float`. -/
def Edge_Record.build (m : Halfedge_Mesh) (vertex_quadrics : Nat → Mat4) (e : Nat) :
    Edge_Record :=
  let v1 := m.vertex (m.ehalfedge e)
  let v2 := m.vertex (m.twin (m.ehalfedge e))
  let edgeQuadric := (vertex_quadrics v1).add (vertex_quadrics v2)
  let b : Vec4 := ⟨-edgeQuadric.c3.x, -edgeQuadric.c3.y, -edgeQuadric.c3.z, 1⟩
  let A := Edge_Record.system ((vertex_quadrics v1).add (vertex_quadrics v2))
  let optimal : Vec3 :=
    if A.det > 1 / 10 then
      let x := A.inverse.mulv b
      ⟨x.x, x.y, x.z⟩
    else m.center_of e
  let optimal_4 : Vec4 := ⟨optimal.x, optimal.y, optimal.z, 1⟩
  { edge := e, optimal := optimal, edgeQuadric := edgeQuadric,
    cost := optimal_4.dot (edgeQuadric.mulv optimal_4) }

/-- The comparison `operator<` of two records (lines 1206-1213): by cost, then by the
address of the edge. Modelled from the spec: the address `&*e` of the edge `e`, a stable
identity of the edge, is the parameter `addr` of the model. -/
def Edge_Record.lt (addr : Nat → Nat) (r1 r2 : Edge_Record) : Bool :=
  if r1.cost ≠ r2.cost then decide (r1.cost < r2.cost)
  else decide (addr r1.edge < addr r2.edge)

/-! ## PQueue (meshedit.cpp, lines 1269-1289) -/

/-- Modelled from the spec: `std::set<T>::insert` (absent) on the sorted list of the
elements of the set: the item is put at its place, unless an element of the set is
equivalent to it (neither is less than the other). -/
def set_insert {α : Type} (lt : α → α → Bool) (item : α) : List α → List α
  | [] => [item]
  | y :: ys =>
    if lt item y then item :: y :: ys
    else if lt y item then y :: set_insert lt item ys
    else y :: ys

/-- Modelled from the spec: `std::set<T>::find` (absent), whether an element of the set is
equivalent to the item. -/
def set_find {α : Type} (lt : α → α → Bool) (item : α) : List α → Bool
  | [] => false
  | y :: ys =>
    if lt item y then false
    else if lt y item then set_find lt item ys
    else true

/-- Modelled from the spec: `std::set<T>::erase(const T&)` (absent), which takes away the
element equivalent to the item. -/
def set_erase {α : Type} (lt : α → α → Bool) (item : α) : List α → List α
  | [] => []
  | y :: ys =>
    if lt item y then y :: ys
    else if lt y item then y :: set_erase lt item ys
    else ys

/-- The struct `PQueue<T>`: its member `queue`, a `std::set<T>`, is the list of its
elements in increasing order. -/
structure PQueue (α : Type) where
  queue : List α

/-- `PQueue::insert`. -/
def PQueue.insert {α : Type} (lt : α → α → Bool) (q : PQueue α) (item : α) : PQueue α :=
  ⟨set_insert lt item q.queue⟩

/-- `PQueue::remove`. -/
def PQueue.remove {α : Type} (lt : α → α → Bool) (q : PQueue α) (item : α) : PQueue α :=
  if set_find lt item q.queue then ⟨set_erase lt item q.queue⟩ else q

/-- `PQueue::top`. On an empty queue the source dereferences `queue.end()`. -/
def PQueue.top {α : Type} (q : PQueue α) : Except Fault α :=
  match q.queue with
  | [] => .error .out_of_bounds
  | x :: _ => .ok x

/-- `PQueue::pop`. On an empty queue the source erases `queue.end()`. -/
def PQueue.pop {α : Type} (q : PQueue α) : Except Fault (PQueue α) :=
  match q.queue with
  | [] => .error .out_of_bounds
  | _ :: xs => .ok ⟨xs⟩

/-- `PQueue::size`. -/
def PQueue.size {α : Type} (q : PQueue α) : Nat := q.queue.length

/-- One call on a queue: `insert(item)`, `remove(item)` or `pop()`. -/
inductive PQueue.Call (α : Type) where
  | insert (item : α)
  | remove (item : α)
  | pop

/-- The queue after the calls of the list, in turn. -/
def PQueue.run {α : Type} (lt : α → α → Bool) : List (PQueue.Call α) → PQueue α →
    Except Fault (PQueue α)
  | [], q => .ok q
  | .insert item :: rest, q => PQueue.run lt rest (q.insert lt item)
  | .remove item :: rest, q => PQueue.run lt rest (q.remove lt item)
  | .pop :: rest, q => q.pop.bind (PQueue.run lt rest)

/-- What `std::set` asks of `operator<`: a strict weak ordering. -/
structure StrictWeak {α : Type} (lt : α → α → Bool) : Prop where
  irrefl : ∀ a, lt a a = false
  trans : ∀ a b c, lt a b = true → lt b c = true → lt a c = true
  incomp : ∀ a b c, lt a b = true → lt a c = true ∨ lt c b = true

/-! ## simplify (meshedit.cpp, lines 1297-1491) -/

/-- Modelled from the spec: `do_erase()` (geometry/halfedge.h, absent), the physical
removal of the elements marked erased, which `collapse_edge_erase` runs after
`collapse_edge`. -/
def do_erase (m : Halfedge_Mesh) : Halfedge_Mesh :=
  { m with halfedges := m.halfedges.filter (fun h => h ∉ m.herased),
           vertices := m.vertices.filter (fun v => v ∉ m.verased),
           edges := m.edges.filter (fun e => e ∉ m.eerased),
           faces := m.faces.filter (fun f => f ∉ m.ferased),
           herased := [], verased := [], eerased := [], ferased := [] }

/-- Modelled from the spec: `collapse_edge_erase(e)` (geometry/halfedge.h, absent), the
call of `collapse_edge` followed by the removal of the elements marked erased. -/
def collapse_edge_erase (m : Halfedge_Mesh) (fuel : Nat) (e : Nat) :
    Except Fault (Option Nat × Halfedge_Mesh) :=
  (m.collapse_edge fuel e).bind fun r => .ok (r.1, r.2.do_erase)

/-- Lines 1335-1338: the quadric of a face that is not a boundary face. -/
def face_quadric (g : Geometry) (m : Halfedge_Mesh) (f : Nat) : Mat4 :=
  let v1 := m.vertex (m.fhalfedge f)
  let N := g.normal m f
  let plane_vector : Vec4 := ⟨N.x, N.y, N.z, -(N.dot (m.pos v1))⟩
  Mat4.outer plane_vector plane_vector

/-- Lines 1328-1342: the loop over the faces, entered with the table `face_quadrics` and
the count `initialFaceCount` reached so far. The result is absent when the loop runs into
the `return false` of line 1333. -/
def face_loop (g : Geometry) (m : Halfedge_Mesh) :
    List Nat → (Nat → Mat4) → Int → Option ((Nat → Mat4) × Int)
  | [], face_quadrics, initialFaceCount => some (face_quadrics, initialFaceCount)
  | f :: rest, face_quadrics, initialFaceCount =>
    if m.boundary f then face_loop g m rest (upd face_quadrics f Mat4.Zero) initialFaceCount
    else if m.next (m.next (m.next (m.fhalfedge f))) ≠ m.fhalfedge f then none
    else face_loop g m rest (upd face_quadrics f (face_quadric g m f)) (initialFaceCount + 1)

/-- Lines 1349-1352: the loop `while (hIterator->twin()->next() != hStart)` that sums the
quadrics of the faces of the half-edges it passes. -/
def vertex_quadric (m : Halfedge_Mesh) (face_quadrics : Nat → Mat4) (hStart : Nat) :
    Nat → Nat → Mat4 → Except Fault Mat4
  | 0, _, _ => .error .out_of_fuel
  | fuel + 1, hIterator, quadric =>
    if m.rot hIterator ≠ hStart then
      vertex_quadric m face_quadrics hStart fuel (m.rot hIterator)
        (quadric.add (face_quadrics (m.face hIterator)))
    else .ok quadric

/-- Lines 1345-1354: the loop over the vertices. -/
def vertex_loop (m : Halfedge_Mesh) (face_quadrics : Nat → Mat4) (fuel : Nat) :
    List Nat → (Nat → Mat4) → Except Fault (Nat → Mat4)
  | [], vertex_quadrics => .ok vertex_quadrics
  | v :: rest, vertex_quadrics =>
    (vertex_quadric m face_quadrics (m.vhalfedge v) fuel (m.vhalfedge v) Mat4.Zero).bind
      fun quadric => vertex_loop m face_quadrics fuel rest (upd vertex_quadrics v quadric)

/-- The variables of simplify that the decimation loop reads and writes. -/
structure Simplify_State where
  mesh : Halfedge_Mesh
  vertex_quadrics : Nat → Mat4
  edge_records : Nat → Edge_Record
  edge_queue : PQueue Edge_Record
  currentFaceCount : Int

/-- The three statements `record = Edge_Record(vertex_quadrics, e); edge_records[e] =
record; edge_queue.insert(record);` (lines 1358-1360, 1376-1378, 1431-1433, ...). -/
def Simplify_State.insert_record (addr : Nat → Nat) (s : Simplify_State) (e : Nat) :
    Simplify_State :=
  let record := Edge_Record.build s.mesh s.vertex_quadrics e
  { s with edge_records := upd s.edge_records e record,
           edge_queue := s.edge_queue.insert (Edge_Record.lt addr) record }

/-- The two statements `record = edge_records[e]; edge_queue.remove(record);` (lines
1403-1404, 1408-1409, ...). -/
def Simplify_State.remove_record (addr : Nat → Nat) (s : Simplify_State) (e : Nat) :
    Simplify_State :=
  { s with edge_queue := s.edge_queue.remove (Edge_Record.lt addr) (s.edge_records e) }

/-- The test of lines 1373-1375 (and 1445-1447, ...) on the edge `e`: both endpoints have
degree more than 2 and they are different vertices. The operator `&&` evaluates its right
side only when the left side holds. -/
def eligible (m : Halfedge_Mesh) (fuel : Nat) (e : Nat) : Except Fault Bool :=
  (m.vdegree fuel (m.vertex (m.ehalfedge e))).bind fun d0 =>
  if d0 > 2 then
    (m.vdegree fuel (m.vertex (m.twin (m.ehalfedge e)))).bind fun d1 =>
    if d1 > 2 then
      .ok (decide (m.vertex (m.twin (m.ehalfedge e)) ≠ m.vertex (m.ehalfedge e)))
    else .ok false
  else .ok false

/-- Lines 1372-1380: the loop over the edges that fills the empty queue again. -/
def repopulate (addr : Nat → Nat) (fuel : Nat) :
    List Nat → Simplify_State → Except Fault Simplify_State
  | [], s => .ok s
  | e :: rest, s =>
    (eligible s.mesh fuel e).bind fun b =>
    repopulate addr fuel rest (if b then s.insert_record addr e else s)

/-- The loops of the form `while (hIterator->twin()->next() != hStart) { body;
hIterator = hIterator->twin()->next(); } body;` (lines 1401-1409, 1413-1421, 1429-1439,
1443-1461, 1464-1482): `body` runs for every half-edge of the rotation from `hStart`, the
last one after the loop. -/
def around {σ : Type} (m : Halfedge_Mesh) (hStart : Nat) (body : Nat → σ → Except Fault σ) :
    Nat → Nat → σ → Except Fault σ
  | 0, _, _ => .error .out_of_fuel
  | fuel + 1, hIterator, s =>
    if m.rot hIterator ≠ hStart then
      (body hIterator s).bind fun s => around m hStart body fuel (m.rot hIterator) s
    else body hIterator s

/-- The body of the loops of lines 1401-1421. -/
def remove_body (addr : Nat → Nat) (hIterator : Nat) (s : Simplify_State) :
    Except Fault Simplify_State :=
  .ok (s.remove_record addr (s.mesh.edge hIterator))

/-- The body of the loop of lines 1429-1439. -/
def insert_body (addr : Nat → Nat) (hIterator : Nat) (s : Simplify_State) :
    Except Fault Simplify_State :=
  .ok (s.insert_record addr (s.mesh.edge hIterator))

/-- The body of the loops of lines 1443-1482. The operator `&&` evaluates its right side
only when the left side holds. -/
def reset_body (addr : Nat → Nat) (fuel chosen_e : Nat) (hIterator : Nat)
    (s : Simplify_State) : Except Fault Simplify_State :=
  let e := s.mesh.edge hIterator
  if e ≠ chosen_e then
    (eligible s.mesh fuel e).bind fun b => .ok (if b then s.insert_record addr e else s)
  else .ok s

/-- Lines 1386-1488: the body of the decimation loop from the choice of the best edge on. -/
def decimate (addr : Nat → Nat) (fuel : Nat) (s : Simplify_State) :
    Except Fault Simplify_State :=
  s.edge_queue.top.bind fun bestEdge =>
  let chosen_e := bestEdge.edge
  let s := { s with currentFaceCount :=
    if s.mesh.on_boundary chosen_e then s.currentFaceCount - 1 else s.currentFaceCount - 2 }
  let new_quadric := bestEdge.edgeQuadric
  -- Remove adjacent edges from edge_queue and from records
  (around s.mesh (s.mesh.ehalfedge chosen_e) (remove_body addr) fuel
    (s.mesh.ehalfedge chosen_e) s).bind fun s =>
  (around s.mesh (s.mesh.twin (s.mesh.ehalfedge chosen_e)) (remove_body addr) fuel
    (s.mesh.twin (s.mesh.ehalfedge chosen_e)) s).bind fun s =>
  (s.mesh.collapse_edge_erase fuel chosen_e).bind fun r =>
  let s := { s with mesh := r.2 }
  match r.1 with
  | some collapsed_edge =>
    let s := { s with vertex_quadrics := upd s.vertex_quadrics collapsed_edge new_quadric }
    let s := { s with mesh := s.mesh.set_pos collapsed_edge bestEdge.optimal }
    around s.mesh (s.mesh.vhalfedge collapsed_edge) (insert_body addr) fuel
      (s.mesh.vhalfedge collapsed_edge) s
  | none =>
    -- reset if collapse_edge fails
    (around s.mesh (s.mesh.ehalfedge chosen_e) (reset_body addr fuel chosen_e) fuel
      (s.mesh.ehalfedge chosen_e) s).bind fun s =>
    (around s.mesh (s.mesh.twin (s.mesh.ehalfedge chosen_e)) (reset_body addr fuel chosen_e)
      fuel (s.mesh.twin (s.mesh.ehalfedge chosen_e)) s).bind fun s =>
    .ok { s with currentFaceCount :=
      if s.mesh.on_boundary chosen_e then s.currentFaceCount + 1
      else s.currentFaceCount + 2 }

/-- Lines 1367-1490: the decimation loop, with `n` iterations left: the returned value and
the variables at the return. -/
def simplify_loop (addr : Nat → Nat) (fuel : Nat) (initialFaceCount : Int) :
    Nat → Simplify_State → Except Fault (Bool × Simplify_State)
  | 0, _ => .error .out_of_fuel
  | n + 1, s =>
    if s.currentFaceCount > initialFaceCount / 4 then
      if s.currentFaceCount ≤ 2 then .ok (false, s)
      else if s.edge_queue.size = 0 then
        (repopulate addr fuel s.mesh.edges s).bind fun s =>
        -- If there are no edges with vertices with degrees > 2 and different end points return
        if s.edge_queue.size = 0 then .ok (false, s)
        else (decimate addr fuel s).bind (simplify_loop addr fuel initialFaceCount n)
      else (decimate addr fuel s).bind (simplify_loop addr fuel initialFaceCount n)
    else .ok (true, s)

/-- Lines 1326-1361 of simplify: the quadrics of the faces and of the vertices and the
queue of the records of all the edges. The result is absent when a face that is not a
boundary face fails the test of line 1332. -/
def simplify_init (g : Geometry) (addr : Nat → Nat) (m : Halfedge_Mesh) (fuel : Nat) :
    Except Fault (Option (Int × Simplify_State)) :=
  match face_loop g m m.faces (fun _ => Mat4.Zero) 0 with
  | none => .ok none
  | some (face_quadrics, initialFaceCount) =>
    (vertex_loop m face_quadrics fuel m.vertices (fun _ => Mat4.Zero)).bind
      fun vertex_quadrics =>
    let s : Simplify_State :=
      { mesh := m, vertex_quadrics := vertex_quadrics,
        edge_records := fun e => ⟨e, ⟨0, 0, 0⟩, Mat4.Zero, 0⟩, edge_queue := ⟨[]⟩,
        currentFaceCount := initialFaceCount }
    .ok (some (initialFaceCount, m.edges.foldl (fun s e => s.insert_record addr e) s))

/-- `Halfedge_Mesh::simplify`: the returned value and the mesh after the call. Modelled
from the spec: the tables `std::unordered_map` are total maps, empty at first. The loops
over the elements of the mesh run over the lists of the mesh, and `fuel` bounds every walk
around a vertex or a face as well as the number of iterations of the decimation loop. -/
def simplify (g : Geometry) (addr : Nat → Nat) (m : Halfedge_Mesh) (fuel : Nat) :
    Except Fault (Bool × Halfedge_Mesh) :=
  (simplify_init g addr m fuel).bind fun r =>
  match r with
  | none => .ok (false, m)
  | some (initialFaceCount, s) =>
    (simplify_loop addr fuel initialFaceCount fuel s).bind fun r => .ok (r.1, r.2.mesh)

/-! ## The exact geometric queries -/

/-- The square root of a natural number that is a square. -/
def nat_sqrt (n : Nat) : Option Nat := (List.range (n + 1)).find? (fun k => k * k = n)

/-- The square root of a rational number that is the square of a rational number. -/
def rat_sqrt (q : Rat) : Option Rat :=
  if 0 ≤ q.num then
    match nat_sqrt q.num.toNat, nat_sqrt q.den with
    | some a, some b => some ((a : Rat) / (b : Rat))
    | _, _ => none
  else none

/-- Modelled from the spec: `Vec3::unit()` (lib/vec3.h, absent), the vector divided by its
norm, for a vector whose norm is a rational number. For a vector whose norm is not, the
result is the vector itself, which is not its unit vector: no theorem reads the result
there. -/
def unit_exact (v : Vec3) : Vec3 :=
  match rat_sqrt (v.dot v) with
  | some n => v.div n
  | none => v

/-- The loop `do { s += term(h); h = h->next(); } while (h != f->halfedge());` around a
face, over at most `fuel` half-edges. -/
def face_sum (m : Halfedge_Mesh) (term : Nat → Vec3) (start : Nat) : Nat → Nat → Vec3 → Vec3
  | 0, _, s => s
  | fuel + 1, h, s =>
    if m.next h ≠ start then face_sum m term start fuel (m.next h) (s.add (term h))
    else s.add (term h)

/-- Modelled from the spec: `Face::normal()` and `normal_of(face)` (geometry/halfedge.h,
absent): the unit vector of the sum of the cross products of the positions of the two ends
of the half-edges of the face. -/
def normal_exact (m : Halfedge_Mesh) (f : Nat) : Vec3 :=
  unit_exact (face_sum m (fun h => (m.pos (m.vertex h)).cross (m.pos (m.vertex (m.next h))))
    (m.fhalfedge f) m.halfedges.length (m.fhalfedge f) ⟨0, 0, 0⟩)

/-- Modelled from the spec: `Face::center()` (geometry/halfedge.h, absent): the mean of the
positions of the vertices of the half-edges of the face. -/
def center_exact (m : Halfedge_Mesh) (f : Nat) : Vec3 :=
  (face_sum m (fun h => m.pos (m.vertex h)) (m.fhalfedge f) m.halfedges.length
    (m.fhalfedge f) ⟨0, 0, 0⟩).div
    (face_sum m (fun _ => ⟨1, 0, 0⟩) (m.fhalfedge f) m.halfedges.length
      (m.fhalfedge f) ⟨0, 0, 0⟩).x

/-- The geometric queries in exact arithmetic. -/
def exact : Geometry := ⟨unit_exact, normal_exact, center_exact⟩

/-- The mesh `m` with its vertices at the positions of a table: element `i` of the table is
the position of the vertex `i`. -/
def with_positions (m : Halfedge_Mesh) (ps : List Vec3) : Halfedge_Mesh :=
  { m with pos := fun v => ps.getD v ⟨0, 0, 0⟩ }

/-- The strip of three triangles, flat in the plane `z = 0`. -/
def strip_flat : Halfedge_Mesh :=
  strip.with_positions [⟨0, 0, 0⟩, ⟨2, 0, 0⟩, ⟨1, 2, 0⟩, ⟨-1, 2, 0⟩, ⟨3, 2, 0⟩]

/-- Whether a run has returned the value `b` and a state that passes the test `P`. -/
def returned {α σ : Type} [BEq α] (r : Except Fault (α × σ)) (b : α) (P : σ → Bool) : Bool :=
  match r with
  | .ok (b', s) => b' == b && P s
  | .error _ => false

/-- The tetrahedron `open_tetra`, flat in the plane `z = 0`, with one more edge: the edge 6
from the vertex 0 to itself, whose half-edge 12 is alone in its face 4, a face that is not a
boundary face, and whose twin 13 is in the boundary face 3, between the half-edges 11 and 9.
The half-edge of the vertex 0 is the half-edge 9, so that the rotation around the vertex 0
passes 9, 0, 4, 13 and 12, in this order. -/
def loop_tetra : Halfedge_Mesh :=
  (of_tables [1, 2, 0, 4, 5, 3, 7, 8, 6, 10, 11, 13, 12, 9]
    [3, 6, 9, 0, 11, 7, 1, 5, 10, 2, 8, 4, 13, 12]
    [0, 1, 2, 1, 0, 3, 2, 1, 3, 0, 2, 3, 0, 0]
    [0, 1, 2, 0, 3, 4, 1, 4, 5, 2, 5, 3, 6, 6]
    [0, 0, 0, 1, 1, 1, 2, 2, 2, 3, 3, 3, 4, 3]
    [9, 1, 2, 5] [0, 1, 2, 4, 5, 8, 12] [0, 3, 6, 9, 12]
    [false, false, false, true, false]).with_positions
    [⟨0, 0, 0⟩, ⟨2, 0, 0⟩, ⟨0, 2, 0⟩, ⟨1, -1, 0⟩]

/-- The tetrahedron: four triangles (0,1,2), (1,0,3), (2,1,3), (0,2,3) on four vertices of
degree 3 and six edges; no boundary face. -/
def tetrahedron : Halfedge_Mesh :=
  of_tables [1, 2, 0, 4, 5, 3, 7, 8, 6, 10, 11, 9]
    [3, 6, 9, 0, 11, 7, 1, 5, 10, 2, 8, 4]
    [0, 1, 2, 1, 0, 3, 2, 1, 3, 0, 2, 3]
    [0, 1, 2, 0, 3, 4, 1, 4, 5, 2, 5, 3]
    [0, 0, 0, 1, 1, 1, 2, 2, 2, 3, 3, 3]
    [0, 1, 2, 5] [0, 1, 2, 4, 5, 8] [0, 3, 6, 9]
    [false, false, false, false]

/-- The cube with every square cut in two triangles: vertex `4x + 2y + z` for the corner
`(x, y, z)`, 12 triangles, 18 edges, no boundary face. -/
def cube : Halfedge_Mesh :=
  of_tables
    [1, 2, 0, 4, 5, 3, 7, 8, 6, 10, 11, 9, 13, 14, 12, 16, 17, 15, 19, 20, 18, 22, 23, 21,
      25, 26, 24, 28, 29, 27, 31, 32, 30, 34, 35, 33]
    [17, 35, 3, 2, 18, 24, 28, 22, 9, 8, 31, 13, 29, 11, 15, 14, 30, 0, 4, 34, 21, 20, 7, 25,
      5, 23, 27, 26, 6, 12, 16, 10, 33, 32, 19, 1]
    [0, 1, 3, 0, 3, 2, 4, 6, 7, 4, 7, 5, 0, 4, 5, 0, 5, 1, 2, 3, 7, 2, 7, 6, 0, 2, 6, 0, 6,
      4, 1, 5, 7, 1, 7, 3]
    [0, 1, 2, 2, 3, 4, 5, 6, 7, 7, 8, 9, 10, 9, 11, 11, 12, 0, 3, 13, 14, 14, 6, 15, 4, 15,
      16, 16, 5, 10, 12, 8, 17, 17, 13, 1]
    [0, 0, 0, 1, 1, 1, 2, 2, 2, 3, 3, 3, 4, 4, 4, 5, 5, 5, 6, 6, 6, 7, 7, 7, 8, 8, 8, 9, 9,
      9, 10, 10, 10, 11, 11, 11]
    [0, 1, 5, 2, 6, 11, 7, 8]
    [0, 1, 2, 4, 5, 6, 7, 8, 10, 11, 12, 14, 16, 19, 20, 23, 26, 32]
    [0, 3, 6, 9, 12, 15, 18, 21, 24, 27, 30, 33]
    [false, false, false, false, false, false, false, false, false, false, false, false]

/-- The cube seen from a side, flat in the plane `z = 0`: the corner `(x, y, z)` is at
`(x + z, y + 2 z, 0)`, so that no triangle has area 0. -/
def cube_flat : Halfedge_Mesh :=
  cube.with_positions [⟨0, 0, 0⟩, ⟨1, 2, 0⟩, ⟨0, 1, 0⟩, ⟨1, 3, 0⟩, ⟨1, 0, 0⟩, ⟨2, 2, 0⟩,
    ⟨1, 1, 0⟩, ⟨2, 3, 0⟩]

/-- An order of the addresses of the 18 edges of the cube: the edge 16 is at the lowest
address, then the edges 11, 13, 8, 7, ... -/
def cube_addr (e : Nat) : Nat :=
  [12, 13, 10, 8, 6, 15, 17, 4, 3, 16, 7, 1, 9, 2, 5, 14, 0, 11].getD e e

/-- A fan of four triangles around the vertex 0, with the rim 1, 2, 3, 4, flat in the plane
`z = 0`, and a tree that hangs from the vertex 1 of the rim: the edge 8 from 1 to 5 and the
edges 9 and 10 from 5 to 6 and to 7. The boundary face 4 is on both sides of the three edges
of the tree. The half-edge of the vertex 1 is the half-edge 1, in the triangle 0. -/
def kite : Halfedge_Mesh :=
  (of_tables [1, 2, 0, 4, 5, 3, 7, 8, 6, 10, 11, 9, 13, 14, 15, 16, 17, 18, 19, 20, 21, 12]
    [11, 21, 3, 2, 20, 6, 5, 19, 9, 8, 18, 0, 17, 14, 13, 16, 15, 12, 10, 7, 4, 1]
    [0, 1, 2, 0, 2, 3, 0, 3, 4, 0, 4, 1, 1, 5, 6, 5, 7, 5, 1, 4, 3, 2]
    [0, 1, 2, 2, 3, 4, 4, 5, 6, 6, 7, 0, 8, 9, 9, 10, 10, 8, 7, 5, 3, 1]
    [0, 0, 0, 1, 1, 1, 2, 2, 2, 3, 3, 3, 4, 4, 4, 4, 4, 4, 4, 4, 4, 4]
    [0, 1, 2, 5, 8, 13, 14, 16]
    [0, 1, 2, 4, 5, 7, 8, 10, 12, 13, 15]
    [0, 3, 6, 9, 12]
    [false, false, false, false, true]).with_positions
  [⟨0, 0, 0⟩, ⟨1, 0, 0⟩, ⟨0, 1, 0⟩, ⟨-1, 0, 0⟩, ⟨0, -1, 0⟩, ⟨2, 0, 0⟩, ⟨3, 1, 0⟩, ⟨3, -1, 0⟩]

/-- An order of the addresses of the edges of `kite`: the edge 8 is at the lowest address,
then the edge 6, then the other edges in the order of their ids. -/
def kite_addr (e : Nat) : Nat :=
  if e = 8 then 0 else if e = 6 then 1 else e + 2

/-- The number of the faces of the mesh that are not boundary faces. -/
def inner_faces (m : Halfedge_Mesh) : Nat := (m.faces.filter fun f => !m.boundary f).length

/-- The quadrilateral `quad` as a square in the plane `z = 0`, with its centre at the
origin. -/
def quad_square : Halfedge_Mesh :=
  quad.with_positions [⟨4, 0, 0⟩, ⟨0, 4, 0⟩, ⟨-4, 0, 0⟩, ⟨0, -4, 0⟩]

/-- The invariant of the queue of simplify: the queue is in increasing order, and every
record of the queue is the entry of the table `edge_records` for its edge. -/
def QInv (addr : Nat → Nat) (s : Simplify_State) : Prop :=
  s.edge_queue.queue.Pairwise (fun a b => Edge_Record.lt addr a b = true) ∧
  ∀ r ∈ s.edge_queue.queue, s.edge_records r.edge = r

/-- The mesh has no element marked erased and not yet removed. -/
def no_pending (m : Halfedge_Mesh) : Prop :=
  m.herased = [] ∧ m.verased = [] ∧ m.eerased = [] ∧ m.ferased = []

/-- An order of the addresses of the edges: the edge `e0` is at the lowest address, and the
other edges follow in the order of their ids. -/
def addr_first (e0 : Nat) (e : Nat) : Nat := if e = e0 then 0 else e + 1

/-- Every record of the queue belongs to an edge of the mesh that is not erased. -/
def QLive (s : Simplify_State) : Prop := ∀ r ∈ s.edge_queue.queue, s.mesh.live_e r.edge

/-- A fan with a loop, flat in the plane `z = 0`: the triangles 2 = (1, 0, 3), 3 = (0, 1, 2)
and 4 = (2, 1, 3) on the vertices 0 = (0, 0), 1 = (2, 0), 2 = (1, 2), 3 = (1, -2), and three
boundary faces. The vertices 0 and 1 are joined by two edges, 0 and 2; between them lies the
boundary face 0, whose loop is the half-edge 0 of the edge 0 (from 0 to 1), the half-edge 1
of the edge 1 (from the vertex 1 to itself) and the half-edge 2 of the edge 2 (from 1 to
0). The twin 3 of the half-edge 1 is alone in the loop of the boundary face 1. The boundary
face 5 is the triangle (0, 2, 3) around the fan. The twin 4 of the half-edge 0 is in the
triangle 2. -/
def loop_fan : Halfedge_Mesh :=
  (of_tables [1, 2, 0, 3, 5, 6, 4, 8, 9, 7, 11, 12, 10, 14, 15, 13]
    [4, 3, 7, 1, 0, 15, 11, 2, 10, 13, 8, 6, 14, 9, 12, 5]
    [0, 1, 1, 1, 1, 0, 3, 0, 1, 2, 2, 1, 3, 0, 2, 3]
    [0, 1, 2, 1, 0, 3, 4, 2, 5, 6, 5, 4, 7, 6, 7, 3]
    [0, 0, 0, 1, 2, 2, 2, 3, 3, 3, 4, 4, 4, 5, 5, 5]
    [13, 8, 9, 6]
    [0, 1, 2, 5, 6, 8, 9, 12]
    [0, 3, 4, 7, 10, 13]
    [true, true, false, false, false, true]).with_positions
  [⟨0, 0, 0⟩, ⟨2, 0, 0⟩, ⟨1, 2, 0⟩, ⟨1, -2, 0⟩]

theorem bind_eq_ok {α β : Type} {x : Except Fault α} {f : α → Except Fault β} {r : β} :
    x.bind f = .ok r ↔ ∃ a, x = .ok a ∧ f a = .ok r := by
  cases x with
  | error e => simp [Except.bind]
  | ok a => simp [Except.bind]

@[simp] theorem ok_bind {α β : Type} (a : α) (f : α → Except Fault β) :
    (Except.ok a : Except Fault α).bind f = f a := rfl

@[simp] theorem error_bind {α β : Type} (e : Fault) (f : α → Except Fault β) :
    (Except.error e : Except Fault α).bind f = .error e := rfl

/-! ## Iterating a map that is injective on a finite set -/

/-- The iterates of a map that keeps a set stay in the set. -/
theorem iterate_mem (f : Nat → Nat) (P : Nat → Prop) (hmaps : ∀ x, P x → P (f x)) :
    ∀ n x, P x → P (f^[n] x) := by
  intro n
  induction n with
  | zero => intro x hx; exact hx
  | succ n ih => intro x hx; rw [Function.iterate_succ_apply]; exact ih _ (hmaps x hx)

/-- The iterates of a map injective on a set it keeps are injective on the set. -/
theorem iterate_inj (f : Nat → Nat) (P : Nat → Prop) (hmaps : ∀ x, P x → P (f x))
    (hinj : ∀ a b, P a → P b → f a = f b → a = b) :
    ∀ n a b, P a → P b → f^[n] a = f^[n] b → a = b := by
  intro n
  induction n with
  | zero => intro a b _ _ h; exact h
  | succ n ih =>
    intro a b ha hb h
    rw [Function.iterate_succ_apply, Function.iterate_succ_apply] at h
    exact hinj a b ha hb (ih _ _ (hmaps a ha) (hmaps b hb) h)

/-- Every element of a finite set is periodic under a map that is injective on the set and
keeps it, with a period at most the size of the set. -/
theorem exists_period (f : Nat → Nat) (l : List Nat) (hmaps : ∀ x ∈ l, f x ∈ l)
    (hinj : ∀ a ∈ l, ∀ b ∈ l, f a = f b → a = b) (x : Nat) (hx : x ∈ l) :
    ∃ n, 0 < n ∧ n ≤ l.length ∧ f^[n] x = x := by
  have hcard : l.toFinset.card < (Finset.range (l.length + 1)).card := by
    rw [Finset.card_range]
    exact Nat.lt_succ_of_le (List.toFinset_card_le l)
  have hm : ∀ i ∈ Finset.range (l.length + 1), f^[i] x ∈ l.toFinset := by
    intro i _
    rw [List.mem_toFinset]
    exact iterate_mem f (· ∈ l) hmaps i x hx
  obtain ⟨i, hi, j, hj, hne, heq⟩ := Finset.exists_ne_map_eq_of_card_lt_of_maps_to hcard hm
  rw [Finset.mem_range] at hi hj
  have key : ∀ a b : Nat, a < b → b < l.length + 1 → f^[a] x = f^[b] x →
      ∃ n, 0 < n ∧ n ≤ l.length ∧ f^[n] x = x := by
    intro a b hab hb h
    refine ⟨b - a, by omega, by omega, ?_⟩
    have h2 : f^[a] x = f^[a] (f^[b - a] x) := by
      rw [← Function.iterate_add_apply, h]
      congr 1
      omega
    exact (iterate_inj f (· ∈ l) hmaps (fun a b ha hb => hinj a ha b hb) a _ _ hx
      (iterate_mem f (· ∈ l) hmaps _ x hx) h2).symm
  rcases Nat.lt_or_gt_of_ne hne with h | h
  · exact key i j h hj heq
  · exact key j i h hi heq.symm

/-- A point of period `p` comes back after any multiple of `p` steps. -/
theorem iterate_mul_period (f : Nat → Nat) (x p : Nat) (hp : f^[p] x = x) :
    ∀ q, f^[p * q] x = x := by
  intro q
  induction q with
  | zero => rfl
  | succ q ih => rw [Nat.mul_succ, Function.iterate_add_apply, hp, ih]

/-- From any point of the orbit of a periodic point one comes back to the point in at most
as many steps as the period. -/
theorem exists_return (f : Nat → Nat) (x p : Nat) (hp0 : 0 < p) (hp : f^[p] x = x) (j : Nat) :
    ∃ k < p, f (f^[k] (f^[j] x)) = x := by
  refine ⟨(p - 1) - j % p, ?_, ?_⟩
  · omega
  · rw [← Function.iterate_succ_apply' f, ← Function.iterate_add_apply]
    have hj : j % p < p := Nat.mod_lt j hp0
    have : (p - 1 - j % p).succ + j = p * (j / p + 1) := by
      have := Nat.div_add_mod j p
      rw [Nat.mul_add, Nat.mul_one]
      omega
    rw [this]
    exact iterate_mul_period f x p hp _

/-! ## The loops -/

/-- The walk `while (step(h) != target) h = step(h)` stops at the first point of the orbit
of `h` whose image is `target`, if there is one within the fuel. -/
theorem walk_to_ok (f : Nat → Nat) (target : Nat) :
    ∀ fuel h k, k < fuel → f (f^[k] h) = target →
      ∃ j ≤ k, walk_to f target fuel h = .ok (f^[j] h) ∧ f (f^[j] h) = target := by
  intro fuel
  induction fuel with
  | zero => intro h k hk; omega
  | succ fuel ih =>
    intro h k hk hfk
    by_cases c : f h = target
    · exact ⟨0, Nat.zero_le _, by simp [walk_to, c], c⟩
    · cases k with
      | zero => exact absurd hfk c
      | succ k =>
        rw [Function.iterate_succ_apply] at hfk
        obtain ⟨j, hj, hw, hfj⟩ := ih (f h) k (by omega) hfk
        refine ⟨j + 1, by omega, ?_, ?_⟩
        · rw [Function.iterate_succ_apply]
          simp [walk_to, c, hw]
        · rw [Function.iterate_succ_apply]; exact hfj

/-- What a finished walk returns: a point of the orbit of `h` whose image is `target`. -/
theorem walk_to_sound (f : Nat → Nat) (target : Nat) :
    ∀ fuel h y, walk_to f target fuel h = .ok y →
      f y = target ∧ ∃ j < fuel, y = f^[j] h ∧ ∀ i < j, f (f^[i] h) ≠ target := by
  intro fuel
  induction fuel with
  | zero => intro h y hw; simp [walk_to] at hw
  | succ fuel ih =>
    intro h y hw
    by_cases c : f h = target
    · simp [walk_to, c] at hw
      subst hw
      exact ⟨c, 0, Nat.succ_pos _, rfl, fun i hi => absurd hi (Nat.not_lt_zero i)⟩
    · simp [walk_to, c] at hw
      obtain ⟨hy, j, hj, hyj, hmin⟩ := ih (f h) y hw
      refine ⟨hy, j + 1, by omega, by rw [Function.iterate_succ_apply]; exact hyj, ?_⟩
      intro i hi
      cases i with
      | zero => exact c
      | succ i => rw [Function.iterate_succ_apply]; exact hmin i (by omega)

/-- The counting loop, entered after `i` steps with count `i`, returns the first `d > i`
with `step^[d] start = start`. -/
theorem count_loop_sound (f : Nat → Nat) (s : Nat) :
    ∀ fuel i d, count_loop f s fuel (f^[i] s) i = .ok d →
      i < d ∧ d ≤ i + fuel ∧ f^[d] s = s ∧ ∀ j, i < j → j < d → f^[j] s ≠ s := by
  intro fuel
  induction fuel with
  | zero => intro i d h; simp [count_loop] at h
  | succ fuel ih =>
    intro i d h
    by_cases c : f (f^[i] s) = s
    · simp [count_loop, c] at h
      subst h
      refine ⟨Nat.lt_succ_self i, by omega, ?_, fun j h1 h2 => by omega⟩
      rw [Function.iterate_succ_apply']; exact c
    · simp only [count_loop, c, if_false] at h
      rw [← Function.iterate_succ_apply' f] at h
      obtain ⟨h1, h2, h3, h4⟩ := ih (i + 1) d h
      refine ⟨by omega, by omega, h3, ?_⟩
      intro j hj1 hj2
      by_cases cj : j = i + 1
      · subst cj; rw [Function.iterate_succ_apply']; exact c
      · exact h4 j (by omega) hj2

/-- The counting loop finishes when the start is periodic and the fuel covers the period. -/
theorem count_loop_ok (f : Nat → Nat) (s : Nat) :
    ∀ fuel i p, i < p → p ≤ i + fuel → f^[p] s = s →
      ∃ d, count_loop f s fuel (f^[i] s) i = .ok d := by
  intro fuel
  induction fuel with
  | zero => intro i p h1 h2; omega
  | succ fuel ih =>
    intro i p h1 h2 hp
    by_cases c : f (f^[i] s) = s
    · exact ⟨i + 1, by simp [count_loop, c]⟩
    · have hne : p ≠ i + 1 := by
        intro h; subst h; rw [Function.iterate_succ_apply'] at hp; exact c hp
      obtain ⟨d, hd⟩ := ih (i + 1) p (by omega) (by omega) hp
      refine ⟨d, ?_⟩
      simp only [count_loop, c, if_false]
      rw [← Function.iterate_succ_apply' f]
      exact hd

/-! ## Consequences of validity -/

theorem Valid.live_next {m : Halfedge_Mesh} (hv : Valid m) {h : Nat} (hh : m.live_h h) :
    m.live_h (m.next h) := (hv.refs h hh.1 hh).1

theorem Valid.live_twin {m : Halfedge_Mesh} (hv : Valid m) {h : Nat} (hh : m.live_h h) :
    m.live_h (m.twin h) := (hv.refs h hh.1 hh).2.1

theorem Valid.live_vertex {m : Halfedge_Mesh} (hv : Valid m) {h : Nat} (hh : m.live_h h) :
    m.live_v (m.vertex h) := (hv.refs h hh.1 hh).2.2.1

theorem Valid.live_edge {m : Halfedge_Mesh} (hv : Valid m) {h : Nat} (hh : m.live_h h) :
    m.live_e (m.edge h) := (hv.refs h hh.1 hh).2.2.2.1

theorem Valid.live_face {m : Halfedge_Mesh} (hv : Valid m) {h : Nat} (hh : m.live_h h) :
    m.live_f (m.face h) := (hv.refs h hh.1 hh).2.2.2.2

theorem Valid.tt {m : Halfedge_Mesh} (hv : Valid m) {h : Nat} (hh : m.live_h h) :
    m.twin (m.twin h) = h := (hv.twin_twin h hh.1 hh).1

theorem Valid.twin_ne {m : Halfedge_Mesh} (hv : Valid m) {h : Nat} (hh : m.live_h h) :
    m.twin h ≠ h := (hv.twin_twin h hh.1 hh).2.1

theorem Valid.edge_twin {m : Halfedge_Mesh} (hv : Valid m) {h : Nat} (hh : m.live_h h) :
    m.edge (m.twin h) = m.edge h := (hv.twin_twin h hh.1 hh).2.2

theorem Valid.face_next {m : Halfedge_Mesh} (hv : Valid m) {h : Nat} (hh : m.live_h h) :
    m.face (m.next h) = m.face h := (hv.next_face h hh.1 hh).1

theorem Valid.vertex_rot {m : Halfedge_Mesh} (hv : Valid m) {h : Nat} (hh : m.live_h h) :
    m.vertex (m.rot h) = m.vertex h := (hv.next_face h hh.1 hh).2

theorem Valid.vertex_next {m : Halfedge_Mesh} (hv : Valid m) {h : Nat} (hh : m.live_h h) :
    m.vertex (m.next h) = m.vertex (m.twin h) := by
  have := hv.vertex_rot (hv.live_twin hh)
  rwa [rot, hv.tt hh] at this

theorem Valid.next_injective {m : Halfedge_Mesh} (hv : Valid m) {a b : Nat} (ha : m.live_h a)
    (hb : m.live_h b) (h : m.next a = m.next b) : a = b :=
  hv.next_inj a ha.1 b hb.1 ha hb h

theorem Valid.twin_injective {m : Halfedge_Mesh} (hv : Valid m) {a b : Nat} (ha : m.live_h a)
    (hb : m.live_h b) (h : m.twin a = m.twin b) : a = b := by
  rw [← hv.tt ha, ← hv.tt hb, h]

theorem Valid.live_rot {m : Halfedge_Mesh} (hv : Valid m) {h : Nat} (hh : m.live_h h) :
    m.live_h (m.rot h) := hv.live_next (hv.live_twin hh)

theorem Valid.rot_injective {m : Halfedge_Mesh} (hv : Valid m) {a b : Nat} (ha : m.live_h a)
    (hb : m.live_h b) (h : m.rot a = m.rot b) : a = b :=
  hv.twin_injective ha hb (hv.next_injective (hv.live_twin ha) (hv.live_twin hb) h)

theorem Valid.live_ehalfedge {m : Halfedge_Mesh} (hv : Valid m) {e : Nat} (he : m.live_e e) :
    m.live_h (m.ehalfedge e) := (hv.edge_he e he.1 he).1

theorem Valid.live_vhalfedge {m : Halfedge_Mesh} (hv : Valid m) {v : Nat} (h : m.live_v v) :
    m.live_h (m.vhalfedge v) := (hv.vertex_he v h.1 h).1

theorem Valid.live_fhalfedge {m : Halfedge_Mesh} (hv : Valid m) {f : Nat} (h : m.live_f f) :
    m.live_h (m.fhalfedge f) := (hv.face_he f h.1 h).1

/-- The list of the half-edges that are live and not marked erased. -/
theorem mem_live_list (m : Halfedge_Mesh) (h : Nat) :
    h ∈ m.halfedges.filter (fun h => h ∉ m.herased) ↔ m.live_h h := by
  simp [live_h]

/-- In a valid mesh `next` brings every half-edge back to itself (invariant 2 of the spec). -/
theorem Valid.next_period {m : Halfedge_Mesh} (hv : Valid m) {h : Nat} (hh : m.live_h h) :
    ∃ n, 0 < n ∧ n ≤ m.halfedges.length ∧ m.next^[n] h = h := by
  obtain ⟨n, h0, h1, h2⟩ := exists_period m.next (m.halfedges.filter (fun h => h ∉ m.herased))
    (fun x hx => (mem_live_list m _).2 (hv.live_next ((mem_live_list m x).1 hx)))
    (fun a ha b hb => hv.next_injective ((mem_live_list m a).1 ha) ((mem_live_list m b).1 hb))
    h ((mem_live_list m h).2 hh)
  exact ⟨n, h0, le_trans h1 (List.length_filter_le _ _), h2⟩

/-- In a valid mesh the rotation brings every half-edge back to itself (invariant 4 of the
spec). -/
theorem Valid.rot_period {m : Halfedge_Mesh} (hv : Valid m) {h : Nat} (hh : m.live_h h) :
    ∃ n, 0 < n ∧ n ≤ m.halfedges.length ∧ m.rot^[n] h = h := by
  obtain ⟨n, h0, h1, h2⟩ := exists_period m.rot (m.halfedges.filter (fun h => h ∉ m.herased))
    (fun x hx => (mem_live_list m _).2 (hv.live_rot ((mem_live_list m x).1 hx)))
    (fun a ha b hb => hv.rot_injective ((mem_live_list m a).1 ha) ((mem_live_list m b).1 hb))
    h ((mem_live_list m h).2 hh)
  exact ⟨n, h0, le_trans h1 (List.length_filter_le _ _), h2⟩

theorem Valid.live_iter_next {m : Halfedge_Mesh} (hv : Valid m) {h : Nat} (hh : m.live_h h)
    (n : Nat) : m.live_h (m.next^[n] h) :=
  iterate_mem m.next m.live_h (fun _ hx => hv.live_next hx) n h hh

theorem Valid.live_iter_rot {m : Halfedge_Mesh} (hv : Valid m) {h : Nat} (hh : m.live_h h)
    (n : Nat) : m.live_h (m.rot^[n] h) :=
  iterate_mem m.rot m.live_h (fun _ hx => hv.live_rot hx) n h hh

/-- In a valid mesh, the walk along `next` from a point of the loop of `h` up to `h` ends
on the half-edge before `h`. -/
theorem Valid.walk_prev {m : Halfedge_Mesh} (hv : Valid m) {h : Nat} (hh : m.live_h h)
    {fuel : Nat} (hfuel : m.halfedges.length ≤ fuel) (j : Nat) :
    ∃ y, walk_to m.next h fuel (m.next^[j] h) = .ok y ∧ m.next y = h ∧ m.live_h y := by
  obtain ⟨p, hp0, hp1, hp⟩ := hv.next_period hh
  obtain ⟨k, hk, hret⟩ := exists_return m.next h p hp0 hp j
  obtain ⟨i, _, hw, hfi⟩ := walk_to_ok m.next h fuel (m.next^[j] h) k (by omega) hret
  exact ⟨_, hw, hfi, hv.live_iter_next (hv.live_iter_next hh j) i⟩


/-! ## The concrete meshes are valid -/

theorem quad_valid : Valid quad := by decide
theorem two_triangles_valid : Valid two_triangles := by decide
theorem two_quads_valid : Valid two_quads := by decide
theorem two_spokes_valid : Valid two_spokes := by decide
theorem loop_edge_valid : Valid loop_edge := by decide
theorem pentagon_valid : Valid pentagon := by decide
theorem lens_valid : Valid lens := by decide
theorem spokes_sphere_valid : Valid spokes_sphere := by decide
theorem open_tetra_valid : Valid open_tetra := by decide
theorem strip_valid : Valid strip := by decide
theorem strip_flat_valid : Valid strip_flat := by decide
theorem loop_tetra_valid : Valid loop_tetra := by decide
theorem tetrahedron_valid : Valid tetrahedron := by decide
set_option maxRecDepth 100000 in
theorem cube_valid : Valid cube := by decide
set_option maxRecDepth 100000 in
theorem cube_flat_valid : Valid cube_flat := by decide
set_option maxRecDepth 100000 in
theorem kite_valid : Valid kite := by decide
set_option maxRecDepth 100000 in
theorem quad_square_valid : Valid quad_square := by decide
set_option maxRecDepth 100000 in
theorem loop_fan_valid : Valid loop_fan := by decide

set_option maxRecDepth 100000 in
theorem bipyramid_valid : Valid bipyramid := by decide

/-- C1: a refused call leaves the mesh as it was. Whenever collapse_edge, flip_edge or
split_edge returns the absent result, the mesh after the call is the mesh before it (same
live and erased sets, same relations, same positions, nothing created), and bevel_face on a
boundary face returns with the mesh unchanged. -/
theorem C1_refused_call_leaves_mesh_unchanged (m : Halfedge_Mesh) (fuel e f : Nat) :
    (∀ m', m.collapse_edge fuel e = .ok (none, m') → m' = m) ∧
    (∀ m', m.flip_edge fuel e = .ok (none, m') → m' = m) ∧
    (∀ m', m.split_edge fuel e = .ok (none, m') → m' = m) ∧
    (m.boundary f = true → ∀ r m', m.bevel_face fuel f = .ok (r, m') → m' = m) := by
  refine ⟨?_, ?_, ?_, ?_⟩
  · intro m' h
    unfold collapse_edge at h
    dsimp only at h
    rw [bind_eq_ok] at h
    obtain ⟨d1, -, h⟩ := h
    split at h
    · simpa using h.symm
    rw [bind_eq_ok] at h
    obtain ⟨d0, -, h⟩ := h
    split at h
    · simpa using h.symm
    split at h
    · simpa using h.symm
    rw [bind_eq_ok] at h
    obtain ⟨m2, -, h⟩ := h
    simp at h
  · intro m' h
    unfold flip_edge at h
    split at h
    · simpa using h.symm
    rw [bind_eq_ok] at h
    obtain ⟨m2, -, h⟩ := h
    simp at h
  · intro m' h
    unfold split_edge at h
    dsimp only at h
    rw [bind_eq_ok] at h
    obtain ⟨h2, -, h⟩ := h
    by_cases c1 : m.next (m.next (m.split_h0 e)) ≠ h2
    · rw [if_pos c1] at h
      simpa using h.symm
    rw [if_neg c1, bind_eq_ok] at h
    obtain ⟨h5, -, h⟩ := h
    split_ifs at h
    all_goals first
      | (simpa using h.symm)
      | (rw [bind_eq_ok] at h; obtain ⟨m2, -, h⟩ := h; simp at h)
  · intro hb r m' h
    unfold bevel_face at h
    simp [hb] at h
    exact h.2.symm

/-- C6: flip_edge returns the absent result exactly when the edge is on the boundary, and
returns the edge it was given otherwise (on a valid mesh, with fuel for the longest loop). -/
theorem C6_flip_edge_result (m : Halfedge_Mesh) (fuel e : Nat) (hv : Valid m)
    (he : m.live_e e) (hfuel : m.halfedges.length ≤ fuel) :
    ∃ r m', m.flip_edge fuel e = .ok (r, m') ∧ (r = none ↔ m.on_boundary e = true) ∧
      (m.on_boundary e = false → r = some e) := by
  by_cases hb : m.on_boundary e = true
  · exact ⟨none, m, by simp [flip_edge, hb], by simp [hb], by simp [hb]⟩
  · have h0 := hv.live_ehalfedge he
    obtain ⟨h2, hw2, -, -⟩ := hv.walk_prev h0 hfuel 2
    obtain ⟨h5, hw5, -, -⟩ := hv.walk_prev (hv.live_twin h0) hfuel 2
    simp only [Function.iterate_succ, Function.iterate_zero, Function.comp_apply, id_eq]
      at hw2 hw5
    have hrun : ∃ m', m.flip_run fuel e = .ok m' := by
      unfold flip_run
      simp only [hw2, hw5, ok_bind]
      exact ⟨_, rfl⟩
    obtain ⟨m', hm'⟩ := hrun
    refine ⟨some e, m', by simp [flip_edge, hb, hm'], by simp [hb], fun _ => rfl⟩

/-! ## Assignments to a map -/

theorem upd_same {α : Type} (f : Nat → α) (a : Nat) (b : α) : upd f a b a = b := by simp [upd]

theorem upd_other {α : Type} (f : Nat → α) (a : Nat) (b : α) (x : Nat) (h : x ≠ a) :
    upd f a b x = f x := by simp [upd, h]

@[simp] theorem upd_self {α : Type} (f : Nat → α) (a : Nat) : upd f a (f a) = f := by
  funext x; by_cases h : x = a <;> simp [upd, h]

theorem upd_eq_self {α : Type} (f : Nat → α) (a : Nat) (b : α) (h : f a = b) :
    upd f a b = f := by subst h; exact upd_self f a

/-! ## flip_edge on two triangles -/

section flip
variable {m : Halfedge_Mesh} {e h0 h1 h2 h3 h4 h5 : Nat}

theorem FlipConfig.distinct (c : FlipConfig m e h0 h1 h2 h3 h4 h5) :
    (h0 ≠ h1 ∧ h0 ≠ h2 ∧ h0 ≠ h3 ∧ h0 ≠ h4 ∧ h0 ≠ h5) ∧ (h1 ≠ h2 ∧ h1 ≠ h3 ∧ h1 ≠ h4 ∧ h1 ≠ h5) ∧
    (h2 ≠ h3 ∧ h2 ≠ h4 ∧ h2 ≠ h5) ∧ (h3 ≠ h4 ∧ h3 ≠ h5) ∧ h4 ≠ h5 := by
  have := c.nodup
  simp only [List.nodup_cons, List.mem_cons, List.mem_singleton, not_or, List.not_mem_nil,
    not_false_eq_true, List.nodup_nil, and_true] at this
  tauto

/-- The twins of the four outer half-edges are neither of the two half-edges of the edge. -/
theorem FlipConfig.twins_off_edge (c : FlipConfig m e h0 h1 h2 h3 h4 h5) :
    (m.twin h1 ≠ h0 ∧ m.twin h1 ≠ h3) ∧ (m.twin h2 ≠ h0 ∧ m.twin h2 ≠ h3) ∧
    (m.twin h4 ≠ h0 ∧ m.twin h4 ≠ h3) ∧ (m.twin h5 ≠ h0 ∧ m.twin h5 ≠ h3) := by
  obtain ⟨⟨a1, a2, a3, a4, a5⟩, ⟨b1, b2, b3, b4⟩, ⟨c1, c2, c3⟩, ⟨d1, d2⟩, e1⟩ := c.distinct
  have key : ∀ x, m.twin (m.twin x) = x → x ≠ h0 → x ≠ h3 → m.twin x ≠ h0 ∧ m.twin x ≠ h3 := by
    intro x hx n0 n3
    constructor
    · intro h; rw [h, c.t0] at hx; exact n3 hx.symm
    · intro h; rw [h, c.t3] at hx; exact n0 hx.symm
  exact ⟨key h1 c.tt1 (Ne.symm a1) b2, key h2 c.tt2 (Ne.symm a2) c1,
    key h4 c.tt4 (Ne.symm a4) (Ne.symm d1), key h5 c.tt5 (Ne.symm a5) (Ne.symm d2)⟩

theorem flip_wire_next (_c : FlipConfig m e h0 h1 h2 h3 h4 h5) :
    (flip_wire m e h0 h1 h2 h2 h3 h4 h5 h5).next =
      upd (upd (upd (upd (upd (upd m.next h0 h2) h1 h3) h2 h4) h3 h5) h4 h0) h5 h1 := by
  simp only [flip_wire, set_next, set_twin, set_vertex, set_edge, set_face, set_vhalfedge,
    set_ehalfedge, set_fhalfedge, keep_next, keep_vertex, keep_face, upd_self]

theorem flip_wire_twin (c : FlipConfig m e h0 h1 h2 h3 h4 h5) :
    (flip_wire m e h0 h1 h2 h2 h3 h4 h5 h5).twin = m.twin := by
  simp only [flip_wire, set_next, set_twin, set_vertex, set_edge, set_face, set_vhalfedge,
    set_ehalfedge, set_fhalfedge, keep_next, keep_vertex, keep_face, upd_self,
    upd_eq_self m.twin h0 h3 c.t0, upd_eq_self m.twin h3 h0 c.t3,
    upd_eq_self m.twin _ h1 c.tt1, upd_eq_self m.twin _ h2 c.tt2,
    upd_eq_self m.twin _ h4 c.tt4, upd_eq_self m.twin _ h5 c.tt5]

theorem flip_wire_edge (c : FlipConfig m e h0 h1 h2 h3 h4 h5) :
    (flip_wire m e h0 h1 h2 h2 h3 h4 h5 h5).edge = m.edge := by
  simp only [flip_wire, set_next, set_twin, set_vertex, set_edge, set_face, set_vhalfedge,
    set_ehalfedge, set_fhalfedge, keep_next, keep_vertex, keep_face, upd_self,
    upd_eq_self m.edge h0 e c.e0, upd_eq_self m.edge h3 e c.e3,
    upd_eq_self m.edge _ _ c.et1, upd_eq_self m.edge _ _ c.et2,
    upd_eq_self m.edge _ _ c.et4, upd_eq_self m.edge _ _ c.et5]

theorem flip_wire_vertex (c : FlipConfig m e h0 h1 h2 h3 h4 h5) :
    (flip_wire m e h0 h1 h2 h2 h3 h4 h5 h5).vertex =
      upd (upd m.vertex h0 (m.vertex h5)) h3 (m.vertex h2) := by
  obtain ⟨⟨a1, a2, a3, a4, a5⟩, ⟨b1, b2, b3, b4⟩, ⟨c1, c2, c3⟩, ⟨d1, d2⟩, e1⟩ := c.distinct
  obtain ⟨⟨t10, t13⟩, ⟨t20, t23⟩, ⟨t40, t43⟩, ⟨t50, t53⟩⟩ := c.twins_off_edge
  simp only [flip_wire, set_next, set_twin, set_vertex, set_edge, set_face, set_vhalfedge,
    set_ehalfedge, set_fhalfedge, keep_next, keep_vertex, keep_face, upd_self]
  rw [c.vt4, c.vt1]
  rw [upd_eq_self (upd m.vertex h0 _) h1 _ (by rw [upd_other _ _ _ _ (Ne.symm a1), c.v1])]
  rw [upd_eq_self (upd (upd m.vertex h0 _) h3 _) h4 _
    (by rw [upd_other _ _ _ _ (Ne.symm d1), upd_other _ _ _ _ (Ne.symm a4), c.v4])]
  rw [upd_eq_self (upd (upd m.vertex h0 _) h3 _) (m.twin h1) _
    (by rw [upd_other _ _ _ _ t13, upd_other _ _ _ _ t10, c.vt1])]
  rw [upd_eq_self (upd (upd m.vertex h0 _) h3 _) (m.twin h2) _
    (by rw [upd_other _ _ _ _ t23, upd_other _ _ _ _ t20, c.vt2])]
  rw [upd_eq_self (upd (upd m.vertex h0 _) h3 _) (m.twin h4) _
    (by rw [upd_other _ _ _ _ t43, upd_other _ _ _ _ t40, c.vt4])]
  rw [upd_eq_self (upd (upd m.vertex h0 _) h3 _) (m.twin h5) _
    (by rw [upd_other _ _ _ _ t53, upd_other _ _ _ _ t50, c.vt5])]

theorem flip_wire_face (c : FlipConfig m e h0 h1 h2 h3 h4 h5) :
    (flip_wire m e h0 h1 h2 h2 h3 h4 h5 h5).face =
      upd (upd m.face h1 (m.face h3)) h4 (m.face h0) := by
  obtain ⟨⟨a1, a2, a3, a4, a5⟩, ⟨b1, b2, b3, b4⟩, ⟨c1, c2, c3⟩, ⟨d1, d2⟩, e1⟩ := c.distinct
  simp only [flip_wire, set_next, set_twin, set_vertex, set_edge, set_face, set_vhalfedge,
    set_ehalfedge, set_fhalfedge, keep_next, keep_vertex, keep_face, upd_self]
  rw [upd_eq_self (upd m.face h1 _) h2 _ (by rw [upd_other _ _ _ _ (Ne.symm b1), c.f2])]
  rw [upd_eq_self (upd m.face h1 _) h3 _ (by rw [upd_other _ _ _ _ (Ne.symm b2)])]
  rw [upd_eq_self (upd (upd m.face h1 _) h4 _) h5 _
    (by rw [upd_other _ _ _ _ (Ne.symm e1), upd_other _ _ _ _ (Ne.symm b4), c.f5])]

theorem flip_wire_ehalfedge (c : FlipConfig m e h0 h1 h2 h3 h4 h5) :
    (flip_wire m e h0 h1 h2 h2 h3 h4 h5 h5).ehalfedge e = h0 := by
  simp only [flip_wire, set_next, set_twin, set_vertex, set_edge, set_face, set_vhalfedge,
    set_ehalfedge, set_fhalfedge, keep_next, keep_vertex, keep_face]
  rw [upd_other _ _ _ _ (Ne.symm c.en2), upd_other _ _ _ _ (Ne.symm c.en4),
    upd_other _ _ _ _ (Ne.symm c.en5), upd_same]

/-- What flip_wire leaves alone: the live sets, the erased sets, the positions, the
boundary flags and the id counter. -/
theorem flip_wire_frame (m : Halfedge_Mesh) (e a b c d p q r s : Nat) :
    (flip_wire m e a b c d p q r s).halfedges = m.halfedges ∧
    (flip_wire m e a b c d p q r s).vertices = m.vertices ∧
    (flip_wire m e a b c d p q r s).edges = m.edges ∧
    (flip_wire m e a b c d p q r s).faces = m.faces ∧
    (flip_wire m e a b c d p q r s).herased = m.herased ∧
    (flip_wire m e a b c d p q r s).verased = m.verased ∧
    (flip_wire m e a b c d p q r s).eerased = m.eerased ∧
    (flip_wire m e a b c d p q r s).ferased = m.ferased ∧
    (flip_wire m e a b c d p q r s).pos = m.pos ∧
    (flip_wire m e a b c d p q r s).boundary = m.boundary ∧
    (flip_wire m e a b c d p q r s).next_id = m.next_id := by
  simp only [flip_wire, set_next, set_twin, set_vertex, set_edge, set_face, set_vhalfedge,
    set_ehalfedge, set_fhalfedge, keep_next, keep_vertex, keep_face, and_self]

/-- On two triangles glued along `e`, flip_edge finds the six half-edges and rewires them. -/
theorem flip_run_config (c : FlipConfig m e h0 h1 h2 h3 h4 h5) (fuel : Nat) (hf : 0 < fuel) :
    m.flip_run fuel e = .ok (flip_wire m e h0 h1 h2 h2 h3 h4 h5 h5) := by
  obtain ⟨k, rfl⟩ : ∃ k, fuel = k + 1 := ⟨fuel - 1, by omega⟩
  simp [flip_run, walk_to, c.he, c.n0, c.n1, c.n2, c.n3, c.n4, c.n5, c.t0]

/-- After the flip the two triangles are `h0, h2, h4` and `h3, h5, h1`, again glued along
`e`: the configuration is the one flip_edge started from, turned by one step. -/
theorem flip_wire_config (c : FlipConfig m e h0 h1 h2 h3 h4 h5) :
    FlipConfig (flip_wire m e h0 h1 h2 h2 h3 h4 h5 h5) e h0 h2 h4 h3 h5 h1 := by
  obtain ⟨⟨a1, a2, a3, a4, a5⟩, ⟨b1, b2, b3, b4⟩, ⟨c1, c2, c3⟩, ⟨d1, d2⟩, e1⟩ := c.distinct
  obtain ⟨⟨t10, t13⟩, ⟨t20, t23⟩, ⟨t40, t43⟩, ⟨t50, t53⟩⟩ := c.twins_off_edge
  have hN := flip_wire_next c
  have hT := flip_wire_twin c
  have hV := flip_wire_vertex c
  have hE := flip_wire_edge c
  have hF := flip_wire_face c
  have hB := (flip_wire_frame m e h0 h1 h2 h2 h3 h4 h5 h5).2.2.2.2.2.2.2.2.2.1
  have hb := c.interior
  simp only [on_boundary, is_boundary, c.he, c.t0, Bool.or_eq_false_iff] at hb
  exact {
  he := flip_wire_ehalfedge c
  interior := by
    simp only [on_boundary, is_boundary, flip_wire_ehalfedge c, hT, hF, hB, c.t0,
      Bool.or_eq_false_iff]
    simp [upd, a1, a4, Ne.symm b2, d1, hb.1, hb.2]
  n0 := by
    simp only [hN, hT, hV, hE, hF]
    simp [upd, a1, a2, a3, a4, a5, b1, b2, b3, b4, c1, c2, c3, d1, d2, e1, a1.symm, a2.symm, a3.symm, a4.symm, a5.symm, b1.symm, b2.symm, b3.symm, b4.symm, c1.symm, c2.symm, c3.symm, d1.symm, d2.symm, e1.symm, t10, t13, t20, t23, t40, t43, t50, t53]
  n1 := by
    simp only [hN, hT, hV, hE, hF]
    simp [upd, a1, a2, a3, a4, a5, b1, b2, b3, b4, c1, c2, c3, d1, d2, e1, a1.symm, a2.symm, a3.symm, a4.symm, a5.symm, b1.symm, b2.symm, b3.symm, b4.symm, c1.symm, c2.symm, c3.symm, d1.symm, d2.symm, e1.symm, t10, t13, t20, t23, t40, t43, t50, t53]
  n2 := by
    simp only [hN, hT, hV, hE, hF]
    simp [upd, a1, a2, a3, a4, a5, b1, b2, b3, b4, c1, c2, c3, d1, d2, e1, a1.symm, a2.symm, a3.symm, a4.symm, a5.symm, b1.symm, b2.symm, b3.symm, b4.symm, c1.symm, c2.symm, c3.symm, d1.symm, d2.symm, e1.symm, t10, t13, t20, t23, t40, t43, t50, t53]
  n3 := by
    simp only [hN, hT, hV, hE, hF]
    simp [upd, a1, a2, a3, a4, a5, b1, b2, b3, b4, c1, c2, c3, d1, d2, e1, a1.symm, a2.symm, a3.symm, a4.symm, a5.symm, b1.symm, b2.symm, b3.symm, b4.symm, c1.symm, c2.symm, c3.symm, d1.symm, d2.symm, e1.symm, t10, t13, t20, t23, t40, t43, t50, t53]
  n4 := by
    simp only [hN, hT, hV, hE, hF]
    simp [upd, a1, a2, a3, a4, a5, b1, b2, b3, b4, c1, c2, c3, d1, d2, e1, a1.symm, a2.symm, a3.symm, a4.symm, a5.symm, b1.symm, b2.symm, b3.symm, b4.symm, c1.symm, c2.symm, c3.symm, d1.symm, d2.symm, e1.symm, t10, t13, t20, t23, t40, t43, t50, t53]
  n5 := by
    simp only [hN, hT, hV, hE, hF]
    simp [upd, a1, a2, a3, a4, a5, b1, b2, b3, b4, c1, c2, c3, d1, d2, e1, a1.symm, a2.symm, a3.symm, a4.symm, a5.symm, b1.symm, b2.symm, b3.symm, b4.symm, c1.symm, c2.symm, c3.symm, d1.symm, d2.symm, e1.symm, t10, t13, t20, t23, t40, t43, t50, t53]
  t0 := by rw [hT]; exact c.t0
  t3 := by rw [hT]; exact c.t3
  tt1 := by rw [hT]; exact c.tt2
  tt2 := by rw [hT]; exact c.tt4
  tt4 := by rw [hT]; exact c.tt5
  tt5 := by rw [hT]; exact c.tt1
  tn1 := by rw [hT]; exact c.tn2
  tn2 := by rw [hT]; exact c.tn4
  tn4 := by rw [hT]; exact c.tn5
  tn5 := by rw [hT]; exact c.tn1
  nodup := by
    simp only [List.nodup_cons, List.mem_cons, List.mem_singleton, not_or, List.not_mem_nil,
      not_false_eq_true, List.nodup_nil, and_true]
    exact ⟨⟨a2, a4, a3, a5, a1⟩, ⟨c2, c1, c3, b1.symm⟩, ⟨d1.symm, e1, b3.symm⟩, ⟨d2, b2.symm⟩,
      b4.symm⟩
  v1 := by
    simp only [hN, hT, hV, hE, hF]
    simp [upd, a1, a2, a3, a4, a5, b1, b2, b3, b4, c1, c2, c3, d1, d2, e1, a1.symm, a2.symm, a3.symm, a4.symm, a5.symm, b1.symm, b2.symm, b3.symm, b4.symm, c1.symm, c2.symm, c3.symm, d1.symm, d2.symm, e1.symm, t10, t13, t20, t23, t40, t43, t50, t53]
  v4 := by
    simp only [hN, hT, hV, hE, hF]
    simp [upd, a1, a2, a3, a4, a5, b1, b2, b3, b4, c1, c2, c3, d1, d2, e1, a1.symm, a2.symm, a3.symm, a4.symm, a5.symm, b1.symm, b2.symm, b3.symm, b4.symm, c1.symm, c2.symm, c3.symm, d1.symm, d2.symm, e1.symm, t10, t13, t20, t23, t40, t43, t50, t53]
  vt1 := by
    simp only [hN, hT, hV, hE, hF]
    simp [upd, a1, a2, a3, a4, a5, b1, b2, b3, b4, c1, c2, c3, d1, d2, e1, a1.symm, a2.symm, a3.symm, a4.symm, a5.symm, b1.symm, b2.symm, b3.symm, b4.symm, c1.symm, c2.symm, c3.symm, d1.symm, d2.symm, e1.symm, t10, t13, t20, t23, t40, t43, t50, t53, c.vt2, c.v4]
  vt2 := by
    simp only [hN, hT, hV, hE, hF]
    simp [upd, a1, a2, a3, a4, a5, b1, b2, b3, b4, c1, c2, c3, d1, d2, e1, a1.symm, a2.symm, a3.symm, a4.symm, a5.symm, b1.symm, b2.symm, b3.symm, b4.symm, c1.symm, c2.symm, c3.symm, d1.symm, d2.symm, e1.symm, t10, t13, t20, t23, t40, t43, t50, t53, c.vt4]
  vt4 := by
    simp only [hN, hT, hV, hE, hF]
    simp [upd, a1, a2, a3, a4, a5, b1, b2, b3, b4, c1, c2, c3, d1, d2, e1, a1.symm, a2.symm, a3.symm, a4.symm, a5.symm, b1.symm, b2.symm, b3.symm, b4.symm, c1.symm, c2.symm, c3.symm, d1.symm, d2.symm, e1.symm, t10, t13, t20, t23, t40, t43, t50, t53, c.vt5, c.v1]
  vt5 := by
    simp only [hN, hT, hV, hE, hF]
    simp [upd, a1, a2, a3, a4, a5, b1, b2, b3, b4, c1, c2, c3, d1, d2, e1, a1.symm, a2.symm, a3.symm, a4.symm, a5.symm, b1.symm, b2.symm, b3.symm, b4.symm, c1.symm, c2.symm, c3.symm, d1.symm, d2.symm, e1.symm, t10, t13, t20, t23, t40, t43, t50, t53, c.vt1]
  e0 := by rw [hE]; exact c.e0
  e3 := by rw [hE]; exact c.e3
  en1 := by rw [hE]; exact c.en2
  en2 := by rw [hE]; exact c.en4
  en4 := by rw [hE]; exact c.en5
  en5 := by rw [hE]; exact c.en1
  et1 := by rw [hE, hT]; exact c.et2
  et2 := by rw [hE, hT]; exact c.et4
  et4 := by rw [hE, hT]; exact c.et5
  et5 := by rw [hE, hT]; exact c.et1
  f1 := by
    simp only [hN, hT, hV, hE, hF]
    simp [upd, a1, a2, a3, a4, a5, b1, b2, b3, b4, c1, c2, c3, d1, d2, e1, a1.symm, a2.symm, a3.symm, a4.symm, a5.symm, b1.symm, b2.symm, b3.symm, b4.symm, c1.symm, c2.symm, c3.symm, d1.symm, d2.symm, e1.symm, t10, t13, t20, t23, t40, t43, t50, t53, c.f2]
  f2 := by
    simp only [hN, hT, hV, hE, hF]
    simp [upd, a1, a2, a3, a4, a5, b1, b2, b3, b4, c1, c2, c3, d1, d2, e1, a1.symm, a2.symm, a3.symm, a4.symm, a5.symm, b1.symm, b2.symm, b3.symm, b4.symm, c1.symm, c2.symm, c3.symm, d1.symm, d2.symm, e1.symm, t10, t13, t20, t23, t40, t43, t50, t53]
  f4 := by
    simp only [hN, hT, hV, hE, hF]
    simp [upd, a1, a2, a3, a4, a5, b1, b2, b3, b4, c1, c2, c3, d1, d2, e1, a1.symm, a2.symm, a3.symm, a4.symm, a5.symm, b1.symm, b2.symm, b3.symm, b4.symm, c1.symm, c2.symm, c3.symm, d1.symm, d2.symm, e1.symm, t10, t13, t20, t23, t40, t43, t50, t53, c.f5]
  f5 := by
    simp only [hN, hT, hV, hE, hF]
    simp [upd, a1, a2, a3, a4, a5, b1, b2, b3, b4, c1, c2, c3, d1, d2, e1, a1.symm, a2.symm, a3.symm, a4.symm, a5.symm, b1.symm, b2.symm, b3.symm, b4.symm, c1.symm, c2.symm, c3.symm, d1.symm, d2.symm, e1.symm, t10, t13, t20, t23, t40, t43, t50, t53]
  }

end flip

/-- The three half-edges of a triangle of a valid mesh are distinct. -/
theorem Valid.triangle_ne {m : Halfedge_Mesh} (hv : Valid m) {h : Nat} (hh : m.live_h h)
    (t : m.triangle h) :
    h ≠ m.next h ∧ h ≠ m.next (m.next h) ∧ m.next h ≠ m.next (m.next h) := by
  have h1 : h ≠ m.next h := Ne.symm t.2
  have h3 : m.next h ≠ m.next (m.next h) := fun c =>
    h1 (hv.next_injective hh (hv.live_next hh) c)
  refine ⟨h1, ?_, h3⟩
  intro c
  have : m.next (m.next (m.next h)) = m.next h := by rw [← c]
  rw [t.1] at this
  exact h1 this

/-- In a valid mesh, an interior edge between two different triangles is in the
configuration flip_edge relies on. -/
theorem Valid.flip_config {m : Halfedge_Mesh} (hv : Valid m) {e : Nat} (he : m.live_e e)
    (hb : m.on_boundary e = false) (t0 : m.triangle (m.ehalfedge e))
    (t1 : m.triangle (m.twin (m.ehalfedge e)))
    (hf : m.face (m.ehalfedge e) ≠ m.face (m.twin (m.ehalfedge e))) :
    FlipConfig m e (m.ehalfedge e) (m.next (m.ehalfedge e)) (m.next (m.next (m.ehalfedge e)))
      (m.twin (m.ehalfedge e)) (m.next (m.twin (m.ehalfedge e)))
      (m.next (m.next (m.twin (m.ehalfedge e)))) := by
  have l0 := hv.live_ehalfedge he
  have l1 := hv.live_next l0
  have l2 := hv.live_next l1
  have l3 := hv.live_twin l0
  have l4 := hv.live_next l3
  have l5 := hv.live_next l4
  obtain ⟨a1, a2, a3⟩ := hv.triangle_ne l0 t0
  obtain ⟨b1, b2, b3⟩ := hv.triangle_ne l3 t1
  have f1 := hv.face_next l0
  have f2 := (hv.face_next l1).trans f1
  have f4 := hv.face_next l3
  have f5 := (hv.face_next l4).trans f4
  have fne : ∀ x y, m.face x = m.face (m.ehalfedge e) →
      m.face y = m.face (m.twin (m.ehalfedge e)) → x ≠ y := by
    intro x y hx hy c
    subst c
    exact hf (hx.symm.trans hy)
  have e0 := (hv.edge_he e he.1 he).2
  have en : ∀ x, m.live_h x → x ≠ m.ehalfedge e → x ≠ m.twin (m.ehalfedge e) → m.edge x ≠ e := by
    intro x lx n0 n3 c
    rcases hv.edge_orbit x lx.1 lx with h | h
    · rw [c] at h; exact n0 h
    · rw [c] at h; exact n3 h
  exact {
    he := rfl, interior := hb, n0 := rfl, n1 := rfl, n2 := t0.1, n3 := rfl, n4 := rfl,
    n5 := t1.1, t0 := rfl, t3 := hv.tt l0, tt1 := hv.tt l1, tt2 := hv.tt l2, tt4 := hv.tt l4,
    tt5 := hv.tt l5, tn1 := hv.twin_ne l1, tn2 := hv.twin_ne l2, tn4 := hv.twin_ne l4,
    tn5 := hv.twin_ne l5,
    nodup := by
      simp only [List.nodup_cons, List.mem_cons, List.mem_singleton, not_or, List.not_mem_nil,
        not_false_eq_true, List.nodup_nil, and_true]
      exact ⟨⟨a1, a2, fne _ _ rfl rfl, fne _ _ rfl f4, fne _ _ rfl f5⟩,
        ⟨a3, fne _ _ f1 rfl, fne _ _ f1 f4, fne _ _ f1 f5⟩,
        ⟨fne _ _ f2 rfl, fne _ _ f2 f4, fne _ _ f2 f5⟩, ⟨b1, b2⟩, b3⟩
    v1 := hv.vertex_next l0
    v4 := by rw [hv.vertex_next l3, hv.tt l0]
    vt1 := (hv.vertex_next l1).symm
    vt2 := by rw [← hv.vertex_next l2, t0.1]
    vt4 := (hv.vertex_next l4).symm
    vt5 := by rw [← hv.vertex_next l5, t1.1]
    e0 := e0
    e3 := by rw [hv.edge_twin l0, e0]
    en1 := en _ l1 (Ne.symm a1) (fne _ _ f1 rfl)
    en2 := en _ l2 (Ne.symm a2) (fne _ _ f2 rfl)
    en4 := en _ l4 (Ne.symm (fne _ _ rfl f4)) (Ne.symm b1)
    en5 := en _ l5 (Ne.symm (fne _ _ rfl f5)) (Ne.symm b2)
    et1 := hv.edge_twin l1, et2 := hv.edge_twin l2, et4 := hv.edge_twin l4,
    et5 := hv.edge_twin l5, f1 := f1, f2 := f2, f4 := f4, f5 := f5 }

theorem flip_wire_fhalfedge {m : Halfedge_Mesh} (e h0 h1 h1n h2 h3 h4 h4n h5 : Nat) :
    (flip_wire m e h0 h1 h1n h2 h3 h4 h4n h5).fhalfedge =
      upd (upd m.fhalfedge (m.face h0) h0) (m.face h3) h3 := by
  simp only [flip_wire, set_next, set_twin, set_vertex, set_edge, set_face, set_vhalfedge,
    set_ehalfedge, set_fhalfedge, keep_next, keep_vertex, keep_face]

theorem flip_edge_config {m : Halfedge_Mesh} {e h0 h1 h2 h3 h4 h5 : Nat}
    (c : FlipConfig m e h0 h1 h2 h3 h4 h5) (fuel : Nat) (hf : 0 < fuel) :
    m.flip_edge fuel e = .ok (some e, flip_wire m e h0 h1 h2 h2 h3 h4 h5 h5) := by
  simp [flip_edge, c.interior, flip_run_config c fuel hf]


/-- C7: on a valid mesh, for an interior edge `e` between two different triangles with
vertex cycles (v0, v1, v3) and (v1, v0, v2), flip_edge succeeds, the two half-edges of `e`
then have the vertices v2 and v3, the two faces are again triangles, with vertex cycles
(v2, v3, v0) and (v3, v2, v1), each of whose three half-edges references the face, and the
numbers of half-edges, vertices, edges and faces are unchanged. -/
theorem C7_flip_edge_two_triangles (m : Halfedge_Mesh) (fuel e : Nat) (hv : Valid m)
    (he : m.live_e e) (hfuel : 0 < fuel) (hb : m.on_boundary e = false)
    (t0 : m.triangle (m.ehalfedge e)) (t1 : m.triangle (m.twin (m.ehalfedge e)))
    (hf : m.face (m.ehalfedge e) ≠ m.face (m.twin (m.ehalfedge e))) :
    let h0 := m.ehalfedge e
    let h3 := m.twin h0
    let v0 := m.vertex h0
    let v1 := m.vertex (m.next h0)
    let v3 := m.vertex (m.next (m.next h0))
    let v2 := m.vertex (m.next (m.next h3))
    (m.vertex h3 = v1 ∧ m.vertex (m.next h3) = v0) ∧
    ∃ m', m.flip_edge fuel e = .ok (some e, m') ∧
      (m'.ehalfedge e = h0 ∧ m'.twin h0 = h3 ∧ m'.twin h3 = h0) ∧
      (m'.vertex h0 = v2 ∧ m'.vertex h3 = v3) ∧
      (m'.triangle h0 ∧ m'.vertex (m'.next h0) = v3 ∧ m'.vertex (m'.next (m'.next h0)) = v0 ∧
        m'.face (m'.next h0) = m'.face h0 ∧ m'.face (m'.next (m'.next h0)) = m'.face h0 ∧
        m'.fhalfedge (m'.face h0) = h0) ∧
      (m'.triangle h3 ∧ m'.vertex (m'.next h3) = v2 ∧ m'.vertex (m'.next (m'.next h3)) = v1 ∧
        m'.face (m'.next h3) = m'.face h3 ∧ m'.face (m'.next (m'.next h3)) = m'.face h3 ∧
        m'.fhalfedge (m'.face h3) = h3) ∧
      (m'.n_halfedges = m.n_halfedges ∧ m'.n_vertices = m.n_vertices ∧
        m'.n_edges = m.n_edges ∧ m'.n_faces = m.n_faces) := by
  intro h0 h3 v0 v1 v3 v2
  have c := hv.flip_config he hb t0 t1 hf
  have c' := flip_wire_config c
  obtain ⟨⟨a1, a2, a3, a4, a5⟩, ⟨b1, b2, b3, b4⟩, ⟨c1, c2, c3⟩, ⟨d1, d2⟩, e1⟩ := c.distinct
  have hV := flip_wire_vertex c
  have hF := flip_wire_face c
  have hFH := flip_wire_fhalfedge (m := m) e h0 (m.next h0) (m.next (m.next h0))
    (m.next (m.next h0)) h3 (m.next h3) (m.next (m.next h3)) (m.next (m.next h3))
  obtain ⟨fr1, fr2, fr3, fr4, fr5, fr6, fr7, fr8, -, -, -⟩ :=
    flip_wire_frame m e h0 (m.next h0) (m.next (m.next h0))
      (m.next (m.next h0)) h3 (m.next h3) (m.next (m.next h3)) (m.next (m.next h3))
  refine ⟨⟨c.v1.symm, c.v4⟩, _, flip_edge_config c fuel hfuel, ⟨c'.he, c'.t0, c'.t3⟩, ?_, ?_, ?_, ?_⟩
  · rw [hV]; simp [upd, a3, h0, h3, v2, v3]
  · refine ⟨⟨?_, ?_⟩, ?_, ?_, ?_, ?_, ?_⟩
    · rw [c'.n0, c'.n1, c'.n2]
    · rw [c'.n0]; exact Ne.symm a2
    · rw [c'.n0, hV]; simp [upd, a2.symm, c1, v3, h0]
    · rw [c'.n0, c'.n1, hV]; simp [upd, a4.symm, d1.symm, v0, h0, h3, c.v4]
    · rw [c'.n0]; exact c'.f1
    · rw [c'.n0, c'.n1]; exact c'.f2
    · rw [hFH, hF]; simp [upd, a1, a4, hf, h0, h3]
  · refine ⟨⟨?_, ?_⟩, ?_, ?_, ?_, ?_, ?_⟩
    · rw [c'.n3, c'.n4, c'.n5]
    · rw [c'.n3]; exact Ne.symm d2
    · rw [c'.n3, hV]; simp [upd, a5.symm, d2.symm, v2, h3]
    · rw [c'.n3, c'.n4, hV]; simp [upd, a1.symm, b2, v1, h0]
    · rw [c'.n3]; exact c'.f4
    · rw [c'.n3, c'.n4]; exact c'.f5
    · rw [hFH, hF]; simp [upd, b2.symm, d1, h0, h3]
  · simp only [n_halfedges, n_vertices, n_edges, n_faces, fr1, fr2, fr3, fr4, fr5, fr6, fr7,
      fr8, and_self]

/-- C8 (amended): on a valid mesh, flipping an interior edge between two different
triangles twice succeeds and restores the twin relation of every half-edge; the vertex and
next relations are restored except at the two half-edges `h0`, `h3` of the edge, which have
exchanged places: their vertices are swapped, their successors are swapped, and the
half-edges that came before `h0` and `h3` now come before `h3` and `h0`. -/
theorem C8_flip_twice (m : Halfedge_Mesh) (fuel e : Nat) (hv : Valid m)
    (he : m.live_e e) (hfuel : 0 < fuel) (hb : m.on_boundary e = false)
    (t0 : m.triangle (m.ehalfedge e)) (t1 : m.triangle (m.twin (m.ehalfedge e)))
    (hf : m.face (m.ehalfedge e) ≠ m.face (m.twin (m.ehalfedge e))) :
    let h0 := m.ehalfedge e
    let h3 := m.twin h0
    let h2 := m.next (m.next h0)
    let h5 := m.next (m.next h3)
    ∃ m1 m2, m.flip_edge fuel e = .ok (some e, m1) ∧ m1.flip_edge fuel e = .ok (some e, m2) ∧
      m2.twin = m.twin ∧
      (m2.vertex h0 = m.vertex h3 ∧ m2.vertex h3 = m.vertex h0 ∧
        ∀ x, x ≠ h0 → x ≠ h3 → m2.vertex x = m.vertex x) ∧
      (m2.next h0 = m.next h3 ∧ m2.next h3 = m.next h0 ∧ m2.next h2 = h3 ∧ m2.next h5 = h0 ∧
        ∀ x, x ≠ h0 → x ≠ h3 → x ≠ h2 → x ≠ h5 → m2.next x = m.next x) := by
  intro h0 h3 h2 h5
  have c := hv.flip_config he hb t0 t1 hf
  have c1 := flip_wire_config c
  obtain ⟨⟨a1, a2, a3, a4, a5⟩, ⟨b1, b2, b3, b4⟩, ⟨k1, k2, k3⟩, ⟨d1, d2⟩, e1⟩ := c.distinct
  refine ⟨_, _, flip_edge_config c fuel hfuel, flip_edge_config c1 fuel hfuel, ?_, ?_, ?_⟩
  · rw [flip_wire_twin c1, flip_wire_twin c]
  · rw [flip_wire_vertex c1, flip_wire_vertex c]
    refine ⟨?_, ?_, ?_⟩
    · simp [upd, a3, a1.symm, b2, h0, h3, c.v1]
    · simp [upd, a4.symm, d1.symm, h0, h3, c.v4]
    · intro x x0 x3; simp [upd, x0, x3]
  · rw [flip_wire_next c1, flip_wire_next c]
    refine ⟨?_, ?_, ?_, ?_, ?_⟩
    · simp [upd, a1, a2, a3, a4, a5, b1, b2, b3, b4, k1, k2, k3, d1, d2, e1, a1.symm, a2.symm, a3.symm, a4.symm, a5.symm, b1.symm, b2.symm, b3.symm, b4.symm, k1.symm, k2.symm, k3.symm, d1.symm, d2.symm, e1.symm, h0, h3]
    · simp [upd, a1, a2, a3, a4, a5, b1, b2, b3, b4, k1, k2, k3, d1, d2, e1, a1.symm, a2.symm, a3.symm, a4.symm, a5.symm, b1.symm, b2.symm, b3.symm, b4.symm, k1.symm, k2.symm, k3.symm, d1.symm, d2.symm, e1.symm, h0, h3]
    · simp [upd, a1, a2, a3, a4, a5, b1, b2, b3, b4, k1, k2, k3, d1, d2, e1, a1.symm, a2.symm, a3.symm, a4.symm, a5.symm, b1.symm, b2.symm, b3.symm, b4.symm, k1.symm, k2.symm, k3.symm, d1.symm, d2.symm, e1.symm, h0, h3, h2]
    · simp [upd, a1, a2, a3, a4, a5, b1, b2, b3, b4, k1, k2, k3, d1, d2, e1, a1.symm, a2.symm, a3.symm, a4.symm, a5.symm, b1.symm, b2.symm, b3.symm, b4.symm, k1.symm, k2.symm, k3.symm, d1.symm, d2.symm, e1.symm, h0, h3, h5]
    · intro x x0 x3 x2 x5
      by_cases x1 : x = m.next h0
      · subst x1; simp [upd, a1, a2, a3, a4, a5, b1, b2, b3, b4, k1, k2, k3, d1, d2, e1, a1.symm, a2.symm, a3.symm, a4.symm, a5.symm, b1.symm, b2.symm, b3.symm, b4.symm, k1.symm, k2.symm, k3.symm, d1.symm, d2.symm, e1.symm, h0, h3]
      by_cases x4 : x = m.next h3
      · subst x4; simp [upd, a1, a2, a3, a4, a5, b1, b2, b3, b4, k1, k2, k3, d1, d2, e1, a1.symm, a2.symm, a3.symm, a4.symm, a5.symm, b1.symm, b2.symm, b3.symm, b4.symm, k1.symm, k2.symm, k3.symm, d1.symm, d2.symm, e1.symm, h0, h3]
      simp only [h0, h3, h2, h5] at x0 x1 x2 x3 x4 x5
      simp [upd, x0, x1, x2, x3, x4, x5]

/-! ## Four flips of an edge -/

/-- The `next` relation after a flip, away from the six half-edges of the two triangles. -/
theorem flip_wire_next_other {m : Halfedge_Mesh} {e h0 h1 h2 h3 h4 h5 : Nat}
    (c : FlipConfig m e h0 h1 h2 h3 h4 h5) (x : Nat) (x0 : x ≠ h0) (x1 : x ≠ h1) (x2 : x ≠ h2)
    (x3 : x ≠ h3) (x4 : x ≠ h4) (x5 : x ≠ h5) :
    (flip_wire m e h0 h1 h2 h2 h3 h4 h5 h5).next x = m.next x := by
  rw [flip_wire_next c, upd_other _ _ _ _ x5, upd_other _ _ _ _ x4, upd_other _ _ _ _ x3,
    upd_other _ _ _ _ x2, upd_other _ _ _ _ x1, upd_other _ _ _ _ x0]

/-- The `vertex` relation after a flip, away from the two half-edges of the edge. -/
theorem flip_wire_vertex_other {m : Halfedge_Mesh} {e h0 h1 h2 h3 h4 h5 : Nat}
    (c : FlipConfig m e h0 h1 h2 h3 h4 h5) (x : Nat) (x0 : x ≠ h0) (x3 : x ≠ h3) :
    (flip_wire m e h0 h1 h2 h2 h3 h4 h5 h5).vertex x = m.vertex x := by
  rw [flip_wire_vertex c, upd_other _ _ _ _ x3, upd_other _ _ _ _ x0]

/-- The `face` relation after a flip, away from the two half-edges that change sides. -/
theorem flip_wire_face_other {m : Halfedge_Mesh} {e h0 h1 h2 h3 h4 h5 : Nat}
    (c : FlipConfig m e h0 h1 h2 h3 h4 h5) (x : Nat) (x1 : x ≠ h1) (x4 : x ≠ h4) :
    (flip_wire m e h0 h1 h2 h2 h3 h4 h5 h5).face x = m.face x := by
  rw [flip_wire_face c, upd_other _ _ _ _ x4, upd_other _ _ _ _ x1]

/-- Four flips of the edge of a configuration of two triangles bring the five relations of
the half-edges back. -/
theorem flip_wire_four {m : Halfedge_Mesh} {e h0 h1 h2 h3 h4 h5 : Nat}
    (c : FlipConfig m e h0 h1 h2 h3 h4 h5) (fuel : Nat) (hfuel : 0 < fuel) :
    ∃ m1 m2 m3 m4, m.flip_edge fuel e = .ok (some e, m1) ∧
      m1.flip_edge fuel e = .ok (some e, m2) ∧ m2.flip_edge fuel e = .ok (some e, m3) ∧
      m3.flip_edge fuel e = .ok (some e, m4) ∧
      FlipConfig m1 e h0 h2 h4 h3 h5 h1 ∧ FlipConfig m2 e h0 h4 h5 h3 h1 h2 ∧
      FlipConfig m3 e h0 h5 h1 h3 h2 h4 ∧ FlipConfig m4 e h0 h1 h2 h3 h4 h5 ∧
      m4.next = m.next ∧ m4.twin = m.twin ∧ m4.vertex = m.vertex ∧ m4.edge = m.edge ∧
      m4.face = m.face := by
  have c1 := flip_wire_config c
  have c2 := flip_wire_config c1
  have c3 := flip_wire_config c2
  have c4 := flip_wire_config c3
  obtain ⟨⟨a1, a2, a3, a4, a5⟩, ⟨b1, b2, b3, b4⟩, ⟨k1, k2, k3⟩, ⟨d1, d2⟩, e1⟩ := c.distinct
  refine ⟨_, _, _, _, flip_edge_config c fuel hfuel, flip_edge_config c1 fuel hfuel,
    flip_edge_config c2 fuel hfuel, flip_edge_config c3 fuel hfuel, c1, c2, c3, c4,
    ?_, ?_, ?_, ?_, ?_⟩
  · funext x
    by_cases x0 : x = h0
    · rw [x0, c4.n0, c.n0]
    by_cases x1 : x = h1
    · rw [x1, c4.n1, c.n1]
    by_cases x2 : x = h2
    · rw [x2, c4.n2, c.n2]
    by_cases x3 : x = h3
    · rw [x3, c4.n3, c.n3]
    by_cases x4 : x = h4
    · rw [x4, c4.n4, c.n4]
    by_cases x5 : x = h5
    · rw [x5, c4.n5, c.n5]
    rw [flip_wire_next_other c3 x x0 x5 x1 x3 x2 x4, flip_wire_next_other c2 x x0 x4 x5 x3 x1 x2,
      flip_wire_next_other c1 x x0 x2 x4 x3 x5 x1, flip_wire_next_other c x x0 x1 x2 x3 x4 x5]
  · rw [flip_wire_twin c3, flip_wire_twin c2, flip_wire_twin c1, flip_wire_twin c]
  · funext x
    by_cases x0 : x = h0
    · rw [x0, ← c4.v4, flip_wire_vertex_other c3 h4 (Ne.symm a4) (Ne.symm d1),
        flip_wire_vertex_other c2 h4 (Ne.symm a4) (Ne.symm d1),
        flip_wire_vertex_other c1 h4 (Ne.symm a4) (Ne.symm d1),
        flip_wire_vertex_other c h4 (Ne.symm a4) (Ne.symm d1), c.v4]
    by_cases x3 : x = h3
    · rw [x3, ← c4.v1, flip_wire_vertex_other c3 h1 (Ne.symm a1) b2,
        flip_wire_vertex_other c2 h1 (Ne.symm a1) b2,
        flip_wire_vertex_other c1 h1 (Ne.symm a1) b2,
        flip_wire_vertex_other c h1 (Ne.symm a1) b2, c.v1]
    rw [flip_wire_vertex_other c3 x x0 x3, flip_wire_vertex_other c2 x x0 x3,
      flip_wire_vertex_other c1 x x0 x3, flip_wire_vertex_other c x x0 x3]
  · rw [flip_wire_edge c3, flip_wire_edge c2, flip_wire_edge c1, flip_wire_edge c]
  · have f0 : ∀ {m' : Halfedge_Mesh} {p q r s t : Nat}, FlipConfig m' e h0 p q h3 r s →
        (flip_wire m' e h0 p q q h3 r s s).face h0 = m'.face h0 ∧
        (flip_wire m' e h0 p q q h3 r s s).face h3 = m'.face h3 := by
      intro m' p q r s _ c'
      obtain ⟨⟨a1', -, a3', a4', -⟩, ⟨-, b2', -, -⟩, -, ⟨d1', -⟩, -⟩ := c'.distinct
      exact ⟨flip_wire_face_other c' h0 a1' a4', flip_wire_face_other c' h3 (Ne.symm b2') d1'⟩
    have g0 := (f0 (t := 0) c).1.symm
    have g1 := (f0 (t := 0) c1).1.symm
    have g2 := (f0 (t := 0) c2).1.symm
    have g3 := (f0 (t := 0) c3).1.symm
    have j0 := (f0 (t := 0) c).2.symm
    have j1 := (f0 (t := 0) c1).2.symm
    have j2 := (f0 (t := 0) c2).2.symm
    have j3 := (f0 (t := 0) c3).2.symm
    funext x
    by_cases x1 : x = h1
    · rw [x1, c4.f1, ← g3, ← g2, ← g1, ← g0, c.f1]
    by_cases x2 : x = h2
    · rw [x2, c4.f2, ← g3, ← g2, ← g1, ← g0, c.f2]
    by_cases x4 : x = h4
    · rw [x4, c4.f4, ← j3, ← j2, ← j1, ← j0, c.f4]
    by_cases x5 : x = h5
    · rw [x5, c4.f5, ← j3, ← j2, ← j1, ← j0, c.f5]
    rw [flip_wire_face_other c3 x x5 x2, flip_wire_face_other c2 x x4 x1,
      flip_wire_face_other c1 x x2 x5, flip_wire_face_other c x x1 x4]

/-- C37: on a valid mesh, for an interior edge between two different triangles, four calls
of flip_edge on the edge in succession all succeed, and after the fourth the relations
`next`, `twin`, `vertex`, `edge` and `face` of every half-edge are those before the
first. -/
theorem C37_flip_edge_four_times (m : Halfedge_Mesh) (fuel e : Nat) (hv : Valid m)
    (he : m.live_e e) (hfuel : 0 < fuel) (hb : m.on_boundary e = false)
    (t0 : m.triangle (m.ehalfedge e)) (t1 : m.triangle (m.twin (m.ehalfedge e)))
    (hf : m.face (m.ehalfedge e) ≠ m.face (m.twin (m.ehalfedge e))) :
    ∃ m1 m2 m3 m4, m.flip_edge fuel e = .ok (some e, m1) ∧
      m1.flip_edge fuel e = .ok (some e, m2) ∧ m2.flip_edge fuel e = .ok (some e, m3) ∧
      m3.flip_edge fuel e = .ok (some e, m4) ∧
      ∀ h, m4.next h = m.next h ∧ m4.twin h = m.twin h ∧ m4.vertex h = m.vertex h ∧
        m4.edge h = m.edge h ∧ m4.face h = m.face h := by
  obtain ⟨m1, m2, m3, m4, r1, r2, r3, r4, -, -, -, -, n, t, v, ed, f⟩ :=
    flip_wire_four (hv.flip_config he hb t0 t1 hf) fuel hfuel
  refine ⟨m1, m2, m3, m4, r1, r2, r3, r4, fun h => ?_⟩
  rw [n, t, v, ed, f]
  exact ⟨rfl, rfl, rfl, rfl, rfl⟩

/-! ## split_edge: the live sets -/

theorem SameSets.rfl' (a : Halfedge_Mesh) : SameSets a a :=
  ⟨rfl, rfl, rfl, rfl, rfl, rfl, rfl, rfl, rfl, rfl⟩

theorem SameSets.trans {a b c : Halfedge_Mesh} (h1 : SameSets a b) (h2 : SameSets b c) :
    SameSets a c :=
  ⟨h1.1.trans h2.1, h1.2.trans h2.2, h1.3.trans h2.3, h1.4.trans h2.4, h1.5.trans h2.5,
   h1.6.trans h2.6, h1.7.trans h2.7, h1.8.trans h2.8, h1.9.trans h2.9, h1.10.trans h2.10⟩

theorem sets_ok {m x : Halfedge_Mesh} (h : SameSets x m) :
    ∀ r, (Except.ok x : Except Fault Halfedge_Mesh) = .ok r → SameSets r m := by
  intro r hr
  cases hr
  exact h

theorem sets_use_bind {m : Halfedge_Mesh} {x : Option Nat} {f : Nat → Except Fault Halfedge_Mesh}
    (h : ∀ a, ∀ r, f a = .ok r → SameSets r m) :
    ∀ r, (use x).bind f = .ok r → SameSets r m := by
  intro r hr
  cases x with
  | none => simp [use] at hr
  | some a => exact h a r hr

theorem sets_ite {m : Halfedge_Mesh} {c : Prop} [Decidable c]
    {x y : Except Fault Halfedge_Mesh}
    (hx : ∀ r, x = .ok r → SameSets r m) (hy : ∀ r, y = .ok r → SameSets r m) :
    ∀ r, (if c then x else y) = .ok r → SameSets r m := by
  intro r hr
  split_ifs at hr
  · exact hx r hr
  · exact hy r hr

/-- Assignments to the relations change no live set, no erased set, no boundary flag. -/
theorem sets_assign (m : Halfedge_Mesh) (a b : Nat) (p : Vec3) :
    SameSets (m.set_next a b) m ∧ SameSets (m.set_twin a b) m ∧ SameSets (m.set_vertex a b) m ∧
    SameSets (m.set_edge a b) m ∧ SameSets (m.set_face a b) m ∧
    SameSets (m.set_vhalfedge a b) m ∧ SameSets (m.set_ehalfedge a b) m ∧
    SameSets (m.set_fhalfedge a b) m ∧ SameSets (m.set_pos a p) m ∧
    SameSets (m.keep_next a) m ∧ SameSets (m.keep_twin a) m ∧ SameSets (m.keep_vertex a) m ∧
    SameSets (m.keep_edge a) m ∧ SameSets (m.keep_face a) m := by
  refine ⟨?_, ?_, ?_, ?_, ?_, ?_, ?_, ?_, ?_, ?_, ?_, ?_, ?_, ?_⟩ <;>
    exact ⟨rfl, rfl, rfl, rfl, rfl, rfl, rfl, rfl, rfl, rfl⟩

theorem sets_bind {m : Halfedge_Mesh} {x : Except Fault Halfedge_Mesh}
    {f : Halfedge_Mesh → Except Fault Halfedge_Mesh}
    (hx : ∀ a, x = .ok a → SameSets a m) (h : ∀ a, SameSets a m → ∀ r, f a = .ok r → SameSets r m) :
    ∀ r, x.bind f = .ok r → SameSets r m := by
  intro r hr
  obtain ⟨a, ha, hfa⟩ := (bind_eq_ok).1 hr
  exact h a (hx a ha) r hfa

theorem split_w1_sets (m : Halfedge_Mesh) (e h0 h1 h2 h3 h6 h7 h10 h12 h13 v1 v4 e3 e4 f0 f2 : Nat) (h4 : Option Nat) :
    ∀ r, split_w1 m e h0 h1 h2 h3 h6 h7 h10 h12 h13 v1 v4 e3 e4 f0 f2 h4 = .ok r → SameSets r m := by
  unfold split_w1
  refine sets_ite ?_ ?_
  all_goals repeat (first
    | refine sets_use_bind (fun _ => ?_)
    | (refine sets_ok ?_
       constructor <;> simp only [set_next, set_twin, set_vertex, set_edge, set_face,
         set_vhalfedge, set_ehalfedge, set_fhalfedge, set_pos, keep_next, keep_twin,
         keep_vertex, keep_edge, keep_face]))

theorem split_w2_sets (m : Halfedge_Mesh) (e h3 h12 h13 v4 e6 : Nat) (f3 : Option Nat) :
    ∀ r, split_w2 m e h3 h12 h13 v4 e6 f3 = .ok r → SameSets r m := by
  unfold split_w2
  refine sets_ite ?_ ?_
  all_goals repeat (first
    | refine sets_use_bind (fun _ => ?_)
    | (refine sets_ok ?_
       constructor <;> simp only [set_next, set_twin, set_vertex, set_edge, set_face,
         set_vhalfedge, set_ehalfedge, set_fhalfedge, set_pos, keep_next, keep_twin,
         keep_vertex, keep_edge, keep_face]))

theorem split_w3_sets (m : Halfedge_Mesh) (e h3 h13 : Nat) (h15 : Option Nat) :
    ∀ r, split_w3 m e h3 h13 h15 = .ok r → SameSets r m := by
  unfold split_w3
  refine sets_ite ?_ ?_
  all_goals repeat (first
    | refine sets_use_bind (fun _ => ?_)
    | (refine sets_ok ?_
       constructor <;> simp only [set_next, set_twin, set_vertex, set_edge, set_face,
         set_vhalfedge, set_ehalfedge, set_fhalfedge, set_pos, keep_next, keep_twin,
         keep_vertex, keep_edge, keep_face]))

theorem split_w4_sets (m : Halfedge_Mesh) (e h0 h3 v1 : Nat) (f1 : Option Nat) :
    ∀ r, split_w4 m e h0 h3 v1 f1 = .ok r → SameSets r m := by
  unfold split_w4
  refine sets_ite ?_ ?_
  all_goals repeat (first
    | refine sets_use_bind (fun _ => ?_)
    | (refine sets_ok ?_
       constructor <;> simp only [set_next, set_twin, set_vertex, set_edge, set_face,
         set_vhalfedge, set_ehalfedge, set_fhalfedge, set_pos, keep_next, keep_twin,
         keep_vertex, keep_edge, keep_face]))

theorem split_w5_sets (m : Halfedge_Mesh) (e h3 v0 : Nat) (h4 h5 h8 h9 e1 e2 f1 h14 f3 : Option Nat) :
    ∀ r, split_w5 m e h3 v0 h4 h5 h8 h9 e1 e2 f1 h14 f3 = .ok r → SameSets r m := by
  unfold split_w5
  refine sets_ite ?_ ?_
  all_goals repeat (first
    | refine sets_use_bind (fun _ => ?_)
    | (refine sets_ok ?_
       constructor <;> simp only [set_next, set_twin, set_vertex, set_edge, set_face,
         set_vhalfedge, set_ehalfedge, set_fhalfedge, set_pos, keep_next, keep_twin,
         keep_vertex, keep_edge, keep_face]))

theorem split_w6_sets (m : Halfedge_Mesh) (e h1 h2 h6 h7 v0 v1 v3 e3 e4 : Nat) (h4 h5 h8 h9 v2 e1 e2 : Option Nat) :
    ∀ r, split_w6 m e h1 h2 h6 h7 v0 v1 v3 e3 e4 h4 h5 h8 h9 v2 e1 e2 = .ok r → SameSets r m := by
  unfold split_w6
  refine sets_ite ?_ ?_
  all_goals repeat (first
    | refine sets_use_bind (fun _ => ?_)
    | (refine sets_ok ?_
       constructor <;> simp only [set_next, set_twin, set_vertex, set_edge, set_face,
         set_vhalfedge, set_ehalfedge, set_fhalfedge, set_pos, keep_next, keep_twin,
         keep_vertex, keep_edge, keep_face]))

theorem split_w7_sets (m : Halfedge_Mesh) (e h0 h1n h10 h11 h12 h13 v0 v3 v4 e5 e6 f0 f2 : Nat) (h4n v2 f1 h14 h15 e7 f3 : Option Nat) :
    ∀ r, split_w7 m e h0 h1n h10 h11 h12 h13 v0 v3 v4 e5 e6 f0 f2 h4n v2 f1 h14 h15 e7 f3 = .ok r → SameSets r m := by
  unfold split_w7
  refine sets_ite ?_ ?_
  all_goals repeat (first
    | refine sets_use_bind (fun _ => ?_)
    | (refine sets_ok ?_
       constructor <;> simp only [set_next, set_twin, set_vertex, set_edge, set_face,
         set_vhalfedge, set_ehalfedge, set_fhalfedge, set_pos, keep_next, keep_twin,
         keep_vertex, keep_edge, keep_face]))

theorem split_w8_sets (m : Halfedge_Mesh) (e h0 h1 h7 h10 v0 v1 v3 v4 : Nat) (v2 h14 : Option Nat) :
    ∀ r, split_w8 m e h0 h1 h7 h10 v0 v1 v3 v4 v2 h14 = .ok r → SameSets r m := by
  unfold split_w8
  refine sets_ite ?_ ?_
  all_goals repeat (first
    | refine sets_use_bind (fun _ => ?_)
    | (refine sets_ok ?_
       constructor <;> simp only [set_next, set_twin, set_vertex, set_edge, set_face,
         set_vhalfedge, set_ehalfedge, set_fhalfedge, set_pos, keep_next, keep_twin,
         keep_vertex, keep_edge, keep_face]))

theorem split_w9_sets (m : Halfedge_Mesh) (e h0 h1 h2 h10 h12 e3 e4 e5 e6 : Nat) (h4 h5 e1 e2 h14 e7 : Option Nat) :
    ∀ r, split_w9 m e h0 h1 h2 h10 h12 e3 e4 e5 e6 h4 h5 e1 e2 h14 e7 = .ok r → SameSets r m := by
  unfold split_w9
  refine sets_ite ?_ ?_
  all_goals repeat (first
    | refine sets_use_bind (fun _ => ?_)
    | (refine sets_ok ?_
       constructor <;> simp only [set_next, set_twin, set_vertex, set_edge, set_face,
         set_vhalfedge, set_ehalfedge, set_fhalfedge, set_pos, keep_next, keep_twin,
         keep_vertex, keep_edge, keep_face]))

theorem split_w10_sets (m : Halfedge_Mesh) (e h0 h11 f0 f2 : Nat) (h4 h5 f1 f3 : Option Nat) :
    ∀ r, split_w10 m e h0 h11 f0 f2 h4 h5 f1 f3 = .ok r → SameSets r m := by
  unfold split_w10
  refine sets_ite ?_ ?_
  all_goals repeat (first
    | refine sets_use_bind (fun _ => ?_)
    | (refine sets_ok ?_
       constructor <;> simp only [set_next, set_twin, set_vertex, set_edge, set_face,
         set_vhalfedge, set_ehalfedge, set_fhalfedge, set_pos, keep_next, keep_twin,
         keep_vertex, keep_edge, keep_face]))

/-- The assignments of split_edge change no live set, no erased set, no boundary flag. -/
theorem split_wire_sets (m : Halfedge_Mesh)
    (e h0 h1 h1n h2 h3 h6 h7 v0 v1 v3 e3 e4 f0 h10 h11 h12 h13 v4 e5 e6 f2 : Nat)
    (h4 h4n h5 h8 h9 v2 e1 e2 f1 h14 h15 e7 f3 : Option Nat) :
    ∀ r, split_wire m e h0 h1 h1n h2 h3 h6 h7 v0 v1 v3 e3 e4 f0 h10 h11 h12 h13 v4 e5 e6 f2
      h4 h4n h5 h8 h9 v2 e1 e2 f1 h14 h15 e7 f3 = .ok r → SameSets r m := by
  unfold split_wire
  refine sets_bind (split_w1_sets _ _ _ _ _ _ _ _ _ _ _ _ _ _ _ _ _ _) (fun a1 s1 => ?_)
  refine sets_bind (fun a ha => (split_w2_sets _ _ _ _ _ _ _ _ a ha).trans s1) (fun a2 s2 => ?_)
  refine sets_bind (fun a ha => (split_w3_sets _ _ _ _ _ a ha).trans s2) (fun a3 s3 => ?_)
  refine sets_bind (fun a ha => (split_w4_sets _ _ _ _ _ _ a ha).trans s3) (fun a4 s4 => ?_)
  refine sets_bind (fun a ha => (split_w5_sets _ _ _ _ _ _ _ _ _ _ _ _ _ a ha).trans s4)
    (fun a5 s5 => ?_)
  refine sets_bind (fun a ha =>
    (split_w6_sets _ _ _ _ _ _ _ _ _ _ _ _ _ _ _ _ _ _ a ha).trans s5) (fun a6 s6 => ?_)
  refine sets_bind (fun a ha =>
    (split_w7_sets _ _ _ _ _ _ _ _ _ _ _ _ _ _ _ _ _ _ _ _ _ _ a ha).trans s6) (fun a7 s7 => ?_)
  refine sets_bind (fun a ha => (split_w8_sets _ _ _ _ _ _ _ _ _ _ _ _ a ha).trans s7)
    (fun a8 s8 => ?_)
  refine sets_bind (fun a ha =>
    (split_w9_sets _ _ _ _ _ _ _ _ _ _ _ _ _ _ _ _ _ a ha).trans s8) (fun a9 s9 => ?_)
  exact fun r hr => (split_w10_sets _ _ _ _ _ _ _ _ _ _ r hr).trans s9

/-- The faces on the two sides of a live edge of a valid mesh are faces of the mesh, hence
not a fresh id. -/
theorem Valid.edge_faces_lt {m : Halfedge_Mesh} (hv : Valid m) {e : Nat} (he : m.live_e e) :
    m.face (m.ehalfedge e) < m.next_id ∧ m.face (m.twin (m.ehalfedge e)) < m.next_id := by
  have l0 := hv.live_ehalfedge he
  exact ⟨hv.fresh_f _ (hv.live_face l0).1, hv.fresh_f _ (hv.live_face (hv.live_twin l0)).1⟩

/-- The elements split_edge creates for a boundary edge. -/
theorem split_alloc_boundary {m : Halfedge_Mesh} {e : Nat} (hob : m.on_boundary e = true)
    (h0 : m.face (m.ehalfedge e) < m.next_id)
    (h3 : m.face (m.twin (m.ehalfedge e)) < m.next_id) :
    m.split_alloc e true =
      { h10 := m.next_id, h11 := m.next_id + 1, h12 := m.next_id + 2, h13 := m.next_id + 3,
        h14 := none, h15 := none, v4 := m.next_id + 4, e5 := m.next_id + 5,
        e6 := m.next_id + 6, e7 := none, f2 := m.next_id + 7, f3 := none,
        mesh := { m with
          halfedges := m.halfedges ++ [m.next_id, m.next_id + 1, m.next_id + 2, m.next_id + 3]
          vertices := m.vertices ++ [m.next_id + 4]
          edges := m.edges ++ [m.next_id + 5, m.next_id + 6]
          faces := m.faces ++ [m.next_id + 7]
          boundary := upd m.boundary (m.next_id + 7) false
          next_id := m.next_id + 8 } } := by
  have hb : (!(m.new_halfedge.2.new_halfedge.2.new_halfedge.2.new_halfedge.2.new_vertex.2.new_edge.2.new_edge.2.new_face.2.on_boundary e)) = false := by
    simp only [on_boundary, is_boundary, Bool.or_eq_true] at hob
    simp only [on_boundary, is_boundary, new_halfedge, new_vertex, new_edge, new_face, upd,
      Bool.not_eq_false', Bool.or_eq_true]
    rw [if_neg (by omega), if_neg (by omega)]
    exact hob
  unfold split_alloc
  simp only [if_true, hb, Bool.false_eq_true, if_false]
  simp only [new_halfedge, new_vertex, new_edge, new_face, List.append_assoc, List.cons_append,
    List.nil_append, Nat.add_assoc, Nat.reduceAdd]

/-- The elements split_edge creates for an edge off the boundary. -/
theorem split_alloc_interior {m : Halfedge_Mesh} {e : Nat} (hob : m.on_boundary e = false)
    (h0 : m.face (m.ehalfedge e) < m.next_id)
    (h3 : m.face (m.twin (m.ehalfedge e)) < m.next_id) :
    m.split_alloc e false =
      { h10 := m.next_id, h11 := m.next_id + 1, h12 := m.next_id + 2, h13 := m.next_id + 3,
        h14 := some (m.next_id + 4), h15 := some (m.next_id + 5), v4 := m.next_id + 6,
        e5 := m.next_id + 7, e6 := m.next_id + 8, e7 := some (m.next_id + 9),
        f2 := m.next_id + 10, f3 := some (m.next_id + 11),
        mesh := { m with
          halfedges := m.halfedges ++ [m.next_id, m.next_id + 1, m.next_id + 2, m.next_id + 3,
            m.next_id + 4, m.next_id + 5]
          vertices := m.vertices ++ [m.next_id + 6]
          edges := m.edges ++ [m.next_id + 7, m.next_id + 8, m.next_id + 9]
          faces := m.faces ++ [m.next_id + 10, m.next_id + 11]
          boundary := upd (upd m.boundary (m.next_id + 10) false) (m.next_id + 11) false
          next_id := m.next_id + 12 } } := by
  have hb : (!(m.new_halfedge.2.new_halfedge.2.new_halfedge.2.new_halfedge.2.new_halfedge.2.new_halfedge.2.new_vertex.2.new_edge.2.new_edge.2.new_edge.2.new_face.2.on_boundary e)) = true := by
    simp only [on_boundary, is_boundary, Bool.or_eq_false_iff] at hob
    simp only [on_boundary, is_boundary, new_halfedge, new_vertex, new_edge, new_face, upd,
      Bool.not_eq_true', Bool.or_eq_false_iff]
    rw [if_neg (by omega), if_neg (by omega)]
    exact hob
  unfold split_alloc
  simp only [Bool.false_eq_true, if_false, hb, if_true]
  simp only [new_halfedge, new_vertex, new_edge, new_face, List.append_assoc, List.cons_append,
    List.nil_append, Nat.add_assoc, Nat.reduceAdd]

/-- Counting the live elements after fresh ids have been appended. -/
theorem count_append_fresh (l er new : List Nat) (h : ∀ x ∈ new, x ∉ er) :
    ((l ++ new).filter (fun x => x ∉ er)).length =
      (l.filter (fun x => x ∉ er)).length + new.length := by
  rw [List.filter_append, List.length_append]
  congr 1
  rw [List.filter_eq_self.2]
  intro x hx
  simpa using h x hx

/-- An accepted split_edge has gone through split_run. -/
theorem split_edge_accepted {m m' : Halfedge_Mesh} {fuel e v : Nat}
    (h : m.split_edge fuel e = .ok (some v, m')) :
    ∃ h2 h4 h4n h5, split_run m e (m.on_boundary e) (m.split_h0 e) (m.next (m.split_h0 e))
      (m.next (m.next (m.split_h0 e))) h2 (m.twin (m.split_h0 e))
      (m.twin (m.next (m.split_h0 e))) (m.twin h2) h4 h4n h5 = .ok (v, m') := by
  unfold split_edge at h
  dsimp only at h
  rw [bind_eq_ok] at h
  obtain ⟨h2, -, h⟩ := h
  by_cases c1 : m.next (m.next (m.split_h0 e)) ≠ h2
  · rw [if_pos c1] at h; simp at h
  rw [if_neg c1, bind_eq_ok] at h
  obtain ⟨h5, -, h⟩ := h
  split_ifs at h
  all_goals first
    | (simp at h)
    | (rw [bind_eq_ok] at h
       obtain ⟨r, hr, h⟩ := h
       simp only [Except.ok.injEq, Prod.mk.injEq, Option.some.injEq] at h
       obtain ⟨rfl, rfl⟩ := h
       exact ⟨_, _, _, _, hr⟩)


/-- C10 (amended): on a valid mesh an accepted split_edge erases nothing and creates
exactly 1 vertex, 2 edges, 4 half-edges and 1 face when `e` is a boundary edge, and exactly
1 vertex, 3 edges, 6 half-edges and 2 faces when `e` is off the boundary. -/
theorem C10_split_edge_creates (m m' : Halfedge_Mesh) (fuel e v : Nat) (hv : Valid m)
    (he : m.live_e e) (h : m.split_edge fuel e = .ok (some v, m')) :
    (m'.herased = m.herased ∧ m'.verased = m.verased ∧ m'.eerased = m.eerased ∧
      m'.ferased = m.ferased) ∧
    (m.on_boundary e = true →
      (m'.vertices.length = m.vertices.length + 1 ∧ m'.edges.length = m.edges.length + 2 ∧
        m'.halfedges.length = m.halfedges.length + 4 ∧ m'.faces.length = m.faces.length + 1) ∧
      (m'.n_vertices = m.n_vertices + 1 ∧ m'.n_edges = m.n_edges + 2 ∧
        m'.n_halfedges = m.n_halfedges + 4 ∧ m'.n_faces = m.n_faces + 1)) ∧
    (m.on_boundary e = false →
      (m'.vertices.length = m.vertices.length + 1 ∧ m'.edges.length = m.edges.length + 3 ∧
        m'.halfedges.length = m.halfedges.length + 6 ∧ m'.faces.length = m.faces.length + 2) ∧
      (m'.n_vertices = m.n_vertices + 1 ∧ m'.n_edges = m.n_edges + 3 ∧
        m'.n_halfedges = m.n_halfedges + 6 ∧ m'.n_faces = m.n_faces + 2)) := by
  obtain ⟨lt0, lt3⟩ := hv.edge_faces_lt he
  obtain ⟨h2, h4, h4n, h5, hr⟩ := split_edge_accepted h
  unfold split_run at hr
  dsimp only at hr
  obtain ⟨ma, hw, heq⟩ := bind_eq_ok.1 hr
  have hs := split_wire_sets _ _ _ _ _ _ _ _ _ _ _ _ _ _ _ _ _ _ _ _ _ _ _ _ _ _ _ _ _ _ _ _
    _ _ _ _ _ hw
  simp only [Except.ok.injEq, Prod.mk.injEq] at heq
  obtain ⟨-, rfl⟩ := heq
  have fh : ∀ x ∈ m.herased, x < m.next_id := fun x hx => hv.fresh_h x (hv.erased_h x hx)
  have fv : ∀ x ∈ m.verased, x < m.next_id := fun x hx => hv.fresh_v x (hv.erased_v x hx)
  have fe : ∀ x ∈ m.eerased, x < m.next_id := fun x hx => hv.fresh_e x (hv.erased_e x hx)
  have ff : ∀ x ∈ m.ferased, x < m.next_id := fun x hx => hv.fresh_f x (hv.erased_f x hx)
  have key : ∀ (er new : List Nat), (∀ x ∈ er, x < m.next_id) → (∀ x ∈ new, m.next_id ≤ x) →
      ∀ x ∈ new, x ∉ er := fun er new h1 h2 x hx hxe => by
    have := h1 x hxe; have := h2 x hx; omega
  cases hob : m.on_boundary e
  · rw [hob, split_alloc_interior hob lt0 lt3] at hs
    refine ⟨⟨hs.herased, hs.verased, hs.eerased, hs.ferased⟩, by simp, fun _ => ⟨?_, ?_⟩⟩
    · rw [hs.halfedges, hs.vertices, hs.edges, hs.faces]; simp
    · simp only [n_halfedges, n_vertices, n_edges, n_faces, hs.halfedges, hs.vertices,
        hs.edges, hs.faces, hs.herased, hs.verased, hs.eerased, hs.ferased]
      refine ⟨?_, ?_, ?_, ?_⟩
      · rw [count_append_fresh _ _ _ (key _ _ fv (by simp))]; rfl
      · rw [count_append_fresh _ _ _ (key _ _ fe (by simp))]; rfl
      · rw [count_append_fresh _ _ _ (key _ _ fh (by simp))]; rfl
      · rw [count_append_fresh _ _ _ (key _ _ ff (by simp))]; rfl
  · rw [hob, split_alloc_boundary hob lt0 lt3] at hs
    refine ⟨⟨hs.herased, hs.verased, hs.eerased, hs.ferased⟩, fun _ => ⟨?_, ?_⟩, by simp⟩
    · rw [hs.halfedges, hs.vertices, hs.edges, hs.faces]; simp
    · simp only [n_halfedges, n_vertices, n_edges, n_faces, hs.halfedges, hs.vertices,
        hs.edges, hs.faces, hs.herased, hs.verased, hs.eerased, hs.ferased]
      refine ⟨?_, ?_, ?_, ?_⟩
      · rw [count_append_fresh _ _ _ (key _ _ fv (by simp))]; rfl
      · rw [count_append_fresh _ _ _ (key _ _ fe (by simp))]; rfl
      · rw [count_append_fresh _ _ _ (key _ _ fh (by simp))]; rfl
      · rw [count_append_fresh _ _ _ (key _ _ ff (by simp))]; rfl

/-! ## split_edge on a boundary edge: the tests of `on_boundary` stay true -/

section inv
variable {B : Nat → Bool} {e h0 h3 X : Nat} {m : Halfedge_Mesh}

theorem SplitBoundaryInv.on_boundary (h : SplitBoundaryInv B e h0 h3 X m) :
    m.on_boundary e = true := by
  have hf := h.fx
  simp only [Halfedge_Mesh.on_boundary, is_boundary, h.flags, Bool.or_eq_true]
  rcases h.side with rfl | rfl <;> rcases h.eh with c | c <;> rw [c]
  · exact Or.inl hf
  · rw [h.t3]; exact Or.inr hf
  · rw [h.t0]; exact Or.inr hf
  · exact Or.inl hf

theorem SplitBoundaryInv.set_next (h : SplitBoundaryInv B e h0 h3 X m) (a b : Nat) :
    SplitBoundaryInv B e h0 h3 X (m.set_next a b) :=
  ⟨h.flags, h.side, h.eh, h.t0, h.t3, h.fx⟩

theorem SplitBoundaryInv.set_vertex (h : SplitBoundaryInv B e h0 h3 X m) (a b : Nat) :
    SplitBoundaryInv B e h0 h3 X (m.set_vertex a b) :=
  ⟨h.flags, h.side, h.eh, h.t0, h.t3, h.fx⟩

theorem SplitBoundaryInv.set_edge (h : SplitBoundaryInv B e h0 h3 X m) (a b : Nat) :
    SplitBoundaryInv B e h0 h3 X (m.set_edge a b) :=
  ⟨h.flags, h.side, h.eh, h.t0, h.t3, h.fx⟩

theorem SplitBoundaryInv.set_vhalfedge (h : SplitBoundaryInv B e h0 h3 X m) (a b : Nat) :
    SplitBoundaryInv B e h0 h3 X (m.set_vhalfedge a b) :=
  ⟨h.flags, h.side, h.eh, h.t0, h.t3, h.fx⟩

theorem SplitBoundaryInv.set_fhalfedge (h : SplitBoundaryInv B e h0 h3 X m) (a b : Nat) :
    SplitBoundaryInv B e h0 h3 X (m.set_fhalfedge a b) :=
  ⟨h.flags, h.side, h.eh, h.t0, h.t3, h.fx⟩

theorem SplitBoundaryInv.set_pos (h : SplitBoundaryInv B e h0 h3 X m) (a : Nat) (p : Vec3) :
    SplitBoundaryInv B e h0 h3 X (m.set_pos a p) :=
  ⟨h.flags, h.side, h.eh, h.t0, h.t3, h.fx⟩

theorem SplitBoundaryInv.keep_next (h : SplitBoundaryInv B e h0 h3 X m) (a : Nat) :
    SplitBoundaryInv B e h0 h3 X (m.keep_next a) := h.set_next _ _

theorem SplitBoundaryInv.keep_vertex (h : SplitBoundaryInv B e h0 h3 X m) (a : Nat) :
    SplitBoundaryInv B e h0 h3 X (m.keep_vertex a) := h.set_vertex _ _

theorem SplitBoundaryInv.keep_face (h : SplitBoundaryInv B e h0 h3 X m) (a : Nat) :
    SplitBoundaryInv B e h0 h3 X (m.keep_face a) := by
  have : m.keep_face a = m := by
    simp only [Halfedge_Mesh.keep_face, Halfedge_Mesh.set_face, upd_self]
  rw [this]; exact h

theorem SplitBoundaryInv.set_twin (h : SplitBoundaryInv B e h0 h3 X m) (a b : Nat)
    (c0 : a = h0 → b = h3) (c3 : a = h3 → b = h0) :
    SplitBoundaryInv B e h0 h3 X (m.set_twin a b) := by
  refine ⟨h.flags, h.side, h.eh, ?_, ?_, h.fx⟩
  · show upd m.twin a b h0 = h3
    by_cases c : h0 = a
    · simp [upd, c, c0 c.symm]
    · simp [upd, c, h.t0]
  · show upd m.twin a b h3 = h0
    by_cases c : h3 = a
    · simp [upd, c, c3 c.symm]
    · simp [upd, c, h.t3]

theorem SplitBoundaryInv.set_face (h : SplitBoundaryInv B e h0 h3 X m) (a b : Nat)
    (c : a = X → B b = true) : SplitBoundaryInv B e h0 h3 X (m.set_face a b) := by
  refine ⟨h.flags, h.side, h.eh, h.t0, h.t3, ?_⟩
  show B (upd m.face a b X) = true
  by_cases cx : X = a
  · simp [upd, cx, c cx.symm]
  · simp [upd, cx, h.fx]

theorem SplitBoundaryInv.set_ehalfedge (h : SplitBoundaryInv B e h0 h3 X m) (a b : Nat)
    (c : a = e → b = h0 ∨ b = h3) : SplitBoundaryInv B e h0 h3 X (m.set_ehalfedge a b) := by
  refine ⟨h.flags, h.side, ?_, h.t0, h.t3, h.fx⟩
  show upd m.ehalfedge a b e = h0 ∨ upd m.ehalfedge a b e = h3
  by_cases cx : e = a
  · simp only [upd, cx, if_true]; exact c cx.symm
  · simp only [upd, cx, if_false]; exact h.eh

/-- A test `if (e->on_boundary())` taken on a mesh where the edge is on the boundary. -/
theorem ite_boundary_ok {p a : Halfedge_Mesh} {y : Except Fault Halfedge_Mesh}
    (hp : SplitBoundaryInv B e h0 h3 X p) (ha : SplitBoundaryInv B e h0 h3 X a) :
    ∃ r, (if p.on_boundary e then .ok a else y) = .ok r ∧ SplitBoundaryInv B e h0 h3 X r :=
  ⟨a, by rw [if_pos hp.on_boundary], ha⟩

/-- A test `if (!(e->on_boundary()))` skipped on a mesh where the edge is on the boundary. -/
theorem ite_not_boundary_ok {p : Halfedge_Mesh} {y : Except Fault Halfedge_Mesh}
    (hp : SplitBoundaryInv B e h0 h3 X p) :
    ∃ r, (if !(p.on_boundary e) then y else .ok p) = .ok r ∧ SplitBoundaryInv B e h0 h3 X r :=
  ⟨p, by rw [hp.on_boundary]; rfl, hp⟩

theorem split_w1_boundary (hJ : SplitBoundaryInv B e h0 h3 X m)
    {h1 h2 h6 h7 h10 h12 h13 v1 v4 e3 e4 f0 f2 : Nat} {h4 : Option Nat}
    (t1a : h1 = h0 → h6 = h3) (t1b : h1 = h3 → h6 = h0)
    (t2a : h2 = h0 → h7 = h3) (t2b : h2 = h3 → h7 = h0)
    (f0a : h0 = X → B f0 = true) (f1a : h1 = X → B f0 = true) (f2a : h2 ≠ X) :
    ∃ r, split_w1 m e h0 h1 h2 h3 h6 h7 h10 h12 h13 v1 v4 e3 e4 f0 f2 h4 = .ok r ∧
      SplitBoundaryInv B e h0 h3 X r := by
  have hp := (((((((((((((((hJ.set_next h0 h1).set_twin h0 h3 (fun _ => rfl)
    (fun c => c.symm)).set_vertex h0 v4).set_edge h0 e).set_face h0 f0 f0a).set_next h1
    h10).set_twin h1 h6 t1a t1b).set_vertex h1 v1).set_edge h1 e4).set_face h1 f0 f1a).set_next
    h2 h12).set_twin h2 h7 t2a t2b).keep_vertex h2).set_edge h2 e3).set_face h2 f2
    (fun c => absurd c f2a))
  exact ite_boundary_ok hp (hp.set_next _ _)

theorem split_w2_boundary (hJ : SplitBoundaryInv B e h0 h3 X m)
    {h12 h13 v4 e6 : Nat} {f3 : Option Nat}
    (n0 : h13 ≠ h0) (n3 : h13 ≠ h3) (nx : h13 ≠ X) :
    ∃ r, split_w2 m e h3 h12 h13 v4 e6 f3 = .ok r ∧ SplitBoundaryInv B e h0 h3 X r := by
  have hp := ((hJ.set_twin h13 h12 (fun c => absurd c n0) (fun c => absurd c n3)).set_vertex
    h13 v4).set_edge h13 e6
  exact ite_boundary_ok hp (hp.set_face _ _ (fun c => absurd c nx))

theorem split_w3_boundary (hJ : SplitBoundaryInv B e h0 h3 X m) {h13 : Nat} {h15 : Option Nat} :
    ∃ r, split_w3 m e h3 h13 h15 = .ok r ∧ SplitBoundaryInv B e h0 h3 X r :=
  ite_boundary_ok hJ (hJ.set_next _ _)

theorem split_w4_boundary (hJ : SplitBoundaryInv B e h0 h3 X m) {v1 : Nat} {f1 : Option Nat} :
    ∃ r, split_w4 m e h0 h3 v1 f1 = .ok r ∧ SplitBoundaryInv B e h0 h3 X r := by
  have hp := ((hJ.set_twin h3 h0 (fun c => c.symm) (fun _ => rfl)).set_vertex h3 v1).set_edge h3 e
  exact ite_boundary_ok hp (hp.keep_face _)

theorem split_w5_boundary (hJ : SplitBoundaryInv B e h0 h3 X m)
    {v0 : Nat} {h4 h5 h8 h9 e1 e2 f1 h14 f3 : Option Nat} :
    ∃ r, split_w5 m e h3 v0 h4 h5 h8 h9 e1 e2 f1 h14 f3 = .ok r ∧
      SplitBoundaryInv B e h0 h3 X r :=
  ite_not_boundary_ok hJ

theorem split_w6_boundary (hJ : SplitBoundaryInv B e h0 h3 X m)
    {h1 h2 h6 h7 v0 v1 v3 e3 e4 : Nat} {h4 h5 h8 h9 v2 e1 e2 : Option Nat}
    (t6a : h6 = h0 → h1 = h3) (t6b : h6 = h3 → h1 = h0)
    (t7a : h7 = h0 → h2 = h3) (t7b : h7 = h3 → h2 = h0) :
    ∃ r, split_w6 m e h1 h2 h6 h7 v0 v1 v3 e3 e4 h4 h5 h8 h9 v2 e1 e2 = .ok r ∧
      SplitBoundaryInv B e h0 h3 X r :=
  ite_not_boundary_ok ((((((((((hJ.keep_next h6).set_twin h6 h1 t6a t6b).set_vertex h6
    v3).set_edge h6 e4).keep_face h6).keep_next h7).set_twin h7 h2 t7a t7b).set_vertex h7
    v0).set_edge h7 e3).keep_face h7)

theorem split_w7_boundary (hJ : SplitBoundaryInv B e h0 h3 X m)
    {h1n h10 h11 h12 h13 v0 v3 v4 e5 e6 f0 f2 : Nat} {h4n v2 f1 h14 h15 e7 f3 : Option Nat}
    (a0 : h10 ≠ h0) (a3 : h10 ≠ h3) (ax : h10 ≠ X)
    (b0 : h11 ≠ h0) (b3 : h11 ≠ h3) (bx : h11 ≠ X)
    (c0 : h12 ≠ h0) (c3 : h12 ≠ h3) (cx : h12 ≠ X) :
    ∃ r, split_w7 m e h0 h1n h10 h11 h12 h13 v0 v3 v4 e5 e6 f0 f2 h4n v2 f1 h14 h15 e7 f3 =
      .ok r ∧ SplitBoundaryInv B e h0 h3 X r :=
  ite_not_boundary_ok (((((((((((((((hJ.set_next h10 h0).set_twin h10 h11
    (fun c => absurd c a0) (fun c => absurd c a3)).set_vertex h10 v3).set_edge h10 e5).set_face
    h10 f0 (fun c => absurd c ax)).set_next h11 h1n).set_twin h11 h10 (fun c => absurd c b0)
    (fun c => absurd c b3)).set_vertex h11 v4).set_edge h11 e5).set_face h11 f2
    (fun c => absurd c bx)).set_next h12 h11).set_twin h12 h13 (fun c => absurd c c0)
    (fun c => absurd c c3)).set_vertex h12 v0).set_edge h12 e6).set_face h12 f2
    (fun c => absurd c cx))

theorem split_w8_boundary (hJ : SplitBoundaryInv B e h0 h3 X m)
    {h1 h7 h10 v0 v1 v3 v4 : Nat} {v2 h14 : Option Nat} :
    ∃ r, split_w8 m e h0 h1 h7 h10 v0 v1 v3 v4 v2 h14 = .ok r ∧
      SplitBoundaryInv B e h0 h3 X r :=
  ite_not_boundary_ok (((((hJ.set_vhalfedge v0 h7).set_vhalfedge v1 h1).set_vhalfedge v3
    h10).set_vhalfedge v4 h0).set_pos v4 _)

theorem split_w9_boundary (hJ : SplitBoundaryInv B e h0 h3 X m)
    {h1 h2 h10 h12 e3 e4 e5 e6 : Nat} {h4 h5 e1 e2 h14 e7 : Option Nat}
    (c3 : e3 = e → h2 = h0 ∨ h2 = h3) (c4 : e4 = e → h1 = h0 ∨ h1 = h3)
    (c5 : e5 ≠ e) (c6 : e6 ≠ e) :
    ∃ r, split_w9 m e h0 h1 h2 h10 h12 e3 e4 e5 e6 h4 h5 e1 e2 h14 e7 = .ok r ∧
      SplitBoundaryInv B e h0 h3 X r :=
  ite_not_boundary_ok (((((hJ.set_ehalfedge e h0 (fun _ => Or.inl rfl)).set_ehalfedge e3 h2
    c3).set_ehalfedge e4 h1 c4).set_ehalfedge e5 h10 (fun c => absurd c c5)).set_ehalfedge e6
    h12 (fun c => absurd c c6))

theorem split_w10_boundary (hJ : SplitBoundaryInv B e h0 h3 X m)
    {h11 f0 f2 : Nat} {h4 h5 f1 f3 : Option Nat} :
    ∃ r, split_w10 m e h0 h11 f0 f2 h4 h5 f1 f3 = .ok r ∧ SplitBoundaryInv B e h0 h3 X r :=
  ite_not_boundary_ok ((hJ.set_fhalfedge f0 h0).set_fhalfedge f2 h11)

end inv

/-! ## split_edge runs to its end -/

theorem bind_ok_of {α β : Type} {x : Except Fault α} {f : α → Except Fault β}
    (hx : ∃ a, x = .ok a) (hf : ∀ a, ∃ r, f a = .ok r) : ∃ r, x.bind f = .ok r := by
  obtain ⟨a, rfl⟩ := hx
  exact hf a

theorem bind_ok_inv {α β : Type} {x : Except Fault α} {f : α → Except Fault β}
    {P : α → Prop} {Q : β → Prop}
    (hx : ∃ a, x = .ok a ∧ P a) (hf : ∀ a, P a → ∃ r, f a = .ok r ∧ Q r) :
    ∃ r, x.bind f = .ok r ∧ Q r := by
  obtain ⟨a, rfl, ha⟩ := hx
  exact hf a ha

section some
variable (m : Halfedge_Mesh) {e h0 h1 h1n h2 h3 h6 h7 v0 v1 v3 e3 e4 f0 h10 h11 h12 h13 v4 e5
  e6 f2 h4 h4n h5 h8 h9 v2 e1 e2 f1 h14 h15 e7 f3 : Nat}

theorem split_w1_some :
    ∃ r, split_w1 m e h0 h1 h2 h3 h6 h7 h10 h12 h13 v1 v4 e3 e4 f0 f2 (some h4) = .ok r := by
  unfold split_w1; dsimp only; split_ifs <;> exact ⟨_, rfl⟩

theorem split_w2_some : ∃ r, split_w2 m e h3 h12 h13 v4 e6 (some f3) = .ok r := by
  unfold split_w2; dsimp only; split_ifs <;> exact ⟨_, rfl⟩

theorem split_w3_some : ∃ r, split_w3 m e h3 h13 (some h15) = .ok r := by
  unfold split_w3; split_ifs <;> exact ⟨_, rfl⟩

theorem split_w4_some : ∃ r, split_w4 m e h0 h3 v1 (some f1) = .ok r := by
  unfold split_w4; dsimp only; split_ifs <;> exact ⟨_, rfl⟩

theorem split_w5_some : ∃ r, split_w5 m e h3 v0 (some h4) (some h5) (some h8) (some h9)
    (some e1) (some e2) (some f1) (some h14) (some f3) = .ok r := by
  unfold split_w5; split_ifs <;> exact ⟨_, rfl⟩

theorem split_w6_some : ∃ r, split_w6 m e h1 h2 h6 h7 v0 v1 v3 e3 e4 (some h4) (some h5)
    (some h8) (some h9) (some v2) (some e1) (some e2) = .ok r := by
  unfold split_w6; dsimp only; split_ifs <;> exact ⟨_, rfl⟩

theorem split_w7_some : ∃ r, split_w7 m e h0 h1n h10 h11 h12 h13 v0 v3 v4 e5 e6 f0 f2
    (some h4n) (some v2) (some f1) (some h14) (some h15) (some e7) (some f3) = .ok r := by
  unfold split_w7; dsimp only; split_ifs <;> exact ⟨_, rfl⟩

theorem split_w8_some : ∃ r, split_w8 m e h0 h1 h7 h10 v0 v1 v3 v4 (some v2) (some h14) =
    .ok r := by
  unfold split_w8; dsimp only; split_ifs <;> exact ⟨_, rfl⟩

theorem split_w9_some : ∃ r, split_w9 m e h0 h1 h2 h10 h12 e3 e4 e5 e6 (some h4) (some h5)
    (some e1) (some e2) (some h14) (some e7) = .ok r := by
  unfold split_w9; dsimp only; split_ifs <;> exact ⟨_, rfl⟩

theorem split_w10_some : ∃ r, split_w10 m e h0 h11 f0 f2 (some h4) (some h5) (some f1)
    (some f3) = .ok r := by
  unfold split_w10; dsimp only; split_ifs <;> exact ⟨_, rfl⟩

/-- With every local of the interior case assigned, the assignments of split_edge run to
their end whatever the tests of `on_boundary` answer. -/
theorem split_wire_some : ∃ r, split_wire m e h0 h1 h1n h2 h3 h6 h7 v0 v1 v3 e3 e4 f0 h10 h11
    h12 h13 v4 e5 e6 f2 (some h4) (some h4n) (some h5) (some h8) (some h9) (some v2) (some e1)
    (some e2) (some f1) (some h14) (some h15) (some e7) (some f3) = .ok r := by
  unfold split_wire
  refine bind_ok_of (split_w1_some m) fun m => ?_
  refine bind_ok_of (split_w2_some m) fun m => ?_
  refine bind_ok_of (split_w3_some m) fun m => ?_
  refine bind_ok_of (split_w4_some m) fun m => ?_
  refine bind_ok_of (split_w5_some m) fun m => ?_
  refine bind_ok_of (split_w6_some m) fun m => ?_
  refine bind_ok_of (split_w7_some m) fun m => ?_
  refine bind_ok_of (split_w8_some m) fun m => ?_
  refine bind_ok_of (split_w9_some m) fun m => ?_
  exact split_w10_some m

end some

/-- On a boundary edge the assignments of split_edge run to their end: every test of
`on_boundary` answers true. -/
theorem split_wire_boundary {B : Nat → Bool} {e h0 h3 X : Nat} {m : Halfedge_Mesh}
    (hJ : SplitBoundaryInv B e h0 h3 X m)
    {h1 h1n h2 h6 h7 v0 v1 v3 e3 e4 f0 h10 h11 h12 h13 v4 e5 e6 f2 : Nat}
    (t1a : h1 = h0 → h6 = h3) (t1b : h1 = h3 → h6 = h0)
    (t2a : h2 = h0 → h7 = h3) (t2b : h2 = h3 → h7 = h0)
    (f0a : h0 = X → B f0 = true) (f1a : h1 = X → B f0 = true) (f2a : h2 ≠ X)
    (t6a : h6 = h0 → h1 = h3) (t6b : h6 = h3 → h1 = h0)
    (t7a : h7 = h0 → h2 = h3) (t7b : h7 = h3 → h2 = h0)
    (a0 : h10 ≠ h0) (a3 : h10 ≠ h3) (ax : h10 ≠ X)
    (b0 : h11 ≠ h0) (b3 : h11 ≠ h3) (bx : h11 ≠ X)
    (c0 : h12 ≠ h0) (c3 : h12 ≠ h3) (cx : h12 ≠ X)
    (d0 : h13 ≠ h0) (d3 : h13 ≠ h3) (dx : h13 ≠ X)
    (g3 : e3 = e → h2 = h0 ∨ h2 = h3) (g4 : e4 = e → h1 = h0 ∨ h1 = h3)
    (g5 : e5 ≠ e) (g6 : e6 ≠ e) :
    ∃ r, split_wire m e h0 h1 h1n h2 h3 h6 h7 v0 v1 v3 e3 e4 f0 h10 h11 h12 h13 v4 e5 e6 f2
      none none none none none none none none none none none none none = .ok r ∧
      SplitBoundaryInv B e h0 h3 X r := by
  unfold split_wire
  refine bind_ok_inv (split_w1_boundary hJ t1a t1b t2a t2b f0a f1a f2a) fun m hJ => ?_
  refine bind_ok_inv (split_w2_boundary hJ d0 d3 dx) fun m hJ => ?_
  refine bind_ok_inv (split_w3_boundary hJ) fun m hJ => ?_
  refine bind_ok_inv (split_w4_boundary hJ) fun m hJ => ?_
  refine bind_ok_inv (split_w5_boundary hJ) fun m hJ => ?_
  refine bind_ok_inv (split_w6_boundary hJ t6a t6b t7a t7b) fun m hJ => ?_
  refine bind_ok_inv (split_w7_boundary hJ a0 a3 ax b0 b3 bx c0 c3 cx) fun m hJ => ?_
  refine bind_ok_inv (split_w8_boundary hJ) fun m hJ => ?_
  refine bind_ok_inv (split_w9_boundary hJ g3 g4 g5 g6) fun m hJ => ?_
  exact split_w10_boundary hJ

/-- The walk of split_edge from `next(next h)` back to `h` ends on `next(next h)` exactly
when the loop of `h` closes after three steps. -/
theorem Valid.closes3_iff {m : Halfedge_Mesh} (hv : Valid m) {h y : Nat} (hh : m.live_h h)
    (hy : m.live_h y) (hn : m.next y = h) : m.next (m.next h) = y ↔ m.closes3 h := by
  unfold closes3
  constructor
  · intro c; rw [c]; exact hn
  · intro c
    exact hv.next_injective (hv.live_next (hv.live_next hh)) hy (c.trans hn.symm)

/-- The half-edge split_edge works from and its twin are the two half-edges of the edge;
on a boundary edge the twin lies in a boundary face. -/
theorem Valid.split_h0_spec {m : Halfedge_Mesh} (hv : Valid m) {e : Nat} (he : m.live_e e) :
    m.live_h (m.split_h0 e) ∧
    ((m.split_h0 e = m.ehalfedge e ∧ m.twin (m.split_h0 e) = m.twin (m.ehalfedge e)) ∨
      (m.split_h0 e = m.twin (m.ehalfedge e) ∧ m.twin (m.split_h0 e) = m.ehalfedge e)) ∧
    (m.on_boundary e = true → m.is_boundary (m.twin (m.split_h0 e)) = true) ∧
    (m.is_boundary (m.split_h0 e) = true →
      m.is_boundary (m.ehalfedge e) = true ∧ m.is_boundary (m.twin (m.ehalfedge e)) = true) := by
  have l0 := hv.live_ehalfedge he
  have tt := hv.tt l0
  unfold split_h0
  cases hob : m.on_boundary e
  · simp only [Bool.false_eq_true, if_false, true_and, and_self, true_or, false_implies]
    simp only [on_boundary, Bool.or_eq_false_iff] at hob
    refine ⟨l0, ?_⟩
    intro c; rw [hob.1] at c; exact absurd c (by simp)
  · simp only [if_true]
    cases hb : m.is_boundary (m.ehalfedge e)
    · simp only [Bool.false_eq_true, if_false, true_and, and_self, true_or, true_implies]
      simp only [on_boundary, hb, Bool.false_or] at hob
      exact ⟨l0, hob, by simp [hb]⟩
    · simp only [if_true, tt, true_and, and_self, or_true, true_implies]
      exact ⟨hv.live_twin l0, hb, fun c => c⟩

/-- Off the boundary, the part of split_edge past the triangle tests runs to its end. -/
theorem split_run_interior {m : Halfedge_Mesh} (hv : Valid m) {e : Nat} (he : m.live_e e)
    (hob : m.on_boundary e = false) (h0 h1 h1n h2 h3 h6 h7 a b c : Nat) :
    ∃ r, split_run m e false h0 h1 h1n h2 h3 h6 h7 (some a) (some b) (some c) = .ok r := by
  obtain ⟨lt0, lt3⟩ := hv.edge_faces_lt he
  unfold split_run
  dsimp only
  rw [split_alloc_interior hob lt0 lt3]
  simp only [Option.map_some', Bool.false_eq_true, if_false]
  exact bind_ok_of (split_wire_some _) fun a => ⟨_, rfl⟩

/-- On a boundary edge whose inner loop closes after three steps, the part of split_edge
past the triangle test runs to its end. -/
theorem split_run_boundary {m : Halfedge_Mesh} (hv : Valid m) {e : Nat} (he : m.live_e e)
    (hob : m.on_boundary e = true) {h0 : Nat} (l0 : m.live_h h0)
    (hpair : (h0 = m.ehalfedge e ∧ m.twin h0 = m.twin (m.ehalfedge e)) ∨
      (h0 = m.twin (m.ehalfedge e) ∧ m.twin h0 = m.ehalfedge e))
    (hb3 : m.is_boundary (m.twin h0) = true) (c1 : m.closes3 h0) :
    ∃ r, split_run m e true h0 (m.next h0) (m.next (m.next h0)) (m.next (m.next h0))
      (m.twin h0) (m.twin (m.next h0)) (m.twin (m.next (m.next h0))) none none none = .ok r := by
  obtain ⟨lt0, lt3⟩ := hv.edge_faces_lt he
  have l1 := hv.live_next l0
  have l2 := hv.live_next l1
  have l3 := hv.live_twin l0
  have n0 := hv.fresh_h _ l0.1
  have n3 := hv.fresh_h _ l3.1
  have ne := hv.fresh_e _ he.1
  have nf0 := hv.fresh_f _ (hv.live_face l0).1
  have nf3 := hv.fresh_f _ (hv.live_face l3).1
  have tne := hv.twin_ne l0
  have side : ∀ h, m.live_h h → m.edge h = e → h = h0 ∨ h = m.twin h0 := by
    intro h lh ce
    have := hv.edge_orbit h lh.1 lh
    rw [ce] at this
    rcases hpair with ⟨p, q⟩ | ⟨p, q⟩
    · rw [p, q] at *; exact this
    · rw [q, p]; exact this.symm
  have ehs : m.ehalfedge e = h0 ∨ m.ehalfedge e = m.twin h0 := by
    rcases hpair with ⟨p, _⟩ | ⟨_, q⟩
    · exact Or.inl p.symm
    · exact Or.inr q.symm
  have bfresh : ∀ f, f < m.next_id → upd m.boundary (m.next_id + 7) false f = m.boundary f := by
    intro f hf
    simp only [upd]
    rw [if_neg (by omega)]
  unfold split_run
  dsimp only
  rw [split_alloc_boundary hob lt0 lt3]
  simp only [Option.map_none', if_true]
  have t1a : m.next h0 = h0 → m.twin (m.next h0) = m.twin h0 := fun c => by rw [c]
  have t1b : m.next h0 = m.twin h0 → m.twin (m.next h0) = h0 := fun c => by
    rw [c]; exact hv.tt l0
  have t2a : m.next (m.next h0) = h0 → m.twin (m.next (m.next h0)) = m.twin h0 :=
    fun c => by rw [c]
  have t2b : m.next (m.next h0) = m.twin h0 → m.twin (m.next (m.next h0)) = h0 := fun c => by
    rw [c]; exact hv.tt l0
  have t6a : m.twin (m.next h0) = h0 → m.next h0 = m.twin h0 := fun c => by
    have t := hv.tt l1
    rw [c] at t; exact t.symm
  have t6b : m.twin (m.next h0) = m.twin h0 → m.next h0 = h0 := fun c =>
    hv.twin_injective l1 l0 c
  have t7a : m.twin (m.next (m.next h0)) = h0 → m.next (m.next h0) = m.twin h0 := fun c => by
    have t := hv.tt l2
    rw [c] at t; exact t.symm
  have t7b : m.twin (m.next (m.next h0)) = m.twin h0 → m.next (m.next h0) = h0 := fun c =>
    hv.twin_injective l2 l0 c
  have f1 : m.face (m.next h0) = m.face h0 := hv.face_next l0
  have f2 : m.face (m.next (m.next h0)) = m.face h0 := (hv.face_next l1).trans f1
  by_cases hX : m.twin h0 = m.next h0 ∨ m.twin h0 = m.next (m.next h0)
  · have bf0 : upd m.boundary (m.next_id + 7) false (m.face h0) = true := by
      rw [bfresh _ nf0]
      simp only [is_boundary] at hb3
      rcases hX with c | c
      · rw [c, f1] at hb3; exact hb3
      · rw [c, f2] at hb3; exact hb3
    have f2a : m.next (m.next h0) ≠ h0 := by
      intro c
      have c1 := c1
      unfold closes3 at c1
      rw [c] at c1
      rw [c1] at c
      rcases hX with d | d
      · rw [c1] at d; exact tne d
      · rw [c1, c1] at d; exact tne d
    obtain ⟨r, hr, -⟩ := @split_wire_boundary (upd m.boundary (m.next_id + 7) false)
      e h0 (m.twin h0) h0
      ({ m with
          halfedges := m.halfedges ++ [m.next_id, m.next_id + 1, m.next_id + 2, m.next_id + 3]
          vertices := m.vertices ++ [m.next_id + 4]
          edges := m.edges ++ [m.next_id + 5, m.next_id + 6]
          faces := m.faces ++ [m.next_id + 7]
          boundary := upd m.boundary (m.next_id + 7) false
          next_id := m.next_id + 8 })
      ⟨rfl, Or.inl rfl, ehs, rfl, hv.tt l0, bf0⟩
      (m.next h0) (m.next (m.next h0)) (m.next (m.next h0))
      (m.twin (m.next h0)) (m.twin (m.next (m.next h0)))
      (m.vertex h0) (m.vertex (m.twin h0)) (m.vertex (m.twin (m.next h0)))
      (m.edge (m.next (m.next h0))) (m.edge (m.next h0)) (m.face h0)
      m.next_id (m.next_id + 1) (m.next_id + 2) (m.next_id + 3)
      (m.next_id + 4) (m.next_id + 5) (m.next_id + 6) (m.next_id + 7)
      t1a t1b t2a t2b (fun _ => bf0) (fun _ => bf0) f2a t6a t6b t7a t7b
      (by omega) (by omega) (by omega) (by omega) (by omega) (by omega)
      (by omega) (by omega) (by omega) (by omega) (by omega) (by omega)
      (side _ l2) (side _ l1) (by omega) (by omega)
    exact bind_ok_of ⟨r, hr⟩ fun a => ⟨_, rfl⟩
  · have bf3 : upd m.boundary (m.next_id + 7) false (m.face (m.twin h0)) = true := by
      rw [bfresh _ nf3]; exact hb3
    obtain ⟨r, hr, -⟩ := @split_wire_boundary (upd m.boundary (m.next_id + 7) false)
      e h0 (m.twin h0) (m.twin h0)
      ({ m with
          halfedges := m.halfedges ++ [m.next_id, m.next_id + 1, m.next_id + 2, m.next_id + 3]
          vertices := m.vertices ++ [m.next_id + 4]
          edges := m.edges ++ [m.next_id + 5, m.next_id + 6]
          faces := m.faces ++ [m.next_id + 7]
          boundary := upd m.boundary (m.next_id + 7) false
          next_id := m.next_id + 8 })
      ⟨rfl, Or.inr rfl, ehs, rfl, hv.tt l0, bf3⟩
      (m.next h0) (m.next (m.next h0)) (m.next (m.next h0))
      (m.twin (m.next h0)) (m.twin (m.next (m.next h0)))
      (m.vertex h0) (m.vertex (m.twin h0)) (m.vertex (m.twin (m.next h0)))
      (m.edge (m.next (m.next h0))) (m.edge (m.next h0)) (m.face h0)
      m.next_id (m.next_id + 1) (m.next_id + 2) (m.next_id + 3)
      (m.next_id + 4) (m.next_id + 5) (m.next_id + 6) (m.next_id + 7)
      t1a t1b t2a t2b (fun c => absurd c.symm tne) (fun c => absurd c.symm (fun d => hX (Or.inl d)))
      (fun c => hX (Or.inr c.symm)) t6a t6b t7a t7b
      (by omega) (by omega) (by omega) (by omega) (by omega) (by omega)
      (by omega) (by omega) (by omega) (by omega) (by omega) (by omega)
      (side _ l2) (side _ l1) (by omega) (by omega)
    exact bind_ok_of ⟨r, hr⟩ fun a => ⟨_, rfl⟩

/-- On a valid mesh split_edge returns, and it returns the absent result exactly when the
loop of the half-edge it works from does not close after three steps or, off the boundary,
when the loop of the twin does not. -/
theorem split_edge_total {m : Halfedge_Mesh} (hv : Valid m) {e : Nat} (he : m.live_e e)
    {fuel : Nat} (hfuel : m.halfedges.length ≤ fuel) :
    ∃ r m', m.split_edge fuel e = .ok (r, m') ∧
      (r = none ↔ (¬ m.closes3 (m.split_h0 e) ∨
        (m.on_boundary e = false ∧ ¬ m.closes3 (m.twin (m.split_h0 e))))) := by
  obtain ⟨l0, hpair, hb3, -⟩ := hv.split_h0_spec he
  have l3 := hv.live_twin l0
  obtain ⟨h2, hw2, hn2, hl2⟩ := hv.walk_prev l0 hfuel 2
  have hw2' : walk_to m.next (m.split_h0 e) fuel (m.next (m.next (m.split_h0 e))) = .ok h2 :=
    hw2
  unfold split_edge
  dsimp only
  rw [hw2', ok_bind]
  by_cases c1 : m.closes3 (m.split_h0 e)
  swap
  · rw [if_pos (fun c => c1 ((hv.closes3_iff l0 hl2 hn2).1 c))]
    exact ⟨none, m, rfl, by simp [c1]⟩
  have e1 := (hv.closes3_iff l0 hl2 hn2).2 c1
  rw [if_neg (not_not.2 e1)]
  subst e1
  cases hob : m.on_boundary e
  · obtain ⟨h5, hw5, hn5, hl5⟩ := hv.walk_prev l3 hfuel 2
    have hw5' : walk_to m.next (m.twin (m.split_h0 e)) fuel
        (m.next (m.next (m.twin (m.split_h0 e)))) = .ok h5 := hw5
    simp only [Bool.false_eq_true, if_false, hw5', ok_bind, Bool.not_false, true_and]
    by_cases c2 : m.closes3 (m.twin (m.split_h0 e))
    · have e2 := (hv.closes3_iff l3 hl5 hn5).2 c2
      subst e2
      rw [if_neg (by simp)]
      obtain ⟨r, hr⟩ := split_run_interior hv he hob (m.split_h0 e) (m.next (m.split_h0 e))
        (m.next (m.next (m.split_h0 e))) (m.next (m.next (m.split_h0 e)))
        (m.twin (m.split_h0 e)) (m.twin (m.next (m.split_h0 e)))
        (m.twin (m.next (m.next (m.split_h0 e)))) (m.next (m.twin (m.split_h0 e)))
        (m.next (m.next (m.twin (m.split_h0 e)))) (m.next (m.next (m.twin (m.split_h0 e))))
      rw [hr]
      exact ⟨some r.1, r.2, rfl, by simp [c1, c2]⟩
    · rw [if_pos (by
        simp only [ne_eq, Option.some.injEq]
        exact fun c => c2 ((hv.closes3_iff l3 hl5 hn5).1 c))]
      exact ⟨none, m, rfl, by simp [c2]⟩
  · simp only [if_true, ok_bind, Bool.not_true, Bool.false_eq_true, false_and, if_false]
    obtain ⟨r, hr⟩ := split_run_boundary hv he hob l0 hpair (hb3 hob) c1
    rw [hr]
    exact ⟨some r.1, r.2, rfl, by simp [c1]⟩

/-- A loop that returns to its start after three steps and is not a loop of a single
half-edge is a triangle. -/
theorem closes3_iff_triangle (m : Halfedge_Mesh) (h : Nat) (hne : m.next h ≠ h) :
    m.closes3 h ↔ m.triangle h := by
  unfold closes3 triangle
  exact ⟨fun c => ⟨c, hne⟩, fun c => c.1⟩

/-- C9 (amended): on a valid mesh split_edge returns. For a live edge `e` with at most one
side in a boundary face, and with no adjacent non-boundary face that is a loop of a single
half-edge, it returns the absent result exactly when some non-boundary face adjacent to
`e` is not a triangle (a loop of exactly three half-edges); a boundary edge whose interior
face is a triangle is accepted whatever the boundary loop is. For an edge with both sides
in a boundary face, where the twin of the half-edge of `e` is not alone in its loop, it
returns the absent result exactly when the loop of that twin is not a triangle. -/
theorem C9_split_edge_refusal (m : Halfedge_Mesh) (fuel e : Nat) (hv : Valid m)
    (he : m.live_e e) (hfuel : m.halfedges.length ≤ fuel) :
    ∃ r m', m.split_edge fuel e = .ok (r, m') ∧
      (¬ (m.is_boundary (m.ehalfedge e) = true ∧
          m.is_boundary (m.twin (m.ehalfedge e)) = true) →
        (∀ h, (h = m.ehalfedge e ∨ h = m.twin (m.ehalfedge e)) →
          m.is_boundary h = false → m.next h ≠ h) →
        (r = none ↔ ∃ h, (h = m.ehalfedge e ∨ h = m.twin (m.ehalfedge e)) ∧
          m.is_boundary h = false ∧ ¬ m.triangle h)) ∧
      (∀ h, (h = m.ehalfedge e ∨ h = m.twin (m.ehalfedge e)) →
        m.is_boundary h = false → m.is_boundary (m.twin h) = true → m.triangle h →
        r ≠ none) ∧
      (m.is_boundary (m.ehalfedge e) = true ∧ m.is_boundary (m.twin (m.ehalfedge e)) = true →
        m.next (m.twin (m.ehalfedge e)) ≠ m.twin (m.ehalfedge e) →
        (r = none ↔ ¬ m.triangle (m.twin (m.ehalfedge e)))) := by
  obtain ⟨r, m', hr, hiff⟩ := split_edge_total hv he hfuel
  have l0 := hv.live_ehalfedge he
  have ht := hv.tt l0
  have old1 : ¬ (m.is_boundary (m.ehalfedge e) = true ∧
      m.is_boundary (m.twin (m.ehalfedge e)) = true) →
      (r = none ↔ ∃ h, (h = m.ehalfedge e ∨ h = m.twin (m.ehalfedge e)) ∧
        m.is_boundary h = false ∧ ¬ m.closes3 h) := by
    intro hside
    rw [hiff]
    unfold split_h0 on_boundary
    cases ha : m.is_boundary (m.ehalfedge e) <;>
      cases hb : m.is_boundary (m.twin (m.ehalfedge e))
    · simp [ha, hb, or_and_right, exists_or]
    · simp [ha, hb, or_and_right, exists_or]
    · simp [ha, hb, or_and_right, exists_or, ht]
    · simp [ha, hb] at hside
  refine ⟨r, m', hr, ?_, ?_, ?_⟩
  · intro hside hone
    rw [old1 hside]
    constructor
    · rintro ⟨h, hh, hb, hc⟩
      exact ⟨h, hh, hb, fun t => hc t.1⟩
    · rintro ⟨h, hh, hb, hc⟩
      exact ⟨h, hh, hb, fun t => hc ⟨t, hone h hh hb⟩⟩
  · intro h hh hb hbt htri c
    have hside : ¬ (m.is_boundary (m.ehalfedge e) = true ∧
        m.is_boundary (m.twin (m.ehalfedge e)) = true) := by
      rintro ⟨s1, s2⟩
      rcases hh with rfl | rfl
      · rw [s1] at hb
        exact Bool.noConfusion hb
      · rw [s2] at hb
        exact Bool.noConfusion hb
    obtain ⟨x, hx, hxb, hxc⟩ := (old1 hside).1 c
    have hxh : x = h := by
      rcases hh with rfl | rfl <;> rcases hx with rfl | rfl
      · rfl
      · rw [hxb] at hbt
        exact Bool.noConfusion hbt
      · rw [ht, hxb] at hbt
        exact Bool.noConfusion hbt
      · rfl
    subst hxh
    exact hxc htri.1
  · rintro ⟨ha, hb⟩ hone
    rw [hiff, ← closes3_iff_triangle m _ hone]
    unfold split_h0 on_boundary
    simp [ha, hb]

/-! ## Following one property of the mesh through the assignments of split_edge -/

theorem keeps_ok {P : Halfedge_Mesh → Prop} {x : Halfedge_Mesh} (h : P x) :
    ∀ r, (Except.ok x : Except Fault Halfedge_Mesh) = .ok r → P r := by
  intro r hr
  cases hr
  exact h

theorem keeps_use_bind {P : Halfedge_Mesh → Prop} {x : Option Nat}
    {f : Nat → Except Fault Halfedge_Mesh}
    (h : ∀ a, x = some a → ∀ r, f a = .ok r → P r) :
    ∀ r, (use x).bind f = .ok r → P r := by
  intro r hr
  cases x with
  | none => simp [use] at hr
  | some a => exact h a rfl r hr

theorem keeps_ite {P : Halfedge_Mesh → Prop} {c : Prop} [Decidable c]
    {x y : Except Fault Halfedge_Mesh}
    (hx : ∀ r, x = .ok r → P r) (hy : ∀ r, y = .ok r → P r) :
    ∀ r, (if c then x else y) = .ok r → P r := by
  intro r hr
  split_ifs at hr
  · exact hx r hr
  · exact hy r hr

theorem split_w1_h0 (m : Halfedge_Mesh)
    (e h0 h1 h2 h3 h6 h7 h10 h12 h13 v1 v4 e3 e4 f0 f2 : Nat) (h4 : Option Nat)
    (n1 : h0 ≠ h1) (n2 : h0 ≠ h2) :
    ∀ r, split_w1 m e h0 h1 h2 h3 h6 h7 h10 h12 h13 v1 v4 e3 e4 f0 f2 h4 = .ok r →
      r.vertex h0 = v4 ∧ r.edge h0 = e := by
  unfold split_w1
  refine keeps_ite ?_ ?_
  all_goals repeat (first
    | refine keeps_use_bind (fun _ _ => ?_)
    | refine keeps_ok ?_)
  all_goals
    try simp only [set_next, set_twin, set_vertex, set_edge, set_face, set_vhalfedge,
      set_ehalfedge, set_fhalfedge, set_pos, keep_next, keep_twin, keep_vertex, keep_edge,
      keep_face, upd_self]
    simp [upd, n1, n2]

theorem split_w2_h0 (m : Halfedge_Mesh) (e h0 h3 h12 h13 v4 e6 : Nat) (f3 : Option Nat)
    (n13 : h0 ≠ h13) (hv : m.vertex h0 = v4) (hed : m.edge h0 = e) :
    ∀ r, split_w2 m e h3 h12 h13 v4 e6 f3 = .ok r → r.vertex h0 = v4 ∧ r.edge h0 = e := by
  unfold split_w2
  refine keeps_ite ?_ ?_
  all_goals repeat (first
    | refine keeps_use_bind (fun _ _ => ?_)
    | refine keeps_ok ?_)
  all_goals
    try simp only [set_next, set_twin, set_vertex, set_edge, set_face, set_vhalfedge,
      set_ehalfedge, set_fhalfedge, set_pos, keep_next, keep_twin, keep_vertex, keep_edge,
      keep_face, upd_self]
    simp [upd, n13, hv, hed]

theorem split_w3_h0 (m : Halfedge_Mesh) (e h0 h3 h13 v4 : Nat) (h15 : Option Nat)
    (hv : m.vertex h0 = v4) (hed : m.edge h0 = e) :
    ∀ r, split_w3 m e h3 h13 h15 = .ok r → r.vertex h0 = v4 ∧ r.edge h0 = e := by
  unfold split_w3
  refine keeps_ite ?_ ?_
  all_goals repeat (first
    | refine keeps_use_bind (fun _ _ => ?_)
    | refine keeps_ok ?_)
  all_goals
    try simp only [set_next, set_twin, set_vertex, set_edge, set_face, set_vhalfedge,
      set_ehalfedge, set_fhalfedge, set_pos, keep_next, keep_twin, keep_vertex, keep_edge,
      keep_face, upd_self]
    simp [hv, hed]

theorem split_w4_h0 (m : Halfedge_Mesh) (e h0 h3 v1 v4 : Nat) (f1 : Option Nat)
    (n3 : h0 ≠ h3) (hv : m.vertex h0 = v4) (hed : m.edge h0 = e) :
    ∀ r, split_w4 m e h0 h3 v1 f1 = .ok r → r.vertex h0 = v4 ∧ r.edge h0 = e := by
  unfold split_w4
  refine keeps_ite ?_ ?_
  all_goals repeat (first
    | refine keeps_use_bind (fun _ _ => ?_)
    | refine keeps_ok ?_)
  all_goals
    try simp only [set_next, set_twin, set_vertex, set_edge, set_face, set_vhalfedge,
      set_ehalfedge, set_fhalfedge, set_pos, keep_next, keep_twin, keep_vertex, keep_edge,
      keep_face, upd_self]
    simp [upd, n3, hv, hed]

theorem split_w5_h0 (m : Halfedge_Mesh) (e h0 h3 v0 v4 : Nat)
    (h4 h5 h8 h9 e1 e2 f1 h14 f3 : Option Nat)
    (c4 : ∀ a, h4 = some a → h0 ≠ a) (c5 : ∀ a, h5 = some a → h0 ≠ a)
    (hv : m.vertex h0 = v4) (hed : m.edge h0 = e) :
    ∀ r, split_w5 m e h3 v0 h4 h5 h8 h9 e1 e2 f1 h14 f3 = .ok r →
      r.vertex h0 = v4 ∧ r.edge h0 = e := by
  unfold split_w5
  refine keeps_ite ?_ ?_
  all_goals repeat (first
    | refine keeps_use_bind (fun _ _ => ?_)
    | refine keeps_ok ?_)
  all_goals
    try simp only [set_next, set_twin, set_vertex, set_edge, set_face, set_vhalfedge,
      set_ehalfedge, set_fhalfedge, set_pos, keep_next, keep_twin, keep_vertex, keep_edge,
      keep_face, upd_self]
    simp_all [upd]

theorem split_w6_h0 (m : Halfedge_Mesh) (e h0 h1 h2 h6 h7 v0 v1 v3 v4 e3 e4 : Nat)
    (h4 h5 h8 h9 v2 e1 e2 : Option Nat) (n6 : h0 ≠ h6) (n7 : h0 ≠ h7)
    (c8 : ∀ a, h8 = some a → h0 ≠ a) (c9 : ∀ a, h9 = some a → h0 ≠ a)
    (hv : m.vertex h0 = v4) (hed : m.edge h0 = e) :
    ∀ r, split_w6 m e h1 h2 h6 h7 v0 v1 v3 e3 e4 h4 h5 h8 h9 v2 e1 e2 = .ok r →
      r.vertex h0 = v4 ∧ r.edge h0 = e := by
  unfold split_w6
  refine keeps_ite ?_ ?_
  all_goals repeat (first
    | refine keeps_use_bind (fun _ _ => ?_)
    | refine keeps_ok ?_)
  all_goals
    try simp only [set_next, set_twin, set_vertex, set_edge, set_face, set_vhalfedge,
      set_ehalfedge, set_fhalfedge, set_pos, keep_next, keep_twin, keep_vertex, keep_edge,
      keep_face, upd_self]
    simp_all [upd]

theorem split_w7_h0 (m : Halfedge_Mesh)
    (e h0 h1n h10 h11 h12 h13 v0 v3 v4 e5 e6 f0 f2 : Nat)
    (h4n v2 f1 h14 h15 e7 f3 : Option Nat) (n10 : h0 ≠ h10) (n11 : h0 ≠ h11)
    (n12 : h0 ≠ h12) (c14 : ∀ a, h14 = some a → h0 ≠ a) (c15 : ∀ a, h15 = some a → h0 ≠ a)
    (hv : m.vertex h0 = v4) (hed : m.edge h0 = e) :
    ∀ r, split_w7 m e h0 h1n h10 h11 h12 h13 v0 v3 v4 e5 e6 f0 f2 h4n v2 f1 h14 h15 e7 f3 =
      .ok r → r.vertex h0 = v4 ∧ r.edge h0 = e := by
  unfold split_w7
  refine keeps_ite ?_ ?_
  all_goals repeat (first
    | refine keeps_use_bind (fun _ _ => ?_)
    | refine keeps_ok ?_)
  all_goals
    try simp only [set_next, set_twin, set_vertex, set_edge, set_face, set_vhalfedge,
      set_ehalfedge, set_fhalfedge, set_pos, keep_next, keep_twin, keep_vertex, keep_edge,
      keep_face, upd_self]
    simp_all [upd]

theorem split_w8_h0 (m : Halfedge_Mesh) (e h0 h1 h7 h10 v0 v1 v3 v4 : Nat)
    (v2 h14 : Option Nat) (c2 : ∀ a, v2 = some a → v4 ≠ a)
    (hv : m.vertex h0 = v4) (hed : m.edge h0 = e) :
    ∀ r, split_w8 m e h0 h1 h7 h10 v0 v1 v3 v4 v2 h14 = .ok r →
      r.vertex h0 = v4 ∧ r.edge h0 = e ∧ r.vhalfedge v4 = h0 := by
  unfold split_w8
  refine keeps_ite ?_ ?_
  all_goals repeat (first
    | refine keeps_use_bind (fun _ _ => ?_)
    | refine keeps_ok ?_)
  all_goals
    try simp only [set_next, set_twin, set_vertex, set_edge, set_face, set_vhalfedge,
      set_ehalfedge, set_fhalfedge, set_pos, keep_next, keep_twin, keep_vertex, keep_edge,
      keep_face, upd_self]
    simp_all [upd]

theorem split_w9_h0 (m : Halfedge_Mesh) (e h0 h1 h2 h10 h12 v4 e3 e4 e5 e6 : Nat)
    (h4 h5 e1 e2 h14 e7 : Option Nat)
    (hv : m.vertex h0 = v4) (hed : m.edge h0 = e) (hvh : m.vhalfedge v4 = h0) :
    ∀ r, split_w9 m e h0 h1 h2 h10 h12 e3 e4 e5 e6 h4 h5 e1 e2 h14 e7 = .ok r →
      r.vertex h0 = v4 ∧ r.edge h0 = e ∧ r.vhalfedge v4 = h0 := by
  unfold split_w9
  refine keeps_ite ?_ ?_
  all_goals repeat (first
    | refine keeps_use_bind (fun _ _ => ?_)
    | refine keeps_ok ?_)
  all_goals
    try simp only [set_next, set_twin, set_vertex, set_edge, set_face, set_vhalfedge,
      set_ehalfedge, set_fhalfedge, set_pos, keep_next, keep_twin, keep_vertex, keep_edge,
      keep_face, upd_self]
    simp_all

theorem split_w10_h0 (m : Halfedge_Mesh) (e h0 h11 v4 f0 f2 : Nat) (h4 h5 f1 f3 : Option Nat)
    (hv : m.vertex h0 = v4) (hed : m.edge h0 = e) (hvh : m.vhalfedge v4 = h0) :
    ∀ r, split_w10 m e h0 h11 f0 f2 h4 h5 f1 f3 = .ok r →
      r.vertex h0 = v4 ∧ r.edge h0 = e ∧ r.vhalfedge v4 = h0 := by
  unfold split_w10
  refine keeps_ite ?_ ?_
  all_goals repeat (first
    | refine keeps_use_bind (fun _ _ => ?_)
    | refine keeps_ok ?_)
  all_goals
    try simp only [set_next, set_twin, set_vertex, set_edge, set_face, set_vhalfedge,
      set_ehalfedge, set_fhalfedge, set_pos, keep_next, keep_twin, keep_vertex, keep_edge,
      keep_face, upd_self]
    simp_all

/-- After the assignments of split_edge, the new vertex `v4` refers to the half-edge `h0`,
which starts at `v4` and belongs to the edge `e`, provided no other half-edge that the
routine assigns is `h0`. -/
theorem split_wire_h0 (m : Halfedge_Mesh)
    (e h0 h1 h1n h2 h3 h6 h7 v0 v1 v3 e3 e4 f0 h10 h11 h12 h13 v4 e5 e6 f2 : Nat)
    (h4 h4n h5 h8 h9 v2 e1 e2 f1 h14 h15 e7 f3 : Option Nat)
    (n1 : h0 ≠ h1) (n2 : h0 ≠ h2) (n3 : h0 ≠ h3) (n6 : h0 ≠ h6) (n7 : h0 ≠ h7)
    (n10 : h0 ≠ h10) (n11 : h0 ≠ h11) (n12 : h0 ≠ h12) (n13 : h0 ≠ h13)
    (c4 : ∀ a, h4 = some a → h0 ≠ a) (c5 : ∀ a, h5 = some a → h0 ≠ a)
    (c8 : ∀ a, h8 = some a → h0 ≠ a) (c9 : ∀ a, h9 = some a → h0 ≠ a)
    (c14 : ∀ a, h14 = some a → h0 ≠ a) (c15 : ∀ a, h15 = some a → h0 ≠ a)
    (c2 : ∀ a, v2 = some a → v4 ≠ a) :
    ∀ r, split_wire m e h0 h1 h1n h2 h3 h6 h7 v0 v1 v3 e3 e4 f0 h10 h11 h12 h13 v4 e5 e6 f2
      h4 h4n h5 h8 h9 v2 e1 e2 f1 h14 h15 e7 f3 = .ok r →
      r.vertex h0 = v4 ∧ r.edge h0 = e ∧ r.vhalfedge v4 = h0 := by
  intro r hr
  unfold split_wire at hr
  obtain ⟨m1, e1', hr⟩ := bind_eq_ok.1 hr
  obtain ⟨m2, e2', hr⟩ := bind_eq_ok.1 hr
  obtain ⟨m3, e3', hr⟩ := bind_eq_ok.1 hr
  obtain ⟨m4, e4', hr⟩ := bind_eq_ok.1 hr
  obtain ⟨m5, e5', hr⟩ := bind_eq_ok.1 hr
  obtain ⟨m6, e6', hr⟩ := bind_eq_ok.1 hr
  obtain ⟨m7, e7', hr⟩ := bind_eq_ok.1 hr
  obtain ⟨m8, e8', hr⟩ := bind_eq_ok.1 hr
  obtain ⟨m9, e9', hr⟩ := bind_eq_ok.1 hr
  obtain ⟨a1, b1⟩ := split_w1_h0 _ _ _ _ _ _ _ _ _ _ _ _ _ _ _ _ _ _ n1 n2 _ e1'
  obtain ⟨a2, b2⟩ := split_w2_h0 _ _ _ _ _ _ _ _ _ n13 a1 b1 _ e2'
  obtain ⟨a3, b3⟩ := split_w3_h0 _ _ _ _ _ _ _ a2 b2 _ e3'
  obtain ⟨a4, b4⟩ := split_w4_h0 _ _ _ _ _ _ _ n3 a3 b3 _ e4'
  obtain ⟨a5, b5⟩ := split_w5_h0 _ _ _ _ _ _ _ _ _ _ _ _ _ _ _ c4 c5 a4 b4 _ e5'
  obtain ⟨a6, b6⟩ := split_w6_h0 _ _ _ _ _ _ _ _ _ _ _ _ _ _ _ _ _ _ _ _ n6 n7 c8 c9 a5 b5 _
    e6'
  obtain ⟨a7, b7⟩ := split_w7_h0 _ _ _ _ _ _ _ _ _ _ _ _ _ _ _ _ _ _ _ _ _ _ n10 n11 n12 c14
    c15 a6 b6 _ e7'
  obtain ⟨a8, b8, d8⟩ := split_w8_h0 _ _ _ _ _ _ _ _ _ _ _ _ c2 a7 b7 _ e8'
  obtain ⟨a9, b9, d9⟩ := split_w9_h0 _ _ _ _ _ _ _ _ _ _ _ _ _ _ _ _ _ _ a8 b8 d8 _ e9'
  exact split_w10_h0 _ _ _ _ _ _ _ _ _ _ _ a9 b9 d9 _ hr

/-- An accepted split_edge has found both loops closed after three steps and has gone
through split_run with these half-edges. -/
theorem split_edge_accepted_args {m m' : Halfedge_Mesh} {fuel e v : Nat}
    (h : m.split_edge fuel e = .ok (some v, m')) :
    m.closes3 (m.split_h0 e) ∧
    (m.on_boundary e = false → m.closes3 (m.twin (m.split_h0 e))) ∧
    split_run m e (m.on_boundary e) (m.split_h0 e) (m.next (m.split_h0 e))
      (m.next (m.next (m.split_h0 e))) (m.next (m.next (m.split_h0 e)))
      (m.twin (m.split_h0 e)) (m.twin (m.next (m.split_h0 e)))
      (m.twin (m.next (m.next (m.split_h0 e))))
      (if m.on_boundary e then none else some (m.next (m.twin (m.split_h0 e))))
      (if m.on_boundary e then none else some (m.next (m.next (m.twin (m.split_h0 e)))))
      (if m.on_boundary e then none else some (m.next (m.next (m.twin (m.split_h0 e))))) =
      .ok (v, m') := by
  unfold split_edge at h
  dsimp only at h
  obtain ⟨h2, hw2, h⟩ := bind_eq_ok.1 h
  by_cases c1 : m.next (m.next (m.split_h0 e)) ≠ h2
  · rw [if_pos c1] at h; simp at h
  rw [if_neg c1] at h
  have e2 : m.next (m.next (m.split_h0 e)) = h2 := not_not.1 c1
  subst e2
  have hn2 := (walk_to_sound m.next _ fuel _ _ hw2).1
  obtain ⟨h5, hw5, h⟩ := bind_eq_ok.1 h
  cases hob : m.on_boundary e
  · rw [hob] at h hw5
    simp only [Bool.false_eq_true, if_false, Bool.not_false, true_and] at h hw5
    obtain ⟨y, hy, hy5⟩ := bind_eq_ok.1 hw5
    simp only [Except.ok.injEq] at hy5
    subst hy5
    have hn5 := (walk_to_sound m.next _ fuel _ _ hy).1
    by_cases c2 : some (m.next (m.next (m.twin (m.split_h0 e)))) ≠ some y
    · rw [if_pos c2] at h; simp at h
    rw [if_neg c2] at h
    have e5 : m.next (m.next (m.twin (m.split_h0 e))) = y := by
      have := not_not.1 c2
      simpa using this
    subst e5
    obtain ⟨r, hr, hr2⟩ := bind_eq_ok.1 h
    simp only [Except.ok.injEq, Prod.mk.injEq, Option.some.injEq] at hr2
    obtain ⟨rfl, rfl⟩ := hr2
    exact ⟨hn2, fun _ => hn5, hr⟩
  · rw [hob] at h hw5
    simp only [if_true, Except.ok.injEq] at hw5
    subst hw5
    simp only [Bool.not_true, Bool.false_eq_true, false_and, if_false, if_true] at h
    obtain ⟨r, hr, hr2⟩ := bind_eq_ok.1 h
    simp only [Except.ok.injEq, Prod.mk.injEq, Option.some.injEq] at hr2
    obtain ⟨rfl, rfl⟩ := hr2
    exact ⟨hn2, fun c => by simp at c, hr⟩


/-- Where lines 451 and 571 do what they are written for: on a valid mesh, an accepted
split_edge(e) returns a new vertex `v4` whose half-edge is the half-edge `h0` of `e` that
the routine works from, a half-edge that existed before the call, whose edge is `e`, which
is not one of the created edges; and its vertex is `v4`, provided each endpoint of `e` has
more than one outgoing half-edge and neither `h0` nor, off the boundary, its twin is alone
on its loop of `next`, so that none of the half-edges assigned after line 451 is `h0`. -/
theorem split_edge_vertex_halfedge (m m' : Halfedge_Mesh) (fuel e v4 : Nat)
    (hv : Valid m) (he : m.live_e e) (h : m.split_edge fuel e = .ok (some v4, m'))
    (hr0 : m.rot (m.ehalfedge e) ≠ m.ehalfedge e)
    (hr1 : m.rot (m.twin (m.ehalfedge e)) ≠ m.twin (m.ehalfedge e))
    (hn0 : m.next (m.split_h0 e) ≠ m.split_h0 e)
    (hn3 : m.on_boundary e = false →
      m.next (m.twin (m.split_h0 e)) ≠ m.twin (m.split_h0 e)) :
    v4 ∉ m.vertices ∧ m'.vhalfedge v4 = m.split_h0 e ∧
    m'.vertex (m'.vhalfedge v4) = v4 ∧ m'.edge (m'.vhalfedge v4) = e ∧
    m'.vhalfedge v4 ∈ m.halfedges ∧
    (∀ e' ∈ m'.edges, e' ∉ m.edges → m'.edge (m'.vhalfedge v4) ≠ e') := by
  obtain ⟨c3, c3', hrun⟩ := split_edge_accepted_args h
  obtain ⟨l0, hpair, -, -⟩ := hv.split_h0_spec he
  obtain ⟨lt0, lt3⟩ := hv.edge_faces_lt he
  have l3 := hv.live_twin l0
  have l1 := hv.live_next l0
  have l2 := hv.live_next l1
  have n0 := hv.fresh_h _ l0.1
  have tt0 := hv.tt l0
  have r0 : m.next (m.twin (m.split_h0 e)) ≠ m.split_h0 e := by
    rcases hpair with ⟨p, q⟩ | ⟨p, q⟩
    · rw [p]; exact hr0
    · intro c
      apply hr1
      unfold rot
      rw [← p, c]
  have r3 : m.next (m.split_h0 e) ≠ m.twin (m.split_h0 e) := by
    rcases hpair with ⟨p, q⟩ | ⟨p, q⟩
    · intro c
      apply hr1
      unfold rot
      rw [← q, tt0, c]
    · intro c
      apply hr0
      unfold rot
      rw [← q, tt0, c]
  unfold closes3 at c3 c3'
  have n1 : m.split_h0 e ≠ m.next (m.split_h0 e) := hn0.symm
  have n2 : m.split_h0 e ≠ m.next (m.next (m.split_h0 e)) := by
    intro c
    rw [← c] at c3
    exact hn0 c3
  have n3 : m.split_h0 e ≠ m.twin (m.split_h0 e) := (hv.twin_ne l0).symm
  have n6 : m.split_h0 e ≠ m.twin (m.next (m.split_h0 e)) := by
    intro c
    have t := hv.tt l1
    rw [← c] at t
    exact r3 t.symm
  have n7 : m.split_h0 e ≠ m.twin (m.next (m.next (m.split_h0 e))) := by
    intro c
    have t := hv.tt l2
    rw [← c] at t
    apply r0
    rw [t]; exact c3
  have vfresh : ∀ k, m.next_id + k ∉ m.vertices := fun k c => by
    have := hv.fresh_v _ c
    omega
  have efresh : ∀ k, m.next_id + k ∉ m.edges := fun k c => by
    have := hv.fresh_e _ c
    omega
  have ee : m.edge (m.split_h0 e) = e := by
    rcases hpair with ⟨p, q⟩ | ⟨p, q⟩
    · rw [p]; exact (hv.edge_he e he.1 he).2
    · rw [p, hv.edge_twin (hv.live_ehalfedge he)]; exact (hv.edge_he e he.1 he).2
  unfold split_run at hrun
  dsimp only at hrun
  obtain ⟨ma, hw, heq⟩ := bind_eq_ok.1 hrun
  simp only [Except.ok.injEq, Prod.mk.injEq] at heq
  obtain ⟨hv4, rfl⟩ := heq
  have key : ma.vertex (m.split_h0 e) = v4 ∧ ma.edge (m.split_h0 e) = e ∧
      ma.vhalfedge v4 = m.split_h0 e ∧ v4 ∉ m.vertices := by
    cases hob : m.on_boundary e
    · have hn3' := hn3 hob
      have c3'' := c3' hob
      rw [hob, split_alloc_interior hob lt0 lt3] at hw hv4
      simp only [Bool.false_eq_true, if_false, Option.map_some'] at hw hv4
      subst hv4
      have l4 := hv.live_next l3
      have l5 := hv.live_next l4
      have l8 := hv.live_twin l4
      have nv := hv.fresh_v _ (hv.live_vertex l8).1
      obtain ⟨a, b, c⟩ := split_wire_h0 _ _ _ _ _ _ _ _ _ _ _ _ _ _ _ _ _ _ _ _ _ _ _
        _ _ _ _ _ _ _ _ _ _ _ _ _ n1 n2 n3 n6 n7 (by omega) (by omega) (by omega) (by omega)
        (fun a c => by
          simp only [Option.some.injEq] at c
          rw [← c]; exact r0.symm)
        (fun a c => by
          simp only [Option.some.injEq] at c
          rw [← c]
          intro d
          rw [← d] at c3''
          exact r3 c3'')
        (fun a c => by
          simp only [Option.some.injEq] at c
          rw [← c]
          intro d
          have t := hv.tt l4
          rw [← d] at t
          exact hn3' t.symm)
        (fun a c => by
          simp only [Option.some.injEq] at c
          rw [← c]
          intro d
          have t := hv.tt l5
          rw [← d] at t
          rw [← t] at c3''
          exact hn3' c3'')
        (fun a c => by
          simp only [Option.some.injEq] at c
          omega)
        (fun a c => by
          simp only [Option.some.injEq] at c
          omega)
        (fun a c => by
          simp only [Option.some.injEq] at c
          omega)
        _ hw
      exact ⟨a, b, c, vfresh 6⟩
    · rw [hob, split_alloc_boundary hob lt0 lt3] at hw hv4
      simp only [if_true, Option.map_none'] at hw hv4
      subst hv4
      obtain ⟨a, b, c⟩ := split_wire_h0 _ _ _ _ _ _ _ _ _ _ _ _ _ _ _ _ _ _ _ _ _ _ _
        _ _ _ _ _ _ _ _ _ _ _ _ _ n1 n2 n3 n6 n7 (by omega) (by omega) (by omega) (by omega)
        (fun a c => by simp at c) (fun a c => by simp at c) (fun a c => by simp at c)
        (fun a c => by simp at c) (fun a c => by simp at c) (fun a c => by simp at c)
        (fun a c => by simp at c) _ hw
      exact ⟨a, b, c, vfresh 4⟩
  obtain ⟨k1, k2, k3, k4⟩ := key
  refine ⟨k4, k3, ?_, ?_, ?_, ?_⟩
  · rw [k3]; exact k1
  · rw [k3]; exact k2
  · rw [k3]; exact l0.1
  · intro e' _ he'
    rw [k3, k2]
    intro c
    exact he' (c ▸ he.1)

/-! ## More on maps that are injective on a finite set -/

/-- Every point of a set contained in a list is periodic under a map that is injective on
the set and keeps it. -/
theorem exists_period_pred (f : Nat → Nat) (P : Nat → Prop) (l : List Nat)
    (hl : ∀ x, P x → x ∈ l) (hmaps : ∀ x, P x → P (f x))
    (hinj : ∀ a b, P a → P b → f a = f b → a = b) {x : Nat} (hx : P x) :
    ∃ n, 0 < n ∧ n ≤ l.length ∧ f^[n] x = x := by
  classical
  have hmem : ∀ y, y ∈ l.filter (fun y => decide (P y)) ↔ P y := by
    intro y
    simp only [List.mem_filter, decide_eq_true_eq]
    exact ⟨fun h => h.2, fun h => ⟨hl y h, h⟩⟩
  obtain ⟨n, h0, h1, h2⟩ := exists_period f (l.filter (fun y => decide (P y)))
    (fun y hy => (hmem _).2 (hmaps y ((hmem y).1 hy)))
    (fun a ha b hb => hinj a b ((hmem a).1 ha) ((hmem b).1 hb)) x ((hmem x).2 hx)
  exact ⟨n, h0, le_trans h1 (List.length_filter_le _ _), h2⟩

/-- The walk along such a map from a point of the orbit of `x` up to `x` ends on the point
of the set that comes before `x`. -/
theorem walk_pred (f : Nat → Nat) (P : Nat → Prop) (l : List Nat)
    (hl : ∀ x, P x → x ∈ l) (hmaps : ∀ x, P x → P (f x))
    (hinj : ∀ a b, P a → P b → f a = f b → a = b) {x : Nat} (hx : P x)
    {fuel : Nat} (hfuel : l.length ≤ fuel) (j : Nat) :
    ∃ y, walk_to f x fuel (f^[j] x) = .ok y ∧ f y = x ∧ P y := by
  obtain ⟨p, hp0, hp1, hp⟩ := exists_period_pred f P l hl hmaps hinj hx
  obtain ⟨k, hk, hret⟩ := exists_return f x p hp0 hp j
  obtain ⟨i, _, hw, hfi⟩ := walk_to_ok f x fuel (f^[j] x) k (by omega) hret
  exact ⟨_, hw, hfi, iterate_mem f P hmaps i _ (iterate_mem f P hmaps j x hx)⟩

/-- A period of a point of the orbit of `x` is a period of `x`. -/
theorem period_transfer (f : Nat → Nat) (P : Nat → Prop) (hmaps : ∀ x, P x → P (f x))
    (hinj : ∀ a b, P a → P b → f a = f b → a = b) {x : Nat} (hx : P x) (n d : Nat)
    (h : f^[d] (f^[n] x) = f^[n] x) : f^[d] x = x := by
  have h2 : f^[n] (f^[d] x) = f^[n] x := by
    rw [← Function.iterate_add_apply, Nat.add_comm, Function.iterate_add_apply]; exact h
  exact iterate_inj f P hmaps hinj n _ _ (iterate_mem f P hmaps d x hx) hx h2

/-- A period of `x` is a period of every point of the orbit of `x`. -/
theorem period_orbit (f : Nat → Nat) {x : Nat} (n d : Nat) (h : f^[d] x = x) :
    f^[d] (f^[n] x) = f^[n] x := by
  rw [← Function.iterate_add_apply, Nat.add_comm, Function.iterate_add_apply, h]

/-- The orbit of a point that comes back after three steps has at most three points. -/
theorem iterate_three (f : Nat → Nat) (x : Nat) (h3 : f (f (f x)) = x) :
    ∀ j, f^[j] x = x ∨ f^[j] x = f x ∨ f^[j] x = f (f x) := by
  intro j
  induction j with
  | zero => exact Or.inl rfl
  | succ j ih =>
    rw [Function.iterate_succ_apply']
    rcases ih with c | c | c <;> rw [c]
    · exact Or.inr (Or.inl rfl)
    · exact Or.inr (Or.inr rfl)
    · exact Or.inl h3

/-- Two points of the orbit of a periodic point: the second is in the orbit of the first. -/
theorem orbit_of_orbit (f : Nat → Nat) (s : Nat) (p : Nat) (hp0 : 0 < p) (hp : f^[p] s = s)
    (a b : Nat) : ∃ j, f^[b] s = f^[j] (f^[a] s) := by
  refine ⟨b + (p * a - a), ?_⟩
  rw [← Function.iterate_add_apply]
  have : b + (p * a - a) + a = b + p * a := by
    have : a ≤ p * a := Nat.le_mul_of_pos_left a hp0
    omega
  rw [this, Function.iterate_add_apply, iterate_mul_period f s p hp]

/-! ## The loops of collapse_edge on a valid mesh -/

/-- The loop of lines 73-78 finishes when the rotation comes back to `h1` within the
fuel. -/
theorem collect_v1_ok (m : Halfedge_Mesh) (h1 : Nat) :
    ∀ fuel it acc k, k < fuel → m.rot (m.rot^[k] it) = h1 →
      ∃ l, collect_v1 m h1 fuel it acc = .ok l := by
  intro fuel
  induction fuel with
  | zero => intro it acc k hk; omega
  | succ fuel ih =>
    intro it acc k hk hr
    by_cases c : m.rot it = h1
    · exact ⟨acc ++ [it], by simp [collect_v1, c]⟩
    · cases k with
      | zero => exact absurd hr c
      | succ k =>
        rw [Function.iterate_succ_apply] at hr
        obtain ⟨l, hl⟩ := ih (m.rot it) (acc ++ [m.rot it]) k (by omega) hr
        exact ⟨l, by simp [collect_v1, c, hl]⟩

/-- What the loop of lines 73-78 collects: points of the orbit of the rotation, and `h1`
only if the rotation fixes it. -/
theorem collect_v1_mem (m : Halfedge_Mesh) (h1 : Nat) :
    ∀ fuel it acc l, collect_v1 m h1 fuel it acc = .ok l →
      ∀ x ∈ l, x ∈ acc ∨ ((∃ j, x = m.rot^[j] it) ∧ (x = h1 → x = it ∧ m.rot it = h1)) := by
  intro fuel
  induction fuel with
  | zero => intro it acc l h; simp [collect_v1] at h
  | succ fuel ih =>
    intro it acc l h x hx
    by_cases c : m.rot it = h1
    · simp only [collect_v1, c, if_true, Except.ok.injEq] at h
      subst h
      rcases List.mem_append.1 hx with hx | hx
      · exact Or.inl hx
      · rw [List.mem_singleton] at hx
        exact Or.inr ⟨⟨0, hx⟩, fun _ => ⟨hx, c⟩⟩
    · simp only [collect_v1, c, if_false] at h
      rcases ih _ _ _ h x hx with hx | ⟨⟨j, hj⟩, hx1⟩
      · rcases List.mem_append.1 hx with hx | hx
        · exact Or.inl hx
        · rw [List.mem_singleton] at hx
          exact Or.inr ⟨⟨1, hx⟩, fun c1 => absurd (hx ▸ c1 : m.rot it = h1) c⟩
      · refine Or.inr ⟨⟨j + 1, by rw [Function.iterate_succ_apply]; exact hj⟩, fun c1 => ?_⟩
        exact absurd ((hx1 c1).1 ▸ c1 : m.rot it = h1) c

/-- In a valid mesh `Vertex::degree()` returns, and what it returns for the vertex of `h`
is the least number of rotations that bring `h` back to itself. -/
theorem Valid.vdegree_spec {m : Halfedge_Mesh} (hv : Valid m) {h : Nat} (hh : m.live_h h)
    {fuel : Nat} (hfuel : m.halfedges.length ≤ fuel) :
    ∃ d, m.vdegree fuel (m.vertex h) = .ok d ∧ 0 < d ∧ m.rot^[d] h = h ∧
      ∀ j, 0 < j → j < d → m.rot^[j] h ≠ h := by
  have lv := hv.live_vertex hh
  have ls := hv.live_vhalfedge lv
  obtain ⟨n, -, hn⟩ := hv.vertex_orbit h hh.1 hh
  obtain ⟨p, hp0, hp1, hp⟩ := hv.rot_period ls
  obtain ⟨d, hd⟩ := count_loop_ok m.rot (m.vhalfedge (m.vertex h)) fuel 0 p hp0 (by omega) hp
  obtain ⟨h1, -, h3, h4⟩ := count_loop_sound m.rot _ fuel 0 d hd
  refine ⟨d, hd, h1, ?_, ?_⟩
  · rw [← hn]; exact period_orbit m.rot n d h3
  · intro j hj0 hjd c
    rw [← hn] at c
    exact h4 j hj0 hjd (period_transfer m.rot m.live_h (fun _ hx => hv.live_rot hx)
      (fun a b ha hb => hv.rot_injective ha hb) ls n j c)

/-- In a valid mesh `Face::degree()` returns, and what it returns for the face of `h` is
the least number of steps of `next` that bring `h` back to itself. -/
theorem Valid.fdegree_spec {m : Halfedge_Mesh} (hv : Valid m) {h : Nat} (hh : m.live_h h)
    {fuel : Nat} (hfuel : m.halfedges.length ≤ fuel) :
    ∃ d, m.fdegree fuel (m.face h) = .ok d ∧ 0 < d ∧ m.next^[d] h = h ∧
      ∀ j, 0 < j → j < d → m.next^[j] h ≠ h := by
  have lf := hv.live_face hh
  have ls := hv.live_fhalfedge lf
  obtain ⟨n, -, hn⟩ := hv.face_orbit h hh.1 hh
  obtain ⟨p, hp0, hp1, hp⟩ := hv.next_period ls
  obtain ⟨d, hd⟩ := count_loop_ok m.next (m.fhalfedge (m.face h)) fuel 0 p hp0 (by omega) hp
  obtain ⟨h1, -, h3, h4⟩ := count_loop_sound m.next _ fuel 0 d hd
  refine ⟨d, hd, h1, ?_, ?_⟩
  · rw [← hn]; exact period_orbit m.next n d h3
  · intro j hj0 hjd c
    rw [← hn] at c
    exact h4 j hj0 hjd (period_transfer m.next m.live_h (fun _ hx => hv.live_next hx)
      (fun a b ha hb => hv.next_injective ha hb) ls n j c)

/-- In a valid mesh two half-edges of the same face are on the same loop of `next`. -/
theorem Valid.same_face_orbit {m : Halfedge_Mesh} (hv : Valid m) {a b : Nat}
    (ha : m.live_h a) (hb : m.live_h b) (hf : m.face b = m.face a) :
    ∃ j, b = m.next^[j] a := by
  have ls := hv.live_fhalfedge (hv.live_face ha)
  obtain ⟨i, -, hi⟩ := hv.face_orbit a ha.1 ha
  obtain ⟨k, -, hk⟩ := hv.face_orbit b hb.1 hb
  rw [hf] at hk
  obtain ⟨p, hp0, -, hp⟩ := hv.next_period ls
  obtain ⟨j, hj⟩ := orbit_of_orbit m.next _ p hp0 hp i k
  refine ⟨j, ?_⟩
  rw [← hk]
  exact hj.trans (by rw [hi])

/-! ## The two branches of each half of collapse_edge -/

theorem Frame.compose {a b c : Halfedge_Mesh} (h1 : Frame a b) (h2 : Frame b c) : Frame a c :=
  ⟨h1.sets.trans h2.sets, h2.twin.trans h1.twin, h2.vertex.trans h1.vertex,
    h2.edge.trans h1.edge, h2.pos.trans h1.pos, h2.ehalfedge.trans h1.ehalfedge⟩

/-- The walk of lines 105-108 (and 148-151): with `next` a permutation of the set `P`, a
loop of `h` that closes after three steps, and the half-edge `t` of `P` off `h` and off
`next h`, the walk ends, on a half-edge of `P`; if `t` is not the third half-edge of the
loop either, the walk ends off the loop, on the half-edge that `next` sends to `t`. -/
theorem triangle_walk (f : Nat → Nat) (P : Nat → Prop) (l : List Nat)
    (hl : ∀ x, P x → x ∈ l) (hmaps : ∀ x, P x → P (f x))
    (hinj : ∀ a b, P a → P b → f a = f b → a = b) {h t : Nat} (hP : P h)
    (h3 : f (f (f h)) = h) (ht : P t) (hth : t ≠ h) (ht3 : t ≠ f h)
    {fuel : Nat} (hfuel : l.length ≤ fuel) :
    ∃ q, walk_to (upd f (f (f h)) (f t)) t fuel t = .ok q ∧ P q ∧
      (t ≠ f (f h) → q ≠ h ∧ q ≠ f h ∧ q ≠ f (f h) ∧ f q = t) := by
  by_cases c : t = f (f h)
  · rw [← c, upd_self]
    obtain ⟨q, hw, -, hq⟩ := walk_pred f P l hl hmaps hinj ht hfuel 0
    exact ⟨q, hw, hq, fun d => absurd rfl d⟩
  · have h1 := hmaps h hP
    have h2 := hmaps _ h1
    have hag : ∀ x, x ≠ f (f h) → upd f (f (f h)) (f t) x = f x := fun x hx =>
      upd_other _ _ _ _ hx
    obtain ⟨q, hw, hq1, hq2, hq3, hq4, hq5⟩ := walk_pred (upd f (f (f h)) (f t))
      (fun x => P x ∧ x ≠ h ∧ x ≠ f h ∧ x ≠ f (f h)) l (fun x hx => hl x hx.1)
      (fun x hx => by
        rw [hag x hx.2.2.2]
        refine ⟨hmaps x hx.1, fun d => ?_, fun d => ?_, fun d => ?_⟩
        · exact hx.2.2.2 (hinj _ _ hx.1 h2 (d.trans h3.symm))
        · exact hx.2.1 (hinj _ _ hx.1 hP d)
        · exact hx.2.2.1 (hinj _ _ hx.1 h1 d))
      (fun a b ha hb hab => by
        rw [hag a ha.2.2.2, hag b hb.2.2.2] at hab
        exact hinj a b ha.1 hb.1 hab)
      (x := t) ⟨ht, hth, ht3, c⟩ hfuel 0
    refine ⟨q, hw, hq2, fun _ => ⟨hq3, hq4, hq5, ?_⟩⟩
    rw [hag q hq5] at hq1
    exact hq1

/-- The result of lines 88-117 (and 131-160) once the walk has ended on `q`. -/
theorem collapse_triangle_ok {m : Halfedge_Mesh} {fuel h q : Nat}
    (hw : walk_to (upd m.next (m.next (m.next h)) (m.next (m.twin (m.next h))))
      (m.twin (m.next h)) fuel (m.twin (m.next h)) = .ok q) :
    ∃ m', m.collapse_triangle fuel h = .ok m' ∧
      m'.next = upd (upd m.next (m.next (m.next h)) (m.next (m.twin (m.next h)))) q
        (m.next (m.next h)) ∧ Frame m m' := by
  unfold collapse_triangle
  simp only [set_next, set_twin, set_vertex, set_edge, set_face, set_vhalfedge, set_fhalfedge,
    keep_twin, keep_vertex, keep_edge, upd_self, hw, ok_bind]
  exact ⟨_, rfl, rfl, ⟨rfl, rfl, rfl, rfl, rfl, rfl, rfl, rfl, rfl, rfl⟩, rfl, rfl, rfl, rfl,
    rfl⟩

/-- The result of lines 119-125 (and 165-171) once the walk has ended on `q`. -/
theorem collapse_polygon_ok {m : Halfedge_Mesh} {fuel f h q : Nat}
    (hw : walk_to m.next h fuel (m.next h) = .ok q) :
    ∃ m', m.collapse_polygon fuel f h = .ok m' ∧ m'.next = upd m.next q (m.next h) ∧
      Frame m m' := by
  unfold collapse_polygon
  simp only [set_next, set_fhalfedge, hw, ok_bind]
  exact ⟨_, rfl, rfl, ⟨rfl, rfl, rfl, rfl, rfl, rfl, rfl, rfl, rfl, rfl⟩, rfl, rfl, rfl, rfl,
    rfl⟩

/-- After the triangle branch of the first half, `next` is a permutation of the half-edges
other than `h0`, `next h0` and, unless `next` fixes it, the twin `t` of `next h0`. -/
theorem triangle_perm (g : Nat → Nat) (L : Nat → Prop) (hmaps : ∀ x, L x → L (g x))
    (hinj : ∀ a b, L a → L b → g a = g b → a = b) {h0 t q : Nat} (L0 : L h0)
    (c3 : g (g (g h0)) = h0) (d1 : g h0 ≠ h0) (Lt : L t) (t0 : t ≠ h0) (t2 : t ≠ g h0)
    (t4 : t ≠ g (g h0)) (Lq : L q) (gq : g q = t) :
    (∀ x, (L x ∧ x ≠ h0 ∧ x ≠ g h0 ∧ (x = t → g t = t)) →
      (L (upd (upd g (g (g h0)) (g t)) q (g (g h0)) x) ∧
        upd (upd g (g (g h0)) (g t)) q (g (g h0)) x ≠ h0 ∧
        upd (upd g (g (g h0)) (g t)) q (g (g h0)) x ≠ g h0 ∧
        (upd (upd g (g (g h0)) (g t)) q (g (g h0)) x = t → g t = t))) ∧
    (∀ a b, (L a ∧ a ≠ h0 ∧ a ≠ g h0 ∧ (a = t → g t = t)) →
      (L b ∧ b ≠ h0 ∧ b ≠ g h0 ∧ (b = t → g t = t)) →
      upd (upd g (g (g h0)) (g t)) q (g (g h0)) a =
        upd (upd g (g (g h0)) (g t)) q (g (g h0)) b → a = b) := by
  have L2 := hmaps _ L0
  have L4 := hmaps _ L2
  have d40 : g (g h0) ≠ h0 := fun c => d1 (by rw [c] at c3; exact c3)
  have d42 : g (g h0) ≠ g h0 := fun c => d1 (hinj _ _ L2 L0 c)
  have val : ∀ x, upd (upd g (g (g h0)) (g t)) q (g (g h0)) x =
      if x = q then g (g h0) else if x = g (g h0) then g t else g x := fun x => rfl
  have vq : ∀ x, L x → g x = t → x = q := fun x hx c => hinj _ _ hx Lq (c.trans gq.symm)
  have v0 : ∀ x, L x → g x = h0 → x = g (g h0) := fun x hx c =>
    hinj _ _ hx L4 (c.trans c3.symm)
  have v2 : ∀ x, L x → g x = g h0 → x = h0 := fun x hx c => hinj _ _ hx L0 c
  have v4 : ∀ x, L x → g x = g (g h0) → x = g h0 := fun x hx c => hinj _ _ hx L2 c
  constructor
  · rintro x ⟨hx, x0, x2, -⟩
    rw [val]
    by_cases cq : x = q
    · rw [if_pos cq]
      exact ⟨L4, d40, d42, fun c => absurd c.symm t4⟩
    · rw [if_neg cq]
      by_cases c4 : x = g (g h0)
      · rw [if_pos c4]
        exact ⟨hmaps _ Lt, fun c => t4 (v0 _ Lt c), fun c => t0 (v2 _ Lt c), fun c => c⟩
      · rw [if_neg c4]
        exact ⟨hmaps _ hx, fun c => c4 (v0 _ hx c), fun c => x0 (v2 _ hx c),
          fun c => absurd (vq _ hx c) cq⟩
  · rintro a b ⟨ha, a0, a2, at'⟩ ⟨hb, b0, b2, bt⟩
    rw [val, val]
    by_cases aq : a = q <;> by_cases bq : b = q
    · intro _; rw [aq, bq]
    · rw [if_pos aq, if_neg bq]
      by_cases b4 : b = g (g h0)
      · rw [if_pos b4]; intro c; exact absurd (v4 _ Lt c.symm) t2
      · rw [if_neg b4]; intro c; exact absurd (v4 _ hb c.symm) b2
    · rw [if_neg aq, if_pos bq]
      by_cases a4 : a = g (g h0)
      · rw [if_pos a4]; intro c; exact absurd (v4 _ Lt c) t2
      · rw [if_neg a4]; intro c; exact absurd (v4 _ ha c) a2
    · rw [if_neg aq, if_neg bq]
      by_cases a4 : a = g (g h0) <;> by_cases b4 : b = g (g h0)
      · intro _; rw [a4, b4]
      · rw [if_pos a4, if_neg b4]
        intro c
        have e1 : b = t := (hinj _ _ Lt hb c).symm
        exact absurd (vq b hb (by rw [e1]; exact bt e1)) bq
      · rw [if_neg a4, if_pos b4]
        intro c
        have e1 : a = t := hinj _ _ ha Lt c
        exact absurd (vq a ha (by rw [e1]; exact at' e1)) aq
      · rw [if_neg a4, if_neg b4]
        exact hinj _ _ ha hb

/-- After the other branch of the first half, `next` is a permutation of the half-edges
other than `h0`. -/
theorem polygon_perm (g : Nat → Nat) (L : Nat → Prop) (hmaps : ∀ x, L x → L (g x))
    (hinj : ∀ a b, L a → L b → g a = g b → a = b) {h0 q : Nat} (L0 : L h0)
    (d1 : g h0 ≠ h0) (Lq : L q) (gq : g q = h0) :
    (∀ x, (L x ∧ x ≠ h0) → (L (upd g q (g h0) x) ∧ upd g q (g h0) x ≠ h0)) ∧
    (∀ a b, (L a ∧ a ≠ h0) → (L b ∧ b ≠ h0) → upd g q (g h0) a = upd g q (g h0) b →
      a = b) := by
  have val : ∀ x, upd g q (g h0) x = if x = q then g h0 else g x := fun x => rfl
  constructor
  · rintro x ⟨hx, x0⟩
    rw [val]
    by_cases cq : x = q
    · rw [if_pos cq]; exact ⟨hmaps _ L0, d1⟩
    · rw [if_neg cq]
      exact ⟨hmaps _ hx, fun c => cq (hinj _ _ hx Lq (c.trans gq.symm))⟩
  · rintro a b ⟨ha, a0⟩ ⟨hb, b0⟩
    rw [val, val]
    by_cases aq : a = q <;> by_cases bq : b = q
    · intro _; rw [aq, bq]
    · rw [if_pos aq, if_neg bq]; intro c; exact absurd (hinj _ _ hb L0 c.symm) b0
    · rw [if_neg aq, if_pos bq]; intro c; exact absurd (hinj _ _ ha L0 c) a0
    · rw [if_neg aq, if_neg bq]; exact hinj _ _ ha hb

/-- After the triangle branch of the first half, the loop of `h1` still closes after three
steps if it did, and `next` does not fix `h1`. -/
theorem triangle_loop (g : Nat → Nat) (L : Nat → Prop) (hmaps : ∀ x, L x → L (g x))
    (hinj : ∀ a b, L a → L b → g a = g b → a = b) {h0 h1 t q : Nat} (L0 : L h0) (L1 : L h1)
    (c3 : g (g (g h0)) = h0) (gq : g q = t) (a1 : g h1 ≠ h0) (a2 : g h0 ≠ h1)
    (a3 : h1 ≠ h0) (a4 : t ≠ h1) (a5 : g h1 ≠ h1) :
    upd (upd g (g (g h0)) (g t)) q (g (g h0)) h1 ≠ h1 ∧
    (g (g (g h1)) = h1 →
      upd (upd g (g (g h0)) (g t)) q (g (g h0))
        (upd (upd g (g (g h0)) (g t)) q (g (g h0))
          (upd (upd g (g (g h0)) (g t)) q (g (g h0)) h1)) = h1) := by
  have L2 := hmaps _ L0
  have L4 := hmaps _ L2
  have K3 := hmaps _ L1
  have K5 := hmaps _ K3
  have val : ∀ x, upd (upd g (g (g h0)) (g t)) q (g (g h0)) x =
      if x = q then g (g h0) else if x = g (g h0) then g t else g x := fun x => rfl
  have n41 : g (g h0) ≠ h1 := fun c => a1 (by rw [← c, c3])
  constructor
  · rw [val]
    by_cases e1 : h1 = q
    · rw [if_pos e1]; exact n41
    · rw [if_neg e1, if_neg (Ne.symm n41)]; exact a5
  · intro c3'
    have n43 : g (g h0) ≠ g h1 := fun c => a2 (by
      have : h0 = g (g h1) := by rw [← c3, c]
      rw [this, c3'])
    have n45 : g (g h0) ≠ g (g h1) := fun c => a3 (by
      have : g (g (g h0)) = g (g (g h1)) := by rw [c]
      rw [c3, c3'] at this; exact this.symm)
    have n31 : g h1 ≠ h1 := a5
    have n51 : g (g h1) ≠ h1 := fun c => a5 (by rw [c] at c3'; exact c3')
    have n53 : g (g h1) ≠ g h1 := fun c => a5 (hinj _ _ K3 L1 c)
    by_cases e1 : h1 = q
    · have et : t = g h1 := by rw [← gq, ← e1]
      subst et
      rw [val h1, if_pos e1, val (g (g h0)), if_neg (fun c => n41 (c.trans e1.symm)),
        if_pos rfl, val (g (g h1)), if_neg (fun c => n51 (c.trans e1.symm)),
        if_neg (Ne.symm n45)]
      exact c3'
    · by_cases e3 : g h1 = q
      · have et : t = g (g h1) := by rw [← gq, ← e3]
        subst et
        rw [val h1, if_neg e1, if_neg (Ne.symm n41), val (g h1), if_pos e3, val (g (g h0)),
          if_neg (fun c => n43 (c.trans e3.symm)), if_pos rfl]
        exact c3'
      · have e5 : g (g h1) ≠ q := fun c => a4 (by rw [← gq, ← c]; exact c3')
        rw [val h1, if_neg e1, if_neg (Ne.symm n41), val (g h1), if_neg e3,
          if_neg (Ne.symm n43), val (g (g h1)), if_neg e5, if_neg (Ne.symm n45)]
        exact c3'

/-- After the other branch of the first half, the loop of `h1` still closes after three
steps if it did, and `next` does not fix `h1`. -/
theorem polygon_loop (g : Nat → Nat) {h0 h1 q : Nat} (gq : g q = h0) (a1 : g h1 ≠ h0)
    (a2 : g h0 ≠ h1) (a3 : h1 ≠ h0) (a5 : g h1 ≠ h1) :
    upd g q (g h0) h1 ≠ h1 ∧
    (g (g (g h1)) = h1 → upd g q (g h0) (upd g q (g h0) (upd g q (g h0) h1)) = h1) := by
  have val : ∀ x, upd g q (g h0) x = if x = q then g h0 else g x := fun x => rfl
  have e1 : h1 ≠ q := fun c => a1 (by rw [c, gq])
  constructor
  · rw [val, if_neg e1]; exact a5
  · intro c3'
    have e3 : g h1 ≠ q := fun c => a2 (by
      have : g (g h1) = h0 := by rw [c, gq]
      rw [← this, c3'])
    have e5 : g (g h1) ≠ q := fun c => a3 (by
      have : g (g (g h1)) = h0 := by rw [c, gq]
      rw [← this, c3'])
    rw [val h1, if_neg e1, val (g h1), if_neg e3, val (g (g h1)), if_neg e5]
    exact c3'

/-! ## The two halves of collapse_edge on a valid mesh -/

section guard
variable {m : Halfedge_Mesh} {h0 : Nat}

theorem CollapseGuard.h2_ne_h1 (g : CollapseGuard m h0) (hv : Valid m) :
    m.next h0 ≠ m.twin h0 := by
  intro c
  apply g.r1
  unfold rot
  rw [hv.tt g.live]; exact c

theorem CollapseGuard.h2_ne_h0 (g : CollapseGuard m h0) (hv : Valid m) : m.next h0 ≠ h0 := by
  intro c
  have h := hv.vertex_next g.live
  rw [c] at h; exact g.vne h

theorem CollapseGuard.k3_ne_h1 (g : CollapseGuard m h0) (hv : Valid m) :
    m.next (m.twin h0) ≠ m.twin h0 := by
  intro c
  have h := hv.vertex_rot g.live
  unfold rot at h
  rw [c] at h; exact g.vne h.symm

theorem CollapseGuard.t_ne_h0 (g : CollapseGuard m h0) (hv : Valid m) :
    m.twin (m.next h0) ≠ h0 := by
  intro c
  have h := hv.tt (hv.live_next g.live)
  rw [c] at h
  exact g.h2_ne_h1 hv h.symm

theorem CollapseGuard.t_ne_h4 (g : CollapseGuard m h0) (hv : Valid m)
    (c3 : m.next (m.next (m.next h0)) = h0) : m.twin (m.next h0) ≠ m.next (m.next h0) := by
  intro c
  have h := hv.vertex_rot (hv.live_next g.live)
  unfold rot at h
  rw [c, c3, hv.vertex_next g.live] at h
  exact g.vne h

theorem CollapseGuard.h1_ne_t (g : CollapseGuard m h0) (hv : Valid m) :
    m.twin h0 ≠ m.twin (m.next h0) := fun c =>
  g.h2_ne_h0 hv (hv.twin_injective g.live (hv.live_next g.live) c).symm

/-- Lines 88-117 on a valid mesh, for an edge that the test of line 67 has let through and
whose face `f0` is a triangle. -/
theorem first_half_triangle (hv : Valid m) (g : CollapseGuard m h0) {fuel : Nat}
    (hfuel : m.halfedges.length ≤ fuel) (c3 : m.next (m.next (m.next h0)) = h0) :
    ∃ m1 P, m.collapse_triangle fuel h0 = .ok m1 ∧ Halfway m m1 h0 P ∧ ¬ P (m.next h0) := by
  have l0 := g.live
  have l1 := hv.live_twin l0
  have l2 := hv.live_next l0
  have lt := hv.live_twin l2
  have t0 := g.t_ne_h0 hv
  have t2 := hv.twin_ne l2
  have t4 := g.t_ne_h4 hv c3
  have hmaps : ∀ x, m.live_h x → m.live_h (m.next x) := fun _ hx => hv.live_next hx
  have hinj : ∀ a b, m.live_h a → m.live_h b → m.next a = m.next b → a = b :=
    fun _ _ ha hb => hv.next_injective ha hb
  obtain ⟨q, hw, Lq, hq⟩ := triangle_walk m.next m.live_h m.halfedges (fun _ hx => hx.1)
    hmaps hinj l0 c3 lt t0 t2 hfuel
  obtain ⟨-, -, -, gq⟩ := hq t4
  obtain ⟨m1, hm1, hnext, hframe⟩ := collapse_triangle_ok hw
  obtain ⟨pm, pi⟩ := triangle_perm m.next m.live_h hmaps hinj l0 c3 (g.h2_ne_h0 hv) lt t0 t2
    t4 Lq gq
  obtain ⟨ps, pt⟩ := triangle_loop m.next m.live_h hmaps hinj l0 l1 c3 gq g.r0
    (g.h2_ne_h1 hv) (hv.twin_ne l0) (g.h1_ne_t hv).symm (g.k3_ne_h1 hv)
  have val : ∀ x, m1.next x = if x = q then m.next (m.next h0)
      else if x = m.next (m.next h0) then m.next (m.twin (m.next h0)) else m.next x :=
    fun x => by rw [hnext]; rfl
  rw [← hnext] at pm pi ps pt
  have P1 : m.live_h (m.twin h0) ∧ m.twin h0 ≠ h0 ∧ m.twin h0 ≠ m.next h0 ∧
      (m.twin h0 = m.twin (m.next h0) → m.next (m.twin (m.next h0)) = m.twin (m.next h0)) :=
    ⟨l1, hv.twin_ne l0, (g.h2_ne_h1 hv).symm, fun c => absurd c (g.h1_ne_t hv)⟩
  have P3 := pm _ P1
  refine ⟨m1, fun x => m.live_h x ∧ x ≠ h0 ∧ x ≠ m.next h0 ∧
    (x = m.twin (m.next h0) → m.next (m.twin (m.next h0)) = m.twin (m.next h0)), hm1, ?_,
    fun hp => hp.2.2.1 rfl⟩
  refine ⟨hframe, fun x hx => hx.1, pm, pi, P1, fun hp => hp.2.1 rfl, ps, ?_, pt⟩
  refine ⟨hv.live_twin P3.1, ?_, ?_, ?_⟩
  · intro c
    have h := hv.tt P3.1
    rw [c] at h; exact ps h.symm
  · intro c
    have e3 : m1.next (m.twin h0) = m.twin (m.next h0) := by
      have h := hv.tt P3.1
      rw [c] at h; exact h.symm
    have ft := P3.2.2.2 e3
    have qt : q = m.twin (m.next h0) := hinj _ _ Lq lt (gq.trans ft.symm)
    rw [val] at e3
    by_cases e1 : m.twin h0 = q
    · exact g.h1_ne_t hv (e1.trans qt)
    · rw [if_neg e1] at e3
      by_cases e4 : m.twin h0 = m.next (m.next h0)
      · exact g.r0 (by unfold rot; rw [e4]; exact c3)
      · rw [if_neg e4] at e3
        exact g.h1_ne_t hv (hinj _ _ l1 lt (e3.trans ft.symm))
  · intro c
    exact absurd (hv.twin_injective P3.1 l2 c) P3.2.2.1

/-- Lines 119-125 on a valid mesh, for an edge that the test of line 67 has let through. -/
theorem first_half_polygon (hv : Valid m) (g : CollapseGuard m h0) {fuel : Nat}
    (hfuel : m.halfedges.length ≤ fuel) (f : Nat) :
    ∃ m1 P, m.collapse_polygon fuel f h0 = .ok m1 ∧ Halfway m m1 h0 P := by
  have l0 := g.live
  have l1 := hv.live_twin l0
  have hmaps : ∀ x, m.live_h x → m.live_h (m.next x) := fun _ hx => hv.live_next hx
  have hinj : ∀ a b, m.live_h a → m.live_h b → m.next a = m.next b → a = b :=
    fun _ _ ha hb => hv.next_injective ha hb
  obtain ⟨q, hw, gq, Lq⟩ := walk_pred m.next m.live_h m.halfedges (fun _ hx => hx.1)
    hmaps hinj l0 hfuel 1
  obtain ⟨m1, hm1, hnext, hframe⟩ := collapse_polygon_ok (f := f) hw
  obtain ⟨pm, pi⟩ := polygon_perm m.next m.live_h hmaps hinj l0 (g.h2_ne_h0 hv) Lq gq
  obtain ⟨ps, pt⟩ := polygon_loop m.next gq g.r0 (g.h2_ne_h1 hv) (hv.twin_ne l0)
    (g.k3_ne_h1 hv)
  rw [← hnext] at pm pi ps pt
  have P1 : m.live_h (m.twin h0) ∧ m.twin h0 ≠ h0 := ⟨l1, hv.twin_ne l0⟩
  have P3 := pm _ P1
  refine ⟨m1, fun x => m.live_h x ∧ x ≠ h0, hm1, ?_⟩
  refine ⟨hframe, fun x hx => hx.1, pm, pi, P1, fun hp => hp.2 rfl, ps, ?_, pt⟩
  refine ⟨hv.live_twin P3.1, ?_⟩
  intro c
  have h := hv.tt P3.1
  rw [c] at h; exact ps h.symm

/-- Lines 131-160 on the mesh left by the first half, when the face `f1` is a triangle. -/
theorem second_half_triangle {m1 : Halfedge_Mesh} {P : Nat → Prop} (hv : Valid m)
    (l0 : m.live_h h0) (hw : Halfway m m1 h0 P) {fuel : Nat}
    (hfuel : m.halfedges.length ≤ fuel)
    (c3 : m.next (m.next (m.next (m.twin h0))) = m.twin h0) :
    ∃ m2, m1.collapse_triangle fuel (m.twin h0) = .ok m2 ∧ Frame m m2 := by
  have c3' := hw.tri c3
  have P3 := hw.maps _ hw.h1
  have l3 := hw.sub _ P3
  have ht : P (m1.twin (m1.next (m.twin h0))) := by rw [hw.frame.twin]; exact hw.side
  have ht1 : m1.twin (m1.next (m.twin h0)) ≠ m.twin h0 := by
    rw [hw.frame.twin]
    intro c
    have := hv.twin_injective l3 l0 c
    rw [this] at P3
    exact hw.not_h0 P3
  have ht3 : m1.twin (m1.next (m.twin h0)) ≠ m1.next (m.twin h0) := by
    rw [hw.frame.twin]; exact hv.twin_ne l3
  obtain ⟨q, hwalk, -, -⟩ := triangle_walk m1.next P m.halfedges
    (fun x hx => (hw.sub x hx).1) hw.maps hw.inj hw.h1 c3' ht ht1 ht3 hfuel
  obtain ⟨m2, hm2, -, hframe⟩ := collapse_triangle_ok hwalk
  exact ⟨m2, hm2, hw.frame.compose hframe⟩

/-- Lines 165-171 on the mesh left by the first half. -/
theorem second_half_polygon {m1 : Halfedge_Mesh} {P : Nat → Prop}
    (hw : Halfway m m1 h0 P) {fuel : Nat} (hfuel : m.halfedges.length ≤ fuel) (f : Nat) :
    ∃ m2, m1.collapse_polygon fuel f (m.twin h0) = .ok m2 ∧ Frame m m2 := by
  obtain ⟨q, hwalk, -, -⟩ := walk_pred m1.next P m.halfedges
    (fun x hx => (hw.sub x hx).1) hw.maps hw.inj hw.h1 hfuel 1
  obtain ⟨m2, hm2, -, hframe⟩ := collapse_polygon_ok (f := f) hwalk
  exact ⟨m2, hm2, hw.frame.compose hframe⟩

end guard

/-! ## The end of collapse_edge: lines 174-198 -/

/-- Marking as erased an element that was not: one element less is counted. -/
theorem count_insert (l er : List Nat) (a : Nat) (hn : l.Nodup) (ha : a ∈ l) (hae : a ∉ er) :
    (l.filter (fun x => x ∉ er.insert a)).length + 1 = (l.filter (fun x => x ∉ er)).length := by
  induction l with
  | nil => simp at ha
  | cons x l ih =>
    rw [List.nodup_cons] at hn
    by_cases c : x = a
    · subst c
      have e1 : (x :: l).filter (fun y => y ∉ er.insert x) = l.filter (fun y => y ∉ er) := by
        rw [List.filter_cons_of_neg (by simp)]
        apply List.filter_congr
        intro y hy
        have : y ≠ x := fun d => hn.1 (d ▸ hy)
        simp [List.mem_insert_iff, this]
      rw [e1, List.filter_cons_of_pos (by simpa using hae)]
      rfl
    · have hal : a ∈ l := by
        rcases List.mem_cons.1 ha with d | d
        · exact absurd d.symm c
        · exact d
      have ih := ih hn.2 hal
      by_cases cx : x ∈ er
      · rw [List.filter_cons_of_neg (by simp [List.mem_insert_iff, cx]),
          List.filter_cons_of_neg (by simpa using cx)]
        exact ih
      · rw [List.filter_cons_of_pos (by simp [List.mem_insert_iff, cx, c]),
          List.filter_cons_of_pos (by simpa using cx)]
        simp only [List.length_cons]
        omega

theorem repoint_cons (m : Halfedge_Mesh) (v a : Nat) (l : List Nat) :
    m.repoint v (a :: l) = (m.repoint v l).set_vertex a v := rfl

/-- The loop of lines 174-178 changes the `vertex` relation only. -/
theorem repoint_frame (m : Halfedge_Mesh) (v : Nat) (l : List Nat) :
    SameSets m (m.repoint v l) ∧ (m.repoint v l).twin = m.twin ∧
    (m.repoint v l).pos = m.pos ∧ (m.repoint v l).ehalfedge = m.ehalfedge ∧
    (m.repoint v l).edge = m.edge ∧
    ∀ x, (m.repoint v l).vertex x = if x ∈ l then v else m.vertex x := by
  induction l with
  | nil => exact ⟨⟨rfl, rfl, rfl, rfl, rfl, rfl, rfl, rfl, rfl, rfl⟩, rfl, rfl, rfl, rfl,
      fun x => by simp [repoint]⟩
  | cons a l ih =>
    obtain ⟨h1, h2, h3, h4, h5, h6⟩ := ih
    rw [repoint_cons]
    refine ⟨⟨h1.halfedges, h1.vertices, h1.edges, h1.faces, h1.herased, h1.verased,
      h1.eerased, h1.ferased, h1.boundary, h1.next_id⟩, h2, h3, h4, h5, fun x => ?_⟩
    show upd (m.repoint v l).vertex a v x = _
    by_cases c : x = a
    · simp [upd, c]
    · simp only [upd, c, if_false, h6 x, List.mem_cons, false_or]

/-- The calls of `erase` of lines 181-197 change the erased sets only, and mark these
elements. -/
theorem collapse_finish (m4 M : Halfedge_Mesh) (b0 b1 : Bool)
    (x1 x2 x3 x4 y1 y2 y3 y4 z0 z1 e v1 : Nat)
    (hM : M = ((((if b1 = true then
        (((((if b0 = true then
            (((m4.erase_halfedge x1).erase_halfedge x2).erase_face x3).erase_edge_mark x4
          else m4).erase_halfedge y1).erase_halfedge y1).erase_halfedge y2).erase_face
            y3).erase_edge_mark y4
      else
        if b0 = true then
          (((m4.erase_halfedge x1).erase_halfedge x2).erase_face x3).erase_edge_mark x4
        else m4).erase_halfedge z0).erase_halfedge z1).erase_edge_mark e).erase_vertex_mark
          v1) :
    M.pos = m4.pos ∧
    (M.halfedges = m4.halfedges ∧ M.vertices = m4.vertices ∧ M.edges = m4.edges ∧
      M.faces = m4.faces) ∧
    M.verased = m4.verased.insert v1 ∧
    (b0 = true → b1 = true → M.ferased = (m4.ferased.insert x3).insert y3 ∧
      M.eerased = ((m4.eerased.insert x4).insert y4).insert e) := by
  subst hM
  cases b0 <;> cases b1 <;>
    simp [erase_halfedge, erase_face, erase_edge_mark, erase_vertex_mark]

/-- The loop of lines 73-78 on a valid mesh, for an edge that the test of line 67 has let
through: it ends, and the half-edge `h1` it starts from is not among those it collects. -/
theorem CollapseGuard.collect_v1_spec {m : Halfedge_Mesh} {h0 : Nat} (g : CollapseGuard m h0)
    (hv : Valid m) {fuel : Nat} (hfuel : m.halfedges.length ≤ fuel) :
    ∃ l, collect_v1 m (m.twin h0) fuel (m.twin h0) [] = .ok l ∧ m.twin h0 ∉ l := by
  have l1 := hv.live_twin g.live
  obtain ⟨p, hp0, hp1, hp⟩ := hv.rot_period l1
  obtain ⟨l, hl⟩ := collect_v1_ok m (m.twin h0) fuel (m.twin h0) []
    (p - 1) (by omega) (by
      rw [← Function.iterate_succ_apply' m.rot, Nat.succ_eq_add_one, Nat.sub_add_cancel hp0]
      exact hp)
  refine ⟨l, hl, fun hx => ?_⟩
  rcases collect_v1_mem m _ fuel _ [] l hl _ hx with c | ⟨-, c⟩
  · simp at c
  · exact g.r1 (c rfl).2

/-- Lines 71-197 on a valid mesh, for an edge that the test of line 67 has let through:
the loops end, the surviving vertex is moved to the midpoint of the edge, the absorbed
vertex is marked erased and, when both faces of the edge are triangles, the two faces and
three different edges are marked erased. -/
theorem collapse_run_spec {m : Halfedge_Mesh} (hv : Valid m) {e : Nat}
    (g : CollapseGuard m (m.ehalfedge e)) {fuel : Nat} (hfuel : m.halfedges.length ≤ fuel) :
    ∃ m' d0 d1 h3, m.fdegree fuel (m.face (m.ehalfedge e)) = .ok d0 ∧
      m.fdegree fuel (m.face (m.twin (m.ehalfedge e))) = .ok d1 ∧
      m.collapse_run fuel e = .ok m' ∧
      m'.pos (m.vertex (m.ehalfedge e)) = ((m.pos (m.vertex (m.ehalfedge e))).add
        (m.pos (m.vertex (m.twin (m.ehalfedge e))))).div 2 ∧
      (m'.halfedges = m.halfedges ∧ m'.vertices = m.vertices ∧ m'.edges = m.edges ∧
        m'.faces = m.faces) ∧
      m'.verased = m.verased.insert (m.vertex (m.twin (m.ehalfedge e))) ∧
      (m.live_h h3 ∧ h3 ≠ m.ehalfedge e ∧ h3 ≠ m.twin (m.ehalfedge e) ∧
        (d0 = 3 → h3 ≠ m.next (m.ehalfedge e) ∧ h3 ≠ m.twin (m.next (m.ehalfedge e)))) ∧
      (d0 = 3 → d1 = 3 →
        m'.ferased = (m.ferased.insert (m.face (m.ehalfedge e))).insert
          (m.face (m.twin (m.ehalfedge e))) ∧
        m'.eerased = ((m.eerased.insert (m.edge (m.next (m.ehalfedge e)))).insert
          (m.edge h3)).insert e) := by
  have l0 := g.live
  have l1 := hv.live_twin l0
  obtain ⟨d0, hd0, -, c0, -⟩ := hv.fdegree_spec l0 hfuel
  obtain ⟨d1, hd1, -, c1, -⟩ := hv.fdegree_spec l1 hfuel
  obtain ⟨l, hl, h1l⟩ := g.collect_v1_spec hv hfuel
  have H1 : ∃ m1 P, (if decide (d0 = 3) = true then m.collapse_triangle fuel (m.ehalfedge e)
      else m.collapse_polygon fuel (m.face (m.ehalfedge e)) (m.ehalfedge e)) = .ok m1 ∧
      Halfway m m1 (m.ehalfedge e) P ∧ (d0 = 3 → ¬ P (m.next (m.ehalfedge e))) := by
    by_cases c : d0 = 3
    · subst c
      obtain ⟨m1, P, h1, h2, h3⟩ := first_half_triangle hv g hfuel c0
      exact ⟨m1, P, by rw [if_pos (by decide)]; exact h1, h2, fun _ => h3⟩
    · obtain ⟨m1, P, h1, h2⟩ := first_half_polygon hv g hfuel (m.face (m.ehalfedge e))
      exact ⟨m1, P, by rw [if_neg (by simpa using c)]; exact h1, h2, fun d => absurd d c⟩
  obtain ⟨m1, P, hH1, hw, hnp⟩ := H1
  have H2 : ∃ m2, (if decide (d1 = 3) = true then
        (m1.collapse_triangle fuel (m.twin (m.ehalfedge e))).bind fun m2 =>
          Except.ok (m2.set_vhalfedge (m.vertex (m.ehalfedge e))
            (m2.twin (m1.next (m1.next (m.twin (m.ehalfedge e))))))
      else m1.collapse_polygon fuel (m.face (m.twin (m.ehalfedge e)))
        (m.twin (m.ehalfedge e))) = .ok m2 ∧ Frame m m2 := by
    by_cases c : d1 = 3
    · subst c
      obtain ⟨m2, h1, h2⟩ := second_half_triangle hv l0 hw hfuel c1
      refine ⟨_, by rw [if_pos (by decide), h1, ok_bind], ?_⟩
      exact ⟨⟨h2.sets.halfedges, h2.sets.vertices, h2.sets.edges, h2.sets.faces,
        h2.sets.herased, h2.sets.verased, h2.sets.eerased, h2.sets.ferased, h2.sets.boundary,
        h2.sets.next_id⟩, h2.twin, h2.vertex, h2.edge, h2.pos, h2.ehalfedge⟩
    · obtain ⟨m2, h1, h2⟩ := second_half_polygon hw hfuel (m.face (m.twin (m.ehalfedge e)))
      exact ⟨m2, by rw [if_neg (by simpa using c)]; exact h1, h2⟩
  obtain ⟨m2, hH2, hf⟩ := H2
  obtain ⟨r1, r2, r3, r4, r5, r6⟩ := repoint_frame m2 (m.vertex (m.ehalfedge e)) l
  have P3 := hw.maps _ hw.h1
  have l3 := hw.sub _ P3
  have hrun : ∃ m', m.collapse_run fuel e = .ok m' ∧
      m'.pos = ((m2.repoint (m.vertex (m.ehalfedge e)) l).set_pos (m.vertex (m.ehalfedge e))
        ((m2.repoint (m.vertex (m.ehalfedge e)) l).center_of e)).pos ∧
      (m'.halfedges = (m2.repoint (m.vertex (m.ehalfedge e)) l).halfedges ∧
        m'.vertices = (m2.repoint (m.vertex (m.ehalfedge e)) l).vertices ∧
        m'.edges = (m2.repoint (m.vertex (m.ehalfedge e)) l).edges ∧
        m'.faces = (m2.repoint (m.vertex (m.ehalfedge e)) l).faces) ∧
      m'.verased = (m2.repoint (m.vertex (m.ehalfedge e)) l).verased.insert
        (m.vertex (m.twin (m.ehalfedge e))) ∧
      (decide (d0 = 3) = true → decide (d1 = 3) = true →
        m'.ferased = ((m2.repoint (m.vertex (m.ehalfedge e)) l).ferased.insert
          (m.face (m.ehalfedge e))).insert (m.face (m.twin (m.ehalfedge e))) ∧
        m'.eerased = (((m2.repoint (m.vertex (m.ehalfedge e)) l).eerased.insert
          (m.edge (m.next (m.ehalfedge e)))).insert
            (m1.edge (m1.next (m.twin (m.ehalfedge e))))).insert e) := by
    unfold collapse_run
    dsimp only
    rw [hl, ok_bind, hd0, ok_bind, hd1, ok_bind, hH1, ok_bind, hH2, ok_bind]
    exact ⟨_, rfl, collapse_finish _ _ _ _ _ _ _ _ _ _ _ _ _ _ _ _ rfl⟩
  obtain ⟨m', hrun, f1, f2, f3, f4⟩ := hrun
  refine ⟨m', d0, d1, m1.next (m.twin (m.ehalfedge e)), hd0, hd1, hrun, ?_, ?_, ?_, ?_, ?_⟩
  · rw [f1]
    show upd _ _ _ _ = _
    rw [upd_same]
    unfold center_of
    have hv0 : (if m.ehalfedge e ∈ l then m.vertex (m.ehalfedge e)
        else m.vertex (m.ehalfedge e)) = m.vertex (m.ehalfedge e) := by split_ifs <;> rfl
    simp only [r2, r3, r4, r6, hf.pos, hf.twin, hf.ehalfedge, hf.vertex, h1l, if_false, hv0]
  · exact ⟨f2.1.trans (r1.halfedges.symm.trans hf.sets.halfedges.symm),
      f2.2.1.trans (r1.vertices.symm.trans hf.sets.vertices.symm),
      f2.2.2.1.trans (r1.edges.symm.trans hf.sets.edges.symm),
      f2.2.2.2.trans (r1.faces.symm.trans hf.sets.faces.symm)⟩
  · rw [f3]
    show List.insert _ (m2.repoint _ l).verased = _
    rw [← r1.verased, ← hf.sets.verased]
  · refine ⟨l3, fun c => hw.not_h0 (c ▸ P3), hw.step, fun c => ?_⟩
    refine ⟨fun d => hnp c (d ▸ P3), fun d => ?_⟩
    have hs := hw.side
    rw [d, hv.tt (hv.live_next l0)] at hs
    exact hnp c hs
  · intro c0' c1'
    obtain ⟨e1, e2⟩ := f4 (by simpa using c0') (by simpa using c1')
    rw [e1, e2]
    constructor
    · show List.insert _ (List.insert _ (m2.repoint _ l).ferased) = _
      rw [← r1.ferased, ← hf.sets.ferased]
    · show List.insert _ (List.insert _ (List.insert _ (m2.repoint _ l).eerased)) = _
      rw [← r1.eerased, ← hf.sets.eerased, hw.frame.edge]

/-! ## collapse_edge on a valid mesh -/

/-- What the test of line 67 lets through, in terms of the degrees it reads. -/
theorem Valid.collapse_guard {m : Halfedge_Mesh} (hv : Valid m) {e : Nat} (he : m.live_e e)
    {fuel : Nat} (hfuel : m.halfedges.length ≤ fuel) {d0 d1 : Nat}
    (hd0 : m.vdegree fuel (m.vertex (m.ehalfedge e)) = .ok d0)
    (hd1 : m.vdegree fuel (m.vertex (m.twin (m.ehalfedge e))) = .ok d1)
    (c0 : 2 < d0) (c1 : 2 < d1)
    (cv : m.vertex (m.ehalfedge e) ≠ m.vertex (m.twin (m.ehalfedge e))) :
    CollapseGuard m (m.ehalfedge e) := by
  have l0 := hv.live_ehalfedge he
  have l1 := hv.live_twin l0
  obtain ⟨a0, ha0, -, -, min0⟩ := hv.vdegree_spec l0 hfuel
  obtain ⟨a1, ha1, -, -, min1⟩ := hv.vdegree_spec l1 hfuel
  rw [hd0] at ha0
  rw [hd1] at ha1
  simp only [Except.ok.injEq] at ha0 ha1
  subst ha0
  subst ha1
  exact ⟨l0, min0 1 (by omega) (by omega), min1 1 (by omega) (by omega), cv⟩

/-- On a valid mesh collapse_edge returns: the absent result when the test of line 67
refuses the edge, and otherwise the vertex of the half-edge of the edge, with the mesh that
lines 71-197 make. -/
theorem collapse_edge_total {m : Halfedge_Mesh} (hv : Valid m) {e : Nat} (he : m.live_e e)
    {fuel : Nat} (hfuel : m.halfedges.length ≤ fuel) :
    ∃ d0 d1, m.vdegree fuel (m.vertex (m.ehalfedge e)) = .ok d0 ∧
      m.vdegree fuel (m.vertex (m.twin (m.ehalfedge e))) = .ok d1 ∧
      ((d0 ≤ 2 ∨ d1 ≤ 2 ∨ m.vertex (m.ehalfedge e) = m.vertex (m.twin (m.ehalfedge e))) →
        m.collapse_edge fuel e = .ok (none, m)) ∧
      (¬ (d0 ≤ 2 ∨ d1 ≤ 2 ∨ m.vertex (m.ehalfedge e) = m.vertex (m.twin (m.ehalfedge e))) →
        CollapseGuard m (m.ehalfedge e) ∧
        ∃ m', m.collapse_run fuel e = .ok m' ∧
          m.collapse_edge fuel e = .ok (some (m.vertex (m.ehalfedge e)), m')) := by
  have l0 := hv.live_ehalfedge he
  have l1 := hv.live_twin l0
  obtain ⟨d0, hd0, -⟩ := hv.vdegree_spec l0 hfuel
  obtain ⟨d1, hd1, -⟩ := hv.vdegree_spec l1 hfuel
  refine ⟨d0, d1, hd0, hd1, ?_, ?_⟩
  · intro hg
    unfold collapse_edge
    dsimp only
    rw [hd1, ok_bind]
    by_cases c1 : d1 ≤ 2
    · rw [if_pos c1]
    rw [if_neg c1, hd0, ok_bind]
    by_cases c0 : d0 ≤ 2
    · rw [if_pos c0]
    rw [if_neg c0]
    rcases hg with c | c | c
    · exact absurd c c0
    · exact absurd c c1
    · rw [if_pos c]
  · intro hg
    have c0 : ¬ d0 ≤ 2 := fun c => hg (Or.inl c)
    have c1 : ¬ d1 ≤ 2 := fun c => hg (Or.inr (Or.inl c))
    have cv : m.vertex (m.ehalfedge e) ≠ m.vertex (m.twin (m.ehalfedge e)) :=
      fun c => hg (Or.inr (Or.inr c))
    have g := hv.collapse_guard he hfuel hd0 hd1 (by omega) (by omega) cv
    obtain ⟨m', -, -, -, -, -, hrun, -⟩ := collapse_run_spec hv g hfuel
    refine ⟨g, m', hrun, ?_⟩
    unfold collapse_edge
    dsimp only
    rw [hd1, ok_bind, if_neg c1, hd0, ok_bind, if_neg c0, if_neg cv, hrun, ok_bind]


/-- C2: on a valid mesh, with `d0` and `d1` the degrees of the vertex `v0` of the half-edge
of `e` and of the vertex `v1` of its twin, collapse_edge returns, and it returns the absent
result if and only if `d0 ≤ 2` or `d1 ≤ 2` or `v0 = v1`; in every other case it returns
`v0`, which stays live, and `v1` is marked erased. -/
theorem C2_collapse_edge_result (m : Halfedge_Mesh) (fuel e : Nat) (hv : Valid m)
    (he : m.live_e e) (hfuel : m.halfedges.length ≤ fuel) :
    ∃ d0 d1 r m', m.vdegree fuel (m.vertex (m.ehalfedge e)) = .ok d0 ∧
      m.vdegree fuel (m.vertex (m.twin (m.ehalfedge e))) = .ok d1 ∧
      m.collapse_edge fuel e = .ok (r, m') ∧
      (r = none ↔
        (d0 ≤ 2 ∨ d1 ≤ 2 ∨ m.vertex (m.ehalfedge e) = m.vertex (m.twin (m.ehalfedge e)))) ∧
      (r ≠ none → r = some (m.vertex (m.ehalfedge e)) ∧
        m.vertex (m.twin (m.ehalfedge e)) ∈ m'.verased ∧
        m'.live_v (m.vertex (m.ehalfedge e))) := by
  obtain ⟨d0, d1, hd0, hd1, hno, hyes⟩ := collapse_edge_total hv he hfuel
  refine ⟨d0, d1, ?_⟩
  by_cases hg : d0 ≤ 2 ∨ d1 ≤ 2 ∨ m.vertex (m.ehalfedge e) = m.vertex (m.twin (m.ehalfedge e))
  · exact ⟨none, m, hd0, hd1, hno hg, by simp [hg], fun c => absurd rfl c⟩
  · obtain ⟨g, m', hrun, hce⟩ := hyes hg
    obtain ⟨m'', -, -, -, -, -, hrun', -, hl, hver, -⟩ := collapse_run_spec hv g hfuel
    rw [hrun] at hrun'
    simp only [Except.ok.injEq] at hrun'
    subst hrun'
    have lv := hv.live_vertex g.live
    refine ⟨_, m', hd0, hd1, hce, by simp [hg], fun _ => ⟨rfl, ?_, ?_, ?_⟩⟩
    · rw [hver]; exact List.mem_insert_self _ _
    · rw [hl.2.1]; exact lv.1
    · rw [hver, List.mem_insert_iff]
      rintro (c | c)
      · exact g.vne c
      · exact lv.2 c

/-- C4: on a valid mesh collapse_edge returns, and when it returns a vertex, this is the
vertex of the half-edge of `e`, and its position after the call is the midpoint
`(p0 + p1) / 2` of the positions that the two endpoints of `e` had before the call; the
twin `h1` of the half-edge of `e`, which references the absorbed endpoint, is not among the
half-edges that lines 73-78 collect and lines 174-178 re-point. -/
theorem C4_collapse_edge_midpoint (m : Halfedge_Mesh) (fuel e : Nat) (hv : Valid m)
    (he : m.live_e e) (hfuel : m.halfedges.length ≤ fuel) :
    ∃ r m', m.collapse_edge fuel e = .ok (r, m') ∧
      ∀ v, r = some v → v = m.vertex (m.ehalfedge e) ∧
        m'.pos v = ((m.pos (m.vertex (m.ehalfedge e))).add
          (m.pos (m.vertex (m.twin (m.ehalfedge e))))).div 2 ∧
        ∃ l, collect_v1 m (m.twin (m.ehalfedge e)) fuel (m.twin (m.ehalfedge e)) [] = .ok l ∧
          m.twin (m.ehalfedge e) ∉ l := by
  obtain ⟨d0, d1, hd0, hd1, hno, hyes⟩ := collapse_edge_total hv he hfuel
  by_cases hg : d0 ≤ 2 ∨ d1 ≤ 2 ∨ m.vertex (m.ehalfedge e) = m.vertex (m.twin (m.ehalfedge e))
  · exact ⟨none, m, hno hg, fun v c => by simp at c⟩
  · obtain ⟨g, m', hrun, hce⟩ := hyes hg
    obtain ⟨m'', -, -, -, -, -, hrun', hpos, -⟩ := collapse_run_spec hv g hfuel
    rw [hrun] at hrun'
    simp only [Except.ok.injEq] at hrun'
    subst hrun'
    refine ⟨_, m', hce, fun v c => ?_⟩
    simp only [Option.some.injEq] at c
    subst c
    exact ⟨rfl, hpos, g.collect_v1_spec hv hfuel⟩

/-- Lines 88-117 (and 131-160) create and erase nothing. -/
theorem collapse_triangle_sets {m m' : Halfedge_Mesh} {fuel h : Nat}
    (hc : m.collapse_triangle fuel h = .ok m') : SameSets m m' := by
  unfold collapse_triangle at hc
  obtain ⟨q, -, hq⟩ := bind_eq_ok.1 hc
  simp only [Except.ok.injEq] at hq
  subst hq
  exact ⟨rfl, rfl, rfl, rfl, rfl, rfl, rfl, rfl, rfl, rfl⟩

/-- Lines 119-125 (and 165-171) create and erase nothing. -/
theorem collapse_polygon_sets {m m' : Halfedge_Mesh} {fuel f h : Nat}
    (hc : m.collapse_polygon fuel f h = .ok m') : SameSets m m' := by
  unfold collapse_polygon at hc
  obtain ⟨q, -, hq⟩ := bind_eq_ok.1 hc
  simp only [Except.ok.injEq] at hq
  subst hq
  exact ⟨rfl, rfl, rfl, rfl, rfl, rfl, rfl, rfl, rfl, rfl⟩

/-- The faces that lines 71-197 mark erased: the face of each half-edge of the edge, when
it has degree 3. Nothing is asked of the mesh. -/
theorem collapse_run_faces {m m' : Halfedge_Mesh} {fuel e d0 d1 : Nat}
    (hd0 : m.fdegree fuel (m.face (m.ehalfedge e)) = .ok d0)
    (hd1 : m.fdegree fuel (m.face (m.twin (m.ehalfedge e))) = .ok d1)
    (hc : m.collapse_run fuel e = .ok m') :
    m'.faces = m.faces ∧
    m'.ferased = (if d1 = 3 then List.insert (m.face (m.twin (m.ehalfedge e))) else id)
      ((if d0 = 3 then List.insert (m.face (m.ehalfedge e)) else id) m.ferased) := by
  unfold collapse_run at hc
  dsimp only at hc
  rw [hd0, hd1] at hc
  obtain ⟨l, -, hc⟩ := bind_eq_ok.1 hc
  rw [ok_bind, ok_bind] at hc
  obtain ⟨m1, h1, hc⟩ := bind_eq_ok.1 hc
  obtain ⟨m2, h2, hc⟩ := bind_eq_ok.1 hc
  have s1 : SameSets m m1 := by
    by_cases c : d0 = 3
    · rw [if_pos (by simpa using c)] at h1
      exact collapse_triangle_sets h1
    · rw [if_neg (by simpa using c)] at h1
      exact collapse_polygon_sets h1
  have s2 : SameSets m1 m2 := by
    by_cases c : d1 = 3
    · rw [if_pos (by simpa using c)] at h2
      obtain ⟨m3, h3, h4⟩ := bind_eq_ok.1 h2
      simp only [Except.ok.injEq] at h4
      subst h4
      have s := collapse_triangle_sets h3
      exact ⟨s.halfedges, s.vertices, s.edges, s.faces, s.herased, s.verased, s.eerased,
        s.ferased, s.boundary, s.next_id⟩
    · rw [if_neg (by simpa using c)] at h2
      exact collapse_polygon_sets h2
  obtain ⟨r1, -⟩ := repoint_frame m2 (m.vertex (m.ehalfedge e)) l
  simp only [Except.ok.injEq] at hc
  subst hc
  have hf : (m2.repoint (m.vertex (m.ehalfedge e)) l).faces = m.faces := by
    rw [← r1.faces, ← s2.faces, ← s1.faces]
  have hfe : (m2.repoint (m.vertex (m.ehalfedge e)) l).ferased = m.ferased := by
    rw [← r1.ferased, ← s2.ferased, ← s1.ferased]
  by_cases c0 : d0 = 3 <;> by_cases c1 : d1 = 3 <;>
    simp [c0, c1, erase_halfedge, erase_face, erase_edge_mark, erase_vertex_mark, set_pos, hf,
      hfe]

/-- C27 (amended): on a valid mesh, a call of collapse_edge that succeeds erases the face of
each of the two half-edges of the edge exactly when that face has degree 3, boundary face
or not, and no other face: the number of live faces drops by the number of faces of
degree 3 among the two. So the drop is exactly one if and only if exactly one of the two
faces is a triangle, two if and only if both are, and zero if and only if neither is. -/
theorem C27_collapse_edge_faces (m : Halfedge_Mesh) (fuel e v : Nat) (m' : Halfedge_Mesh)
    (hv : Valid m) (he : m.live_e e) (hfuel : m.halfedges.length ≤ fuel)
    (hc : m.collapse_edge fuel e = .ok (some v, m')) :
    ∃ d0 d1, m.fdegree fuel (m.face (m.ehalfedge e)) = .ok d0 ∧
      m.fdegree fuel (m.face (m.twin (m.ehalfedge e))) = .ok d1 ∧
      m'.n_faces + (if d0 = 3 then 1 else 0) + (if d1 = 3 then 1 else 0) = m.n_faces ∧
      (m'.live_f (m.face (m.ehalfedge e)) ↔ d0 ≠ 3) ∧
      (m'.live_f (m.face (m.twin (m.ehalfedge e))) ↔ d1 ≠ 3) ∧
      (∀ f, f ≠ m.face (m.ehalfedge e) → f ≠ m.face (m.twin (m.ehalfedge e)) →
        (m'.live_f f ↔ m.live_f f)) ∧
      (m'.n_faces + 1 = m.n_faces ↔ (d0 = 3 ∧ d1 ≠ 3) ∨ (d0 ≠ 3 ∧ d1 = 3)) ∧
      (m'.n_faces + 2 = m.n_faces ↔ d0 = 3 ∧ d1 = 3) ∧
      (m'.n_faces = m.n_faces ↔ d0 ≠ 3 ∧ d1 ≠ 3) := by
  have l0 := hv.live_ehalfedge he
  have l1 := hv.live_twin l0
  obtain ⟨a0, a1, -, -, hrefuse, haccept⟩ := collapse_edge_total hv he hfuel
  by_cases hg : a0 ≤ 2 ∨ a1 ≤ 2 ∨ m.vertex (m.ehalfedge e) = m.vertex (m.twin (m.ehalfedge e))
  · rw [hrefuse hg] at hc
    simp at hc
  obtain ⟨g, m'', hrun, hce⟩ := haccept hg
  rw [hce] at hc
  simp only [Except.ok.injEq, Prod.mk.injEq, Option.some.injEq] at hc
  obtain ⟨-, rfl⟩ := hc
  obtain ⟨d0, hd0, -, c0, -⟩ := hv.fdegree_spec l0 hfuel
  obtain ⟨d1, hd1, -, c1, -⟩ := hv.fdegree_spec l1 hfuel
  obtain ⟨hfaces, hfer⟩ := collapse_run_faces hd0 hd1 hrun
  have lf0 := hv.live_face l0
  have lf1 := hv.live_face l1
  have fne : d0 = 3 → m.face (m.twin (m.ehalfedge e)) ≠ m.face (m.ehalfedge e) := by
    intro c3 c
    subst c3
    have c3' : m.next (m.next (m.next (m.ehalfedge e))) = m.ehalfedge e := c0
    obtain ⟨j, hj⟩ := hv.same_face_orbit l0 l1 c
    rcases iterate_three m.next _ c3' j with d | d | d
    · exact hv.twin_ne l0 (hj.trans d)
    · exact g.h2_ne_h1 hv (hj.trans d).symm
    · apply g.r0
      unfold rot
      rw [hj, d]
      exact c3'
  have fne' : d0 ≠ d1 → m.face (m.twin (m.ehalfedge e)) ≠ m.face (m.ehalfedge e) := by
    intro c3 c
    rw [c, hd0] at hd1
    simp only [Except.ok.injEq] at hd1
    exact c3 hd1
  have hcount : m''.n_faces + (if d0 = 3 then 1 else 0) + (if d1 = 3 then 1 else 0) =
      m.n_faces := by
    unfold n_faces
    rw [hfaces, hfer]
    by_cases c0' : d0 = 3 <;> by_cases c1' : d1 = 3
    · rw [if_pos c0', if_pos c1', if_pos c0', if_pos c1']
      have s1 := count_insert m.faces m.ferased _ hv.nodup_f lf0.1 lf0.2
      have s2 := count_insert m.faces (m.ferased.insert (m.face (m.ehalfedge e))) _ hv.nodup_f
        lf1.1 (by
          rw [List.mem_insert_iff]
          rintro (c | c)
          · exact fne c0' c
          · exact lf1.2 c)
      omega
    · rw [if_pos c0', if_neg c1', if_pos c0', if_neg c1']
      have s1 := count_insert m.faces m.ferased _ hv.nodup_f lf0.1 lf0.2
      simp only [id]
      omega
    · rw [if_neg c0', if_pos c1', if_neg c0', if_pos c1']
      have s1 := count_insert m.faces m.ferased _ hv.nodup_f lf1.1 lf1.2
      simp only [id]
      omega
    · rw [if_neg c0', if_neg c1', if_neg c0', if_neg c1']
      rfl
  refine ⟨d0, d1, hd0, hd1, hcount, ?_, ?_, ?_, ?_, ?_, ?_⟩
  · unfold live_f
    rw [hfaces, hfer]
    by_cases c0' : d0 = 3 <;> by_cases c1' : d1 = 3
    · simp [c0', c1', List.mem_insert_iff]
    · simp [c0', c1', List.mem_insert_iff]
    · have := fne' (by omega)
      simp [c0', c1', List.mem_insert_iff, lf0.1, lf0.2, Ne.symm this]
    · simp [c0', c1', lf0.1, lf0.2]
  · unfold live_f
    rw [hfaces, hfer]
    by_cases c0' : d0 = 3 <;> by_cases c1' : d1 = 3
    · simp [c0', c1', List.mem_insert_iff]
    · have := fne' (by omega)
      simp [c0', c1', List.mem_insert_iff, lf1.1, lf1.2, this]
    · simp [c0', c1', List.mem_insert_iff]
    · simp [c0', c1', lf1.1, lf1.2]
  · intro f n0 n1
    unfold live_f
    rw [hfaces, hfer]
    by_cases c0' : d0 = 3 <;> by_cases c1' : d1 = 3 <;>
      simp [c0', c1', List.mem_insert_iff, n0, n1]
  · by_cases c0' : d0 = 3 <;> by_cases c1' : d1 = 3 <;>
      simp only [c0', c1', if_true, if_false] at hcount <;>
      simp [c0', c1'] <;> omega
  · by_cases c0' : d0 = 3 <;> by_cases c1' : d1 = 3 <;>
      simp only [c0', c1', if_true, if_false] at hcount <;>
      simp [c0', c1'] <;> omega
  · by_cases c0' : d0 = 3 <;> by_cases c1' : d1 = 3 <;>
      simp only [c0', c1', if_true, if_false] at hcount <;>
      simp [c0', c1'] <;> omega

/-! ## bevel_face and the signal of a refused call -/

/-- C12 fails at a triangle: on the face 0 of the two triangles, a face of degree 3 that is
not a boundary face, bevel_face has no result. Whatever the fuel, the wiring loop of lines
712-759 runs a fourth time, with `i = 3`, and indexes the vectors of 3 created faces and
vertices out of bounds. -/
theorem C12_bevel_triangle_has_no_result :
    Valid two_triangles ∧ two_triangles.live_f 0 ∧ two_triangles.boundary 0 = false ∧
    two_triangles.fdegree 20 0 = .ok 3 ∧
    ∀ k, two_triangles.bevel_face (k + 5) 0 = .error .out_of_bounds :=
  ⟨two_triangles_valid, by decide, rfl, rfl, fun _ => rfl⟩

/-- C13 fails at a pentagon: on the face 0 of the pentagon bevel_face returns the face, but
the wiring loop has run for `i = 0..3` only. The created half-edge 38 has the created
half-edge 48 as twin, and the twin of 48 was never assigned; the fifth original half-edge
4 still references the face 0 and is still followed by the half-edge 0; the half-edge of
the created face 42 was never assigned; and the loop of `next` from the half-edge of the
face 0 does not close after 5 steps. -/
theorem C13_bevel_pentagon_ring_left_open :
    Valid pentagon ∧ pentagon.live_f 0 ∧ pentagon.boundary 0 = false ∧
    pentagon.fdegree 20 0 = .ok 5 ∧
    ∃ m', pentagon.bevel_face 20 0 = .ok (some 0, m') ∧
      (38 ∈ m'.halfedges ∧ 38 ∉ pentagon.halfedges ∧ 48 ∈ m'.halfedges ∧
        48 ∉ pentagon.halfedges ∧ 42 ∈ m'.faces ∧ 42 ∉ pentagon.faces) ∧
      (m'.twin 38 = 48 ∧ m'.twin 48 = pentagon.twin 48 ∧ m'.twin (m'.twin 38) ≠ 38) ∧
      (m'.face 4 = 0 ∧ m'.next 4 = pentagon.next 4) ∧
      m'.fhalfedge 42 = pentagon.fhalfedge 42 ∧
      m'.next (m'.next (m'.next (m'.next (m'.next (m'.fhalfedge 0))))) ≠ m'.fhalfedge 0 :=
  ⟨pentagon_valid, by decide, rfl, rfl, _, rfl,
    ⟨by decide, by decide, by decide, by decide, by decide, by decide⟩,
    ⟨by decide, by decide, by decide⟩, ⟨by decide, by decide⟩, by decide, by decide⟩

/-- C14 fails at a triangle: on the face 0 of the two triangles, the loop of lines 696-709
creates 3 vertices; after the iterations `i = 0, 1, 2` of the wiring loop the bound
`f->degree()` of the loop is 4, so the body runs with `i = 3`, where the assignment of the
position at line 718 indexes `new_vertices` and `original_halfedges` out of bounds. -/
theorem C14_bevel_triangle_position_out_of_bounds :
    ∃ m1 b, bevel_alloc 0 20 two_triangles (two_triangles.fhalfedge 0) ⟨[], [], [], [], []⟩ =
        .ok (m1, b) ∧
      b.new_vertices.length = 3 ∧ b.original_halfedges.length = 3 ∧
      ∃ m2, ((bevel_wire_step m1 0 3 0 b).bind fun m =>
          (bevel_wire_step m 0 3 1 b).bind fun m => bevel_wire_step m 0 3 2 b) = .ok m2 ∧
        m2.fdegree 20 0 = .ok 4 ∧
        vec_at b.new_vertices 3 = .error .out_of_bounds ∧
        vec_at b.original_halfedges 3 = .error .out_of_bounds ∧
        bevel_wire_step m2 0 3 3 b = .error .out_of_bounds ∧
        two_triangles.bevel_face 20 0 = .error .out_of_bounds :=
  ⟨_, _, rfl, rfl, rfl, _, rfl, rfl, rfl, rfl, rfl, rfl⟩

/-- C15: bevel_face on a boundary face returns a present result holding the face itself,
and the mesh after the call is the mesh before it. -/
theorem C15_bevel_boundary_face (m : Halfedge_Mesh) (fuel f : Nat)
    (hb : m.boundary f = true) : m.bevel_face fuel f = .ok (some f, m) := by
  unfold bevel_face
  rw [if_pos hb]

/-- C16 (amended): on a valid mesh collapse_edge, flip_edge and split_edge signal a refused
call by the absent result: collapse_edge when an endpoint has degree at most 2 or the
endpoints are the same vertex, flip_edge on a boundary edge, split_edge when the loop it
tests does not close after three steps; bevel_face refuses a boundary face by returning a
present result that holds the face. -/
theorem C16_refusal_signals (m : Halfedge_Mesh) (fuel e f : Nat) (hv : Valid m)
    (he : m.live_e e) (hfuel : m.halfedges.length ≤ fuel) :
    (∃ d0 d1, m.vdegree fuel (m.vertex (m.ehalfedge e)) = .ok d0 ∧
      m.vdegree fuel (m.vertex (m.twin (m.ehalfedge e))) = .ok d1 ∧
      ((d0 ≤ 2 ∨ d1 ≤ 2 ∨ m.vertex (m.ehalfedge e) = m.vertex (m.twin (m.ehalfedge e))) →
        m.collapse_edge fuel e = .ok (none, m))) ∧
    (m.on_boundary e = true → m.flip_edge fuel e = .ok (none, m)) ∧
    ((¬ m.closes3 (m.split_h0 e) ∨
        (m.on_boundary e = false ∧ ¬ m.closes3 (m.twin (m.split_h0 e)))) →
      ∃ m', m.split_edge fuel e = .ok (none, m')) ∧
    (m.boundary f = true → m.bevel_face fuel f = .ok (some f, m)) := by
  refine ⟨?_, ?_, ?_, ?_⟩
  · obtain ⟨d0, d1, hd0, hd1, hno, -⟩ := collapse_edge_total hv he hfuel
    exact ⟨d0, d1, hd0, hd1, hno⟩
  · intro hb
    unfold flip_edge
    rw [if_pos hb]
  · intro hc
    obtain ⟨r, m', hr, hiff⟩ := split_edge_total hv he hfuel
    have : r = none := hiff.2 hc
    subst this
    exact ⟨m', hr⟩
  · intro hb
    unfold bevel_face
    rw [if_pos hb]

/-- C38 fails at a pentagon and at a triangle. On the face 0 of the pentagon the loop of
lines 696-709 records 5 half-edges and the bound `f->degree()` of the wiring loop is 5
before the first iteration; the iteration `i = 0` splices the first created block in the
loop of the face, and from then on the bound is 4: the wiring loop is the run of the body
for `i = 0, 1, 2, 3` and no more, and the block of index 4 is never wired. On the face 0
of the two triangles 3 half-edges are recorded, the bound is 4 after the iterations
`i = 0, 1, 2`, and the body runs with `i = 3`, out of the bounds of the vectors. -/
theorem C38_bevel_wire_bound_is_four :
    (pentagon.boundary 0 = false ∧
      ∃ m1 b, bevel_alloc 0 20 pentagon (pentagon.fhalfedge 0) ⟨[], [], [], [], []⟩ =
          .ok (m1, b) ∧
        b.original_halfedges.length = 5 ∧ m1.fdegree 20 0 = .ok 5 ∧
        ∃ m2, bevel_wire_step m1 0 5 0 b = .ok m2 ∧ m2.fdegree 20 0 = .ok 4 ∧
        ∃ m3, bevel_wire_step m2 0 5 1 b = .ok m3 ∧ m3.fdegree 20 0 = .ok 4 ∧
        ∃ m4, bevel_wire_step m3 0 5 2 b = .ok m4 ∧ m4.fdegree 20 0 = .ok 4 ∧
        ∃ m5, bevel_wire_step m4 0 5 3 b = .ok m5 ∧ m5.fdegree 20 0 = .ok 4 ∧
          ∀ k, bevel_wire 0 5 b 20 (k + 5) 0 m1 = .ok m5) ∧
    (two_triangles.boundary 0 = false ∧
      ∃ m1 b, bevel_alloc 0 20 two_triangles (two_triangles.fhalfedge 0)
          ⟨[], [], [], [], []⟩ = .ok (m1, b) ∧
        b.original_halfedges.length = 3 ∧ b.new_faces.length = 3 ∧
        b.new_vertices.length = 3 ∧ m1.fdegree 20 0 = .ok 3 ∧
        ∀ k, bevel_wire 0 3 b 20 (k + 4) 0 m1 = .error .out_of_bounds) :=
  ⟨⟨rfl, _, _, rfl, rfl, rfl, _, rfl, rfl, _, rfl, rfl, _, rfl, rfl, _, rfl, rfl,
      fun _ => rfl⟩,
    ⟨rfl, _, _, rfl, rfl, rfl, rfl, rfl, fun _ => rfl⟩⟩

/-! ## triangulate -/

/-! ## triangulate: one run of the body of the inner loop -/

theorem body_iterator (m : Halfedge_Mesh) (v x y : Nat) :
    (m.triangulate_body v x y).2.1 = m.next x := rfl
theorem body_incoming (m : Halfedge_Mesh) (v x y : Nat) :
    (m.triangulate_body v x y).2.2 = m.next_id + 3 := rfl
theorem body_next_id (m : Halfedge_Mesh) (v x y : Nat) :
    (m.triangulate_body v x y).1.next_id = m.next_id + 4 := rfl
theorem body_next (m : Halfedge_Mesh) (v x y : Nat) :
    (m.triangulate_body v x y).1.next =
      upd (upd (upd m.next m.next_id y) (m.next_id + 3) (m.next x)) x m.next_id := rfl
theorem body_face (m : Halfedge_Mesh) (v x y : Nat) :
    (m.triangulate_body v x y).1.face =
      upd (upd (upd m.face m.next_id (m.next_id + 2)) y (m.next_id + 2)) x (m.next_id + 2) :=
  rfl
theorem body_twin (m : Halfedge_Mesh) (v x y : Nat) :
    (m.triangulate_body v x y).1.twin =
      upd (upd m.twin (m.next_id + 3) m.next_id) m.next_id (m.next_id + 3) := rfl
theorem body_vertex (m : Halfedge_Mesh) (v x y : Nat) :
    (m.triangulate_body v x y).1.vertex =
      upd (upd m.vertex m.next_id (m.vertex (m.next x))) (m.next_id + 3) v := rfl
theorem body_edge (m : Halfedge_Mesh) (v x y : Nat) :
    (m.triangulate_body v x y).1.edge =
      upd (upd m.edge m.next_id (m.next_id + 1)) (m.next_id + 3) (m.next_id + 1) := rfl
theorem body_ehalfedge (m : Halfedge_Mesh) (v x y : Nat) :
    (m.triangulate_body v x y).1.ehalfedge = upd m.ehalfedge (m.next_id + 1) m.next_id := rfl
theorem body_fhalfedge (m : Halfedge_Mesh) (v x y : Nat) :
    (m.triangulate_body v x y).1.fhalfedge = upd m.fhalfedge (m.next_id + 2) m.next_id := rfl
theorem body_boundary (m : Halfedge_Mesh) (v x y : Nat) :
    (m.triangulate_body v x y).1.boundary = upd m.boundary (m.next_id + 2) false := rfl
theorem body_vhalfedge (m : Halfedge_Mesh) (v x y : Nat) :
    (m.triangulate_body v x y).1.vhalfedge = m.vhalfedge := rfl
theorem body_pos (m : Halfedge_Mesh) (v x y : Nat) :
    (m.triangulate_body v x y).1.pos = m.pos := rfl
theorem body_halfedges (m : Halfedge_Mesh) (v x y : Nat) :
    (m.triangulate_body v x y).1.halfedges = m.halfedges ++ [m.next_id, m.next_id + 3] := by
  show (m.halfedges ++ [m.next_id]) ++ [m.next_id + 3] = _
  simp
theorem body_edges (m : Halfedge_Mesh) (v x y : Nat) :
    (m.triangulate_body v x y).1.edges = m.edges ++ [m.next_id + 1] := rfl
theorem body_faces (m : Halfedge_Mesh) (v x y : Nat) :
    (m.triangulate_body v x y).1.faces = m.faces ++ [m.next_id + 2] := rfl
theorem body_vertices (m : Halfedge_Mesh) (v x y : Nat) :
    (m.triangulate_body v x y).1.vertices = m.vertices := rfl
theorem body_herased (m : Halfedge_Mesh) (v x y : Nat) :
    (m.triangulate_body v x y).1.herased = m.herased := rfl
theorem body_verased (m : Halfedge_Mesh) (v x y : Nat) :
    (m.triangulate_body v x y).1.verased = m.verased := rfl
theorem body_eerased (m : Halfedge_Mesh) (v x y : Nat) :
    (m.triangulate_body v x y).1.eerased = m.eerased := rfl
theorem body_ferased (m : Halfedge_Mesh) (v x y : Nat) :
    (m.triangulate_body v x y).1.ferased = m.ferased := rfl

theorem upd_apply {α : Type} (f : Nat → α) (a : Nat) (b : α) (x : Nat) :
    upd f a b x = if x = a then b else f x := rfl

theorem TriFrame.same (c0 : Halfedge_Mesh) (f0 : Nat) : TriFrame c0 f0 c0 :=
  ⟨le_refl _, fun _ _ _ => rfl, fun _ _ _ => rfl, fun _ _ => rfl, fun _ _ => rfl,
    fun _ _ => rfl, fun _ _ => rfl, fun _ _ _ => rfl, fun _ _ => rfl, rfl, rfl, rfl, rfl, rfl,
    rfl, rfl, ⟨[], by simp, by simp⟩, ⟨[], by simp, by simp⟩, ⟨[], by simp, by simp⟩⟩

/-- One run of the body keeps the frame, when `hIterator` and `h_incoming` are fresh or
half-edges of the face. -/
theorem TriFrame.keep_body {c0 c : Halfedge_Mesh} {f0 : Nat} (F : TriFrame c0 f0 c) (v x y : Nat)
    (hx : x < c0.next_id → c0.face x = f0) (hy : y < c0.next_id → c0.face y = f0) :
    TriFrame c0 f0 (c.triangulate_body v x y).1 := by
  have hn := F.next_id
  refine ⟨?_, ?_, ?_, ?_, ?_, ?_, ?_, ?_, ?_, ?_, ?_, ?_, ?_, ?_, ?_, ?_, ?_, ?_, ?_⟩
  · rw [body_next_id]; omega
  · intro h hh hf
    have hxh : h ≠ x := fun c => hf (c ▸ hx (c ▸ hh))
    rw [body_next, upd_apply, if_neg hxh, upd_apply, if_neg (by omega), upd_apply,
      if_neg (by omega)]
    exact F.next h hh hf
  · intro h hh hf
    have hxh : h ≠ x := fun c => hf (c ▸ hx (c ▸ hh))
    have hyh : h ≠ y := fun c => hf (c ▸ hy (c ▸ hh))
    rw [body_face, upd_apply, if_neg hxh, upd_apply, if_neg hyh, upd_apply, if_neg (by omega)]
    exact F.face h hh hf
  · intro h hh
    rw [body_twin, upd_apply, if_neg (by omega), upd_apply, if_neg (by omega)]
    exact F.twin h hh
  · intro h hh
    rw [body_vertex, upd_apply, if_neg (by omega), upd_apply, if_neg (by omega)]
    exact F.vertex h hh
  · intro h hh
    rw [body_edge, upd_apply, if_neg (by omega), upd_apply, if_neg (by omega)]
    exact F.edge h hh
  · intro h hh
    rw [body_ehalfedge, upd_apply, if_neg (by omega)]
    exact F.ehalfedge h hh
  · intro h hh hf
    rw [body_fhalfedge, upd_apply, if_neg (by omega)]
    exact F.fhalfedge h hh hf
  · intro h hh
    rw [body_boundary, upd_apply, if_neg (by omega)]
    exact F.boundary h hh
  · rw [body_vhalfedge]; exact F.vhalfedge
  · rw [body_pos]; exact F.pos
  · rw [body_vertices]; exact F.vertices
  · rw [body_herased]; exact F.herased
  · rw [body_verased]; exact F.verased
  · rw [body_eerased]; exact F.eerased
  · rw [body_ferased]; exact F.ferased
  · obtain ⟨l, hl, hb⟩ := F.halfedges
    refine ⟨l ++ [c.next_id, c.next_id + 3], by rw [body_halfedges, hl, List.append_assoc], ?_⟩
    intro z hz
    rw [body_next_id]
    rcases List.mem_append.1 hz with h | h
    · have := hb z h; omega
    · simp at h; omega
  · obtain ⟨l, hl, hb⟩ := F.edges
    refine ⟨l ++ [c.next_id + 1], by rw [body_edges, hl, List.append_assoc], ?_⟩
    intro z hz
    rw [body_next_id]
    rcases List.mem_append.1 hz with h | h
    · have := hb z h; omega
    · simp at h; omega
  · obtain ⟨l, hl, hb⟩ := F.faces
    refine ⟨l ++ [c.next_id + 2], by rw [body_faces, hl, List.append_assoc], ?_⟩
    intro z hz
    rw [body_next_id]
    rcases List.mem_append.1 hz with h | h
    · have := hb z h; omega
    · simp at h; omega

/-! ## triangulate: the triangles already made stay triangles -/

theorem corners_congr {c c1 : Halfedge_Mesh} {f : Nat}
    (hf : c1.fhalfedge f = c.fhalfedge f) (hn : ∀ h ∈ c.corners f, c1.next h = c.next h) :
    c1.corners f = c.corners f := by
  have h0 := hn (c.fhalfedge f) (by simp [corners])
  have h1 := hn (c.next (c.fhalfedge f)) (by simp [corners])
  simp only [corners, hf, h0, h1]

theorem closes3_congr {c c1 : Halfedge_Mesh} {f : Nat}
    (hf : c1.fhalfedge f = c.fhalfedge f) (hn : ∀ h ∈ c.corners f, c1.next h = c.next h)
    (h3 : c.closes3 (c.fhalfedge f)) : c1.closes3 (c1.fhalfedge f) := by
  have h0 := hn (c.fhalfedge f) (by simp [corners])
  have h1 := hn (c.next (c.fhalfedge f)) (by simp [corners])
  have h2 := hn (c.next (c.next (c.fhalfedge f))) (by simp [corners])
  unfold closes3 at *
  rw [hf, h0, h1, h2, h3]

theorem face_triangle_congr {c c1 : Halfedge_Mesh} {f : Nat}
    (hf : c1.fhalfedge f = c.fhalfedge f) (hn : ∀ h ∈ c.corners f, c1.next h = c.next h)
    (hc : ∀ h ∈ c.corners f, c1.face h = c.face h) (ht : c.face_triangle f) :
    c1.face_triangle f := by
  have h0 := hn (c.fhalfedge f) (by simp [corners])
  have h1 := hn (c.next (c.fhalfedge f)) (by simp [corners])
  have h2 := hn (c.next (c.next (c.fhalfedge f))) (by simp [corners])
  refine ⟨?_, ?_⟩
  · have := ht.1
    unfold triangle at *
    rw [hf, h0, h1, h2]
    exact this
  · intro h hh
    rw [corners_congr hf hn] at hh
    rw [hc h hh]
    exact ht.2 h hh

theorem face_triangle_closes3 {c : Halfedge_Mesh} {f : Nat} (ht : c.face_triangle f) :
    c.closes3 (c.fhalfedge f) := ht.1.1

/-! ## triangulate: the inner loop -/

/-- New faces and edges of a frame are below the id counter. -/
theorem TriFrame.new_face_lt {c0 c : Halfedge_Mesh} {f0 : Nat} (F : TriFrame c0 f0 c)
    (hl : ∀ f ∈ c0.faces, f < c0.next_id) {f : Nat} (hf : f ∈ c.faces) : f < c.next_id := by
  obtain ⟨l, e, b⟩ := F.faces
  rw [e] at hf
  rcases List.mem_append.1 hf with h | h
  · exact lt_of_lt_of_le (hl f h) F.next_id
  · exact (b f h).2

theorem TriFrame.new_edge_lt {c0 c : Halfedge_Mesh} {f0 : Nat} (F : TriFrame c0 f0 c)
    (hl : ∀ f ∈ c0.edges, f < c0.next_id) {f : Nat} (hf : f ∈ c.edges) : f < c.next_id := by
  obtain ⟨l, e, b⟩ := F.edges
  rw [e] at hf
  rcases List.mem_append.1 hf with h | h
  · exact lt_of_lt_of_le (hl f h) F.next_id
  · exact (b f h).2

theorem TriState.y_ne {c0 c : Halfedge_Mesh} {f0 D : Nat} {a : Nat → Nat} {v k y : Nat}
    (S : TriState c0 f0 D a v c k y) (L : TriLoop c0 f0 D a) (hk : 1 ≤ k) (j : Nat)
    (hj : k ≤ j) (hD : j < D) : a j ≠ y := by
  intro e
  have h1 := L.lt j
  rw [e] at h1
  have h2 := S.y_old h1
  rw [← e] at h2
  exact L.inj 0 j (by omega) hD h2.symm

/-- The state at the entry of the inner loop. -/
theorem TriState.entry {c0 : Halfedge_Mesh} {f0 D : Nat} {a : Nat → Nat}
    (L : TriLoop c0 f0 D a) (v : Nat) : TriState c0 f0 D a v c0 1 (a 0) where
  frame := TriFrame.same c0 f0
  fh0 := rfl
  tail_next := fun j _ _ => L.step j
  tail_face := fun j _ _ => L.face j
  y_next := L.step 0
  y_lt := L.lt 0
  y_old := fun _ => rfl
  done := fun f hf hn => absurd (L.faces_lt f hf) (by omega)
  fan := fun e he hn => absurd (L.edges_lt e he) (by omega)
  n_halfedges := rfl
  n_edges := rfl
  n_faces := rfl

/-- One run of the body of the inner loop takes the state for `a k` to the state for
`a (k + 1)`. -/
theorem TriState.run_body {c0 c : Halfedge_Mesh} {f0 D : Nat} {a : Nat → Nat} {v k y : Nat}
    (S : TriState c0 f0 D a v c k y) (L : TriLoop c0 f0 D a) (hk : 1 ≤ k) (hD : k + 1 < D) :
    TriState c0 f0 D a v (c.triangulate_body v (a k) y).1 (k + 1) (c.next_id + 3) := by
  have hn := S.frame.next_id
  have hak : ∀ j, a j < c.next_id := fun j => lt_of_lt_of_le (L.lt j) hn
  have hf0 := L.f0_lt
  have hylt := S.y_lt
  have hyk : a k ≠ y := S.y_ne L hk k (le_refl _) (by omega)
  have hnx : c.next (a k) = a (k + 1) := S.tail_next k (le_refl _) (by omega)
  have hxa := hak k
  refine ⟨?_, ?_, ?_, ?_, ?_, ?_, ?_, ?_, ?_, ?_, ?_, ?_⟩
  · exact S.frame.keep_body v (a k) y (fun _ => L.face k) (fun h => by rw [S.y_old h]; exact L.face 0)
  · rw [body_fhalfedge, upd_apply, if_neg (by omega)]; exact S.fh0
  · intro j hj hjD
    have h1 : a j ≠ a k := (L.inj k j (by omega) hjD).symm
    have h2 := hak j
    rw [body_next, upd_apply, if_neg h1, upd_apply, if_neg (by omega), upd_apply,
      if_neg (by omega)]
    exact S.tail_next j (by omega) hjD
  · intro j hj hjD
    have h1 : a j ≠ a k := (L.inj k j (by omega) hjD).symm
    have h2 := hak j
    have h3 : a j ≠ y := S.y_ne L hk j (by omega) hjD
    rw [body_face, upd_apply, if_neg h1, upd_apply, if_neg h3, upd_apply, if_neg (by omega)]
    exact S.tail_face j (by omega) hjD
  · rw [body_next, upd_apply, if_neg (by omega), upd_apply, if_pos rfl]
    exact hnx
  · rw [body_next_id]; omega
  · intro h; omega
  · intro f hf hfn
    rw [body_faces] at hf
    rcases List.mem_append.1 hf with hf | hf
    · obtain ⟨ht, hc⟩ := S.done f hf hfn
      have hfl : f < c.next_id := S.frame.new_face_lt L.faces_lt hf
      have e1 : (c.triangulate_body v (a k) y).1.fhalfedge f = c.fhalfedge f := by
        rw [body_fhalfedge, upd_apply, if_neg (by omega)]
      have e2 : ∀ h ∈ c.corners f, (c.triangulate_body v (a k) y).1.next h = c.next h := by
        intro h hh
        obtain ⟨q1, q2, q3⟩ := hc h hh
        rw [body_next, upd_apply, if_neg (q3 k (le_refl _) (by omega)), upd_apply,
          if_neg (by omega), upd_apply, if_neg (by omega)]
      have e3 : ∀ h ∈ c.corners f, (c.triangulate_body v (a k) y).1.face h = c.face h := by
        intro h hh
        obtain ⟨q1, q2, q3⟩ := hc h hh
        rw [body_face, upd_apply, if_neg (q3 k (le_refl _) (by omega)), upd_apply,
          if_neg q2, upd_apply, if_neg (by omega)]
      refine ⟨face_triangle_congr e1 e2 e3 ht, ?_⟩
      intro h hh
      rw [corners_congr e1 e2] at hh
      obtain ⟨q1, q2, q3⟩ := hc h hh
      rw [body_next_id]
      exact ⟨by omega, by omega, fun j hj hjD => q3 j (by omega) hjD⟩
    · simp only [List.mem_singleton] at hf
      subst hf
      have hy1 : y ≠ c.next_id := by omega
      have hy3 : y ≠ c.next_id + 3 := by omega
      have g0 : (c.triangulate_body v (a k) y).1.fhalfedge (c.next_id + 2) = c.next_id := by
        rw [body_fhalfedge, upd_apply, if_pos rfl]
      have g1 : (c.triangulate_body v (a k) y).1.next c.next_id = y := by
        rw [body_next, upd_apply, if_neg (by omega), upd_apply, if_neg (by omega), upd_apply,
          if_pos rfl]
      have g2 : (c.triangulate_body v (a k) y).1.next y = a k := by
        rw [body_next, upd_apply, if_neg hyk.symm, upd_apply, if_neg hy3, upd_apply,
          if_neg hy1]
        exact S.y_next
      have g3 : (c.triangulate_body v (a k) y).1.next (a k) = c.next_id := by
        rw [body_next, upd_apply, if_pos rfl]
      have f1 : (c.triangulate_body v (a k) y).1.face c.next_id = c.next_id + 2 := by
        rw [body_face, upd_apply, if_neg (by omega), upd_apply, if_neg hy1.symm, upd_apply,
          if_pos rfl]
      have f2 : (c.triangulate_body v (a k) y).1.face y = c.next_id + 2 := by
        rw [body_face, upd_apply, if_neg hyk.symm, upd_apply, if_pos rfl]
      have f3 : (c.triangulate_body v (a k) y).1.face (a k) = c.next_id + 2 := by
        rw [body_face, upd_apply, if_pos rfl]
      have hcs : (c.triangulate_body v (a k) y).1.corners (c.next_id + 2) =
          [c.next_id, y, a k] := by
        simp only [corners, g0, g1, g2]
      refine ⟨⟨⟨?_, ?_⟩, ?_⟩, ?_⟩
      · rw [g0, g1, g2, g3]
      · rw [g0, g1]; exact hy1
      · intro h hh
        rw [hcs] at hh
        simp only [List.mem_cons, List.mem_singleton, List.not_mem_nil, or_false] at hh
        rcases hh with rfl | rfl | rfl
        · exact f1
        · exact f2
        · exact f3
      · intro h hh
        rw [hcs] at hh
        simp only [List.mem_cons, List.mem_singleton, List.not_mem_nil, or_false] at hh
        rw [body_next_id]
        rcases hh with rfl | rfl | rfl
        · exact ⟨by omega, by omega, fun j _ _ => by have := hak j; omega⟩
        · exact ⟨by omega, by omega, fun j hj hjD => (S.y_ne L hk j (by omega) hjD).symm⟩
        · exact ⟨by omega, by omega, fun j hj hjD => L.inj k j (by omega) hjD⟩
  · intro e he hen
    rw [body_edges] at he
    rcases List.mem_append.1 he with he | he
    · obtain ⟨p1, ⟨j, p2⟩, p3, p4, p5, p6, p7, p8⟩ := S.fan e he hen
      have hel : e < c.next_id := S.frame.new_edge_lt L.edges_lt he
      have e1 : (c.triangulate_body v (a k) y).1.ehalfedge e = c.ehalfedge e := by
        rw [body_ehalfedge, upd_apply, if_neg (by omega)]
      have tw : ∀ h, h < c.next_id → (c.triangulate_body v (a k) y).1.twin h = c.twin h := by
        intro h hh
        rw [body_twin, upd_apply, if_neg (by omega), upd_apply, if_neg (by omega)]
      have vx : ∀ h, h < c.next_id → (c.triangulate_body v (a k) y).1.vertex h = c.vertex h := by
        intro h hh
        rw [body_vertex, upd_apply, if_neg (by omega), upd_apply, if_neg (by omega)]
      have ed : ∀ h, h < c.next_id → (c.triangulate_body v (a k) y).1.edge h = c.edge h := by
        intro h hh
        rw [body_edge, upd_apply, if_neg (by omega), upd_apply, if_neg (by omega)]
      unfold fan_edge
      rw [e1, tw _ p7, tw _ p8, vx _ p8, vx _ p7, ed _ p7, ed _ p8, body_next_id]
      exact ⟨p1, ⟨j, p2⟩, p3, p4, p5, p6, by omega, by omega⟩
    · simp only [List.mem_singleton] at he
      subst he
      have e1 : (c.triangulate_body v (a k) y).1.ehalfedge (c.next_id + 1) = c.next_id := by
        rw [body_ehalfedge, upd_apply, if_pos rfl]
      have t1 : (c.triangulate_body v (a k) y).1.twin c.next_id = c.next_id + 3 := by
        rw [body_twin, upd_apply, if_pos rfl]
      have t2 : (c.triangulate_body v (a k) y).1.twin (c.next_id + 3) = c.next_id := by
        rw [body_twin, upd_apply, if_neg (by omega), upd_apply, if_pos rfl]
      have v1 : (c.triangulate_body v (a k) y).1.vertex c.next_id = c0.vertex (a (k + 1)) := by
        rw [body_vertex, upd_apply, if_neg (by omega), upd_apply, if_pos rfl, hnx]
        exact S.frame.vertex _ (L.lt _)
      have v2 : (c.triangulate_body v (a k) y).1.vertex (c.next_id + 3) = v := by
        rw [body_vertex, upd_apply, if_pos rfl]
      have d1 : (c.triangulate_body v (a k) y).1.edge c.next_id = c.next_id + 1 := by
        rw [body_edge, upd_apply, if_neg (by omega), upd_apply, if_pos rfl]
      have d2 : (c.triangulate_body v (a k) y).1.edge (c.next_id + 3) = c.next_id + 1 := by
        rw [body_edge, upd_apply, if_pos rfl]
      unfold fan_edge
      rw [e1, t1, t2, v1, v2, d1, d2, body_next_id]
      exact ⟨rfl, ⟨k + 1, rfl⟩, rfl, rfl, rfl, by omega, by omega, by omega⟩
  · rw [body_halfedges, List.length_append, S.n_halfedges]
    simp only [List.length_cons, List.length_nil]
    omega
  · rw [body_edges, List.length_append, S.n_edges]
    simp only [List.length_cons, List.length_nil]
    omega
  · rw [body_faces, List.length_append, S.n_faces]
    simp only [List.length_cons, List.length_nil]
    omega

/-- The inner loop runs until `hIterator` is the half-edge `a (D - 2)`. -/
theorem fan_ok {c0 : Halfedge_Mesh} {f0 D : Nat} {a : Nat → Nat} {v : Nat}
    (L : TriLoop c0 f0 D a) :
    ∀ r k c y fuel, TriState c0 f0 D a v c k y → 1 ≤ k → k + 2 + r = D → r < fuel →
    ∃ c1 y1, triangulate_fan (a 0) v fuel c (a k) y = .ok (c1, a (D - 2), y1) ∧
      TriState c0 f0 D a v c1 (D - 2) y1 := by
  intro r
  induction r with
  | zero =>
    intro k c y fuel S hk hD hfuel
    obtain ⟨fuel, rfl⟩ : ∃ n, fuel = n + 1 := ⟨fuel - 1, by omega⟩
    have e1 : c.next (a k) = a (k + 1) := S.tail_next k (le_refl _) (by omega)
    have e2 : c.next (a (k + 1)) = a (k + 2) := S.tail_next (k + 1) (by omega) (by omega)
    have e3 : a (k + 2) = a 0 := by
      have : k + 2 = D := by omega
      rw [this]; exact L.period
    have hk2 : D - 2 = k := by omega
    unfold triangulate_fan
    rw [e1, e2, e3, if_neg (by simp), hk2]
    exact ⟨c, y, rfl, S⟩
  | succ r ih =>
    intro k c y fuel S hk hD hfuel
    obtain ⟨fuel, rfl⟩ : ∃ n, fuel = n + 1 := ⟨fuel - 1, by omega⟩
    have e1 : c.next (a k) = a (k + 1) := S.tail_next k (le_refl _) (by omega)
    have e2 : c.next (a (k + 1)) = a (k + 2) := S.tail_next (k + 1) (by omega) (by omega)
    have e3 : a (k + 2) ≠ a 0 := (L.inj 0 (k + 2) (by omega) (by omega)).symm
    unfold triangulate_fan
    rw [e1, e2, if_pos e3]
    simp only [body_iterator, body_incoming, e1]
    exact ih (k + 1) _ _ fuel (S.run_body L hk (by omega)) (by omega) (by omega) (by omega)

/-- The three assignments after the inner loop keep the frame. -/
theorem TriFrame.keep_finish {c0 c : Halfedge_Mesh} {f0 : Nat} (F : TriFrame c0 f0 c) (q y : Nat)
    (hq : q < c0.next_id → c0.face q = f0) (hy : y < c0.next_id → c0.face y = f0) :
    TriFrame c0 f0 (((c.set_next q y).set_face y f0).set_fhalfedge f0 y) := by
  refine ⟨F.next_id, ?_, ?_, F.twin, F.vertex, F.edge, F.ehalfedge, ?_, F.boundary,
    F.vhalfedge, F.pos, F.vertices, F.herased, F.verased, F.eerased, F.ferased, F.halfedges,
    F.edges, F.faces⟩
  · intro h hh hf
    have hqh : h ≠ q := fun c => hf (c ▸ hq (c ▸ hh))
    show upd c.next q y h = _
    rw [upd_apply, if_neg hqh]
    exact F.next h hh hf
  · intro h hh hf
    have hyh : h ≠ y := fun c => hf (c ▸ hy (c ▸ hh))
    show upd c.face y f0 h = _
    rw [upd_apply, if_neg hyh]
    exact F.face h hh hf
  · intro f hf hne
    show upd c.fhalfedge f0 y f = _
    rw [upd_apply, if_neg hne]
    exact F.fhalfedge f hf hne

/-- After the inner loop the three assignments of lines 983-985 close the last triangle. -/
theorem TriState.run_finish {c0 c : Halfedge_Mesh} {f0 D : Nat} {a : Nat → Nat} {v y : Nat}
    (S : TriState c0 f0 D a v c (D - 2) y) (L : TriLoop c0 f0 D a) (hD : 3 ≤ D) :
    TriResult c0 f0 a v (D - 3)
      (((c.set_next (c.next (a (D - 2))) y).set_face y f0).set_fhalfedge f0 y) := by
  have hn := S.frame.next_id
  have hf0 := L.f0_lt
  have hk : 1 ≤ D - 2 := by omega
  have hq : c.next (a (D - 2)) = a (D - 1) := by
    rw [S.tail_next (D - 2) (le_refl _) (by omega)]
    congr 1
    omega
  have hpy : a (D - 2) ≠ y := S.y_ne L hk (D - 2) (le_refl _) (by omega)
  have hqy : a (D - 1) ≠ y := S.y_ne L hk (D - 1) (by omega) (by omega)
  have hpq : a (D - 2) ≠ a (D - 1) := L.inj (D - 2) (D - 1) (by omega) (by omega)
  have hqn : c.next (a (D - 1)) = a 0 := by
    rw [S.tail_next (D - 1) (by omega) (by omega)]
    have : D - 1 + 1 = D := by omega
    rw [this]; exact L.period
  rw [hq]
  refine ⟨?_, ?_, ?_, ?_, ?_, ?_⟩
  · exact S.frame.keep_finish _ _ (fun _ => L.face _) (fun h => by rw [S.y_old h]; exact L.face 0)
  · intro f hf hc
    have hfc : f ∈ c.faces := hf
    by_cases hff : f = f0
    · subst hff
      have g0 : (((c.set_next (a (D - 1)) y).set_face y f).set_fhalfedge f y).fhalfedge f = y := by
        show upd c.fhalfedge f y f = y
        rw [upd_apply, if_pos rfl]
      have g1 : (((c.set_next (a (D - 1)) y).set_face y f).set_fhalfedge f y).next y =
          a (D - 2) := by
        show upd c.next (a (D - 1)) y y = _
        rw [upd_apply, if_neg hqy.symm]
        exact S.y_next
      have g2 : (((c.set_next (a (D - 1)) y).set_face y f).set_fhalfedge f y).next (a (D - 2)) =
          a (D - 1) := by
        show upd c.next (a (D - 1)) y (a (D - 2)) = _
        rw [upd_apply, if_neg hpq]
        exact hq
      have g3 : (((c.set_next (a (D - 1)) y).set_face y f).set_fhalfedge f y).next (a (D - 1)) =
          y := by
        show upd c.next (a (D - 1)) y (a (D - 1)) = _
        rw [upd_apply, if_pos rfl]
      have hcs : (((c.set_next (a (D - 1)) y).set_face y f).set_fhalfedge f y).corners f =
          [y, a (D - 2), a (D - 1)] := by
        simp only [corners, g0, g1, g2]
      refine ⟨⟨⟨?_, ?_⟩, ?_⟩, ?_⟩
      · rw [g0, g1, g2, g3]
      · rw [g0, g1]; exact hpy
      · intro h hh
        rw [hcs] at hh
        simp only [List.mem_cons, List.mem_singleton, List.not_mem_nil, or_false] at hh
        show upd c.face y f h = f
        rcases hh with rfl | rfl | rfl
        · rw [upd_apply, if_pos rfl]
        · rw [upd_apply, if_neg hpy]; exact S.tail_face _ (le_refl _) (by omega)
        · rw [upd_apply, if_neg hqy]; exact S.tail_face _ (by omega) (by omega)
      · intro h hh
        rw [hcs] at hh
        simp only [List.mem_cons, List.mem_singleton, List.not_mem_nil, or_false] at hh
        show h < c.next_id
        rcases hh with rfl | rfl | rfl
        · exact S.y_lt
        · exact lt_of_lt_of_le (L.lt _) hn
        · exact lt_of_lt_of_le (L.lt _) hn
    · have hfn : c0.next_id ≤ f := by
        rcases hc with h | h
        · exact absurd h hff
        · exact h
      obtain ⟨ht, hcr⟩ := S.done f hfc hfn
      have e1 : (((c.set_next (a (D - 1)) y).set_face y f0).set_fhalfedge f0 y).fhalfedge f =
          c.fhalfedge f := by
        show upd c.fhalfedge f0 y f = _
        rw [upd_apply, if_neg hff]
      have e2 : ∀ h ∈ c.corners f,
          (((c.set_next (a (D - 1)) y).set_face y f0).set_fhalfedge f0 y).next h = c.next h := by
        intro h hh
        obtain ⟨q1, q2, q3⟩ := hcr h hh
        show upd c.next (a (D - 1)) y h = _
        rw [upd_apply, if_neg (q3 (D - 1) (by omega) (by omega))]
      have e3 : ∀ h ∈ c.corners f,
          (((c.set_next (a (D - 1)) y).set_face y f0).set_fhalfedge f0 y).face h = c.face h := by
        intro h hh
        obtain ⟨q1, q2, q3⟩ := hcr h hh
        show upd c.face y f0 h = _
        rw [upd_apply, if_neg q2]
      refine ⟨face_triangle_congr e1 e2 e3 ht, ?_⟩
      intro h hh
      rw [corners_congr e1 e2] at hh
      exact (hcr h hh).1
  · intro e he hen
    exact S.fan e he hen
  · have := S.n_halfedges
    show c.halfedges.length = _
    omega
  · have := S.n_edges
    show c.edges.length = _
    omega
  · have := S.n_faces
    show c.faces.length = _
    omega

/-- A face of degree at least 4 that is not a boundary face is cut into triangles. -/
theorem triangulate_face_fan {c0 : Halfedge_Mesh} {f0 D : Nat} {a : Nat → Nat}
    (L : TriLoop c0 f0 D a) (hD : 4 ≤ D) (hb : c0.boundary f0 = false) {fuel : Nat}
    (hfuel : D ≤ fuel) :
    ∃ c, c0.triangulate_face fuel f0 = .ok c ∧
      TriResult c0 f0 a (c0.vertex (c0.fhalfedge f0)) (D - 3) c := by
  have s0 := L.start
  have e1 : c0.next (a 0) = a 1 := L.step 0
  have e2 : c0.next (a 1) = a 2 := L.step 1
  have e3 : c0.next (a 2) = a 3 := L.step 2
  have e4 : a 3 ≠ a 0 := (L.inj 0 3 (by omega) (by omega)).symm
  obtain ⟨c1, y1, hfan, S⟩ := fan_ok L (D - 3) 1 c0 (a 0) fuel
    (TriState.entry L (c0.vertex (c0.fhalfedge f0))) (le_refl _) (by omega) (by omega)
  unfold triangulate_face
  simp only [← s0, e1, e2, e3, hb]
  rw [← s0] at hfan S
  rw [if_pos ⟨e4, by simp⟩, hfan, ok_bind]
  exact ⟨_, rfl, S.run_finish L (by omega)⟩

/-- A boundary face and a face whose loop closes after three steps are left alone. -/
theorem triangulate_face_skip (c0 : Halfedge_Mesh) (fuel f0 : Nat)
    (h : c0.boundary f0 = true ∨ c0.closes3 (c0.fhalfedge f0)) :
    c0.triangulate_face fuel f0 = .ok c0 := by
  unfold triangulate_face
  rw [if_neg]
  rintro ⟨h1, h2⟩
  rcases h with h | h
  · exact h2 h
  · exact h1 h

theorem TriResult.weak {c0 c : Halfedge_Mesh} {f0 : Nat} {a : Nat → Nat} {v d : Nat}
    (R : TriResult c0 f0 a v d c) : TriWeak c0 f0 c := by
  refine ⟨R.frame, ?_⟩
  intro f hf hc
  obtain ⟨ht, hl⟩ := R.triangles f hf hc
  refine ⟨face_triangle_closes3 ht, fun h hh => ⟨hl h hh, ?_⟩⟩
  rw [ht.2 h hh]
  exact hc

/-- The values of `next`, `face` and of the half-edge of a face after the two runs of the
body and the three final assignments that triangulate makes on a face of degree 2. -/
theorem two_gon_values (c0 : Halfedge_Mesh) (v a0 a1 f0 n : Nat) (hn : n = c0.next_id)
    (h01 : a0 ≠ a1) (h0 : a0 < n) (h1 : a1 < n) (hf : f0 < n)
    (e0 : c0.next a0 = a1) (e1 : c0.next a1 = a0) (c3 : Halfedge_Mesh)
    (h3 : c3 = (((((c0.triangulate_body v a1 a0).1.triangulate_body v a0 (n + 3)).1.set_next
      n (n + 7)).set_face (n + 7) f0).set_fhalfedge f0 (n + 7))) :
    (c3.next (n + 7) = a1 ∧ c3.next a1 = n ∧ c3.next n = n + 7 ∧
      c3.next (n + 4) = n + 3 ∧ c3.next (n + 3) = a0 ∧ c3.next a0 = n + 4) ∧
    (c3.fhalfedge f0 = n + 7 ∧ c3.fhalfedge (n + 2) = n ∧ c3.fhalfedge (n + 6) = n + 4) ∧
    (c3.face (n + 7) = f0 ∧ c3.face a1 = n + 2 ∧ c3.face n = n + 2 ∧
      c3.face (n + 4) = n + 6 ∧ c3.face (n + 3) = n + 6 ∧ c3.face a0 = n + 6) := by
  subst h3
  subst hn
  simp only [set_next, set_face, set_fhalfedge, body_next, body_face, body_fhalfedge,
    body_next_id, upd_apply, e0, e1]
  refine ⟨⟨?_, ?_, ?_, ?_, ?_, ?_⟩, ⟨?_, ?_, ?_⟩, ⟨?_, ?_, ?_, ?_, ?_, ?_⟩⟩ <;>
    (split_ifs <;> omega)

/-- On a face of degree 2 that is not a boundary face the inner loop of triangulate runs
twice. -/
theorem two_gon_run (c0 : Halfedge_Mesh) (a0 a1 f0 fuel : Nat) (s0 : a0 = c0.fhalfedge f0)
    (h01 : a0 ≠ a1) (h0 : a0 < c0.next_id) (h1 : a1 < c0.next_id)
    (e0 : c0.next a0 = a1) (e1 : c0.next a1 = a0) (hb : c0.boundary f0 = false) :
    c0.triangulate_face (fuel + 1 + 1 + 1) f0 = .ok
      (((((c0.triangulate_body (c0.vertex a0) a1 a0).1.triangulate_body
        (c0.vertex a0) a0 (c0.next_id + 3)).1.set_next c0.next_id
        (c0.next_id + 7)).set_face (c0.next_id + 7) f0).set_fhalfedge f0 (c0.next_id + 7)) := by
  have k1 : (c0.triangulate_body (c0.vertex a0) a1 a0).1.next a0 = a1 := by
    simp only [body_next, upd_apply, e0]
    split_ifs <;> omega
  have k2 : (c0.triangulate_body (c0.vertex a0) a1 a0).1.next a1 = c0.next_id := by
    simp only [body_next, upd_apply]
    split_ifs <;> omega
  have k3 : ((c0.triangulate_body (c0.vertex a0) a1 a0).1.triangulate_body
      (c0.vertex a0) a0 (c0.next_id + 3)).1.next a1 = c0.next_id := by
    clear k1 k2
    simp only [body_next, body_next_id, upd_apply]
    split_ifs <;> omega
  have k4 : ((c0.triangulate_body (c0.vertex a0) a1 a0).1.triangulate_body
      (c0.vertex a0) a0 (c0.next_id + 3)).1.next c0.next_id = a0 := by
    clear k1 k2 k3
    simp only [body_next, body_next_id, upd_apply]
    split_ifs <;> omega
  unfold triangulate_face
  simp only [← s0, e0, e1, hb]
  rw [if_pos ⟨h01.symm, by simp⟩]
  unfold triangulate_fan
  rw [e1, e0, if_pos h01.symm]
  simp only [body_iterator, body_incoming, e1]
  unfold triangulate_fan
  rw [k1, k2, if_pos (fun c => absurd h0 (by rw [← c]; exact lt_irrefl _))]
  simp only [body_iterator, body_incoming, k1]
  unfold triangulate_fan
  rw [k3, k4, if_neg (by simp), ok_bind]
  simp only [k3, body_next_id]

/-- The three loops left on a face of degree 2 close after three steps. -/
theorem two_gon_closed (c0 c3 : Halfedge_Mesh) (a0 a1 f0 n : Nat) (hn : n = c0.next_id)
    (h0 : a0 < n) (h1 : a1 < n) (hl : ∀ f ∈ c0.faces, f < n)
    (hfs : c3.faces = c0.faces ++ [n + 2] ++ [n + 4 + 2]) (hid : c3.next_id = n + 4 + 4)
    (hvals : (c3.next (n + 7) = a1 ∧ c3.next a1 = n ∧ c3.next n = n + 7 ∧
      c3.next (n + 4) = n + 3 ∧ c3.next (n + 3) = a0 ∧ c3.next a0 = n + 4) ∧
    (c3.fhalfedge f0 = n + 7 ∧ c3.fhalfedge (n + 2) = n ∧ c3.fhalfedge (n + 6) = n + 4) ∧
    (c3.face (n + 7) = f0 ∧ c3.face a1 = n + 2 ∧ c3.face n = n + 2 ∧
      c3.face (n + 4) = n + 6 ∧ c3.face (n + 3) = n + 6 ∧ c3.face a0 = n + 6)) :
    ∀ f ∈ c3.faces, (f = f0 ∨ c0.next_id ≤ f) → c3.closes3 (c3.fhalfedge f) ∧
      ∀ h ∈ c3.corners f, h < c3.next_id ∧ (c3.face h = f0 ∨ c0.next_id ≤ c3.face h) := by
  subst hn
  intro f hfm hc
  have hcase : f = f0 ∨ f = c0.next_id + 2 ∨ f = c0.next_id + 6 := by
    clear hvals hid
    rw [hfs] at hfm
    clear hfs
    simp only [List.mem_append, List.mem_singleton] at hfm
    rcases hfm with (h | h) | h
    · have := hl f h
      rcases hc with hc | hc
      · exact Or.inl hc
      · omega
    · exact Or.inr (Or.inl h)
    · exact Or.inr (Or.inr h)
  have b0 : a0 < c0.next_id + 4 + 4 := by clear hvals hid hfs; omega
  have b1 : a1 < c0.next_id + 4 + 4 := by clear hvals hid hfs; omega
  have b2 : c0.next_id < c0.next_id + 4 + 4 := by clear hvals hid hfs; omega
  have b3 : c0.next_id + 3 < c0.next_id + 4 + 4 := by clear hvals hid hfs; omega
  have b4 : c0.next_id + 4 < c0.next_id + 4 + 4 := by clear hvals hid hfs; omega
  have b7 : c0.next_id + 7 < c0.next_id + 4 + 4 := by clear hvals hid hfs; omega
  have l2 : c0.next_id ≤ c0.next_id + 2 := Nat.le_add_right _ _
  have l6 : c0.next_id ≤ c0.next_id + 6 := Nat.le_add_right _ _
  obtain ⟨⟨n1, n2, n3, n4, n5, n6⟩, ⟨g1, g2, g3⟩, ⟨d1, d2, d3, d4, d5, d6⟩⟩ := hvals
  rcases hcase with rfl | rfl | rfl
  · have hcs : c3.corners f = [c0.next_id + 7, a1, c0.next_id] := by
      simp only [corners, g1, n1, n2]
    refine ⟨?_, ?_⟩
    · unfold closes3; rw [g1, n1, n2, n3]
    · intro h hh
      rw [hcs] at hh
      simp only [List.mem_cons, List.mem_singleton, List.not_mem_nil, or_false] at hh
      rw [hid]
      rcases hh with rfl | rfl | rfl
      · exact ⟨b7, Or.inl d1⟩
      · exact ⟨b1, Or.inr (by rw [d2]; exact l2)⟩
      · exact ⟨b2, Or.inr (by rw [d3]; exact l2)⟩
  · have hcs : c3.corners (c0.next_id + 2) = [c0.next_id, c0.next_id + 7, a1] := by
      simp only [corners, g2, n3, n1]
    refine ⟨?_, ?_⟩
    · unfold closes3; rw [g2, n3, n1, n2]
    · intro h hh
      rw [hcs] at hh
      simp only [List.mem_cons, List.mem_singleton, List.not_mem_nil, or_false] at hh
      rw [hid]
      rcases hh with rfl | rfl | rfl
      · exact ⟨b2, Or.inr (by rw [d3]; exact l2)⟩
      · exact ⟨b7, Or.inl d1⟩
      · exact ⟨b1, Or.inr (by rw [d2]; exact l2)⟩
  · have hcs : c3.corners (c0.next_id + 6) = [c0.next_id + 4, c0.next_id + 3, a0] := by
      simp only [corners, g3, n4, n5]
    refine ⟨?_, ?_⟩
    · unfold closes3; rw [g3, n4, n5, n6]
    · intro h hh
      rw [hcs] at hh
      simp only [List.mem_cons, List.mem_singleton, List.not_mem_nil, or_false] at hh
      rw [hid]
      rcases hh with rfl | rfl | rfl
      · exact ⟨b4, Or.inr (by rw [d4]; exact l6)⟩
      · exact ⟨b3, Or.inr (by rw [d5]; exact l6)⟩
      · exact ⟨b0, Or.inr (by rw [d6]; exact l6)⟩

/-- A face of degree 2 that is not a boundary face: the inner loop runs twice, and leaves
three loops that close after three steps. -/
theorem triangulate_face_two {c0 : Halfedge_Mesh} {f0 : Nat} {a : Nat → Nat}
    (L : TriLoop c0 f0 2 a) (hb : c0.boundary f0 = false) {fuel : Nat} (hfuel : 3 ≤ fuel) :
    ∃ c, c0.triangulate_face fuel f0 = .ok c ∧ TriWeak c0 f0 c := by
  have e0 : c0.next (a 0) = a 1 := L.step 0
  have e1 : c0.next (a 1) = a 0 := by rw [L.step 1]; exact L.period
  have h01 : a 0 ≠ a 1 := L.inj 0 1 (by omega) (by omega)
  obtain ⟨fuel, rfl⟩ : ∃ n, fuel = n + 1 + 1 + 1 := ⟨fuel - 3, by omega⟩
  refine ⟨_, two_gon_run c0 (a 0) (a 1) f0 fuel L.start h01 (L.lt 0) (L.lt 1) e0 e1 hb, ?_, ?_⟩
  · exact (((TriFrame.same c0 f0).keep_body _ (a 1) (a 0) (fun _ => L.face 1)
      (fun _ => L.face 0)).keep_body _ (a 0) (c0.next_id + 3) (fun _ => L.face 0)
      (fun h => absurd h (Nat.not_lt.2 (Nat.le_add_right _ _)))).keep_finish _ _
      (fun h => absurd h (lt_irrefl _))
      (fun h => absurd h (Nat.not_lt.2 (Nat.le_add_right _ _)))
  · exact two_gon_closed c0 _ (a 0) (a 1) f0 c0.next_id rfl (L.lt 0) (L.lt 1) L.faces_lt rfl rfl
      (two_gon_values c0 (c0.vertex (a 0)) (a 0) (a 1) f0 c0.next_id rfl h01 (L.lt 0) (L.lt 1)
        L.f0_lt e0 e1 _ rfl)

/-- A face whose loop closes after three steps is left as it is: nothing is created. -/
theorem TriWeak.of_closed {c0 : Halfedge_Mesh} {f0 D : Nat} {a : Nat → Nat}
    (L : TriLoop c0 f0 D a) (h3 : a 3 = a 0) : TriWeak c0 f0 c0 := by
  have e0 : c0.next (c0.fhalfedge f0) = a 1 := by rw [← L.start]; exact L.step 0
  have e1 : c0.next (a 1) = a 2 := L.step 1
  have e2 : c0.next (a 2) = a 3 := L.step 2
  refine ⟨TriFrame.same c0 f0, ?_⟩
  intro f hf hc
  have hff : f = f0 := by
    rcases hc with h | h
    · exact h
    · exact absurd (L.faces_lt f hf) (by omega)
  subst hff
  have hcs : c0.corners f = [a 0, a 1, a 2] := by
    simp only [corners, e0, e1, L.start]
  refine ⟨?_, ?_⟩
  · unfold closes3
    rw [e0, e1, e2, h3, L.start]
  · intro h hh
    rw [hcs] at hh
    simp only [List.mem_cons, List.mem_singleton, List.not_mem_nil, or_false] at hh
    rcases hh with rfl | rfl | rfl
    · exact ⟨L.lt 0, Or.inl (L.face 0)⟩
    · exact ⟨L.lt 1, Or.inl (L.face 1)⟩
    · exact ⟨L.lt 2, Or.inl (L.face 2)⟩

/-- A triangle is left as it is, and is a triangle. -/
theorem TriResult.of_triangle {c0 : Halfedge_Mesh} {f0 : Nat} {a : Nat → Nat}
    (L : TriLoop c0 f0 3 a) (v : Nat) : TriResult c0 f0 a v 0 c0 := by
  have e0 : c0.next (c0.fhalfedge f0) = a 1 := by rw [← L.start]; exact L.step 0
  have e1 : c0.next (a 1) = a 2 := L.step 1
  have e2 : c0.next (a 2) = a 3 := L.step 2
  have h3 : a 3 = a 0 := L.period
  refine ⟨TriFrame.same c0 f0, ?_, ?_, rfl, rfl, rfl⟩
  · intro f hf hc
    have hff : f = f0 := by
      rcases hc with h | h
      · exact h
      · exact absurd (L.faces_lt f hf) (by omega)
    subst hff
    have hcs : c0.corners f = [a 0, a 1, a 2] := by
      simp only [corners, e0, e1, L.start]
    refine ⟨⟨⟨?_, ?_⟩, ?_⟩, ?_⟩
    · rw [e0, e1, e2, h3, L.start]
    · rw [e0, ← L.start]
      exact (L.inj 0 1 (by omega) (by omega)).symm
    · intro h hh
      rw [hcs] at hh
      simp only [List.mem_cons, List.mem_singleton, List.not_mem_nil, or_false] at hh
      rcases hh with rfl | rfl | rfl
      · exact L.face 0
      · exact L.face 1
      · exact L.face 2
    · intro h hh
      rw [hcs] at hh
      simp only [List.mem_cons, List.mem_singleton, List.not_mem_nil, or_false] at hh
      rcases hh with rfl | rfl | rfl
      · exact L.lt 0
      · exact L.lt 1
      · exact L.lt 2
  · intro e he hen
    exact absurd (L.edges_lt e he) (by omega)

/-- What triangulate does with a face that is not a boundary face, by the degree `D` of the
face: the call returns; the loops of the face and of the created faces close after three
steps; for `D ≥ 3` they are triangles and `D - 3` faces were created; for `D = 1` and
`D = 3` the mesh is left as it is. -/
theorem triangulate_face_loop {c0 : Halfedge_Mesh} {f0 D : Nat} {a : Nat → Nat}
    (L : TriLoop c0 f0 D a) (hD : 0 < D) (hb : c0.boundary f0 = false) {fuel : Nat}
    (hfuel : D < fuel) :
    ∃ c, c0.triangulate_face fuel f0 = .ok c ∧ TriWeak c0 f0 c ∧
      (3 ≤ D → TriResult c0 f0 a (c0.vertex (c0.fhalfedge f0)) (D - 3) c) ∧
      ((D = 1 ∨ D = 3) → c = c0) := by
  have hper := L.period
  rcases Nat.lt_or_ge D 4 with h4 | h4
  · obtain rfl | rfl | rfl : D = 1 ∨ D = 2 ∨ D = 3 := by omega
    · have h1 : a 1 = a 0 := hper
      have h2 : a 2 = a 0 := by rw [← L.step 1, h1, L.step 0, h1]
      have h3 : a 3 = a 0 := by rw [← L.step 2, h2, L.step 0, h1]
      have hc : c0.closes3 (c0.fhalfedge f0) := by
        unfold closes3
        rw [← L.start, L.step 0, L.step 1, L.step 2, h3]
      exact ⟨c0, triangulate_face_skip c0 fuel f0 (Or.inr hc), TriWeak.of_closed L h3,
        fun h => by omega, fun _ => rfl⟩
    · obtain ⟨c, h1, h2⟩ := @triangulate_face_two c0 f0 a L hb fuel (by omega)
      exact ⟨c, h1, h2, fun h => by omega, fun h => by omega⟩
    · have hc : c0.closes3 (c0.fhalfedge f0) := by
        unfold closes3
        rw [← L.start, L.step 0, L.step 1, L.step 2, hper]
      exact ⟨c0, triangulate_face_skip c0 fuel f0 (Or.inr hc), TriWeak.of_closed L hper,
        fun _ => TriResult.of_triangle L _, fun _ => rfl⟩
  · obtain ⟨c, h1, h2⟩ := triangulate_face_fan L h4 hb (le_of_lt hfuel)
    exact ⟨c, h1, h2.weak, fun _ => h2, fun h => by omega⟩

/-! ## triangulate: the loop of a face of a valid mesh -/

theorem Valid.face_iter {m : Halfedge_Mesh} (hv : Valid m) {h : Nat} (hh : m.live_h h)
    (j : Nat) : m.face (m.next^[j] h) = m.face h := by
  induction j with
  | zero => rfl
  | succ j ih =>
    rw [Function.iterate_succ_apply', hv.face_next (hv.live_iter_next hh j), ih]

/-- In a valid mesh the loop of a face that is not erased closes after as many steps as the
degree of the face, which is at most the number of half-edges. -/
theorem Valid.face_loop {m : Halfedge_Mesh} (hv : Valid m) {f0 : Nat} (hf : m.live_f f0)
    {fuel : Nat} (hfuel : m.halfedges.length ≤ fuel) :
    ∃ D, 0 < D ∧ D ≤ m.halfedges.length ∧ m.fdegree fuel f0 = .ok D ∧
      TriLoop m f0 D (fun j => m.next^[j] (m.fhalfedge f0)) := by
  obtain ⟨ls, fs⟩ := hv.face_he f0 hf.1 hf
  obtain ⟨D, hdeg, hD0, hper, hmin⟩ := hv.fdegree_spec ls hfuel
  rw [fs] at hdeg
  obtain ⟨n, n0, nle, hn⟩ := hv.next_period ls
  have hDn : D ≤ n := by
    by_contra hc
    exact hmin n n0 (by omega) hn
  refine ⟨D, hD0, le_trans hDn nle, hdeg, ?_⟩
  refine ⟨rfl, fun j => (Function.iterate_succ_apply' _ _ _).symm, hper, ?_,
    fun j => hv.fresh_h _ (hv.live_iter_next ls j).1, ?_, hv.fresh_f f0 hf.1, hv.fresh_f,
    hv.fresh_e⟩
  · intro i j hij hjD e
    have e2 : m.next^[i] (m.fhalfedge f0) = m.next^[i] (m.next^[j - i] (m.fhalfedge f0)) := by
      rw [← Function.iterate_add_apply]
      have : i + (j - i) = j := by omega
      rw [this]
      exact e
    have e3 := iterate_inj m.next m.live_h (fun _ hx => hv.live_next hx)
      (fun a b ha hb => hv.next_injective ha hb) i _ _ ls (hv.live_iter_next ls (j - i)) e2
    exact hmin (j - i) (by omega) (by omega) e3.symm
  · intro j
    show m.face (m.next^[j] (m.fhalfedge f0)) = f0
    rw [hv.face_iter ls j, fs]

/-! ## triangulate: the loop over the stack of faces -/

theorem TriInv.face_lt {m cur : Halfedge_Mesh} {G : Prop} {todo : List Nat}
    (I : TriInv m G todo cur) (hl : ∀ f ∈ m.faces, f < m.next_id) {f : Nat}
    (hf : f ∈ cur.faces) : f < cur.next_id := by
  obtain ⟨l, e, b⟩ := I.faces
  rw [e] at hf
  rcases List.mem_append.1 hf with h | h
  · exact lt_of_lt_of_le (hl f h) I.next_id
  · exact (b f h).2

theorem TriInv.edge_lt {m cur : Halfedge_Mesh} {G : Prop} {todo : List Nat}
    (I : TriInv m G todo cur) (hl : ∀ f ∈ m.edges, f < m.next_id) {f : Nat}
    (hf : f ∈ cur.edges) : f < cur.next_id := by
  obtain ⟨l, e, b⟩ := I.edges
  rw [e] at hf
  rcases List.mem_append.1 hf with h | h
  · exact lt_of_lt_of_le (hl f h) I.next_id
  · exact (b f h).2

/-- The loop of a face on the stack is in the current mesh as it was in `m`. -/
theorem TriInv.loop {m cur : Halfedge_Mesh} {G : Prop} {todo : List Nat} {f0 D : Nat}
    {a : Nat → Nat} (I : TriInv m G todo cur) (L : TriLoop m f0 D a) (hf : f0 ∈ todo) :
    TriLoop cur f0 D a := by
  have hfa : ∀ j, m.face (a j) ∈ todo := fun j => by rw [L.face j]; exact hf
  refine ⟨?_, ?_, L.period, L.inj, fun j => lt_of_lt_of_le (L.lt j) I.next_id, ?_,
    lt_of_lt_of_le L.f0_lt I.next_id, fun f h => I.face_lt L.faces_lt h,
    fun f h => I.edge_lt L.edges_lt h⟩
  · rw [I.fhalfedge f0 hf]; exact L.start
  · intro j
    rw [I.next (a j) (L.lt j) (hfa j)]; exact L.step j
  · intro j
    rw [I.face (a j) (L.lt j) (hfa j)]; exact L.face j

theorem TriInv.init (m : Halfedge_Mesh) (G : Prop)
    (he : ∀ f ∈ m.edges, f < m.next_id) (todo : List Nat) (ht : ∀ f ∈ m.faces, f ∈ todo) :
    TriInv m G todo m where
  next_id := le_refl _
  next := fun _ _ _ => rfl
  face := fun _ _ _ => rfl
  vertex := fun _ _ => rfl
  fhalfedge := fun _ _ => rfl
  boundary := fun _ _ => rfl
  vertices := rfl
  herased := rfl
  verased := rfl
  eerased := rfl
  ferased := rfl
  halfedges := ⟨[], by simp, by simp⟩
  edges := ⟨[], by simp, by simp⟩
  faces := ⟨[], by simp, by simp⟩
  closed := fun f hf hn => absurd (ht f hf) hn
  triangles := fun _ f hf hn => absurd (ht f hf) hn
  fan := fun _ e h1 h2 => absurd (he e h1) (by omega)

/-- A boundary face is taken from the stack and left as it is. -/
theorem TriInv.pop_boundary {m cur : Halfedge_Mesh} {G : Prop} {todo : List Nat} {f0 : Nat}
    (I : TriInv m G (f0 :: todo) cur) (hb : cur.boundary f0 = true) : TriInv m G todo cur := by
  have hne : ∀ f, cur.boundary f = false → f ∉ todo → f ∉ f0 :: todo := by
    intro f hf hn hc
    rcases List.mem_cons.1 hc with h | h
    · rw [h, hb] at hf; exact absurd hf (by simp)
    · exact hn h
  refine ⟨I.next_id, fun h hh hf => I.next h hh (List.mem_cons_of_mem _ hf),
    fun h hh hf => I.face h hh (List.mem_cons_of_mem _ hf), I.vertex,
    fun f hf => I.fhalfedge f (List.mem_cons_of_mem _ hf), I.boundary, I.vertices, I.herased,
    I.verased, I.eerased, I.ferased, I.halfedges, I.edges, I.faces, ?_, ?_, I.fan⟩
  · intro f hf hn hbf
    obtain ⟨h1, h2⟩ := I.closed f hf (hne f hbf hn) hbf
    exact ⟨h1, fun h hh => ⟨(h2 h hh).1, fun c => (h2 h hh).2 (List.mem_cons_of_mem _ c)⟩⟩
  · intro g f hf hn hbf
    exact I.triangles g f hf (hne f hbf hn) hbf

/-- An edge of a fan stays an edge of a fan when another face is processed. -/
theorem tri_edge_frame {m cur cur1 : Halfedge_Mesh} {f0 e : Nat} (F : TriFrame cur f0 cur1)
    (he : e < cur.next_id) (h : tri_edge m cur e) : tri_edge m cur1 e := by
  obtain ⟨g, hg, hb, hc, p1, p2, p3, p4, p5, p6, p7, p8⟩ := h
  refine ⟨g, hg, hb, hc, ?_⟩
  unfold fan_edge
  rw [F.ehalfedge e he, F.twin _ p7, F.twin _ p8, F.vertex _ p8, F.vertex _ p7, F.edge _ p7,
    F.edge _ p8]
  exact ⟨p1, p2, p3, p4, p5, p6, lt_of_lt_of_le p7 F.next_id, lt_of_lt_of_le p8 F.next_id⟩

/-- A triangle stays a triangle when another face is processed. -/
theorem face_triangle_frame {cur cur1 : Halfedge_Mesh} {f0 f : Nat} (F : TriFrame cur f0 cur1)
    (hne : f ≠ f0) (hf : f < cur.next_id) (ht : cur.face_triangle f)
    (hc : ∀ h ∈ cur.corners f, h < cur.next_id) :
    cur1.face_triangle f ∧ ∀ h ∈ cur1.corners f, h < cur1.next_id := by
  have e1 : cur1.fhalfedge f = cur.fhalfedge f := F.fhalfedge f hf hne
  have e2 : ∀ h ∈ cur.corners f, cur1.next h = cur.next h := fun h hh =>
    F.next h (hc h hh) (by rw [ht.2 h hh]; exact hne)
  have e3 : ∀ h ∈ cur.corners f, cur1.face h = cur.face h := fun h hh =>
    F.face h (hc h hh) (by rw [ht.2 h hh]; exact hne)
  refine ⟨face_triangle_congr e1 e2 e3 ht, ?_⟩
  intro h hh
  rw [corners_congr e1 e2] at hh
  exact lt_of_lt_of_le (hc h hh) F.next_id

/-- The face `f0` is taken from the stack and processed. -/
theorem TriInv.step {m cur cur1 : Halfedge_Mesh} {G : Prop} {todo : List Nat} {f0 : Nat}
    (I : TriInv m G (f0 :: todo) cur) (W : TriWeak cur f0 cur1) (hf0 : f0 ∉ todo)
    (htodo : ∀ f ∈ todo, f < m.next_id)
    (hs : G → (∀ f ∈ cur1.faces, (f = f0 ∨ cur.next_id ≤ f) → cur1.face_triangle f) ∧
      (∀ e ∈ cur1.edges, cur.next_id ≤ e → tri_edge m cur1 e)) :
    TriInv m G todo cur1 := by
  have F := W.frame
  have hn := I.next_id
  have hn1 := F.next_id
  have hface : ∀ h, h < m.next_id → m.face h ∈ todo → cur.face h ≠ f0 := by
    intro h hh hf c
    rw [I.face h hh (List.mem_cons_of_mem _ hf)] at c
    rw [c] at hf
    exact hf0 hf
  have hold : ∀ f ∈ cur1.faces, ¬ (f = f0 ∨ cur.next_id ≤ f) → f ∈ cur.faces := by
    intro f hf hc
    obtain ⟨l, e, b⟩ := F.faces
    rw [e] at hf
    rcases List.mem_append.1 hf with h | h
    · exact h
    · exact absurd (Or.inr (b f h).1) hc
  have holde : ∀ e ∈ cur1.edges, ¬ cur.next_id ≤ e → e ∈ cur.edges := by
    intro f hf hc
    obtain ⟨l, e, b⟩ := F.edges
    rw [e] at hf
    rcases List.mem_append.1 hf with h | h
    · exact h
    · exact absurd (b f h).1 hc
  have hnotin : ∀ f, f ≠ f0 → f ∉ todo → f ∉ f0 :: todo := by
    intro f h1 h2 c
    rcases List.mem_cons.1 c with h | h
    · exact h1 h
    · exact h2 h
  refine ⟨le_trans hn hn1, ?_, ?_, ?_, ?_, ?_, ?_, ?_, ?_, ?_, ?_, ?_, ?_, ?_, ?_, ?_, ?_⟩
  · intro h hh hf
    rw [F.next h (lt_of_lt_of_le hh hn) (hface h hh hf)]
    exact I.next h hh (List.mem_cons_of_mem _ hf)
  · intro h hh hf
    rw [F.face h (lt_of_lt_of_le hh hn) (hface h hh hf)]
    exact I.face h hh (List.mem_cons_of_mem _ hf)
  · intro h hh
    rw [F.vertex h (lt_of_lt_of_le hh hn)]
    exact I.vertex h hh
  · intro f hf
    rw [F.fhalfedge f (lt_of_lt_of_le (htodo f hf) hn) (fun c => hf0 (c ▸ hf))]
    exact I.fhalfedge f (List.mem_cons_of_mem _ hf)
  · intro f hf
    rw [F.boundary f (lt_of_lt_of_le hf hn)]
    exact I.boundary f hf
  · rw [F.vertices]; exact I.vertices
  · rw [F.herased]; exact I.herased
  · rw [F.verased]; exact I.verased
  · rw [F.eerased]; exact I.eerased
  · rw [F.ferased]; exact I.ferased
  · obtain ⟨l, e, b⟩ := I.halfedges
    obtain ⟨l1, e1, b1⟩ := F.halfedges
    refine ⟨l ++ l1, by rw [e1, e, List.append_assoc], ?_⟩
    intro x hx
    rcases List.mem_append.1 hx with h | h
    · exact ⟨(b x h).1, lt_of_lt_of_le (b x h).2 hn1⟩
    · exact ⟨le_trans hn (b1 x h).1, (b1 x h).2⟩
  · obtain ⟨l, e, b⟩ := I.edges
    obtain ⟨l1, e1, b1⟩ := F.edges
    refine ⟨l ++ l1, by rw [e1, e, List.append_assoc], ?_⟩
    intro x hx
    rcases List.mem_append.1 hx with h | h
    · exact ⟨(b x h).1, lt_of_lt_of_le (b x h).2 hn1⟩
    · exact ⟨le_trans hn (b1 x h).1, (b1 x h).2⟩
  · obtain ⟨l, e, b⟩ := I.faces
    obtain ⟨l1, e1, b1⟩ := F.faces
    refine ⟨l ++ l1, by rw [e1, e, List.append_assoc], ?_⟩
    intro x hx
    rcases List.mem_append.1 hx with h | h
    · exact ⟨(b x h).1, lt_of_lt_of_le (b x h).2 hn1⟩
    · exact ⟨le_trans hn (b1 x h).1, (b1 x h).2⟩
  · intro f hf hnt hbf
    by_cases hnew : f = f0 ∨ cur.next_id ≤ f
    · obtain ⟨h1, h2⟩ := W.closed f hf hnew
      refine ⟨h1, fun h hh => ⟨(h2 h hh).1, ?_⟩⟩
      rcases (h2 h hh).2 with c | c
      · rw [c]; exact hf0
      · intro ht
        have := htodo _ ht
        omega
    · have hfc := hold f hf hnew
      have hne : f ≠ f0 := fun c => hnew (Or.inl c)
      have hlt : f < cur.next_id := by
        by_contra c
        exact hnew (Or.inr (by omega))
      have hbc : cur.boundary f = false := by rw [← F.boundary f hlt]; exact hbf
      obtain ⟨h1, h2⟩ := I.closed f hfc (hnotin f hne hnt) hbc
      have hcf : ∀ h ∈ cur.corners f, cur.face h ≠ f0 := fun h hh c =>
        (h2 h hh).2 (by rw [c]; exact List.mem_cons_self _ _)
      have e1 : cur1.fhalfedge f = cur.fhalfedge f := F.fhalfedge f hlt hne
      have e2 : ∀ h ∈ cur.corners f, cur1.next h = cur.next h := fun h hh =>
        F.next h (h2 h hh).1 (hcf h hh)
      refine ⟨closes3_congr e1 e2 h1, ?_⟩
      intro h hh
      rw [corners_congr e1 e2] at hh
      refine ⟨lt_of_lt_of_le (h2 h hh).1 hn1, ?_⟩
      rw [F.face h (h2 h hh).1 (hcf h hh)]
      exact fun c => (h2 h hh).2 (List.mem_cons_of_mem _ c)
  · intro g f hf hnt hbf
    by_cases hnew : f = f0 ∨ cur.next_id ≤ f
    · exact (hs g).1 f hf hnew
    · have hfc := hold f hf hnew
      have hne : f ≠ f0 := fun c => hnew (Or.inl c)
      have hlt : f < cur.next_id := by
        by_contra c
        exact hnew (Or.inr (by omega))
      have hbc : cur.boundary f = false := by rw [← F.boundary f hlt]; exact hbf
      have ht := I.triangles g f hfc (hnotin f hne hnt) hbc
      have h2 := (I.closed f hfc (hnotin f hne hnt) hbc).2
      exact (face_triangle_frame F hne hlt ht (fun h hh => (h2 h hh).1)).1
  · intro g e he hen
    by_cases hnew : cur.next_id ≤ e
    · exact (hs g).2 e he hnew
    · have hec := holde e he hnew
      exact tri_edge_frame F (by omega) (I.fan g e hec hen)

/-- What triangulate does with the face `f0` on top of the stack, on a valid mesh `m`
without erased faces: the call returns; a boundary face and a triangle are left as they
are; a face of degree `D > 3` that is not a boundary face is cut into `D - 2` triangles. -/
theorem TriInv.process {m cur : Halfedge_Mesh} {G : Prop} {todo : List Nat} {f0 : Nat}
    (hv : Valid m) (hfe : m.ferased = []) {fuel : Nat} (hfuel : m.halfedges.length < fuel)
    (I : TriInv m G (f0 :: todo) cur) (hf0m : f0 ∈ m.faces) (hf0 : f0 ∉ todo)
    (htodo : ∀ f ∈ todo, f ∈ m.faces)
    (hG : G → m.boundary f0 = false → m.next (m.fhalfedge f0) ≠ m.fhalfedge f0 ∧
      m.next (m.next (m.fhalfedge f0)) ≠ m.fhalfedge f0) :
    ∃ D cur1, m.fdegree fuel f0 = .ok D ∧ cur.triangulate_face fuel f0 = .ok cur1 ∧
      TriInv m G todo cur1 ∧ TriFrame cur f0 cur1 ∧
      ((m.boundary f0 = true ∨ D = 3) → cur1 = cur) ∧
      (m.boundary f0 = false → 3 < D →
        TriResult cur f0 (fun j => m.next^[j] (m.fhalfedge f0)) (m.vertex (m.fhalfedge f0))
          (D - 3) cur1) := by
  have hlive : m.live_f f0 := ⟨hf0m, by rw [hfe]; simp⟩
  obtain ⟨D, hD0, hDle, hdeg, L⟩ := hv.face_loop hlive (le_of_lt hfuel)
  have Lc := I.loop L (List.mem_cons_self _ _)
  have hbc : cur.boundary f0 = m.boundary f0 := I.boundary f0 L.f0_lt
  have hvx : cur.vertex (cur.fhalfedge f0) = m.vertex (m.fhalfedge f0) := by
    rw [I.fhalfedge f0 (List.mem_cons_self _ _)]
    exact I.vertex _ (hv.fresh_h _ (hv.face_he f0 hf0m hlive).1.1)
  have htl : ∀ f ∈ todo, f < m.next_id := fun f hf => hv.fresh_f f (htodo f hf)
  cases hb : m.boundary f0 with
  | true =>
    refine ⟨D, cur, hdeg, triangulate_face_skip cur fuel f0 (Or.inl (hbc.trans hb)),
      I.pop_boundary (hbc.trans hb), TriFrame.same cur f0, fun _ => rfl, fun h => ?_⟩
    exact absurd h (by simp)
  | false =>
    obtain ⟨c, hrun, W, hR, hskip⟩ := triangulate_face_loop Lc hD0 (hbc.trans hb)
      (lt_of_le_of_lt hDle hfuel)
    rw [hvx] at hR
    refine ⟨D, c, hdeg, hrun, I.step W hf0 htl ?_, W.frame, ?_, fun _ h => hR (by omega)⟩
    · intro g
      obtain ⟨g1, g2⟩ := hG g hb
      have h1 : D ≠ 1 := by
        intro c1
        subst c1
        exact g1 L.period
      have h2 : D ≠ 2 := by
        intro c2
        subst c2
        have := L.period
        simp only [Function.iterate_succ, Function.iterate_zero, Function.comp_apply,
          id_eq] at this
        exact g2 this
      have R := hR (by omega)
      refine ⟨fun f hf hc => (R.triangles f hf hc).1, ?_⟩
      intro e he hen
      rcases Nat.lt_or_ge D 4 with h4 | h4
      · have hc : c = cur := hskip (Or.inr (by omega))
        rw [hc] at he
        exact absurd (I.edge_lt hv.fresh_e he) (by omega)
      · obtain ⟨p1, ⟨j, p2⟩, p3⟩ := R.fan e he hen
        refine ⟨f0, hf0m, hb, ?_, p1, ⟨j, ?_⟩, p3⟩
        · intro c3
          have := L.inj 0 3 (by omega) (by omega)
          simp only [Function.iterate_succ, Function.iterate_zero, Function.comp_apply,
            id_eq] at this
          exact this c3.symm
        · rw [p2]
          exact I.vertex _ (L.lt j)
    · rintro (h | h)
      · exact absurd h (by simp)
      · exact hskip (Or.inr h)

theorem stack_append (fuel : Nat) (l1 l2 : List Nat) (m : Halfedge_Mesh) :
    triangulate_stack fuel (l1 ++ l2) m =
      (triangulate_stack fuel l1 m).bind (triangulate_stack fuel l2) := by
  induction l1 generalizing m with
  | nil => rfl
  | cons f0 l1 ih =>
    show ((m.triangulate_face fuel f0).bind fun m => triangulate_stack fuel (l1 ++ l2) m) =
      ((m.triangulate_face fuel f0).bind fun m => triangulate_stack fuel l1 m).bind
        (triangulate_stack fuel l2)
    cases m.triangulate_face fuel f0 with
    | error e => rfl
    | ok c =>
      simp only [ok_bind]
      exact ih c

/-- The loop over the stack returns and keeps the invariant; the triangles that are not on
the stack stay triangles. -/
theorem stack_inv {m : Halfedge_Mesh} (hv : Valid m) (hfe : m.ferased = []) {fuel : Nat}
    (hfuel : m.halfedges.length < fuel) (G : Prop)
    (hG : G → ∀ f ∈ m.faces, m.boundary f = false → m.next (m.fhalfedge f) ≠ m.fhalfedge f ∧
      m.next (m.next (m.fhalfedge f)) ≠ m.fhalfedge f) :
    ∀ l1 l2 cur, TriInv m G (l1 ++ l2) cur → (∀ f ∈ l1 ++ l2, f ∈ m.faces) →
      (l1 ++ l2).Nodup →
      ∃ m1, triangulate_stack fuel l1 cur = .ok m1 ∧ TriInv m G l2 m1 ∧
        ∀ f, f ∉ l1 → f < cur.next_id → cur.face_triangle f →
          (∀ h ∈ cur.corners f, h < cur.next_id) → m1.face_triangle f := by
  intro l1
  induction l1 with
  | nil =>
    intro l2 cur I _ _
    exact ⟨cur, rfl, I, fun f _ _ ht _ => ht⟩
  | cons f0 l1 ih =>
    intro l2 cur I hmem hnd
    have hnd2 : f0 ∉ l1 ++ l2 ∧ (l1 ++ l2).Nodup := List.nodup_cons.1 hnd
    have hmem2 : ∀ f ∈ l1 ++ l2, f ∈ m.faces := fun f hf => hmem f (List.mem_cons_of_mem _ hf)
    obtain ⟨D, cur1, -, hrun, I1, F, -, -⟩ := TriInv.process hv hfe hfuel I
      (hmem f0 (List.mem_cons_self _ _)) hnd2.1 hmem2
      (fun g => hG g f0 (hmem f0 (List.mem_cons_self _ _)))
    obtain ⟨m1, hrest, I2, hp⟩ := ih l2 cur1 I1 hmem2 hnd2.2
    refine ⟨m1, ?_, I2, ?_⟩
    · show ((cur.triangulate_face fuel f0).bind fun m => triangulate_stack fuel l1 m) = _
      rw [hrun, ok_bind]
      exact hrest
    · intro f hf hlt ht hc
      have hne : f ≠ f0 := fun c => hf (c ▸ List.mem_cons_self _ _)
      obtain ⟨t1, t2⟩ := face_triangle_frame F hne hlt ht hc
      exact hp f (fun c => hf (List.mem_cons_of_mem _ c)) (lt_of_lt_of_le hlt F.next_id) t1 t2

theorem TriInv.halfedge_lt {m cur : Halfedge_Mesh} {G : Prop} {todo : List Nat}
    (I : TriInv m G todo cur) (hl : ∀ f ∈ m.halfedges, f < m.next_id) {f : Nat}
    (hf : f ∈ cur.halfedges) : f < cur.next_id := by
  obtain ⟨l, e, b⟩ := I.halfedges
  rw [e] at hf
  rcases List.mem_append.1 hf with h | h
  · exact lt_of_lt_of_le (hl f h) I.next_id
  · exact (b f h).2

/-- A stack of boundary faces and of faces whose loop closes after three steps is emptied
without a change to the mesh. -/
theorem stack_skip (fuel : Nat) (m : Halfedge_Mesh) :
    ∀ l : List Nat, (∀ f ∈ l, m.boundary f = false → m.closes3 (m.fhalfedge f)) →
      triangulate_stack fuel l m = .ok m := by
  intro l
  induction l with
  | nil => intro _; rfl
  | cons f0 l ih =>
    intro h
    have h0 : m.boundary f0 = true ∨ m.closes3 (m.fhalfedge f0) := by
      cases hb : m.boundary f0 with
      | true => exact Or.inl rfl
      | false => exact Or.inr (h f0 (List.mem_cons_self _ _) hb)
    show ((m.triangulate_face fuel f0).bind fun m => triangulate_stack fuel l m) = _
    rw [triangulate_face_skip m fuel f0 h0, ok_bind]
    exact ih (fun f hf => h f (List.mem_cons_of_mem _ hf))

/-- Where triangulate does what it is written for: on a valid mesh without erased faces, in
which every face that is not a boundary face has degree at least 3 (its loop does not close
after one or two steps), it returns, and afterwards every face that is not a boundary face
is a triangle:
the loop of `next` from its half-edge closes after three steps and not before, and its
three half-edges reference it. Every edge that was created is an edge of a fan: for a face
`f0` of the mesh at entry, not a boundary face and not a triangle, it joins the vertex of
the half-edge of `f0` at entry to the vertex of a half-edge of the loop of `f0`. -/
theorem triangulate_triangles (m : Halfedge_Mesh) (fuel : Nat) (hv : Valid m)
    (hfe : m.ferased = []) (hfuel : m.halfedges.length < fuel)
    (hdeg : ∀ f ∈ m.faces, m.boundary f = false →
      m.next (m.fhalfedge f) ≠ m.fhalfedge f ∧
      m.next (m.next (m.fhalfedge f)) ≠ m.fhalfedge f) :
    ∃ m1, m.triangulate fuel = .ok m1 ∧
      (∀ f ∈ m1.faces, m1.boundary f = false → m1.face_triangle f) ∧
      (∀ e ∈ m1.edges, e ∉ m.edges → tri_edge m m1 e) := by
  have I0 : TriInv m True (m.faces.reverse ++ []) m := by
    rw [List.append_nil]
    exact TriInv.init m True hv.fresh_e _ (fun f hf => List.mem_reverse.2 hf)
  obtain ⟨m1, hrun, I, -⟩ := stack_inv hv hfe hfuel True (fun _ => hdeg) m.faces.reverse [] m I0
    (fun f hf => by rw [List.append_nil] at hf; exact List.mem_reverse.1 hf)
    (by rw [List.append_nil]; exact List.nodup_reverse.2 hv.nodup_f)
  refine ⟨m1, hrun, fun f hf hb => I.triangles trivial f hf (List.not_mem_nil f) hb, ?_⟩
  intro e he hne
  obtain ⟨l, el, bl⟩ := I.edges
  rw [el] at he
  rcases List.mem_append.1 he with h | h
  · exact absurd h hne
  · exact I.fan trivial e (by rw [el]; exact List.mem_append_right _ h) (bl e h).1

/-- C18: on a valid mesh without erased faces triangulate returns, and when it takes the
face `f0` of degree `D` from the stack (the faces `done` were processed before it, the
faces `todo` are processed after it): if `f0` is a boundary face or a triangle the mesh is
left as it is; if `f0` is not a boundary face and `D > 3`, exactly `2 (D - 3)` half-edges,
`D - 3` edges and `D - 3` faces are created, all with fresh ids, and `f0` and the `D - 3`
created faces, `D - 2` faces in all, are triangles, then and when triangulate returns. No
vertex is created, and nothing is erased. -/
theorem C18_triangulate_creates (m : Halfedge_Mesh) (fuel : Nat) (hv : Valid m)
    (hfe : m.ferased = []) (hfuel : m.halfedges.length < fuel) (done todo : List Nat)
    (f0 : Nat) (hs : m.faces.reverse = done ++ f0 :: todo) :
    ∃ D cur cur1 m1, m.fdegree fuel f0 = .ok D ∧ triangulate_stack fuel done m = .ok cur ∧
      cur.triangulate_face fuel f0 = .ok cur1 ∧ triangulate_stack fuel todo cur1 = .ok m1 ∧
      m.triangulate fuel = .ok m1 ∧
      ((m.boundary f0 = true ∨ D = 3) → cur1 = cur) ∧
      (m.boundary f0 = false → 3 < D → ∃ nh ne nf,
        cur1.halfedges = cur.halfedges ++ nh ∧ cur1.edges = cur.edges ++ ne ∧
        cur1.faces = cur.faces ++ nf ∧
        nh.length = 2 * (D - 3) ∧ ne.length = D - 3 ∧ nf.length = D - 3 ∧
        (f0 :: nf).length = D - 2 ∧
        (∀ x ∈ nh, x ∉ cur.halfedges) ∧ (∀ x ∈ ne, x ∉ cur.edges) ∧
        (∀ x ∈ nf, x ∉ cur.faces) ∧
        ∀ f ∈ f0 :: nf, cur1.face_triangle f ∧ m1.face_triangle f) ∧
      (cur1.vertices = cur.vertices ∧ cur1.herased = cur.herased ∧
        cur1.verased = cur.verased ∧ cur1.eerased = cur.eerased ∧
        cur1.ferased = cur.ferased) ∧
      (m1.vertices = m.vertices ∧ m1.herased = m.herased ∧ m1.verased = m.verased ∧
        m1.eerased = m.eerased ∧ m1.ferased = m.ferased ∧
        (∀ x ∈ m.halfedges, x ∈ m1.halfedges) ∧ (∀ x ∈ m.edges, x ∈ m1.edges) ∧
        (∀ x ∈ m.faces, x ∈ m1.faces)) := by
  have hmem : ∀ f ∈ done ++ f0 :: todo, f ∈ m.faces := fun f hf => by
    rw [← hs] at hf; exact List.mem_reverse.1 hf
  have hnd : (done ++ f0 :: todo).Nodup := by
    rw [← hs]; exact List.nodup_reverse.2 hv.nodup_f
  have I0 : TriInv m False (done ++ f0 :: todo) m :=
    TriInv.init m False hv.fresh_e _ (fun f hf => by rw [← hs]; exact List.mem_reverse.2 hf)
  obtain ⟨cur, hrun1, I1, -⟩ := stack_inv hv hfe hfuel False (fun h => absurd h id) done
    (f0 :: todo) m I0 hmem hnd
  have hnd2 : f0 ∉ todo ∧ todo.Nodup := List.nodup_cons.1 (List.nodup_append.1 hnd).2.1
  have hf0m : f0 ∈ m.faces := hmem f0 (List.mem_append_right _ (List.mem_cons_self _ _))
  have hmem2 : ∀ f ∈ todo, f ∈ m.faces := fun f hf =>
    hmem f (List.mem_append_right _ (List.mem_cons_of_mem _ hf))
  obtain ⟨D, cur1, hdeg, hrun2, I2, F, hskip, hR⟩ := TriInv.process hv hfe hfuel I1 hf0m hnd2.1
    hmem2 (fun h => absurd h id)
  have I2' : TriInv m False (todo ++ []) cur1 := by rw [List.append_nil]; exact I2
  obtain ⟨m1, hrun3, I3, hp⟩ := stack_inv hv hfe hfuel False (fun h => absurd h id) todo
    [] cur1 I2' (fun f hf => by rw [List.append_nil] at hf; exact hmem2 f hf)
    (by rw [List.append_nil]; exact hnd2.2)
  have hall : m.triangulate fuel = .ok m1 := by
    unfold triangulate
    rw [hs, stack_append, hrun1, ok_bind]
    show ((cur.triangulate_face fuel f0).bind fun m => triangulate_stack fuel todo m) = _
    rw [hrun2, ok_bind]
    exact hrun3
  refine ⟨D, cur, cur1, m1, hdeg, hrun1, hrun2, hrun3, hall, hskip, ?_,
    ⟨F.vertices, F.herased, F.verased, F.eerased, F.ferased⟩,
    ⟨I3.vertices, I3.herased, I3.verased, I3.eerased, I3.ferased, ?_, ?_, ?_⟩⟩
  · intro hb hD
    have R := hR hb hD
    obtain ⟨nh, e1, b1⟩ := F.halfedges
    obtain ⟨ne, e2, b2⟩ := F.edges
    obtain ⟨nf, e3, b3⟩ := F.faces
    have c1 := R.n_halfedges
    have c2 := R.n_edges
    have c3 := R.n_faces
    rw [e1, List.length_append] at c1
    rw [e2, List.length_append] at c2
    rw [e3, List.length_append] at c3
    have hnfl : nf.length = D - 3 := by omega
    refine ⟨nh, ne, nf, e1, e2, e3, by omega, by omega, hnfl, ?_, ?_, ?_, ?_, ?_⟩
    · rw [List.length_cons, hnfl]; omega
    · intro x hx c
      have := I1.halfedge_lt hv.fresh_h c
      have := (b1 x hx).1
      omega
    · intro x hx c
      have := I1.edge_lt hv.fresh_e c
      have := (b2 x hx).1
      omega
    · intro x hx c
      have := I1.face_lt hv.fresh_f c
      have := (b3 x hx).1
      omega
    · intro f hf
      have hfc : f ∈ cur1.faces := by
        rw [e3]
        rcases List.mem_cons.1 hf with h | h
        · rw [h]
          obtain ⟨l, el, -⟩ := I1.faces
          rw [el]
          exact List.mem_append_left _ (List.mem_append_left _ hf0m)
        · exact List.mem_append_right _ h
      have hcase : f = f0 ∨ cur.next_id ≤ f := by
        rcases List.mem_cons.1 hf with h | h
        · exact Or.inl h
        · exact Or.inr (b3 f h).1
      obtain ⟨t1, t2⟩ := R.triangles f hfc hcase
      have hnt : f ∉ todo := by
        rcases hcase with h | h
        · rw [h]; exact hnd2.1
        · intro c
          have := hv.fresh_f f (hmem2 f c)
          have := I1.next_id
          omega
      have hlt : f < cur1.next_id := I2.face_lt hv.fresh_f hfc
      exact ⟨t1, hp f hnt hlt t1 t2⟩
  · intro x hx
    obtain ⟨l, el, -⟩ := I3.halfedges
    rw [el]; exact List.mem_append_left _ hx
  · intro x hx
    obtain ⟨l, el, -⟩ := I3.edges
    rw [el]; exact List.mem_append_left _ hx
  · intro x hx
    obtain ⟨l, el, -⟩ := I3.faces
    rw [el]; exact List.mem_append_left _ hx

/-- C19: triangulate leaves a mesh whose faces that are not boundary faces all have a loop
that closes after three steps exactly as it is, whatever the fuel; and on a valid mesh
without erased faces triangulate returns such a mesh, so that a second run of triangulate
returns the mesh that the first run returned. -/
theorem C19_triangulate_idempotent (m : Halfedge_Mesh) (fuel : Nat) (hv : Valid m)
    (hfe : m.ferased = []) (hfuel : m.halfedges.length < fuel) :
    (∀ (n : Halfedge_Mesh) (k : Nat),
      (∀ f ∈ n.faces, n.boundary f = false → n.closes3 (n.fhalfedge f)) →
      n.triangulate k = .ok n) ∧
    ∃ m1, m.triangulate fuel = .ok m1 ∧
      (∀ f ∈ m1.faces, m1.boundary f = false → m1.closes3 (m1.fhalfedge f)) ∧
      (∀ k, m1.triangulate k = .ok m1) ∧
      (m.triangulate fuel).bind (fun x => x.triangulate fuel) = m.triangulate fuel := by
  have hskip : ∀ (n : Halfedge_Mesh) (k : Nat),
      (∀ f ∈ n.faces, n.boundary f = false → n.closes3 (n.fhalfedge f)) →
      n.triangulate k = .ok n := fun n k h =>
    stack_skip k n n.faces.reverse (fun f hf => h f (List.mem_reverse.1 hf))
  refine ⟨hskip, ?_⟩
  have I0 : TriInv m False (m.faces.reverse ++ []) m := by
    rw [List.append_nil]
    exact TriInv.init m False hv.fresh_e _ (fun f hf => List.mem_reverse.2 hf)
  obtain ⟨m1, hrun, I, -⟩ := stack_inv hv hfe hfuel False (fun h => absurd h id)
    m.faces.reverse [] m I0
    (fun f hf => by rw [List.append_nil] at hf; exact List.mem_reverse.1 hf)
    (by rw [List.append_nil]; exact List.nodup_reverse.2 hv.nodup_f)
  have hc : ∀ f ∈ m1.faces, m1.boundary f = false → m1.closes3 (m1.fhalfedge f) :=
    fun f hf hb => (I.closed f hf (List.not_mem_nil f) hb).1
  refine ⟨m1, hrun, hc, fun k => hskip m1 k hc, ?_⟩
  have h1 : m.triangulate fuel = .ok m1 := hrun
  rw [h1, ok_bind]
  exact hskip m1 fuel hc

/-! ## bevel_face_positions -/

theorem collect_face_ok {m : Halfedge_Mesh} {f0 D : Nat} {a : Nat → Nat}
    (L : TriLoop m f0 D a) :
    ∀ k i fuel acc, 0 < k → i + k = D → k ≤ fuel →
      collect_face m (a 0) fuel (a i) acc = .ok (acc ++ (List.range' i k).map a) := by
  intro k
  induction k with
  | zero => intro i fuel acc h; omega
  | succ k ih =>
    intro i fuel acc _ hD hfuel
    obtain ⟨fuel, rfl⟩ : ∃ n, fuel = n + 1 := ⟨fuel - 1, by omega⟩
    unfold collect_face
    simp only [L.step i]
    rcases Nat.eq_zero_or_pos k with hk | hk
    · subst hk
      have : i + 1 = D := by omega
      rw [this, L.period, if_neg (by simp)]
      simp [List.range']
    · have hne : a (i + 1) ≠ a 0 := (L.inj 0 (i + 1) (by omega) (by omega)).symm
      rw [if_pos hne, ih (i + 1) fuel _ hk (by omega) (by omega)]
      simp [List.range']

theorem position_step_eq (unit : Vec3 → Vec3) (sp : List Vec3) (hs : List Nat) (c nv : Vec3)
    (t : Rat) (m : Halfedge_Mesh) (i : Nat) (p : Vec3) (h : Nat)
    (hp : sp.get? i = some p) (hh : hs.get? i = some h) :
    position_step unit sp hs c nv t m i =
      .ok (m.set_pos (m.vertex h) ((p.sub nv).add ((unit (p.sub c)).smul t))) := by
  unfold position_step
  rw [hp, hh]

/-- The loop over the positions: the vertex of the half-edge of index `j` ends at the
position computed from the start position of index `j` when no half-edge of a later index
has the same vertex, and the position of a vertex of none of the half-edges is left as it
is. -/
theorem positions_loop_last (unit : Vec3 → Vec3) (sp : List Vec3) (hs : List Nat) (c nv : Vec3)
    (t : Rat) (vx : Nat → Nat) :
    ∀ k i (m : Halfedge_Mesh), m.vertex = vx → i + k ≤ sp.length → i + k ≤ hs.length →
      ∃ m1, positions_loop unit sp hs c nv t k i m = .ok m1 ∧
        m1 = { m with pos := m1.pos } ∧
        (∀ j p h, i ≤ j → j < i + k → sp.get? j = some p → hs.get? j = some h →
          (∀ j' h', j < j' → j' < i + k → hs.get? j' = some h' → vx h' ≠ vx h) →
          m1.pos (vx h) = (p.sub nv).add ((unit (p.sub c)).smul t)) ∧
        (∀ v, (∀ j h, i ≤ j → j < i + k → hs.get? j = some h → v ≠ vx h) →
          m1.pos v = m.pos v) := by
  intro k
  induction k with
  | zero =>
    intro i m _ _ _
    exact ⟨m, rfl, rfl, fun j p h h1 h2 => by omega, fun v _ => rfl⟩
  | succ k ih =>
    intro i m hvx h1 h2
    obtain ⟨p, hp⟩ : ∃ p, sp.get? i = some p :=
      ⟨sp.get ⟨i, by omega⟩, List.get?_eq_get (by omega)⟩
    obtain ⟨h, hh⟩ : ∃ h, hs.get? i = some h :=
      ⟨hs.get ⟨i, by omega⟩, List.get?_eq_get (by omega)⟩
    obtain ⟨m1, hrun, heq, hpos, hrest⟩ :=
      ih (i + 1) (m.set_pos (m.vertex h) ((p.sub nv).add ((unit (p.sub c)).smul t))) hvx
        (by omega) (by omega)
    refine ⟨m1, ?_, ?_, ?_, ?_⟩
    · unfold positions_loop
      rw [position_step_eq unit sp hs c nv t m i p h hp hh, ok_bind]
      exact hrun
    · rw [heq]
      rfl
    · intro j q h' hj1 hj2 hq hh' hlast
      rcases Nat.eq_or_lt_of_le hj1 with e | e
      · subst e
        rw [hp] at hq
        rw [hh] at hh'
        simp only [Option.some.injEq] at hq hh'
        subst hq
        subst hh'
        rw [hrest (vx h) (fun j' h' a1 a2 a3 => (hlast j' h' (by omega) (by omega) a3).symm)]
        show upd m.pos (m.vertex h) _ (vx h) = _
        rw [hvx, upd_apply, if_pos rfl]
      · exact hpos j q h' (by omega) (by omega) hq hh'
          (fun j' h'' a1 a2 a3 => hlast j' h'' a1 (by omega) a3)
    · intro v hv
      rw [hrest v (fun j' h' a1 a2 a3 => hv j' h' (by omega) (by omega) a3)]
      show upd m.pos (m.vertex h) _ v = _
      rw [upd_apply, if_neg]
      rw [hvx]
      exact hv i h (le_refl _) (by omega) hh

theorem get_map_range (a : Nat → Nat) (D j : Nat) (hj : j < D) :
    ((List.range' 0 D).map a).get? j = some (a j) := by
  rw [List.get?_eq_getElem?, List.getElem?_map, List.getElem?_range' _ _ hj]
  simp

/-- C20 (amended): on a valid mesh, for a face `face` that is not erased, of degree `N`,
with `N` start positions, bevel_face_positions returns. With
`P(p) = p - normal * (s * normal_offset) + unit(p - center) * tangent_offset`, where
`center` and `normal` are computed on the mesh at entry and `s = -1` when the flag
`flip_orientation` is set and `s = 1` otherwise, the vertex of the `i`-th half-edge of the
face, counted from the half-edge of the face, ends at `P(start_positions[i])` whenever no
half-edge of a later index `j < N` starts at the same vertex: a vertex that occurs more than
once on the loop ends at the position computed for the last index at which it occurs. So
when the `N` half-edges start at `N` different vertices, this holds for every `i < N`. No
other position and nothing else in the mesh changes. -/
theorem C20_bevel_face_positions (g : Geometry) (flip_orientation : Bool) (m : Halfedge_Mesh)
    (fuel N : Nat) (start_positions : List Vec3) (face : Nat)
    (tangent_offset normal_offset : Rat) (hv : Valid m) (hf : m.live_f face)
    (hfuel : m.halfedges.length ≤ fuel) (hN : m.fdegree fuel face = .ok N)
    (hlen : start_positions.length = N) :
    ∃ m1, m.bevel_face_positions g flip_orientation fuel start_positions face tangent_offset
        normal_offset = .ok m1 ∧
      (∀ i p, i < N → start_positions.get? i = some p →
        (∀ j, i < j → j < N →
          m.vertex (m.next^[j] (m.fhalfedge face)) ≠
            m.vertex (m.next^[i] (m.fhalfedge face))) →
        m1.pos (m.vertex (m.next^[i] (m.fhalfedge face))) =
          bevel_position g flip_orientation m face tangent_offset normal_offset p) ∧
      ((∀ i j, i < j → j < N →
          m.vertex (m.next^[i] (m.fhalfedge face)) ≠
            m.vertex (m.next^[j] (m.fhalfedge face))) →
        ∀ i p, i < N → start_positions.get? i = some p →
          m1.pos (m.vertex (m.next^[i] (m.fhalfedge face))) =
            bevel_position g flip_orientation m face tangent_offset normal_offset p) ∧
      (∀ v, (∀ i, i < N → v ≠ m.vertex (m.next^[i] (m.fhalfedge face))) →
        m1.pos v = m.pos v) ∧
      m1 = { m with pos := m1.pos } := by
  obtain ⟨D, hD0, hDle, hdeg, L⟩ := hv.face_loop hf hfuel
  rw [hN] at hdeg
  simp only [Except.ok.injEq] at hdeg
  subst hdeg
  have hcol := collect_face_ok L N 0 fuel [] hD0 (by omega) (by omega)
  simp only [List.nil_append] at hcol
  have hlen2 : ((List.range' 0 N).map fun j => m.next^[j] (m.fhalfedge face)).length = N := by
    simp
  obtain ⟨m1, hrun, heq, hpos, hrest⟩ := positions_loop_last g.unit start_positions
    ((List.range' 0 N).map fun j => m.next^[j] (m.fhalfedge face)) (g.center m face)
    ((g.normal m face).smul (if flip_orientation then -normal_offset else normal_offset))
    tangent_offset m.vertex N 0 m rfl (by omega) (by rw [hlen2]; omega)
  have hlast : ∀ i p, i < N → start_positions.get? i = some p →
      (∀ j, i < j → j < N →
        m.vertex (m.next^[j] (m.fhalfedge face)) ≠
          m.vertex (m.next^[i] (m.fhalfedge face))) →
      m1.pos (m.vertex (m.next^[i] (m.fhalfedge face))) =
        bevel_position g flip_orientation m face tangent_offset normal_offset p := by
    intro i p hi hp hl
    rw [hpos i p _ (Nat.zero_le _) (by omega) hp (get_map_range _ N i hi) (by
      intro j h' hij hj e
      rw [get_map_range _ N j (by omega)] at e
      simp only [Option.some.injEq] at e
      rw [← e]
      exact hl j hij (by omega))]
    unfold bevel_position
    cases flip_orientation <;> simp
  refine ⟨m1, ?_, hlast, ?_, ?_, heq⟩
  · unfold bevel_face_positions
    have hs : m.fhalfedge face = m.next^[0] (m.fhalfedge face) := rfl
    simp only
    rw [show collect_face m (m.fhalfedge face) fuel (m.fhalfedge face) [] = _ from hcol, ok_bind,
      hlen2]
    exact hrun
  · intro hd i p hi hp
    exact hlast i p hi hp (fun j hij hj => (hd i j hij hj).symm)
  · intro v hv
    apply hrest v
    intro j h _ hj e
    rw [get_map_range _ N j (by omega)] at e
    simp only [Option.some.injEq] at e
    rw [← e]
    exact hv j (by omega)

/-- With the offsets 0 the position computed from `p` is `p`. -/
theorem bevel_position_zero (g : Geometry) (flip_orientation : Bool) (m : Halfedge_Mesh)
    (face : Nat) (p : Vec3) : bevel_position g flip_orientation m face 0 0 p = p := by
  cases p
  simp [bevel_position, Vec3.sub, Vec3.smul, Vec3.add]

/-! ## The order of the records -/

theorem Edge_Record.lt_iff (addr : Nat → Nat) (r1 r2 : Edge_Record) :
    Edge_Record.lt addr r1 r2 = true ↔
      r1.cost < r2.cost ∨ (r1.cost = r2.cost ∧ addr r1.edge < addr r2.edge) := by
  unfold Edge_Record.lt
  by_cases c : r1.cost = r2.cost
  · simp [c]
  · simp only [ne_eq, c, not_false_eq_true, if_true, decide_eq_true_eq, false_and, or_false]

/-- The comparison of the records is a strict weak ordering, as `std::set` asks. -/
theorem Edge_Record.lt_strict_weak (addr : Nat → Nat) : StrictWeak (Edge_Record.lt addr) := by
  refine ⟨fun a => ?_, fun a b c h1 h2 => ?_, fun a b c h => ?_⟩
  · rw [Bool.eq_false_iff]
    intro h
    rw [Edge_Record.lt_iff] at h
    rcases h with h | ⟨-, h⟩
    · exact lt_irrefl _ h
    · exact lt_irrefl _ h
  · rw [Edge_Record.lt_iff] at h1 h2 ⊢
    rcases h1 with h1 | ⟨e1, h1⟩ <;> rcases h2 with h2 | ⟨e2, h2⟩
    · exact Or.inl (lt_trans h1 h2)
    · exact Or.inl (e2 ▸ h1)
    · exact Or.inl (e1 ▸ h2)
    · exact Or.inr ⟨e1.trans e2, lt_trans h1 h2⟩
  · rw [Edge_Record.lt_iff] at h
    rw [Edge_Record.lt_iff, Edge_Record.lt_iff]
    rcases h with h | ⟨e1, h⟩
    · rcases lt_trichotomy a.cost c.cost with d | d | d
      · exact Or.inl (Or.inl d)
      · exact Or.inr (Or.inl (d ▸ h))
      · exact Or.inr (Or.inl (lt_trans d h))
    · rcases lt_trichotomy a.cost c.cost with d | d | d
      · exact Or.inl (Or.inl d)
      · by_cases k : addr a.edge < addr c.edge
        · exact Or.inl (Or.inr ⟨d, k⟩)
        · exact Or.inr (Or.inr ⟨d.symm.trans e1, by omega⟩)
      · exact Or.inr (Or.inl (e1 ▸ d))

/-- C31: the comparison of two records is a strict total order on the pairs of a cost and
an edge: it is irreflexive and transitive; of two records exactly one is less than the
other, unless they have the same cost and the same edge, and then neither is; a record of
smaller cost is less; and the optimal point and the quadric of the records play no part.
The addresses of different edges are different. -/
theorem C31_edge_record_order (addr : Nat → Nat) (hinj : Function.Injective addr) :
    (∀ r, Edge_Record.lt addr r r = false) ∧
    (∀ r1 r2 r3, Edge_Record.lt addr r1 r2 = true → Edge_Record.lt addr r2 r3 = true →
      Edge_Record.lt addr r1 r3 = true) ∧
    (∀ r1 r2 : Edge_Record,
      (Edge_Record.lt addr r1 r2 = true ∧ Edge_Record.lt addr r2 r1 = false ∧
        ¬ (r1.cost = r2.cost ∧ r1.edge = r2.edge)) ∨
      (Edge_Record.lt addr r1 r2 = false ∧ Edge_Record.lt addr r2 r1 = true ∧
        ¬ (r1.cost = r2.cost ∧ r1.edge = r2.edge)) ∨
      (Edge_Record.lt addr r1 r2 = false ∧ Edge_Record.lt addr r2 r1 = false ∧
        r1.cost = r2.cost ∧ r1.edge = r2.edge)) ∧
    (∀ r1 r2 : Edge_Record, r1.cost < r2.cost → Edge_Record.lt addr r1 r2 = true) ∧
    (∀ (r1 r2 : Edge_Record) (o1 o2 : Vec3) (q1 q2 : Mat4),
      Edge_Record.lt addr { r1 with optimal := o1, edgeQuadric := q1 }
        { r2 with optimal := o2, edgeQuadric := q2 } = Edge_Record.lt addr r1 r2) := by
  have sw := Edge_Record.lt_strict_weak addr
  refine ⟨sw.irrefl, sw.trans, fun r1 r2 => ?_, fun r1 r2 h => ?_, fun _ _ _ _ _ _ => rfl⟩
  · have f : ∀ a b : Edge_Record, Edge_Record.lt addr a b = false ↔
        ¬ (a.cost < b.cost ∨ (a.cost = b.cost ∧ addr a.edge < addr b.edge)) := by
      intro a b
      rw [← Edge_Record.lt_iff, Bool.not_eq_true]
    rw [f r1 r2, f r2 r1, Edge_Record.lt_iff, Edge_Record.lt_iff]
    rcases lt_trichotomy r1.cost r2.cost with d | d | d
    · refine Or.inl ⟨Or.inl d, ?_, fun c => absurd c.1 (ne_of_lt d)⟩
      rintro (c | ⟨c, -⟩)
      · exact lt_asymm d c
      · exact ne_of_lt d c.symm
    · rcases lt_trichotomy (addr r1.edge) (addr r2.edge) with k | k | k
      · refine Or.inl ⟨Or.inr ⟨d, k⟩, ?_, fun c => ?_⟩
        · rintro (c | ⟨-, c⟩)
          · exact ne_of_lt c d.symm
          · omega
        · rw [c.2] at k
          omega
      · refine Or.inr (Or.inr ⟨?_, ?_, d, hinj k⟩)
        · rintro (c | ⟨-, c⟩)
          · exact ne_of_lt c d
          · omega
        · rintro (c | ⟨-, c⟩)
          · exact ne_of_lt c d.symm
          · omega
      · refine Or.inr (Or.inl ⟨?_, Or.inr ⟨d.symm, k⟩, fun c => ?_⟩)
        · rintro (c | ⟨-, c⟩)
          · exact ne_of_lt c d
          · omega
        · rw [c.2] at k
          omega
    · refine Or.inr (Or.inl ⟨?_, Or.inl d, fun c => absurd c.1.symm (ne_of_lt d)⟩)
      rintro (c | ⟨c, -⟩)
      · exact lt_asymm d c
      · exact ne_of_lt d c.symm
  · rw [Edge_Record.lt_iff]
    exact Or.inl h

/-! ## The queue is a sorted list -/

theorem StrictWeak.asymm {α : Type} {lt : α → α → Bool} (hlt : StrictWeak lt) {a b : α}
    (h : lt a b = true) : lt b a = false := by
  rw [Bool.eq_false_iff]
  intro c
  have := hlt.trans a b a h c
  rw [hlt.irrefl] at this
  exact Bool.noConfusion this

theorem set_insert_mem {α : Type} (lt : α → α → Bool) (item : α) (l : List α) :
    ∀ y ∈ set_insert lt item l, y = item ∨ y ∈ l := by
  induction l with
  | nil => intro y hy; simp [set_insert] at hy; exact Or.inl hy
  | cons x xs ih =>
    intro y hy
    unfold set_insert at hy
    split_ifs at hy with h1 h2
    · rcases List.mem_cons.1 hy with c | c
      · exact Or.inl c
      · exact Or.inr c
    · rcases List.mem_cons.1 hy with c | c
      · exact Or.inr (c ▸ List.mem_cons_self _ _)
      · rcases ih y c with d | d
        · exact Or.inl d
        · exact Or.inr (List.mem_cons_of_mem _ d)
    · exact Or.inr hy

theorem set_insert_sorted {α : Type} {lt : α → α → Bool} (hlt : StrictWeak lt) (item : α)
    (l : List α) (hs : l.Pairwise (fun a b => lt a b = true)) :
    (set_insert lt item l).Pairwise (fun a b => lt a b = true) := by
  induction l with
  | nil => simp [set_insert]
  | cons x xs ih =>
    rw [List.pairwise_cons] at hs
    unfold set_insert
    split_ifs with h1 h2
    · refine List.pairwise_cons.2 ⟨fun y hy => ?_, List.pairwise_cons.2 hs⟩
      rcases List.mem_cons.1 hy with c | c
      · exact c ▸ h1
      · exact hlt.trans _ _ _ h1 (hs.1 y c)
    · refine List.pairwise_cons.2 ⟨fun y hy => ?_, ih hs.2⟩
      rcases set_insert_mem lt item xs y hy with c | c
      · exact c ▸ h2
      · exact hs.1 y c
    · exact List.pairwise_cons.2 hs

theorem set_erase_sublist {α : Type} (lt : α → α → Bool) (item : α) (l : List α) :
    (set_erase lt item l).Sublist l := by
  induction l with
  | nil => exact List.Sublist.refl _
  | cons x xs ih =>
    unfold set_erase
    split_ifs
    · exact List.Sublist.refl _
    · exact ih.cons₂ _
    · exact List.sublist_cons_self _ _

theorem set_find_absent {α : Type} (lt : α → α → Bool) (item : α) (l : List α)
    (h : ∀ y ∈ l, lt item y = true ∨ lt y item = true) : set_find lt item l = false := by
  induction l with
  | nil => rfl
  | cons x xs ih =>
    unfold set_find
    split_ifs with h1 h2
    · rfl
    · exact ih fun y hy => h y (List.mem_cons_of_mem _ hy)
    · rcases h x (List.mem_cons_self _ _) with c | c
      · exact absurd c h1
      · exact absurd c h2

/-- Every queue made from the empty queue by calls of insert, remove and pop is sorted. -/
theorem PQueue.run_sorted {α : Type} {lt : α → α → Bool} (hlt : StrictWeak lt)
    (calls : List (PQueue.Call α)) :
    ∀ q q' : PQueue α, q.queue.Pairwise (fun a b => lt a b = true) →
      PQueue.run lt calls q = .ok q' → q'.queue.Pairwise (fun a b => lt a b = true) := by
  induction calls with
  | nil =>
    intro q q' hs h
    simp only [PQueue.run, Except.ok.injEq] at h
    exact h ▸ hs
  | cons c rest ih =>
    intro q q' hs h
    cases c with
    | insert item => exact ih _ q' (set_insert_sorted hlt item _ hs) h
    | remove item =>
      refine ih _ q' ?_ h
      unfold PQueue.remove
      split_ifs
      · exact hs.sublist (set_erase_sublist lt item _)
      · exact hs
    | pop =>
      simp only [PQueue.run] at h
      obtain ⟨q1, h1, h2⟩ := bind_eq_ok.1 h
      refine ih q1 q' ?_ h2
      unfold PQueue.pop at h1
      cases hq : q.queue with
      | nil => rw [hq] at h1; simp at h1
      | cons x xs =>
        rw [hq] at h1 hs
        simp only [Except.ok.injEq] at h1
        rw [← h1]
        exact (List.pairwise_cons.1 hs).2

/-- C28: on a queue made from the empty queue by calls of insert, remove and pop, and not
empty, top returns an element of the queue than which no element of the queue is less; pop
takes away this element and no other; and remove of an item to which no element of the
queue is equivalent leaves the queue as it is. The comparison is a strict weak ordering. -/
theorem C28_pqueue_top_pop_remove {α : Type} (lt : α → α → Bool) (hlt : StrictWeak lt)
    (calls : List (PQueue.Call α)) (q : PQueue α)
    (hrun : PQueue.run lt calls ⟨[]⟩ = .ok q) (hne : q.size ≠ 0) :
    ∃ t q', q.top = .ok t ∧ t ∈ q.queue ∧ (∀ y ∈ q.queue, lt y t = false) ∧
      q.pop = .ok q' ∧ t ∉ q'.queue ∧ (∀ y, y ∈ q'.queue ↔ y ∈ q.queue ∧ y ≠ t) ∧
      q'.size + 1 = q.size ∧
      ∀ item, (∀ y ∈ q.queue, lt item y = true ∨ lt y item = true) →
        q.remove lt item = q := by
  have hs := PQueue.run_sorted hlt calls ⟨[]⟩ q List.Pairwise.nil hrun
  obtain ⟨l⟩ := q
  cases l with
  | nil => exact absurd rfl hne
  | cons t xs =>
    have hs' := List.pairwise_cons.1 hs
    have ht : t ∉ xs := fun c => by
      have := hs'.1 t c
      rw [hlt.irrefl] at this
      exact Bool.noConfusion this
    refine ⟨t, ⟨xs⟩, rfl, List.mem_cons_self _ _, fun y hy => ?_, rfl, ht, fun y => ?_, rfl,
      fun item h => ?_⟩
    · rcases List.mem_cons.1 hy with c | c
      · rw [c]; exact hlt.irrefl t
      · exact hlt.asymm (hs'.1 y c)
    · constructor
      · intro hy
        exact ⟨List.mem_cons_of_mem _ hy, fun c => ht (c ▸ hy)⟩
      · rintro ⟨hy, hn⟩
        rcases List.mem_cons.1 hy with c | c
        · exact absurd c hn
        · exact c
    · unfold PQueue.remove
      rw [set_find_absent lt item _ h]
      simp

/-! ## The linear system of an Edge_Record -/

/-- The determinant of the matrix of the system is the determinant of the upper left
3x3 block of the quadric. -/
theorem Edge_Record.system_det (Q : Mat4) :
    (Edge_Record.system Q).det =
      det3 Q.c0.x Q.c1.x Q.c2.x Q.c0.y Q.c1.y Q.c2.y Q.c0.z Q.c1.z Q.c2.z := by
  simp only [Edge_Record.system, Mat4.det, det3]
  ring

/-- The first three rows of the product of a matrix of the form of the system by the product
of its inverse by a vector. -/
theorem Edge_Record.system_solve (Q : Mat4) (b : Vec4)
    (hd : (Edge_Record.system Q).det ≠ 0) :
    Q.c0.x * ((Edge_Record.system Q).inverse.mulv b).x +
      Q.c1.x * ((Edge_Record.system Q).inverse.mulv b).y +
      Q.c2.x * ((Edge_Record.system Q).inverse.mulv b).z = b.x ∧
    Q.c0.y * ((Edge_Record.system Q).inverse.mulv b).x +
      Q.c1.y * ((Edge_Record.system Q).inverse.mulv b).y +
      Q.c2.y * ((Edge_Record.system Q).inverse.mulv b).z = b.y ∧
    Q.c0.z * ((Edge_Record.system Q).inverse.mulv b).x +
      Q.c1.z * ((Edge_Record.system Q).inverse.mulv b).y +
      Q.c2.z * ((Edge_Record.system Q).inverse.mulv b).z = b.z := by
  have hd' := hd
  rw [Edge_Record.system_det] at hd'
  simp only [det3] at hd'
  simp only [Mat4.inverse, Mat4.mulv, Vec4.add, Vec4.smul, Edge_Record.system_det]
  simp only [Edge_Record.system, det3]
  refine ⟨?_, ?_, ?_⟩ <;> field_simp <;> ring

/-- The matrix `Mat4.inverse` is the inverse: the product of a matrix of determinant other
than 0 by the product of its inverse by a vector is the vector. -/
theorem Mat4.mulv_inverse (A : Mat4) (b : Vec4) (hd : A.det ≠ 0) :
    A.mulv (A.inverse.mulv b) = b := by
  obtain ⟨k, hk⟩ : ∃ k, k = A.det⁻¹ := ⟨_, rfl⟩
  have h1 : A.det * k = 1 := by rw [hk]; exact mul_inv_cancel₀ hd
  obtain ⟨bx, by', bz, bw⟩ := b
  simp only [Mat4.inverse, Mat4.mulv, Vec4.add, Vec4.smul, Vec4.mk.injEq, div_eq_mul_inv,
    ← hk]
  simp only [Mat4.det, det3] at h1
  simp only [det3]
  refine ⟨?_, ?_, ?_, ?_⟩
  · linear_combination bx * h1
  · linear_combination by' * h1
  · linear_combination bz * h1
  · linear_combination bw * h1

/-- A linear system of three equations whose determinant is not 0 has only the solution 0
when its right side is 0. -/
theorem det3_kernel (a b c d e f g h i X Y Z : Rat) (hd : det3 a b c d e f g h i ≠ 0)
    (h1 : a * X + b * Y + c * Z = 0) (h2 : d * X + e * Y + f * Z = 0)
    (h3 : g * X + h * Y + i * Z = 0) : X = 0 ∧ Y = 0 ∧ Z = 0 := by
  have hX : det3 a b c d e f g h i * X = 0 := by
    unfold det3
    linear_combination (e * i - f * h) * h1 - (b * i - c * h) * h2 + (b * f - c * e) * h3
  have hY : det3 a b c d e f g h i * Y = 0 := by
    unfold det3
    linear_combination -(d * i - f * g) * h1 + (a * i - c * g) * h2 - (a * f - c * d) * h3
  have hZ : det3 a b c d e f g h i * Z = 0 := by
    unfold det3
    linear_combination (d * h - e * g) * h1 - (a * h - b * g) * h2 + (a * e - b * d) * h3
  exact ⟨(mul_eq_zero.1 hX).resolve_left hd, (mul_eq_zero.1 hY).resolve_left hd,
    (mul_eq_zero.1 hZ).resolve_left hd⟩

/-- The point that the inverse of the matrix of the system gives is the only solution of
`K x = -q`. -/
theorem Edge_Record.system_unique (Q : Mat4) (hd : (Edge_Record.system Q).det > 1 / 10)
    (x : Vec3) :
    (Q.c0.x * x.x + Q.c1.x * x.y + Q.c2.x * x.z = -Q.c3.x ∧
      Q.c0.y * x.x + Q.c1.y * x.y + Q.c2.y * x.z = -Q.c3.y ∧
      Q.c0.z * x.x + Q.c1.z * x.y + Q.c2.z * x.z = -Q.c3.z) ↔
    x = ⟨((Edge_Record.system Q).inverse.mulv ⟨-Q.c3.x, -Q.c3.y, -Q.c3.z, 1⟩).x,
      ((Edge_Record.system Q).inverse.mulv ⟨-Q.c3.x, -Q.c3.y, -Q.c3.z, 1⟩).y,
      ((Edge_Record.system Q).inverse.mulv ⟨-Q.c3.x, -Q.c3.y, -Q.c3.z, 1⟩).z⟩ := by
  have hd0 : (Edge_Record.system Q).det ≠ 0 := by
    intro c
    rw [c] at hd
    norm_num at hd
  obtain ⟨s1, s2, s3⟩ := Edge_Record.system_solve Q ⟨-Q.c3.x, -Q.c3.y, -Q.c3.z, 1⟩ hd0
  rw [Edge_Record.system_det] at hd0
  obtain ⟨o, ho⟩ : ∃ o, o = (Edge_Record.system Q).inverse.mulv
    ⟨-Q.c3.x, -Q.c3.y, -Q.c3.z, 1⟩ := ⟨_, rfl⟩
  rw [← ho] at s1 s2 s3 ⊢
  dsimp only at s1 s2 s3
  constructor
  · rintro ⟨e1, e2, e3⟩
    obtain ⟨k1, k2, k3⟩ := det3_kernel Q.c0.x Q.c1.x Q.c2.x Q.c0.y Q.c1.y Q.c2.y Q.c0.z
      Q.c1.z Q.c2.z (x.x - o.x) (x.y - o.y) (x.z - o.z) hd0
      (by linear_combination e1 - s1) (by linear_combination e2 - s2)
      (by linear_combination e3 - s3)
    obtain ⟨xx, xy, xz⟩ := x
    simp only [Vec3.mk.injEq]
    exact ⟨sub_eq_zero.1 k1, sub_eq_zero.1 k2, sub_eq_zero.1 k3⟩
  · intro hx
    rw [hx]
    exact ⟨s1, s2, s3⟩

/-- C30: the record built for the edge `e` holds the sum `Q` of the quadrics of the two
endpoints; the determinant of the matrix of the system is the determinant of the upper left
3x3 block `K` of `Q`; when it is more than 0.1 the optimal point `x` solves `K x = -q`, with
`q` the first three entries of the last column of `Q`, and it is the only solution; when it
is not, the optimal point is the midpoint of the edge; and the cost is the value
`[x;1]^T Q [x;1]`. -/
theorem C30_edge_record (m : Halfedge_Mesh) (vertex_quadrics : Nat → Mat4) (e : Nat) :
    (Edge_Record.build m vertex_quadrics e).edge = e ∧
    (Edge_Record.build m vertex_quadrics e).edgeQuadric =
      (vertex_quadrics (m.vertex (m.ehalfedge e))).add
        (vertex_quadrics (m.vertex (m.twin (m.ehalfedge e)))) ∧
    (Edge_Record.system (Edge_Record.build m vertex_quadrics e).edgeQuadric).det =
      det3 (Edge_Record.build m vertex_quadrics e).edgeQuadric.c0.x
        (Edge_Record.build m vertex_quadrics e).edgeQuadric.c1.x
        (Edge_Record.build m vertex_quadrics e).edgeQuadric.c2.x
        (Edge_Record.build m vertex_quadrics e).edgeQuadric.c0.y
        (Edge_Record.build m vertex_quadrics e).edgeQuadric.c1.y
        (Edge_Record.build m vertex_quadrics e).edgeQuadric.c2.y
        (Edge_Record.build m vertex_quadrics e).edgeQuadric.c0.z
        (Edge_Record.build m vertex_quadrics e).edgeQuadric.c1.z
        (Edge_Record.build m vertex_quadrics e).edgeQuadric.c2.z ∧
    ((Edge_Record.system (Edge_Record.build m vertex_quadrics e).edgeQuadric).det > 1 / 10 →
      ∀ x : Vec3,
        ((Edge_Record.build m vertex_quadrics e).edgeQuadric.c0.x * x.x +
            (Edge_Record.build m vertex_quadrics e).edgeQuadric.c1.x * x.y +
            (Edge_Record.build m vertex_quadrics e).edgeQuadric.c2.x * x.z =
            -(Edge_Record.build m vertex_quadrics e).edgeQuadric.c3.x ∧
          (Edge_Record.build m vertex_quadrics e).edgeQuadric.c0.y * x.x +
            (Edge_Record.build m vertex_quadrics e).edgeQuadric.c1.y * x.y +
            (Edge_Record.build m vertex_quadrics e).edgeQuadric.c2.y * x.z =
            -(Edge_Record.build m vertex_quadrics e).edgeQuadric.c3.y ∧
          (Edge_Record.build m vertex_quadrics e).edgeQuadric.c0.z * x.x +
            (Edge_Record.build m vertex_quadrics e).edgeQuadric.c1.z * x.y +
            (Edge_Record.build m vertex_quadrics e).edgeQuadric.c2.z * x.z =
            -(Edge_Record.build m vertex_quadrics e).edgeQuadric.c3.z) ↔
        x = (Edge_Record.build m vertex_quadrics e).optimal) ∧
    (¬ (Edge_Record.system (Edge_Record.build m vertex_quadrics e).edgeQuadric).det > 1 / 10 →
      (Edge_Record.build m vertex_quadrics e).optimal = m.center_of e) ∧
    (Edge_Record.build m vertex_quadrics e).cost =
      Vec4.dot ⟨(Edge_Record.build m vertex_quadrics e).optimal.x,
          (Edge_Record.build m vertex_quadrics e).optimal.y,
          (Edge_Record.build m vertex_quadrics e).optimal.z, 1⟩
        ((Edge_Record.build m vertex_quadrics e).edgeQuadric.mulv
          ⟨(Edge_Record.build m vertex_quadrics e).optimal.x,
            (Edge_Record.build m vertex_quadrics e).optimal.y,
            (Edge_Record.build m vertex_quadrics e).optimal.z, 1⟩) := by
  refine ⟨rfl, rfl, Edge_Record.system_det _, fun hd x => ?_, fun hd => ?_, rfl⟩
  · have ho : (Edge_Record.build m vertex_quadrics e).optimal = _ := if_pos hd
    rw [ho]
    exact Edge_Record.system_unique _ hd x
  · exact if_neg hd

/-! ## The walks of simplify around a vertex -/

/-- A loop around a vertex whose rotation closes after `d` steps runs its body for the
`d` half-edges of the rotation in turn: what holds before the step `j` and is carried by the
body to the step `j + 1` holds for `d` at the end. -/
theorem around_inv {σ : Type} (m : Halfedge_Mesh) (hStart : Nat)
    (body : Nat → σ → Except Fault σ) (I : Nat → σ → Prop) (d : Nat)
    (hd : m.rot^[d] hStart = hStart) (hmin : ∀ j, 0 < j → j < d → m.rot^[j] hStart ≠ hStart)
    (hbody : ∀ j s, j < d → I j s → ∃ s', body (m.rot^[j] hStart) s = .ok s' ∧ I (j + 1) s') :
    ∀ fuel i s, i < d → d ≤ i + fuel → I i s →
      ∃ s', around m hStart body fuel (m.rot^[i] hStart) s = .ok s' ∧ I d s' := by
  intro fuel
  induction fuel with
  | zero => intro i s h1 h2; omega
  | succ fuel ih =>
    intro i s h1 h2 hI
    obtain ⟨s', hs', hI'⟩ := hbody i s h1 hI
    unfold around
    by_cases c : m.rot (m.rot^[i] hStart) = hStart
    · rw [if_neg (not_not.2 c)]
      have : i + 1 = d := by
        by_contra hne
        refine hmin (i + 1) (by omega) (by omega) ?_
        rw [Function.iterate_succ_apply']
        exact c
      subst this
      exact ⟨s', hs', hI'⟩
    · rw [if_pos c, hs', ok_bind]
      have : i + 1 ≠ d := by
        intro e
        subst e
        rw [Function.iterate_succ_apply'] at hd
        exact c hd
      rw [← Function.iterate_succ_apply' m.rot]
      exact ih (i + 1) s' (by omega) (by omega) hI'

/-- A loop around a vertex never ends when the rotation never comes back to the half-edge
it started from, whatever the fuel. -/
theorem around_diverge {σ : Type} (m : Halfedge_Mesh) (hStart : Nat)
    (body : Nat → σ → Except Fault σ) (hne : ∀ n, m.rot^[n + 1] hStart ≠ hStart)
    (hbody : ∀ h s, ∃ s', body h s = .ok s') :
    ∀ fuel i s, around m hStart body fuel (m.rot^[i] hStart) s = .error .out_of_fuel := by
  intro fuel
  induction fuel with
  | zero => intro i s; rfl
  | succ fuel ih =>
    intro i s
    obtain ⟨s', hs'⟩ := hbody (m.rot^[i] hStart) s
    unfold around
    have c : m.rot (m.rot^[i] hStart) ≠ hStart := by
      rw [← Function.iterate_succ_apply' m.rot]
      exact hne i
    rw [if_pos c, hs', ok_bind, ← Function.iterate_succ_apply' m.rot]
    exact ih (i + 1) s'

/-! ## The quadrics of the vertices -/

/-- The sum of the quadrics of the faces of the half-edges `rot^[j] h` for the indices `j`
of a list, added to `q` in turn. -/
theorem vertex_quadric_spec (m : Halfedge_Mesh) (face_quadrics : Nat → Mat4) (hStart d : Nat)
    (hd : m.rot^[d] hStart = hStart) (hmin : ∀ j, 0 < j → j < d → m.rot^[j] hStart ≠ hStart) :
    ∀ fuel i q, i < d → d ≤ i + fuel →
      vertex_quadric m face_quadrics hStart fuel (m.rot^[i] hStart) q =
        .ok ((List.range' i (d - 1 - i)).foldl
          (fun acc j => acc.add (face_quadrics (m.face (m.rot^[j] hStart)))) q) := by
  intro fuel
  induction fuel with
  | zero => intro i q h1 h2; omega
  | succ fuel ih =>
    intro i q h1 h2
    unfold vertex_quadric
    by_cases c : m.rot (m.rot^[i] hStart) = hStart
    · rw [if_neg (not_not.2 c)]
      have : i + 1 = d := by
        by_contra hne
        refine hmin (i + 1) (by omega) (by omega) ?_
        rw [Function.iterate_succ_apply']
        exact c
      subst this
      simp
    · rw [if_pos c]
      have : i + 1 ≠ d := by
        intro e
        subst e
        rw [Function.iterate_succ_apply'] at hd
        exact c hd
      rw [← Function.iterate_succ_apply' m.rot, ih (i + 1) _ (by omega) (by omega)]
      have e : d - 1 - i = (d - 1 - (i + 1)) + 1 := by omega
      rw [e, List.range'_succ, List.foldl_cons]

theorem returned_spec {α σ : Type} [BEq α] [LawfulBEq α] {r : Except Fault (α × σ)} {b : α}
    {P : σ → Bool} (h : returned r b P = true) : ∃ s, r = .ok (b, s) ∧ P s = true := by
  unfold returned at h
  split at h
  · rename_i b' s
    simp only [Bool.and_eq_true, beq_iff_eq] at h
    exact ⟨s, by rw [h.1], h.2⟩
  · exact absurd h (by simp)

/-- The loop over the vertices gives every vertex of the list the quadric that the walk
from its half-edge returns. -/
theorem vertex_loop_spec (m : Halfedge_Mesh) (face_quadrics : Nat → Mat4) (fuel : Nat) :
    ∀ (vs : List Nat) (init : Nat → Mat4), vs.Nodup →
      (∀ v ∈ vs, ∃ q, vertex_quadric m face_quadrics (m.vhalfedge v) fuel (m.vhalfedge v)
        Mat4.Zero = .ok q) →
      ∃ vq, vertex_loop m face_quadrics fuel vs init = .ok vq ∧
        (∀ v ∈ vs, vertex_quadric m face_quadrics (m.vhalfedge v) fuel (m.vhalfedge v)
          Mat4.Zero = .ok (vq v)) ∧
        ∀ v, v ∉ vs → vq v = init v := by
  intro vs
  induction vs with
  | nil => intro init _ _; exact ⟨init, rfl, fun v hv => absurd hv (List.not_mem_nil v), fun _ _ => rfl⟩
  | cons a vs ih =>
    intro init hn hq
    rw [List.nodup_cons] at hn
    obtain ⟨q, hqa⟩ := hq a (List.mem_cons_self _ _)
    obtain ⟨vq, h1, h2, h3⟩ := ih (upd init a q) hn.2
      (fun v hv => hq v (List.mem_cons_of_mem _ hv))
    refine ⟨vq, ?_, ?_, ?_⟩
    · unfold vertex_loop
      rw [hqa, ok_bind]
      exact h1
    · intro v hv
      rcases List.mem_cons.1 hv with c | c
      · subst c
        rw [h3 v hn.1, upd_same]
        exact hqa
      · exact h2 v c
    · intro v hv
      rw [h3 v (fun c => hv (List.mem_cons_of_mem _ c))]
      exact upd_other _ _ _ _ (fun c => hv (c ▸ List.mem_cons_self _ _))

/-- On a valid mesh without pending erasures of vertices the loop of lines 1345-1354
ends. -/
theorem vertex_loop_ok (m : Halfedge_Mesh) (face_quadrics : Nat → Mat4) (fuel : Nat)
    (hv : Valid m) (he : m.verased = []) (hfuel : m.halfedges.length ≤ fuel) :
    ∃ vq, vertex_loop m face_quadrics fuel m.vertices (fun _ => Mat4.Zero) = .ok vq := by
  obtain ⟨vq, h1, -⟩ := vertex_loop_spec m face_quadrics fuel m.vertices
    (fun _ => Mat4.Zero) hv.nodup_v (fun v hvm => by
      have lv : m.live_v v := ⟨hvm, by rw [he]; exact List.not_mem_nil v⟩
      have lh := hv.live_vhalfedge lv
      obtain ⟨d, h1, h2, h3, h4⟩ := hv.vdegree_spec lh hfuel
      have hdle : d ≤ fuel := by
        unfold vdegree at h1
        have := (count_loop_sound m.rot _ fuel 0 d h1).2.1
        omega
      have := vertex_quadric_spec m face_quadrics (m.vhalfedge v) d h3 h4 fuel 0 Mat4.Zero h2
        (by omega)
      rw [Function.iterate_zero, id] at this
      exact ⟨_, this⟩)
  exact ⟨vq, h1⟩

/-- C29 as the code has it: on a valid mesh without pending erasures of vertices, the loop
of lines 1345-1354 stores for every vertex `v` of degree `d` the sum of the quadrics of the
faces of the first `d - 1` half-edges of the rotation from the half-edge of `v`: the face
of the last half-edge of the rotation is left out. -/
theorem C29_vertex_quadric_leaves_last_face_out (m : Halfedge_Mesh)
    (face_quadrics : Nat → Mat4) (fuel : Nat) (hv : Valid m) (he : m.verased = [])
    (hfuel : m.halfedges.length ≤ fuel) :
    ∃ vq, vertex_loop m face_quadrics fuel m.vertices (fun _ => Mat4.Zero) = .ok vq ∧
      ∀ v ∈ m.vertices, ∃ d, m.vdegree fuel v = .ok d ∧ 0 < d ∧
        vq v = (List.range (d - 1)).foldl
          (fun acc j => acc.add (face_quadrics (m.face (m.rot^[j] (m.vhalfedge v)))))
          Mat4.Zero := by
  have key : ∀ v ∈ m.vertices, ∃ d, m.vdegree fuel v = .ok d ∧ 0 < d ∧
      vertex_quadric m face_quadrics (m.vhalfedge v) fuel (m.vhalfedge v) Mat4.Zero =
        .ok ((List.range (d - 1)).foldl
          (fun acc j => acc.add (face_quadrics (m.face (m.rot^[j] (m.vhalfedge v)))))
          Mat4.Zero) := by
    intro v hvm
    have lv : m.live_v v := ⟨hvm, by rw [he]; exact List.not_mem_nil v⟩
    have lh := hv.live_vhalfedge lv
    obtain ⟨d, h1, h2, h3, h4⟩ := hv.vdegree_spec lh hfuel
    rw [(hv.vertex_he v hvm lv).2] at h1
    have hdle : d ≤ fuel := by
      unfold vdegree at h1
      have := (count_loop_sound m.rot (m.vhalfedge v) fuel 0 d h1).2.1
      omega
    refine ⟨d, h1, h2, ?_⟩
    have := vertex_quadric_spec m face_quadrics (m.vhalfedge v) d h3 h4 fuel 0 Mat4.Zero h2
      (by omega)
    rw [Function.iterate_zero, id] at this
    rw [this, List.range_eq_range', Nat.sub_zero]
  obtain ⟨vq, h1, h2, -⟩ := vertex_loop_spec m face_quadrics fuel m.vertices
    (fun _ => Mat4.Zero) hv.nodup_v (fun v hvm => by
      obtain ⟨d, -, -, h⟩ := key v hvm
      exact ⟨_, h⟩)
  refine ⟨vq, h1, fun v hvm => ?_⟩
  obtain ⟨d, k1, k2, k3⟩ := key v hvm
  have := h2 v hvm
  rw [k3] at this
  simp only [Except.ok.injEq] at this
  exact ⟨d, k1, k2, this.symm⟩

/-! ## The test of the edges put in the queue and the test of collapse_edge -/

/-- On a valid mesh the test of lines 1373-1375 returns, and it holds exactly when the
test of line 67 of collapse_edge lets the edge through. -/
theorem eligible_spec {m : Halfedge_Mesh} (hv : Valid m) {e : Nat} (he : m.live_e e)
    {fuel : Nat} (hfuel : m.halfedges.length ≤ fuel) :
    ∃ b r m', m.eligible fuel e = .ok b ∧ m.collapse_edge fuel e = .ok (r, m') ∧
      (b = true ↔ r ≠ none) ∧ (b = false → m' = m) := by
  obtain ⟨d0, d1, hd0, hd1, hno, hyes⟩ := collapse_edge_total hv he hfuel
  by_cases hg : d0 ≤ 2 ∨ d1 ≤ 2 ∨ m.vertex (m.ehalfedge e) = m.vertex (m.twin (m.ehalfedge e))
  · refine ⟨false, none, m, ?_, hno hg, by simp, fun _ => rfl⟩
    unfold eligible
    rw [hd0, ok_bind]
    by_cases c0 : d0 > 2
    · rw [if_pos c0, hd1, ok_bind]
      by_cases c1 : d1 > 2
      · rw [if_pos c1]
        rcases hg with c | c | c
        · omega
        · omega
        · simp [c]
      · rw [if_neg c1]
    · rw [if_neg c0]
  · obtain ⟨-, m', -, hce⟩ := hyes hg
    refine ⟨true, some (m.vertex (m.ehalfedge e)), m', ?_, hce, by simp, fun c => by simp at c⟩
    unfold eligible
    have c0 : d0 > 2 := by
      by_contra c
      exact hg (Or.inl (by omega))
    have c1 : d1 > 2 := by
      by_contra c
      exact hg (Or.inr (Or.inl (by omega)))
    have cv : m.vertex (m.twin (m.ehalfedge e)) ≠ m.vertex (m.ehalfedge e) :=
      fun c => hg (Or.inr (Or.inr c.symm))
    rw [hd0, ok_bind, if_pos c0, hd1, ok_bind, if_pos c1]
    simp [cv]

/-- The loop of lines 1372-1380 leaves the mesh as it is and puts in the queue only
records of edges of the list that pass the test. -/
theorem repopulate_spec (addr : Nat → Nat) (fuel : Nat) (M : Halfedge_Mesh)
    (hel : ∀ e ∈ M.edges, ∃ b, M.eligible fuel e = .ok b) :
    ∀ (es : List Nat) (s : Simplify_State), (∀ e ∈ es, e ∈ M.edges) → s.mesh = M →
      ∃ s', repopulate addr fuel es s = .ok s' ∧ s'.mesh = M ∧
        s'.currentFaceCount = s.currentFaceCount ∧
        ∀ r ∈ s'.edge_queue.queue, r ∈ s.edge_queue.queue ∨
          (r.edge ∈ es ∧ M.eligible fuel r.edge = .ok true) := by
  intro es
  induction es with
  | nil => intro s _ hm; exact ⟨s, rfl, hm, rfl, fun r hr => Or.inl hr⟩
  | cons e es ih =>
    intro s hes hm
    obtain ⟨b, hb⟩ := hel e (hes e (List.mem_cons_self _ _))
    unfold repopulate
    rw [hm, hb, ok_bind]
    cases b with
    | false =>
      obtain ⟨s', h1, h2, h3, h4⟩ := ih s (fun x hx => hes x (List.mem_cons_of_mem _ hx)) hm
      refine ⟨s', h1, h2, h3, fun r hr => ?_⟩
      rcases h4 r hr with c | c
      · exact Or.inl c
      · exact Or.inr ⟨List.mem_cons_of_mem _ c.1, c.2⟩
    | true =>
      obtain ⟨s', h1, h2, h3, h4⟩ := ih (s.insert_record addr e)
        (fun x hx => hes x (List.mem_cons_of_mem _ hx)) hm
      refine ⟨s', h1, h2, h3, fun r hr => ?_⟩
      rcases h4 r hr with c | c
      · rcases set_insert_mem _ _ _ r c with d | d
        · right
          rw [d]
          exact ⟨List.mem_cons_self _ _, hb⟩
        · exact Or.inl d
      · exact Or.inr ⟨List.mem_cons_of_mem _ c.1, c.2⟩

/-- C35: on a valid mesh the test that simplify makes before it puts an edge in the queue
holds exactly when collapse_edge does not refuse the edge; and after the loop of lines
1372-1380 has filled an empty queue, on a mesh without pending erasures,
collapse_edge_erase succeeds on the edge of every record of the queue, the first one
included. -/
theorem C35_filter_is_collapse_guard (addr : Nat → Nat) (s : Simplify_State) (fuel : Nat)
    (hv : Valid s.mesh) (hfuel : s.mesh.halfedges.length ≤ fuel)
    (hee : s.mesh.eerased = []) (hq : s.edge_queue.size = 0) :
    (∀ e, s.mesh.live_e e → ∃ b r m', s.mesh.eligible fuel e = .ok b ∧
      s.mesh.collapse_edge fuel e = .ok (r, m') ∧ (b = true ↔ r ≠ none)) ∧
    ∃ s', repopulate addr fuel s.mesh.edges s = .ok s' ∧ s'.mesh = s.mesh ∧
      ∀ r ∈ s'.edge_queue.queue, ∃ v m',
        s'.mesh.collapse_edge_erase fuel r.edge = .ok (some v, m') := by
  have live : ∀ e ∈ s.mesh.edges, s.mesh.live_e e :=
    fun e he => ⟨he, by rw [hee]; exact List.not_mem_nil e⟩
  refine ⟨fun e he => ?_, ?_⟩
  · obtain ⟨b, r, m', h1, h2, h3, -⟩ := eligible_spec hv he hfuel
    exact ⟨b, r, m', h1, h2, h3⟩
  · obtain ⟨s', h1, h2, -, h4⟩ := repopulate_spec addr fuel s.mesh
      (fun e he => by
        obtain ⟨b, -, -, h, -⟩ := eligible_spec hv (live e he) hfuel
        exact ⟨b, h⟩) s.mesh.edges s (fun _ h => h) rfl
    refine ⟨s', h1, h2, fun r hr => ?_⟩
    have hnil : s.edge_queue.queue = [] := List.length_eq_zero.1 hq
    rcases h4 r hr with c | ⟨c1, c2⟩
    · rw [hnil] at c
      exact absurd c (List.not_mem_nil r)
    · obtain ⟨b, r', m', k1, k2, k3, -⟩ := eligible_spec hv (live _ c1) hfuel
      rw [c2] at k1
      simp only [Except.ok.injEq] at k1
      have hr' : r' ≠ none := k3.1 k1.symm
      obtain ⟨v, hv'⟩ := Option.ne_none_iff_exists'.1 hr'
      refine ⟨v, m'.do_erase, ?_⟩
      unfold collapse_edge_erase
      rw [h2, k2, ok_bind, hv']

/-! ## simplify on a mesh with a face that is not a triangle -/

/-- The loop of lines 1328-1342 runs into the `return false` of line 1333 when a face of the
list that is not a boundary face fails the test of line 1332. -/
theorem face_loop_none (g : Geometry) (m : Halfedge_Mesh) (f : Nat)
    (hb : m.boundary f = false)
    (hc : m.next (m.next (m.next (m.fhalfedge f))) ≠ m.fhalfedge f) :
    ∀ (l : List Nat) (fq : Nat → Mat4) (n : Int), f ∈ l → face_loop g m l fq n = none := by
  intro l
  induction l with
  | nil => intro fq n h; exact absurd h (List.not_mem_nil f)
  | cons a l ih =>
    intro fq n h
    unfold face_loop
    by_cases ca : a = f
    · subst ca
      rw [if_neg (by simp [hb]), if_pos hc]
    · have hl : f ∈ l := by
        rcases List.mem_cons.1 h with c | c
        · exact absurd c.symm ca
        · exact c
      split_ifs
      · exact ih _ _ hl
      · rfl
      · exact ih _ _ hl

/-- Where the test of line 1332 does what it is written for: when the loop of `next` from
the half-edge of a face that is not a boundary face does not close after three steps,
simplify returns false and the mesh after the call is the mesh before it; on a valid mesh
this is the case of every face of degree other than 1 and 3. -/
theorem simplify_refuses_non_triangle (g : Geometry) (addr : Nat → Nat)
    (m : Halfedge_Mesh) (f d fuel0 : Nat) (hv : Valid m) (hf : m.live_f f)
    (hb : m.boundary f = false) (hfuel : m.halfedges.length ≤ fuel0)
    (hd : m.fdegree fuel0 f = .ok d) (h1 : d ≠ 1) (h3 : d ≠ 3) :
    m.next (m.next (m.next (m.fhalfedge f))) ≠ m.fhalfedge f ∧
    ∀ fuel, simplify g addr m fuel = .ok (false, m) := by
  have lh := hv.live_fhalfedge hf
  obtain ⟨d', k1, k2, k3, k4⟩ := hv.fdegree_spec lh hfuel
  rw [(hv.face_he f hf.1 hf).2, hd] at k1
  simp only [Except.ok.injEq] at k1
  subst k1
  have hc : m.next (m.next (m.next (m.fhalfedge f))) ≠ m.fhalfedge f := by
    intro c
    have c3 : m.next^[3] (m.fhalfedge f) = m.fhalfedge f := c
    have hd3 : d ≤ 3 := by
      by_contra hgt
      exact k4 3 (by omega) (by omega) c3
    have hd2 : d = 2 := by omega
    subst hd2
    refine k4 1 (by omega) (by omega) ?_
    have e2 : m.next (m.next (m.fhalfedge f)) = m.fhalfedge f := k3
    show m.next (m.fhalfedge f) = m.fhalfedge f
    rw [e2] at c
    exact c
  refine ⟨hc, fun fuel => ?_⟩
  unfold simplify simplify_init
  rw [face_loop_none g m f hb hc m.faces _ _ hf.1]
  rfl

/-! ## The positions play no part in the validity of a mesh -/

theorem Valid.set_positions {m : Halfedge_Mesh} (hv : Valid m) (p : Nat → Vec3) :
    Valid { m with pos := p } :=
  ⟨hv.nodup_h, hv.nodup_v, hv.nodup_e, hv.nodup_f, hv.fresh_h, hv.fresh_v, hv.fresh_e,
    hv.fresh_f, hv.erased_h, hv.erased_v, hv.erased_e, hv.erased_f, hv.refs, hv.twin_twin,
    hv.next_face, hv.next_inj, hv.vertex_he, hv.edge_he, hv.face_he, hv.vertex_orbit,
    hv.face_orbit, hv.edge_orbit⟩

/-- A mesh is the mesh made of its relations, its lists and its positions. -/
theorem eq_set_positions (a b : Halfedge_Mesh) (h1 : b.next = a.next) (h2 : b.twin = a.twin)
    (h3 : b.vertex = a.vertex) (h4 : b.edge = a.edge) (h5 : b.face = a.face)
    (h6 : b.vhalfedge = a.vhalfedge) (h7 : b.ehalfedge = a.ehalfedge)
    (h8 : b.fhalfedge = a.fhalfedge) (h9 : b.boundary = a.boundary)
    (h10 : b.halfedges = a.halfedges) (h11 : b.vertices = a.vertices)
    (h12 : b.edges = a.edges) (h13 : b.faces = a.faces) (h14 : b.herased = a.herased)
    (h15 : b.verased = a.verased) (h16 : b.eerased = a.eerased)
    (h17 : b.ferased = a.ferased) (h18 : b.next_id = a.next_id) :
    b = { a with pos := b.pos } := by
  cases a
  cases b
  simp only at h1 h2 h3 h4 h5 h6 h7 h8 h9 h10 h11 h12 h13 h14 h15 h16 h17 h18
  subst h1 h2 h3 h4 h5 h6 h7 h8 h9 h10 h11 h12 h13 h14 h15 h16 h17 h18
  rfl

/-! ## The loops of the decimation on a valid mesh -/

/-- On a valid mesh a loop around a vertex ends: the body runs for live half-edges, and what
it keeps holds at the end. -/
theorem around_valid {σ : Type} {m : Halfedge_Mesh} (hv : Valid m) {hStart : Nat}
    (hh : m.live_h hStart) {fuel : Nat} (hfuel : m.halfedges.length ≤ fuel)
    (body : Nat → σ → Except Fault σ) (I : σ → Prop)
    (hbody : ∀ h s, m.live_h h → I s → ∃ s', body h s = .ok s' ∧ I s') (s : σ) (hI : I s) :
    ∃ s', around m hStart body fuel hStart s = .ok s' ∧ I s' := by
  obtain ⟨d, h1, h2, h3, h4⟩ := hv.vdegree_spec hh hfuel
  have hdle : d ≤ fuel := by
    unfold vdegree at h1
    have := (count_loop_sound m.rot _ fuel 0 d h1).2.1
    omega
  have := around_inv m hStart body (fun _ s => I s) d h3 h4
    (fun j s _ hs => hbody _ s (hv.live_iter_rot hh j) hs) fuel 0 s h2 (by omega) hI
  rw [Function.iterate_zero, id] at this
  exact this

theorem insert_record_mesh (addr : Nat → Nat) (s : Simplify_State) (e : Nat) :
    (s.insert_record addr e).mesh = s.mesh ∧
    (s.insert_record addr e).currentFaceCount = s.currentFaceCount ∧
    (s.insert_record addr e).vertex_quadrics = s.vertex_quadrics := ⟨rfl, rfl, rfl⟩

theorem remove_record_mesh (addr : Nat → Nat) (s : Simplify_State) (e : Nat) :
    (s.remove_record addr e).mesh = s.mesh ∧
    (s.remove_record addr e).currentFaceCount = s.currentFaceCount ∧
    (s.remove_record addr e).vertex_quadrics = s.vertex_quadrics ∧
    (s.remove_record addr e).edge_records = s.edge_records := ⟨rfl, rfl, rfl, rfl⟩

/-- The loop of lines 1357-1361 keeps the mesh and the counter; the records it leaves in
the queue are records of edges of the list, and the queue is not empty when the list is
not. -/
theorem insert_fold_spec (addr : Nat → Nat) :
    ∀ (es : List Nat) (s : Simplify_State),
      (es.foldl (fun s e => s.insert_record addr e) s).mesh = s.mesh ∧
      (es.foldl (fun s e => s.insert_record addr e) s).currentFaceCount =
        s.currentFaceCount ∧
      (∀ r ∈ (es.foldl (fun s e => s.insert_record addr e) s).edge_queue.queue,
        r ∈ s.edge_queue.queue ∨ r.edge ∈ es) ∧
      (s.edge_queue.queue ≠ [] ∨ es ≠ [] →
        (es.foldl (fun s e => s.insert_record addr e) s).edge_queue.queue ≠ []) := by
  intro es
  induction es with
  | nil =>
    intro s
    exact ⟨rfl, rfl, fun r hr => Or.inl hr, fun h => h.resolve_right (fun c => c rfl)⟩
  | cons e es ih =>
    intro s
    obtain ⟨h1, h2, h3, h4⟩ := ih (s.insert_record addr e)
    rw [List.foldl_cons]
    refine ⟨h1, h2, fun r hr => ?_, fun _ => h4 (Or.inl ?_)⟩
    · rcases h3 r hr with c | c
      · rcases set_insert_mem _ _ _ r c with d | d
        · right
          rw [d]
          exact List.mem_cons_self _ _
        · exact Or.inl d
      · exact Or.inr (List.mem_cons_of_mem _ c)
    · show set_insert _ _ _ ≠ []
      cases s.edge_queue.queue with
      | nil => simp [set_insert]
      | cons y ys =>
        unfold set_insert
        split_ifs <;> simp

theorem remove_loop_spec (addr : Nat → Nat) {M : Halfedge_Mesh} (hv : Valid M) {hStart : Nat}
    (hh : M.live_h hStart) {fuel : Nat} (hfuel : M.halfedges.length ≤ fuel)
    (s : Simplify_State) (hs : s.mesh = M) :
    ∃ s', around M hStart (remove_body addr) fuel hStart s = .ok s' ∧ s'.mesh = M ∧
      s'.currentFaceCount = s.currentFaceCount ∧ s'.vertex_quadrics = s.vertex_quadrics ∧
      s'.edge_records = s.edge_records := by
  obtain ⟨s', h1, h2⟩ := around_valid hv hh hfuel (remove_body addr)
    (fun t => t.mesh = M ∧ t.currentFaceCount = s.currentFaceCount ∧
      t.vertex_quadrics = s.vertex_quadrics ∧ t.edge_records = s.edge_records)
    (fun h t _ ht => ⟨_, rfl, ht⟩) s ⟨hs, rfl, rfl, rfl⟩
  exact ⟨s', h1, h2⟩

theorem insert_loop_spec (addr : Nat → Nat) {M : Halfedge_Mesh} (hv : Valid M) {hStart : Nat}
    (hh : M.live_h hStart) {fuel : Nat} (hfuel : M.halfedges.length ≤ fuel)
    (s : Simplify_State) (hs : s.mesh = M) :
    ∃ s', around M hStart (insert_body addr) fuel hStart s = .ok s' ∧ s'.mesh = M ∧
      s'.currentFaceCount = s.currentFaceCount ∧ s'.vertex_quadrics = s.vertex_quadrics := by
  obtain ⟨s', h1, h2⟩ := around_valid hv hh hfuel (insert_body addr)
    (fun t => t.mesh = M ∧ t.currentFaceCount = s.currentFaceCount ∧
      t.vertex_quadrics = s.vertex_quadrics)
    (fun h t _ ht => ⟨_, rfl, ht⟩) s ⟨hs, rfl, rfl⟩
  exact ⟨s', h1, h2⟩

/-- An iteration of the decimation loop in which collapse_edge_erase succeeds, on a valid
mesh that the collapse leaves valid: the iteration ends, the mesh after it is the mesh
after the collapse with the surviving vertex at the optimal point of the record, and the
counter has lost 1 for an edge on the boundary and 2 otherwise. -/
theorem decimate_success (addr : Nat → Nat) (fuel : Nat) (s : Simplify_State)
    (b : Edge_Record) (v : Nat) (M1 : Halfedge_Mesh) (hv : Valid s.mesh)
    (hfuel : s.mesh.halfedges.length ≤ fuel) (htop : s.edge_queue.top = .ok b)
    (he : s.mesh.live_e b.edge)
    (hc : s.mesh.collapse_edge_erase fuel b.edge = .ok (some v, M1)) (hv1 : Valid M1)
    (hlv : M1.live_v v) (hfuel1 : M1.halfedges.length ≤ fuel) :
    ∃ s', decimate addr fuel s = .ok s' ∧ s'.mesh = M1.set_pos v b.optimal ∧
      s'.currentFaceCount = (if s.mesh.on_boundary b.edge then s.currentFaceCount - 1
        else s.currentFaceCount - 2) ∧
      s'.vertex_quadrics = upd s.vertex_quadrics v b.edgeQuadric := by
  have l0 := hv.live_ehalfedge he
  have l1 := hv.live_twin l0
  obtain ⟨s2, a1, a2, a3, a4, -⟩ := remove_loop_spec addr hv l0 hfuel
    { s with currentFaceCount :=
      if s.mesh.on_boundary b.edge then s.currentFaceCount - 1 else s.currentFaceCount - 2 }
    rfl
  obtain ⟨s3, b1, b2, b3, b4, -⟩ := remove_loop_spec addr hv l1 hfuel s2 a2
  have hv2 : Valid (M1.set_pos v b.optimal) := hv1.set_positions _
  have lv2 : (M1.set_pos v b.optimal).live_h ((M1.set_pos v b.optimal).vhalfedge v) :=
    hv2.live_vhalfedge hlv
  obtain ⟨s4, c1, c2, c3, c4⟩ := insert_loop_spec addr hv2 lv2 hfuel1
    { s3 with mesh := M1.set_pos v b.optimal,
              vertex_quadrics := upd s3.vertex_quadrics v b.edgeQuadric } rfl
  refine ⟨s4, ?_, c2, ?_, ?_⟩
  · unfold decimate
    rw [htop, ok_bind]
    dsimp only
    rw [a1, ok_bind, a2, b1, ok_bind, b2, hc, ok_bind]
    exact c1
  · rw [c3]
    show s3.currentFaceCount = _
    rw [b3, a3]
  · rw [c4]
    show upd s3.vertex_quadrics v b.edgeQuadric = _
    rw [b4, a4]

/-- The head of the decimation loop, for a queue that is not empty, a counter over the
target and over 2. -/
theorem simplify_loop_step (addr : Nat → Nat) (fuel : Nat) (initialFaceCount : Int) (n : Nat)
    (s : Simplify_State) (h1 : s.currentFaceCount > initialFaceCount / 4)
    (h2 : ¬ s.currentFaceCount ≤ 2) (h3 : s.edge_queue.queue ≠ []) :
    simplify_loop addr fuel initialFaceCount (n + 1) s =
      (decimate addr fuel s).bind (simplify_loop addr fuel initialFaceCount n) := by
  unfold simplify_loop
  rw [if_pos h1, if_neg h2, if_neg]
  intro c
  exact h3 (List.length_eq_zero.1 c)

/-- The head of the decimation loop, for a counter over the target and at most 2. -/
theorem simplify_loop_low (addr : Nat → Nat) (fuel : Nat) (initialFaceCount : Int) (n : Nat)
    (s : Simplify_State) (h1 : s.currentFaceCount > initialFaceCount / 4)
    (h2 : s.currentFaceCount ≤ 2) :
    simplify_loop addr fuel initialFaceCount (n + 1) s = .ok (false, s) := by
  unfold simplify_loop
  rw [if_pos h1, if_pos h2]

/-! ## More fuel and other positions do not change what collapse_edge does to the relations -/

theorem walk_to_mono (f : Nat → Nat) (t : Nat) (k : Nat) :
    ∀ fuel h y, walk_to f t fuel h = .ok y → walk_to f t (fuel + k) h = .ok y := by
  intro fuel
  induction fuel with
  | zero => intro h y hw; simp [walk_to] at hw
  | succ fuel ih =>
    intro h y hw
    rw [Nat.succ_add]
    unfold walk_to at hw ⊢
    split_ifs at hw ⊢ with c
    · exact hw
    · exact ih _ _ hw

theorem count_loop_mono (f : Nat → Nat) (s : Nat) (k : Nat) :
    ∀ fuel h i d, count_loop f s fuel h i = .ok d → count_loop f s (fuel + k) h i = .ok d := by
  intro fuel
  induction fuel with
  | zero => intro h i d hw; simp [count_loop] at hw
  | succ fuel ih =>
    intro h i d hw
    rw [Nat.succ_add]
    unfold count_loop at hw ⊢
    split_ifs at hw ⊢ with c
    · exact hw
    · exact ih _ _ _ hw

theorem collect_v1_mono (m : Halfedge_Mesh) (h1 : Nat) (k : Nat) :
    ∀ fuel it acc l, collect_v1 m h1 fuel it acc = .ok l →
      collect_v1 m h1 (fuel + k) it acc = .ok l := by
  intro fuel
  induction fuel with
  | zero => intro it acc l hw; simp [collect_v1] at hw
  | succ fuel ih =>
    intro it acc l hw
    rw [Nat.succ_add]
    unfold collect_v1 at hw ⊢
    split_ifs at hw ⊢ with c
    · exact hw
    · exact ih _ _ _ hw

theorem collect_v1_positions (m : Halfedge_Mesh) (p : Nat → Vec3) (h1 : Nat) :
    ∀ fuel it acc, collect_v1 { m with pos := p } h1 fuel it acc = collect_v1 m h1 fuel it acc := by
  intro fuel
  induction fuel with
  | zero => intro it acc; rfl
  | succ fuel ih =>
    intro it acc
    unfold collect_v1
    rw [ih]
    rfl

theorem collapse_triangle_positions {m r : Halfedge_Mesh} {fuel h : Nat} (p : Nat → Vec3)
    (k : Nat) (hc : m.collapse_triangle fuel h = .ok r) :
    collapse_triangle { m with pos := p } (fuel + k) h = .ok { r with pos := p } := by
  unfold collapse_triangle at hc ⊢
  obtain ⟨q, hq, hr⟩ := bind_eq_ok.1 hc
  simp only [Except.ok.injEq] at hr
  subst hr
  have := walk_to_mono _ _ k _ _ _ hq
  exact bind_eq_ok.2 ⟨q, this, rfl⟩

theorem collapse_polygon_positions {m r : Halfedge_Mesh} {fuel f h : Nat} (p : Nat → Vec3)
    (k : Nat) (hc : m.collapse_polygon fuel f h = .ok r) :
    collapse_polygon { m with pos := p } (fuel + k) f h = .ok { r with pos := p } := by
  unfold collapse_polygon at hc ⊢
  obtain ⟨q, hq, hr⟩ := bind_eq_ok.1 hc
  simp only [Except.ok.injEq] at hr
  subst hr
  have := walk_to_mono _ _ k _ _ _ hq
  exact bind_eq_ok.2 ⟨q, this, rfl⟩

theorem repoint_positions (m : Halfedge_Mesh) (p : Nat → Vec3) (v : Nat) (l : List Nat) :
    repoint { m with pos := p } v l = { repoint m v l with pos := p } := by
  induction l with
  | nil => rfl
  | cons a l ih =>
    rw [repoint_cons, repoint_cons, ih]
    rfl

theorem collapse_run_positions {m r : Halfedge_Mesh} {fuel e : Nat} (p : Nat → Vec3)
    (k : Nat) (hc : m.collapse_run fuel e = .ok r) :
    ∃ q, collapse_run { m with pos := p } (fuel + k) e = .ok { r with pos := q } := by
  unfold collapse_run at hc ⊢
  dsimp only at hc ⊢
  obtain ⟨l, hl, hc⟩ := bind_eq_ok.1 hc
  obtain ⟨d0, hd0, hc⟩ := bind_eq_ok.1 hc
  obtain ⟨d1, hd1, hc⟩ := bind_eq_ok.1 hc
  have hl' : collect_v1 { m with pos := p } (m.twin (m.ehalfedge e)) (fuel + k)
      (m.twin (m.ehalfedge e)) [] = .ok l :=
    (collect_v1_positions m p _ _ _ _).trans (collect_v1_mono m _ k _ _ _ _ hl)
  have hd0' : fdegree { m with pos := p } (fuel + k) (m.face (m.ehalfedge e)) = .ok d0 :=
    count_loop_mono _ _ k _ _ _ _ hd0
  have hd1' : fdegree { m with pos := p } (fuel + k) (m.face (m.twin (m.ehalfedge e))) =
      .ok d1 := count_loop_mono _ _ k _ _ _ _ hd1
  rw [hl', ok_bind, hd0', ok_bind, hd1', ok_bind]
  generalize decide (d0 = 3) = b0 at hc ⊢
  generalize decide (d1 = 3) = b1 at hc ⊢
  obtain ⟨m1, h1, hc⟩ := bind_eq_ok.1 hc
  obtain ⟨m2, h2, hc⟩ := bind_eq_ok.1 hc
  simp only [Except.ok.injEq] at hc
  subst hc
  have h1' : (if b0 = true then
        collapse_triangle { m with pos := p } (fuel + k) (m.ehalfedge e)
      else collapse_polygon { m with pos := p } (fuel + k) (m.face (m.ehalfedge e))
        (m.ehalfedge e)) = .ok { m1 with pos := p } := by
    split_ifs at h1 ⊢
    · exact collapse_triangle_positions p k h1
    · exact collapse_polygon_positions p k h1
  rw [h1', ok_bind]
  have h2' : (if b1 = true then
        (collapse_triangle { m1 with pos := p } (fuel + k) (m.twin (m.ehalfedge e))).bind
          fun m2 => .ok (m2.set_vhalfedge (m.vertex (m.ehalfedge e))
            (m2.twin (m1.next (m1.next (m.twin (m.ehalfedge e))))))
      else collapse_polygon { m1 with pos := p } (fuel + k) (m.face (m.twin (m.ehalfedge e)))
        (m.twin (m.ehalfedge e))) = .ok { m2 with pos := p } := by
    split_ifs at h2 ⊢
    · obtain ⟨m3, h3, h4⟩ := bind_eq_ok.1 h2
      simp only [Except.ok.injEq] at h4
      subst h4
      exact bind_eq_ok.2 ⟨_, collapse_triangle_positions p k h3, rfl⟩
    · exact collapse_polygon_positions p k h2
  dsimp only at h2' ⊢
  rw [h2', ok_bind]
  rw [repoint_positions]
  refine ⟨upd p (m.vertex (m.ehalfedge e))
    (center_of { repoint m2 (m.vertex (m.ehalfedge e)) l with pos := p } e), ?_⟩
  cases b0 <;> cases b1 <;>
    simp only [if_true, if_false, Bool.false_eq_true, erase_halfedge, erase_face,
      erase_edge_mark, erase_vertex_mark, set_pos]

theorem vdegree_positions (m : Halfedge_Mesh) (p : Nat → Vec3) (k : Nat) {fuel v d : Nat}
    (h : m.vdegree fuel v = .ok d) : vdegree { m with pos := p } (fuel + k) v = .ok d :=
  count_loop_mono _ _ k _ _ _ _ h

/-- The call of collapse_edge_erase on the mesh with other positions, and more fuel, returns
the same vertex or the same refusal, and the same mesh up to the positions. -/
theorem collapse_edge_erase_positions {m r : Halfedge_Mesh} {fuel e : Nat} {v : Option Nat}
    (p : Nat → Vec3) (k : Nat) (hc : m.collapse_edge_erase fuel e = .ok (v, r)) :
    ∃ q, collapse_edge_erase { m with pos := p } (fuel + k) e =
      .ok (v, { r with pos := q }) := by
  unfold collapse_edge_erase at hc ⊢
  obtain ⟨x, hx, hc⟩ := bind_eq_ok.1 hc
  simp only [Except.ok.injEq, Prod.mk.injEq] at hc
  obtain ⟨hc1, hc2⟩ := hc
  unfold collapse_edge at hx ⊢
  dsimp only at hx ⊢
  obtain ⟨d1, hd1, hx⟩ := bind_eq_ok.1 hx
  rw [vdegree_positions m p k hd1, ok_bind]
  by_cases c1 : d1 ≤ 2
  · rw [if_pos c1] at hx ⊢
    simp only [Except.ok.injEq] at hx
    subst hx
    subst hc1
    subst hc2
    exact ⟨p, rfl⟩
  rw [if_neg c1] at hx ⊢
  obtain ⟨d0, hd0, hx⟩ := bind_eq_ok.1 hx
  rw [vdegree_positions m p k hd0, ok_bind]
  by_cases c0 : d0 ≤ 2
  · rw [if_pos c0] at hx ⊢
    simp only [Except.ok.injEq] at hx
    subst hx
    subst hc1
    subst hc2
    exact ⟨p, rfl⟩
  rw [if_neg c0] at hx ⊢
  by_cases cv : m.vertex (m.ehalfedge e) = m.vertex (m.twin (m.ehalfedge e))
  · rw [if_pos cv] at hx
    rw [if_pos (by exact cv)]
    simp only [Except.ok.injEq] at hx
    subst hx
    subst hc1
    subst hc2
    exact ⟨p, rfl⟩
  rw [if_neg cv] at hx
  rw [if_neg (by exact cv)]
  obtain ⟨m', hm', hx⟩ := bind_eq_ok.1 hx
  simp only [Except.ok.injEq] at hx
  subst hx
  subst hc1
  subst hc2
  obtain ⟨q, hq⟩ := collapse_run_positions p k hm'
  rw [hq, ok_bind, ok_bind]
  exact ⟨q, rfl⟩

/-- The four invariants of the structure that the claims on simplify name, for a valid
mesh: `twin` is an involution on the half-edges; the loop of a face closes after exactly
as many steps as the degree of the face and stays in the face; an edge has exactly two
half-edges, twins of each other; the half-edge of a vertex is a half-edge of the mesh
that leaves the vertex. -/
theorem Valid.invariants {m : Halfedge_Mesh} (hv : Valid m) {fuel : Nat}
    (hfuel : m.halfedges.length ≤ fuel) :
    (∀ h, m.live_h h → m.live_h (m.twin h) ∧ m.twin (m.twin h) = h) ∧
    (∀ f, m.live_f f → ∃ d, m.fdegree fuel f = .ok d ∧ 0 < d ∧
      m.next^[d] (m.fhalfedge f) = m.fhalfedge f ∧
      (∀ j, 0 < j → j < d → m.next^[j] (m.fhalfedge f) ≠ m.fhalfedge f) ∧
      ∀ j, m.live_h (m.next^[j] (m.fhalfedge f)) ∧ m.face (m.next^[j] (m.fhalfedge f)) = f) ∧
    (∀ e, m.live_e e → m.live_h (m.ehalfedge e) ∧ m.live_h (m.twin (m.ehalfedge e)) ∧
      m.twin (m.ehalfedge e) ≠ m.ehalfedge e ∧
      ∀ h, m.live_h h → (m.edge h = e ↔ h = m.ehalfedge e ∨ h = m.twin (m.ehalfedge e))) ∧
    (∀ v, m.live_v v → m.live_h (m.vhalfedge v) ∧ m.vertex (m.vhalfedge v) = v) := by
  refine ⟨fun h hh => ⟨hv.live_twin hh, hv.tt hh⟩, fun f hf => ?_, fun e he => ?_,
    fun v hvv => hv.vertex_he v hvv.1 hvv⟩
  · have lh := hv.live_fhalfedge hf
    have hface := (hv.face_he f hf.1 hf).2
    obtain ⟨d, h1, h2, h3, h4⟩ := hv.fdegree_spec lh hfuel
    rw [hface] at h1
    refine ⟨d, h1, h2, h3, h4, fun j => ⟨hv.live_iter_next lh j, ?_⟩⟩
    rw [hv.face_iter lh j, hface]
  · have l0 := hv.live_ehalfedge he
    have ee := (hv.edge_he e he.1 he).2
    refine ⟨l0, hv.live_twin l0, hv.twin_ne l0, fun h hh => ⟨fun c => ?_, fun c => ?_⟩⟩
    · have := hv.edge_orbit h hh.1 hh
      rw [c] at this
      exact this
    · rcases c with c | c
      · rw [c, ee]
      · rw [c, hv.edge_twin l0, ee]

/-- Lines 1326-1361 on a valid mesh without pending erasures of vertices whose faces pass
the test of line 1332: the initialisation ends; the mesh is untouched, the counter is the
count of the loop over the faces, every record of the queue is a record of an edge of the
mesh, and the queue is not empty unless the mesh has no edge. -/
theorem simplify_init_spec (g : Geometry) (addr : Nat → Nat) {m : Halfedge_Mesh}
    (hv : Valid m) (he : m.verased = []) {fuel : Nat} (hfuel : m.halfedges.length ≤ fuel)
    {fq : Nat → Mat4} {n : Int} (hf : face_loop g m m.faces (fun _ => Mat4.Zero) 0 = some (fq, n)) :
    ∃ s, simplify_init g addr m fuel = .ok (some (n, s)) ∧ s.mesh = m ∧
      s.currentFaceCount = n ∧ (∀ r ∈ s.edge_queue.queue, r.edge ∈ m.edges) ∧
      (m.edges ≠ [] → s.edge_queue.queue ≠ []) := by
  obtain ⟨vq, hvq⟩ := vertex_loop_ok m fq fuel hv he hfuel
  obtain ⟨a1, a2, a3, a4⟩ := insert_fold_spec addr m.edges
    { mesh := m, vertex_quadrics := vq,
      edge_records := fun e => ⟨e, ⟨0, 0, 0⟩, Mat4.Zero, 0⟩, edge_queue := ⟨[]⟩,
      currentFaceCount := n }
  refine ⟨_, ?_, a1, a2, fun r hr => ?_, fun hne => a4 (Or.inr hne)⟩
  · unfold simplify_init
    rw [hf]
    dsimp only
    rw [hvq, ok_bind]
  · rcases a3 r hr with c | c
    · exact absurd c (List.not_mem_nil r)
    · exact c

set_option maxRecDepth 100000 in
theorem tetrahedron_collapse_check :
    ∀ e ∈ [0, 1, 2, 3, 4, 5],
      returned (tetrahedron.collapse_edge_erase 20 e)
        (some (tetrahedron.vertex (tetrahedron.ehalfedge e)))
        (fun M1 => decide (Valid M1) &&
          decide (M1.live_v (tetrahedron.vertex (tetrahedron.ehalfedge e))) &&
          decide (M1.halfedges.length ≤ 20) && !tetrahedron.on_boundary e) = true := by
  decide!

/-- Whatever the positions of its vertices, collapse_edge_erase succeeds on every edge of
the tetrahedron and leaves a valid mesh. -/
theorem tetrahedron_collapse (p : Nat → Vec3) (k : Nat) (e : Nat)
    (he : e ∈ [0, 1, 2, 3, 4, 5]) :
    ∃ v M1, ({ tetrahedron with pos := p } : Halfedge_Mesh).collapse_edge_erase (20 + k) e =
        .ok (some v, M1) ∧ Valid M1 ∧ M1.live_v v ∧ M1.halfedges.length ≤ 20 ∧
      ({ tetrahedron with pos := p } : Halfedge_Mesh).on_boundary e = false := by
  obtain ⟨M1, h1, h2⟩ := returned_spec (tetrahedron_collapse_check e he)
  simp only [Bool.and_eq_true, decide_eq_true_eq, Bool.not_eq_true'] at h2
  obtain ⟨⟨⟨a1, a2⟩, a3⟩, a4⟩ := h2
  obtain ⟨q, hq⟩ := collapse_edge_erase_positions p k h1
  exact ⟨_, _, hq, a1.set_positions q, a2, a3, a4⟩

/-- C24: on the tetrahedron, whatever the positions of its vertices, the normals of its
faces and the addresses of its edges, simplify returns false, after the collapse of one
edge, and the mesh it leaves is valid: `twin` is an involution on its half-edges, the loop
of every face closes after exactly as many steps as the degree of the face and stays in the
face, every edge has exactly two half-edges, and the half-edge of every vertex is a
half-edge of the mesh that leaves the vertex. -/
theorem C24_simplify_tetrahedron (g : Geometry) (addr : Nat → Nat) (p : Nat → Vec3)
    (k : Nat) :
    ∃ m', simplify g addr { tetrahedron with pos := p } (20 + k) = .ok (false, m') ∧
      Valid m' ∧
      (∀ h, m'.live_h h → m'.live_h (m'.twin h) ∧ m'.twin (m'.twin h) = h) ∧
      (∀ f, m'.live_f f → ∃ d, m'.fdegree (20 + k) f = .ok d ∧ 0 < d ∧
        m'.next^[d] (m'.fhalfedge f) = m'.fhalfedge f ∧
        (∀ j, 0 < j → j < d → m'.next^[j] (m'.fhalfedge f) ≠ m'.fhalfedge f) ∧
        ∀ j, m'.live_h (m'.next^[j] (m'.fhalfedge f)) ∧
          m'.face (m'.next^[j] (m'.fhalfedge f)) = f) ∧
      (∀ e, m'.live_e e → m'.live_h (m'.ehalfedge e) ∧ m'.live_h (m'.twin (m'.ehalfedge e)) ∧
        m'.twin (m'.ehalfedge e) ≠ m'.ehalfedge e ∧
        ∀ h, m'.live_h h →
          (m'.edge h = e ↔ h = m'.ehalfedge e ∨ h = m'.twin (m'.ehalfedge e))) ∧
      (∀ v, m'.live_v v → m'.live_h (m'.vhalfedge v) ∧ m'.vertex (m'.vhalfedge v) = v) := by
  have hvM : Valid ({ tetrahedron with pos := p } : Halfedge_Mesh) :=
    tetrahedron_valid.set_positions p
  have hlen : ({ tetrahedron with pos := p } : Halfedge_Mesh).halfedges.length ≤ 20 + k := by
    show tetrahedron.halfedges.length ≤ 20 + k
    have : tetrahedron.halfedges.length = 12 := rfl
    omega
  obtain ⟨fq, hfq⟩ : ∃ fq, face_loop g ({ tetrahedron with pos := p } : Halfedge_Mesh)
      ({ tetrahedron with pos := p } : Halfedge_Mesh).faces (fun _ => Mat4.Zero) 0 =
        some (fq, 4) := ⟨_, rfl⟩
  obtain ⟨s0, hs0, hmesh, hcount, hq1, hq2⟩ := simplify_init_spec g addr hvM rfl hlen hfq
  have hne : s0.edge_queue.queue ≠ [] := hq2 (by
    show tetrahedron.edges ≠ []
    decide)
  obtain ⟨b, rest, hb⟩ := List.exists_cons_of_ne_nil hne
  have htop : s0.edge_queue.top = .ok b := by
    unfold PQueue.top
    rw [hb]
  have hbe : b.edge ∈ [0, 1, 2, 3, 4, 5] :=
    hq1 b (by rw [hb]; exact List.mem_cons_self _ _)
  obtain ⟨v, M1, hc, hv1, hlv, hl1, hob⟩ := tetrahedron_collapse p k b.edge hbe
  have hvs : Valid s0.mesh := by rw [hmesh]; exact hvM
  obtain ⟨s1, hd, hm1, hc1, -⟩ := decimate_success addr (20 + k) s0 b v M1 hvs
    (by rw [hmesh]; exact hlen) htop
    (by rw [hmesh]; exact ⟨hbe, List.not_mem_nil _⟩) (by rw [hmesh]; exact hc) hv1 hlv
    (by omega)
  rw [hmesh, hob, hcount] at hc1
  have hv2 : Valid (M1.set_pos v b.optimal) := hv1.set_positions _
  have hl2 : (M1.set_pos v b.optimal).halfedges.length ≤ 20 + k := by
    show M1.halfedges.length ≤ 20 + k
    omega
  refine ⟨M1.set_pos v b.optimal, ?_, hv2, hv2.invariants hl2⟩
  unfold simplify
  rw [hs0, ok_bind]
  dsimp only
  have e20 : 20 + k = (18 + k + 1) + 1 := by omega
  rw [e20]
  rw [simplify_loop_step addr _ 4 _ s0 (by rw [hcount]; decide) (by rw [hcount]; decide) hne]
  rw [← e20, hd, ok_bind]
  rw [simplify_loop_low addr _ 4 _ s1 (by rw [hc1]; decide) (by rw [hc1]; decide), ok_bind,
    hm1]

/-! ## simplify on a mesh with a boundary -/

theorem vertex_quadric_mono (m : Halfedge_Mesh) (fq : Nat → Mat4) (hStart k : Nat) :
    ∀ fuel h q r, vertex_quadric m fq hStart fuel h q = .ok r →
      vertex_quadric m fq hStart (fuel + k) h q = .ok r := by
  intro fuel
  induction fuel with
  | zero => intro h q r hw; simp [vertex_quadric] at hw
  | succ fuel ih =>
    intro h q r hw
    rw [Nat.succ_add]
    unfold vertex_quadric at hw ⊢
    split_ifs at hw ⊢ with c
    · exact ih _ _ _ hw
    · exact hw

theorem vertex_loop_mono (m : Halfedge_Mesh) (fq : Nat → Mat4) (fuel k : Nat) :
    ∀ (vs : List Nat) (init r : Nat → Mat4), vertex_loop m fq fuel vs init = .ok r →
      vertex_loop m fq (fuel + k) vs init = .ok r := by
  intro vs
  induction vs with
  | nil => intro init r h; exact h
  | cons v vs ih =>
    intro init r h
    unfold vertex_loop at h ⊢
    obtain ⟨q, hq, h⟩ := bind_eq_ok.1 h
    rw [vertex_quadric_mono m fq _ k _ _ _ _ hq, ok_bind]
    exact ih _ _ h

/-- More fuel does not change what the initialisation of simplify returns. -/
theorem simplify_init_mono (g : Geometry) (addr : Nat → Nat) (m : Halfedge_Mesh)
    (fuel k : Nat) {r : Option (Int × Simplify_State)}
    (h : simplify_init g addr m fuel = .ok r) : simplify_init g addr m (fuel + k) = .ok r := by
  unfold simplify_init at h ⊢
  cases hf : face_loop g m m.faces (fun _ => Mat4.Zero) 0 with
  | none =>
    rw [hf] at h
    exact h
  | some x =>
    obtain ⟨fq, n⟩ := x
    rw [hf] at h
    dsimp only at h ⊢
    obtain ⟨vq, hvq, h⟩ := bind_eq_ok.1 h
    rw [vertex_loop_mono m fq fuel k _ _ _ hvq, ok_bind]
    exact h

/-- An iteration of the decimation loop in which collapse_edge_erase succeeds and leaves the
surviving vertex with a half-edge to which the rotation never comes back: the loop of lines
1429-1435 never ends, whatever the fuel. -/
theorem decimate_diverge (addr : Nat → Nat) (fuel : Nat) (s : Simplify_State)
    (b : Edge_Record) (v : Nat) (M1 : Halfedge_Mesh) (hv : Valid s.mesh)
    (hfuel : s.mesh.halfedges.length ≤ fuel) (htop : s.edge_queue.top = .ok b)
    (he : s.mesh.live_e b.edge)
    (hc : s.mesh.collapse_edge_erase fuel b.edge = .ok (some v, M1))
    (hne : ∀ n, M1.rot^[n + 1] (M1.vhalfedge v) ≠ M1.vhalfedge v) :
    decimate addr fuel s = .error .out_of_fuel := by
  have l0 := hv.live_ehalfedge he
  have l1 := hv.live_twin l0
  obtain ⟨s2, a1, a2, -⟩ := remove_loop_spec addr hv l0 hfuel
    { s with currentFaceCount :=
      if s.mesh.on_boundary b.edge then s.currentFaceCount - 1 else s.currentFaceCount - 2 }
    rfl
  obtain ⟨s3, b1, b2, -⟩ := remove_loop_spec addr hv l1 hfuel s2 a2
  unfold decimate
  rw [htop, ok_bind]
  dsimp only
  rw [a1, ok_bind, a2, b1, ok_bind, b2, hc, ok_bind]
  have := around_diverge (M1.set_pos v b.optimal) ((M1.set_pos v b.optimal).vhalfedge v)
    (insert_body addr) hne (fun h t => ⟨_, rfl⟩) fuel 0
    { s3 with mesh := M1.set_pos v b.optimal,
              vertex_quadrics := upd s3.vertex_quadrics v b.edgeQuadric }
  exact this

/-- The initialisation of simplify leaves the mesh as it is and starts the counter at the
count of the faces. -/
theorem simplify_init_mesh (g : Geometry) (addr : Nat → Nat) (m : Halfedge_Mesh) (fuel : Nat)
    {n : Int} {s : Simplify_State} (h : simplify_init g addr m fuel = .ok (some (n, s))) :
    s.mesh = m ∧ s.currentFaceCount = n := by
  unfold simplify_init at h
  cases hf : face_loop g m m.faces (fun _ => Mat4.Zero) 0 with
  | none =>
    rw [hf] at h
    simp at h
  | some x =>
    obtain ⟨fq, n'⟩ := x
    rw [hf] at h
    dsimp only at h
    obtain ⟨vq, -, h⟩ := bind_eq_ok.1 h
    simp only [Except.ok.injEq, Option.some.injEq, Prod.mk.injEq] at h
    obtain ⟨h1, h2⟩ := h
    subst h1
    subst h2
    obtain ⟨a1, a2, -⟩ := insert_fold_spec addr m.edges
      { mesh := m, vertex_quadrics := vq,
        edge_records := fun e => ⟨e, ⟨0, 0, 0⟩, Mat4.Zero, 0⟩, edge_queue := ⟨[]⟩,
        currentFaceCount := n' }
    exact ⟨a1, a2⟩

theorem iterate_stays (f : Nat → Nat) (S : List Nat) (hS : ∀ x ∈ S, f x ∈ S) :
    ∀ n x, x ∈ S → f^[n] x ∈ S := by
  intro n
  induction n with
  | zero => intro x hx; exact hx
  | succ n ih =>
    intro x hx
    rw [Function.iterate_succ_apply]
    exact ih _ (hS x hx)

set_option maxRecDepth 100000 in
theorem strip_flat_init_check :
    returned ((simplify_init exact (fun e => e) strip_flat 20).bind fun r =>
        match r with
        | some x => Except.ok x
        | none => .error .out_of_bounds) 3
      (fun s => decide (s.edge_queue.queue.head?.map (fun r => r.edge) = some 0)) = true := by
  decide!

set_option maxRecDepth 100000 in
theorem strip_flat_collapse_check :
    returned (strip_flat.collapse_edge_erase 20 0) (some 0)
      (fun M1 => decide (M1.vhalfedge 0 = 0) && decide (0 ∉ M1.halfedges) &&
        decide (M1.rot 0 ∈ [10, 4, 7]) &&
        [10, 4, 7].all (fun x => decide (M1.rot x ∈ [10, 4, 7]))) = true := by
  decide!

set_option maxRecDepth 100000 in
theorem strip_flat_low_fuel :
    (List.range 20).all (fun fuel =>
      match simplify exact (fun e => e) strip_flat fuel with
      | .error e => decide (e = Fault.out_of_fuel)
      | .ok _ => false) = true := by
  decide!

/-- C26 (the call of simplify always terminates): on the valid flat strip of three
triangles, with the exact geometric queries and the edges ordered by their ids, simplify
does not return, whatever the fuel. The first record of the queue is the record of the
boundary edge 0; collapse_edge_erase collapses it and leaves the surviving vertex 0 with the
erased half-edge 0, and the walk of lines 1429-1435 from that half-edge goes through the
half-edges 10, 4, 7, 10, ... and never comes back to it. -/
theorem C26_simplify_never_returns_on_strip :
    Valid strip_flat ∧
      ∀ fuel, simplify exact (fun e => e) strip_flat fuel = .error .out_of_fuel := by
  refine ⟨strip_flat_valid, fun fuel => ?_⟩
  by_cases hlow : fuel < 20
  · have h := List.all_eq_true.1 strip_flat_low_fuel fuel (List.mem_range.2 hlow)
    revert h
    cases simplify exact (fun e => e) strip_flat fuel with
    | error e =>
      intro h
      rw [of_decide_eq_true h]
    | ok r =>
      intro h
      exact absurd h (by simp)
  · obtain ⟨k, rfl⟩ : ∃ k, fuel = 20 + k := ⟨fuel - 20, by omega⟩
    -- the initialisation
    obtain ⟨s0, hs0, hq⟩ := returned_spec strip_flat_init_check
    obtain ⟨r, hr, hr2⟩ := bind_eq_ok.1 hs0
    have hinit : simplify_init exact (fun e => e) strip_flat 20 = .ok (some (3, s0)) := by
      cases r with
      | none => simp at hr2
      | some x =>
        simp only [Except.ok.injEq] at hr2
        rw [hr, hr2]
    have hinit2 := simplify_init_mono exact (fun e => e) strip_flat 20 k hinit
    obtain ⟨hmesh, hcount⟩ := simplify_init_mesh exact (fun e => e) strip_flat (20 + k) hinit2
    have hq2 := of_decide_eq_true hq
    obtain ⟨b, rest, hqueue, hb⟩ : ∃ b rest, s0.edge_queue.queue = b :: rest ∧ b.edge = 0 := by
      cases hql : s0.edge_queue.queue with
      | nil =>
        rw [hql] at hq2
        simp at hq2
      | cons b rest =>
        rw [hql] at hq2
        simp only [List.head?_cons, Option.map_some', Option.some.injEq] at hq2
        exact ⟨b, rest, rfl, hq2⟩
    have htop : s0.edge_queue.top = .ok b := by
      unfold PQueue.top
      rw [hqueue]
    -- the collapse
    obtain ⟨M1, hM1, hP⟩ := returned_spec strip_flat_collapse_check
    simp only [Bool.and_eq_true, decide_eq_true_eq, List.all_eq_true] at hP
    obtain ⟨⟨⟨hvh, -⟩, hr0⟩, hS⟩ := hP
    obtain ⟨q, hcol⟩ := collapse_edge_erase_positions strip_flat.pos k hM1
    have hcol2 : s0.mesh.collapse_edge_erase (20 + k) b.edge =
        .ok (some 0, { M1 with pos := q }) := by
      rw [hmesh, hb]
      exact hcol
    have hne : ∀ n, (Halfedge_Mesh.rot { M1 with pos := q })^[n + 1]
        (Halfedge_Mesh.vhalfedge { M1 with pos := q } 0) ≠
          Halfedge_Mesh.vhalfedge { M1 with pos := q } 0 := by
      intro n
      show M1.rot^[n + 1] (M1.vhalfedge 0) ≠ M1.vhalfedge 0
      rw [hvh, Function.iterate_succ_apply]
      have := iterate_stays M1.rot [10, 4, 7] hS n _ hr0
      intro c
      rw [c] at this
      simp at this
    have hdiv := decimate_diverge (fun e => e) (20 + k) s0 b 0 { M1 with pos := q }
      (by rw [hmesh]; exact strip_flat_valid)
      (by rw [hmesh]; show 14 ≤ 20 + k; omega) htop
      (by rw [hmesh, hb]; decide) hcol2 hne
    unfold simplify
    rw [hinit2, ok_bind]
    dsimp only
    have hstep := simplify_loop_step (fun e => e) (20 + k) 3 (19 + k) s0
      (by rw [hcount]; decide) (by rw [hcount]; decide) (by rw [hqueue]; simp)
    rw [show 19 + k + 1 = 20 + k by omega] at hstep
    rw [hstep, hdiv]
    rfl

/-! ## More fuel does not change what simplify returns -/

theorem collapse_triangle_mono {m r : Halfedge_Mesh} {fuel h : Nat} (k : Nat)
    (hc : m.collapse_triangle fuel h = .ok r) : m.collapse_triangle (fuel + k) h = .ok r := by
  unfold collapse_triangle at hc ⊢
  obtain ⟨q, hq, hr⟩ := bind_eq_ok.1 hc
  exact bind_eq_ok.2 ⟨q, walk_to_mono _ _ k _ _ _ hq, hr⟩

theorem collapse_polygon_mono {m r : Halfedge_Mesh} {fuel f h : Nat} (k : Nat)
    (hc : m.collapse_polygon fuel f h = .ok r) :
    m.collapse_polygon (fuel + k) f h = .ok r := by
  unfold collapse_polygon at hc ⊢
  obtain ⟨q, hq, hr⟩ := bind_eq_ok.1 hc
  exact bind_eq_ok.2 ⟨q, walk_to_mono _ _ k _ _ _ hq, hr⟩

theorem collapse_run_mono {m r : Halfedge_Mesh} {fuel e : Nat} (k : Nat)
    (hc : m.collapse_run fuel e = .ok r) : m.collapse_run (fuel + k) e = .ok r := by
  unfold collapse_run at hc ⊢
  dsimp only at hc ⊢
  obtain ⟨l, hl, hc⟩ := bind_eq_ok.1 hc
  obtain ⟨d0, hd0, hc⟩ := bind_eq_ok.1 hc
  obtain ⟨d1, hd1, hc⟩ := bind_eq_ok.1 hc
  have hd0' : m.fdegree (fuel + k) (m.face (m.ehalfedge e)) = .ok d0 :=
    count_loop_mono _ _ k _ _ _ _ hd0
  have hd1' : m.fdegree (fuel + k) (m.face (m.twin (m.ehalfedge e))) = .ok d1 :=
    count_loop_mono _ _ k _ _ _ _ hd1
  rw [collect_v1_mono m _ k _ _ _ _ hl, ok_bind, hd0', ok_bind, hd1', ok_bind]
  generalize decide (d0 = 3) = b0 at hc ⊢
  generalize decide (d1 = 3) = b1 at hc ⊢
  obtain ⟨m1, h1, hc⟩ := bind_eq_ok.1 hc
  obtain ⟨m2, h2, hc⟩ := bind_eq_ok.1 hc
  have h1' : (if b0 = true then collapse_triangle m (fuel + k) (m.ehalfedge e)
      else collapse_polygon m (fuel + k) (m.face (m.ehalfedge e)) (m.ehalfedge e)) =
        .ok m1 := by
    split_ifs at h1 ⊢
    · exact collapse_triangle_mono k h1
    · exact collapse_polygon_mono k h1
  rw [h1', ok_bind]
  have h2' : (if b1 = true then
        (collapse_triangle m1 (fuel + k) (m.twin (m.ehalfedge e))).bind
          fun m2 => .ok (m2.set_vhalfedge (m.vertex (m.ehalfedge e))
            (m2.twin (m1.next (m1.next (m.twin (m.ehalfedge e))))))
      else collapse_polygon m1 (fuel + k) (m.face (m.twin (m.ehalfedge e)))
        (m.twin (m.ehalfedge e))) = .ok m2 := by
    split_ifs at h2 ⊢
    · obtain ⟨m3, h3, h4⟩ := bind_eq_ok.1 h2
      exact bind_eq_ok.2 ⟨_, collapse_triangle_mono k h3, h4⟩
    · exact collapse_polygon_mono k h2
  rw [h2', ok_bind]
  exact hc

theorem vdegree_mono {m : Halfedge_Mesh} (k : Nat) {fuel v d : Nat}
    (h : m.vdegree fuel v = .ok d) : m.vdegree (fuel + k) v = .ok d :=
  count_loop_mono _ _ k _ _ _ _ h

theorem collapse_edge_mono {m : Halfedge_Mesh} {fuel e : Nat} {r : Option Nat × Halfedge_Mesh}
    (k : Nat) (hx : m.collapse_edge fuel e = .ok r) : m.collapse_edge (fuel + k) e = .ok r := by
  unfold collapse_edge at hx ⊢
  dsimp only at hx ⊢
  obtain ⟨d1, hd1, hx⟩ := bind_eq_ok.1 hx
  rw [vdegree_mono k hd1, ok_bind]
  by_cases c1 : d1 ≤ 2
  · rw [if_pos c1] at hx ⊢
    exact hx
  rw [if_neg c1] at hx ⊢
  obtain ⟨d0, hd0, hx⟩ := bind_eq_ok.1 hx
  rw [vdegree_mono k hd0, ok_bind]
  by_cases c0 : d0 ≤ 2
  · rw [if_pos c0] at hx ⊢
    exact hx
  rw [if_neg c0] at hx ⊢
  by_cases cv : m.vertex (m.ehalfedge e) = m.vertex (m.twin (m.ehalfedge e))
  · rw [if_pos cv] at hx ⊢
    exact hx
  rw [if_neg cv] at hx ⊢
  obtain ⟨m', hm', hx⟩ := bind_eq_ok.1 hx
  rw [collapse_run_mono k hm', ok_bind]
  exact hx

theorem collapse_edge_erase_mono {m : Halfedge_Mesh} {fuel e : Nat}
    {r : Option Nat × Halfedge_Mesh} (k : Nat) (hx : m.collapse_edge_erase fuel e = .ok r) :
    m.collapse_edge_erase (fuel + k) e = .ok r := by
  unfold collapse_edge_erase at hx ⊢
  obtain ⟨x, hx1, hx2⟩ := bind_eq_ok.1 hx
  rw [collapse_edge_mono k hx1, ok_bind]
  exact hx2

theorem eligible_mono {m : Halfedge_Mesh} {fuel e : Nat} {b : Bool} (k : Nat)
    (h : eligible m fuel e = .ok b) : eligible m (fuel + k) e = .ok b := by
  unfold eligible at h ⊢
  obtain ⟨d0, hd0, h⟩ := bind_eq_ok.1 h
  rw [vdegree_mono k hd0, ok_bind]
  by_cases c0 : d0 > 2
  · rw [if_pos c0] at h ⊢
    obtain ⟨d1, hd1, h⟩ := bind_eq_ok.1 h
    rw [vdegree_mono k hd1, ok_bind]
    exact h
  · rw [if_neg c0] at h ⊢
    exact h

theorem repopulate_mono (addr : Nat → Nat) (fuel k : Nat) :
    ∀ (es : List Nat) (s r : Simplify_State), repopulate addr fuel es s = .ok r →
      repopulate addr (fuel + k) es s = .ok r := by
  intro es
  induction es with
  | nil => intro s r h; exact h
  | cons e es ih =>
    intro s r h
    unfold repopulate at h ⊢
    obtain ⟨b, hb, h⟩ := bind_eq_ok.1 h
    rw [eligible_mono k hb, ok_bind]
    exact ih _ _ h

/-- A loop around a vertex with more fuel, and a body that returns the same results. -/
theorem around_mono {σ : Type} (m : Halfedge_Mesh) (hStart : Nat)
    (body body2 : Nat → σ → Except Fault σ)
    (hb : ∀ h s r, body h s = .ok r → body2 h s = .ok r) (k : Nat) :
    ∀ fuel h s r, around m hStart body fuel h s = .ok r →
      around m hStart body2 (fuel + k) h s = .ok r := by
  intro fuel
  induction fuel with
  | zero => intro h s r hw; simp [around] at hw
  | succ fuel ih =>
    intro h s r hw
    rw [Nat.succ_add]
    unfold around at hw ⊢
    split_ifs at hw ⊢ with c
    · obtain ⟨s1, h1, h2⟩ := bind_eq_ok.1 hw
      rw [hb _ _ _ h1, ok_bind]
      exact ih _ _ _ h2
    · exact hb _ _ _ hw

theorem reset_body_mono (addr : Nat → Nat) (fuel k chosen_e : Nat) (h : Nat)
    (s r : Simplify_State) (hr : reset_body addr fuel chosen_e h s = .ok r) :
    reset_body addr (fuel + k) chosen_e h s = .ok r := by
  unfold reset_body at hr ⊢
  dsimp only at hr ⊢
  split_ifs at hr ⊢ with c
  · obtain ⟨b, hb, hr⟩ := bind_eq_ok.1 hr
    rw [eligible_mono k hb, ok_bind]
    exact hr
  · exact hr

theorem decimate_mono (addr : Nat → Nat) (fuel k : Nat) (s r : Simplify_State)
    (h : decimate addr fuel s = .ok r) : decimate addr (fuel + k) s = .ok r := by
  unfold decimate at h ⊢
  obtain ⟨b, hb, h⟩ := bind_eq_ok.1 h
  rw [hb, ok_bind]
  dsimp only at h ⊢
  obtain ⟨s1, h1, h⟩ := bind_eq_ok.1 h
  rw [around_mono _ _ _ _ (fun _ _ _ x => x) k _ _ _ _ h1, ok_bind]
  obtain ⟨s2, h2, h⟩ := bind_eq_ok.1 h
  rw [around_mono _ _ _ _ (fun _ _ _ x => x) k _ _ _ _ h2, ok_bind]
  obtain ⟨c, h3, h⟩ := bind_eq_ok.1 h
  rw [collapse_edge_erase_mono k h3, ok_bind]
  obtain ⟨c1, c2⟩ := c
  cases c1 with
  | some v =>
    dsimp only at h ⊢
    exact around_mono _ _ _ _ (fun _ _ _ x => x) k _ _ _ _ h
  | none =>
    dsimp only at h ⊢
    obtain ⟨s3, h4, h⟩ := bind_eq_ok.1 h
    rw [around_mono _ _ _ _ (reset_body_mono addr fuel k _) k _ _ _ _ h4, ok_bind]
    obtain ⟨s4, h5, h⟩ := bind_eq_ok.1 h
    rw [around_mono _ _ _ _ (reset_body_mono addr fuel k _) k _ _ _ _ h5, ok_bind]
    exact h

theorem simplify_loop_mono (addr : Nat → Nat) (fuel k j : Nat) (initialFaceCount : Int) :
    ∀ (n : Nat) (s : Simplify_State) (r : Bool × Simplify_State),
      simplify_loop addr fuel initialFaceCount n s = .ok r →
        simplify_loop addr (fuel + k) initialFaceCount (n + j) s = .ok r := by
  intro n
  induction n with
  | zero => intro s r h; simp [simplify_loop] at h
  | succ n ih =>
    intro s r h
    rw [Nat.succ_add]
    unfold simplify_loop at h ⊢
    split_ifs at h ⊢ with c1 c2 c3
    · exact h
    · obtain ⟨s1, h1, h⟩ := bind_eq_ok.1 h
      rw [repopulate_mono addr fuel k _ _ _ h1, ok_bind]
      split_ifs at h ⊢ with c4
      · exact h
      · obtain ⟨s2, h2, h⟩ := bind_eq_ok.1 h
        rw [decimate_mono addr fuel k _ _ h2, ok_bind]
        exact ih _ _ h
    · obtain ⟨s2, h2, h⟩ := bind_eq_ok.1 h
      rw [decimate_mono addr fuel k _ _ h2, ok_bind]
      exact ih _ _ h
    · exact h

/-- More fuel does not change what simplify returns: a result reached with some fuel is
the result with any larger fuel. -/
theorem simplify_mono (g : Geometry) (addr : Nat → Nat) (m : Halfedge_Mesh) (fuel k : Nat)
    {r : Bool × Halfedge_Mesh} (h : simplify g addr m fuel = .ok r) :
    simplify g addr m (fuel + k) = .ok r := by
  unfold simplify at h ⊢
  obtain ⟨x, hx, h⟩ := bind_eq_ok.1 h
  rw [simplify_init_mono g addr m fuel k hx, ok_bind]
  cases x with
  | none => exact h
  | some y =>
    obtain ⟨n, s⟩ := y
    dsimp only at h ⊢
    obtain ⟨r1, h1, h⟩ := bind_eq_ok.1 h
    rw [simplify_loop_mono addr fuel k k n fuel s r1 h1, ok_bind]
    exact h

set_option maxRecDepth 1000000 in
theorem cube_flat_check :
    returned (simplify exact cube_addr cube_flat 36) false
      (fun m => decide (m.faces = [0, 1, 2, 7])) = true := by
  decide!

set_option maxRecDepth 100000 in
theorem cube_flat_triangles :
    cube_flat.faces.length = 12 ∧
    (∀ f ∈ cube_flat.faces, cube_flat.boundary f = false ∧
      (cube_flat.fdegree 36 f).toOption = some 3) ∧
    (∀ e ∈ cube_flat.edges, cube_flat.vertex (cube_flat.ehalfedge e) ≠
      cube_flat.vertex (cube_flat.twin (cube_flat.ehalfedge e))) ∧
    (cube_flat.edges.map cube_addr).Nodup := by
  decide

/-! ## What simplify returns and the value of its counter -/

/-- The loop of lines 1328-1342 adds to the count one for each face of the list that is not
a boundary face. -/
theorem face_loop_count (g : Geometry) (m : Halfedge_Mesh) :
    ∀ (l : List Nat) (fq : Nat → Mat4) (n : Int) (fq' : Nat → Mat4) (n' : Int),
      face_loop g m l fq n = some (fq', n') →
        n' = n + ((l.filter fun f => !m.boundary f).length : Int) := by
  intro l
  induction l with
  | nil =>
    intro fq n fq' n' h
    simp only [face_loop, Option.some.injEq, Prod.mk.injEq] at h
    simp [h.2]
  | cons f l ih =>
    intro fq n fq' n' h
    unfold face_loop at h
    by_cases cb : m.boundary f = true
    · rw [if_pos cb] at h
      rw [ih _ _ _ _ h]
      simp [List.filter_cons, cb]
    · rw [if_neg cb] at h
      split_ifs at h with c
      rw [ih _ _ _ _ h]
      simp only [Bool.not_eq_true] at cb
      simp [List.filter_cons, cb]
      ring

/-- The loop of lines 1328-1342 ends without the `return false` of line 1333 when every
face that is not a boundary face passes the test of line 1332. -/
theorem face_loop_some (g : Geometry) (m : Halfedge_Mesh) :
    ∀ (l : List Nat) (fq : Nat → Mat4) (n : Int),
      (∀ f ∈ l, m.boundary f = false →
        m.next (m.next (m.next (m.fhalfedge f))) = m.fhalfedge f) →
      ∃ r, face_loop g m l fq n = some r := by
  intro l
  induction l with
  | nil => intro fq n _; exact ⟨_, rfl⟩
  | cons f l ih =>
    intro fq n h
    unfold face_loop
    by_cases cb : m.boundary f = true
    · rw [if_pos cb]
      exact ih _ _ fun x hx => h x (List.mem_cons_of_mem _ hx)
    · rw [if_neg cb]
      simp only [Bool.not_eq_true] at cb
      rw [if_neg (not_not.2 (h f (List.mem_cons_self _ _) cb))]
      exact ih _ _ fun x hx => h x (List.mem_cons_of_mem _ hx)

/-- The counter of simplify starts at the number of the faces that are not boundary
faces. -/
theorem simplify_init_count (g : Geometry) (addr : Nat → Nat) (m : Halfedge_Mesh) (fuel : Nat)
    {n : Int} {s : Simplify_State} (h : simplify_init g addr m fuel = .ok (some (n, s))) :
    n = (m.inner_faces : Int) := by
  unfold simplify_init at h
  cases hf : face_loop g m m.faces (fun _ => Mat4.Zero) 0 with
  | none =>
    rw [hf] at h
    simp at h
  | some x =>
    obtain ⟨fq, n'⟩ := x
    rw [hf] at h
    dsimp only at h
    obtain ⟨vq, -, h⟩ := bind_eq_ok.1 h
    simp only [Except.ok.injEq, Option.some.injEq, Prod.mk.injEq] at h
    rw [← h.1, face_loop_count g m _ _ _ _ _ hf]
    simp [inner_faces]

theorem set_insert_ne_nil {α : Type} (lt : α → α → Bool) (x : α) (l : List α) :
    set_insert lt x l ≠ [] := by
  cases l with
  | nil => simp [set_insert]
  | cons y ys =>
    unfold set_insert
    split_ifs <;> simp

/-- The loop of lines 1372-1380 leaves the mesh as it is; a queue that is not empty stays
so, and a queue that is empty after the loop means that no edge of the list passes the
test. -/
theorem repopulate_empty (addr : Nat → Nat) (fuel : Nat) :
    ∀ (es : List Nat) (s s' : Simplify_State), repopulate addr fuel es s = .ok s' →
      s'.mesh = s.mesh ∧ s'.currentFaceCount = s.currentFaceCount ∧
      (s'.edge_queue.queue = [] →
        s.edge_queue.queue = [] ∧ ∀ e ∈ es, eligible s.mesh fuel e = .ok false) := by
  intro es
  induction es with
  | nil =>
    intro s s' h
    simp only [repopulate, Except.ok.injEq] at h
    subst h
    exact ⟨rfl, rfl, fun c => ⟨c, fun e he => absurd he (List.not_mem_nil e)⟩⟩
  | cons e es ih =>
    intro s s' h
    unfold repopulate at h
    obtain ⟨b, hb, h⟩ := bind_eq_ok.1 h
    obtain ⟨i1, i2, i3⟩ := ih _ _ h
    cases b with
    | true =>
      simp only [if_true] at i1 i2 i3
      refine ⟨i1, i2, fun c => ?_⟩
      exact absurd (i3 c).1 (set_insert_ne_nil _ _ _)
    | false =>
      simp only [Bool.false_eq_true, if_false] at i1 i2 i3
      refine ⟨i1, i2, fun c => ⟨(i3 c).1, fun x hx => ?_⟩⟩
      rcases List.mem_cons.1 hx with rfl | hx
      · exact hb
      · exact (i3 c).2 x hx

/-- The three exits of the decimation loop: `true` is returned with the counter at most the
target; `false` is returned with the counter over the target, and either the counter is at
most 2 or the queue is empty and no edge of the mesh passes the test of lines 1373-1375. -/
theorem simplify_loop_outcome (addr : Nat → Nat) (fuel : Nat) (initialFaceCount : Int) :
    ∀ (n : Nat) (s : Simplify_State) (b : Bool) (s' : Simplify_State),
      simplify_loop addr fuel initialFaceCount n s = .ok (b, s') →
      (b = true → s'.currentFaceCount ≤ initialFaceCount / 4) ∧
      (b = false → initialFaceCount / 4 < s'.currentFaceCount ∧
        (s'.currentFaceCount ≤ 2 ∨ (s'.edge_queue.queue = [] ∧
          ∀ e ∈ s'.mesh.edges, eligible s'.mesh fuel e = .ok false))) := by
  intro n
  induction n with
  | zero => intro s b s' h; simp [simplify_loop] at h
  | succ n ih =>
    intro s b s' h
    unfold simplify_loop at h
    split_ifs at h with c1 c2 c3
    · simp only [Except.ok.injEq, Prod.mk.injEq] at h
      obtain ⟨rfl, rfl⟩ := h
      exact ⟨fun c => absurd c (by simp), fun _ => ⟨c1, Or.inl c2⟩⟩
    · obtain ⟨s1, h1, h⟩ := bind_eq_ok.1 h
      obtain ⟨r1, r2, r3⟩ := repopulate_empty addr fuel _ _ _ h1
      split_ifs at h with c4
      · simp only [Except.ok.injEq, Prod.mk.injEq] at h
        obtain ⟨rfl, rfl⟩ := h
        have hq : s1.edge_queue.queue = [] := List.length_eq_zero.1 c4
        refine ⟨fun c => absurd c (by simp), fun _ => ⟨by rw [r2]; exact c1, Or.inr ⟨hq, ?_⟩⟩⟩
        rw [r1]
        exact (r3 hq).2
      · obtain ⟨s2, -, h⟩ := bind_eq_ok.1 h
        exact ih _ _ _ h
    · obtain ⟨s2, -, h⟩ := bind_eq_ok.1 h
      exact ih _ _ _ h
    · simp only [Except.ok.injEq, Prod.mk.injEq] at h
      obtain ⟨rfl, rfl⟩ := h
      exact ⟨fun _ => not_lt.1 c1, fun c => absurd c (by simp)⟩

/-- A call of simplify that returns after the loop over the faces has let every face
through: the initialisation and the decimation loop behind the result. -/
theorem simplify_run (g : Geometry) (addr : Nat → Nat) (m : Halfedge_Mesh) (fuel : Nat)
    {b : Bool} {m' : Halfedge_Mesh} (h : simplify g addr m fuel = .ok (b, m'))
    (hb : b = true ∨ ∀ f ∈ m.faces, m.boundary f = false →
      m.next (m.next (m.next (m.fhalfedge f))) = m.fhalfedge f) :
    ∃ s0 s, simplify_init g addr m fuel = .ok (some ((m.inner_faces : Int), s0)) ∧
      simplify_loop addr fuel (m.inner_faces : Int) fuel s0 = .ok (b, s) ∧ s.mesh = m' := by
  unfold simplify at h
  obtain ⟨x, hx, h⟩ := bind_eq_ok.1 h
  cases x with
  | none =>
    simp only [Except.ok.injEq, Prod.mk.injEq] at h
    rcases hb with hb | hb
    · rw [hb] at h
      exact absurd h.1 (by simp)
    · obtain ⟨r, hr⟩ := face_loop_some g m m.faces (fun _ => Mat4.Zero) 0 hb
      unfold simplify_init at hx
      rw [hr] at hx
      dsimp only at hx
      obtain ⟨vq, -, hx⟩ := bind_eq_ok.1 hx
      simp at hx
  | some y =>
    obtain ⟨n, s0⟩ := y
    dsimp only at h
    obtain ⟨r1, h1, h⟩ := bind_eq_ok.1 h
    simp only [Except.ok.injEq, Prod.mk.injEq] at h
    have hn := simplify_init_count g addr m fuel hx
    subst hn
    obtain ⟨b1, s1⟩ := r1
    obtain ⟨rfl, rfl⟩ := h
    exact ⟨s0, s1, hx, h1, rfl⟩

set_option maxRecDepth 1000000 in
theorem kite_check :
    returned (simplify exact kite_addr kite 22) true
      (fun m => decide (m.inner_faces = 2)) = true := by
  decide!

set_option maxRecDepth 1000000 in
theorem kite_first_check :
    returned ((simplify_init exact kite_addr kite 22).bind fun r =>
        match r with
        | some (n, s) => (decimate kite_addr 22 s).bind fun s1 => .ok (n, s1)
        | none => .error .out_of_bounds) 4
      (fun s1 => decide (s1.currentFaceCount = 3) && decide (s1.mesh.inner_faces = 4) &&
        decide (s1.mesh.edges = [0, 1, 2, 3, 4, 5, 6, 7, 9, 10])) = true := by
  decide!

/-- C23 (code defect): on the valid mesh `kite`, four triangles and a tree whose edges
have the boundary face on both sides, simplify returns true and leaves 2 faces that are not
boundary faces, more than the quarter of the 4 at entry. The first iteration collapses the
edge 8 of the tree: the counter goes from 4 to 3 and no face is erased, so at the next head
of the loop the counter is 3 and the mesh has 4 faces that are not boundary faces. -/
theorem C23_simplify_true_with_half_of_the_faces :
    Valid kite ∧ kite.inner_faces = 4 ∧
    (∃ m', (∀ k, simplify exact kite_addr kite (22 + k) = .ok (true, m')) ∧
      m'.inner_faces = 2 ∧ ¬ ((m'.inner_faces : Int) ≤ (kite.inner_faces : Int) / 4)) ∧
    ∃ s0 s1, simplify_init exact kite_addr kite 22 = .ok (some (4, s0)) ∧
      decimate kite_addr 22 s0 = .ok s1 ∧ s1.currentFaceCount = 3 ∧
      s1.mesh.inner_faces = 4 ∧ 8 ∉ s1.mesh.edges := by
  refine ⟨kite_valid, by decide, ?_, ?_⟩
  · obtain ⟨m', h, hP⟩ := returned_spec kite_check
    have h2 := of_decide_eq_true hP
    refine ⟨m', fun k => simplify_mono _ _ _ _ k h, h2, ?_⟩
    rw [h2]
    decide
  · obtain ⟨s1, h, hP⟩ := returned_spec kite_first_check
    simp only [Bool.and_eq_true, decide_eq_true_eq] at hP
    obtain ⟨r, hr, h⟩ := bind_eq_ok.1 h
    cases r with
    | none => simp at h
    | some x =>
      obtain ⟨n, s0⟩ := x
      dsimp only at h
      obtain ⟨s1', hd, h⟩ := bind_eq_ok.1 h
      simp only [Except.ok.injEq, Prod.mk.injEq] at h
      obtain ⟨rfl, rfl⟩ := h
      refine ⟨s0, s1', hr, hd, hP.1.1, hP.1.2, ?_⟩
      rw [hP.2]
      decide

/-- What the exit test of the loop gives: whenever simplify returns true, the counter
`currentFaceCount` at the return is at most the quarter, rounded down, of the number of the faces that are not
boundary faces at entry; the counter starts at that number. -/
theorem simplify_true_counter (g : Geometry) (addr : Nat → Nat) (m : Halfedge_Mesh)
    (fuel : Nat) (m' : Halfedge_Mesh) (h : simplify g addr m fuel = .ok (true, m')) :
    ∃ s0 s, simplify_init g addr m fuel = .ok (some ((m.inner_faces : Int), s0)) ∧
      s0.mesh = m ∧ s0.currentFaceCount = (m.inner_faces : Int) ∧
      simplify_loop addr fuel (m.inner_faces : Int) fuel s0 = .ok (true, s) ∧ s.mesh = m' ∧
      s.currentFaceCount ≤ (m.inner_faces : Int) / 4 := by
  obtain ⟨s0, s, h0, h1, h2⟩ := simplify_run g addr m fuel h (Or.inl rfl)
  obtain ⟨i1, i2⟩ := simplify_init_mesh g addr m fuel h0
  exact ⟨s0, s, h0, i1, i2, h1, h2, (simplify_loop_outcome addr fuel _ fuel s0 true s h1).1 rfl⟩

/-- C25 (counterexample): the cube of 12 triangles, flat and valid, with no boundary face
and no edge from a vertex to itself: with its edges at the addresses `cube_addr`, simplify
returns false and leaves 4 faces, more than the quarter of 12. -/
theorem C25_simplify_returns_false_on_cube :
    Valid cube_flat ∧ cube_flat.faces.length = 12 ∧
    (∀ f ∈ cube_flat.faces, cube_flat.boundary f = false ∧
      (cube_flat.fdegree 36 f).toOption = some 3) ∧
    (∀ e ∈ cube_flat.edges, cube_flat.vertex (cube_flat.ehalfedge e) ≠
      cube_flat.vertex (cube_flat.twin (cube_flat.ehalfedge e))) ∧
    (cube_flat.edges.map cube_addr).Nodup ∧
    ∃ m', (∀ k, simplify exact cube_addr cube_flat (36 + k) = .ok (false, m')) ∧
      m'.faces = [0, 1, 2, 7] := by
  obtain ⟨a1, a2, a3, a4⟩ := cube_flat_triangles
  refine ⟨cube_flat_valid, a1, a2, a3, a4, ?_⟩
  obtain ⟨m', h, hP⟩ := returned_spec cube_flat_check
  exact ⟨m', fun k => simplify_mono _ _ _ _ k h, of_decide_eq_true hP⟩

/-- C25 (amended): on a mesh with at least 8 faces that are not boundary faces, all of them
passing the triangle test of line 1332, a call of simplify that returns false returns from
line 1380: the counter is over the quarter of the number of faces at entry and over 2, the
queue is empty, and no edge of the mesh passes the test of lines 1373-1375. The exit of
line 1369 (counter at most 2) is never taken. -/
theorem C25_simplify_false_means_no_edge_left (g : Geometry) (addr : Nat → Nat)
    (m : Halfedge_Mesh) (fuel : Nat) (m' : Halfedge_Mesh) (hF : 8 ≤ m.inner_faces)
    (htri : ∀ f ∈ m.faces, m.boundary f = false →
      m.next (m.next (m.next (m.fhalfedge f))) = m.fhalfedge f)
    (h : simplify g addr m fuel = .ok (false, m')) :
    ∃ s0 s, simplify_init g addr m fuel = .ok (some ((m.inner_faces : Int), s0)) ∧
      simplify_loop addr fuel (m.inner_faces : Int) fuel s0 = .ok (false, s) ∧ s.mesh = m' ∧
      (m.inner_faces : Int) / 4 < s.currentFaceCount ∧ 2 < s.currentFaceCount ∧
      s.edge_queue.queue = [] ∧ ∀ e ∈ m'.edges, eligible m' fuel e = .ok false := by
  obtain ⟨s0, s, h0, h1, h2⟩ := simplify_run g addr m fuel h (Or.inr htri)
  obtain ⟨-, i⟩ := simplify_loop_outcome addr fuel _ fuel s0 false s h1
  obtain ⟨i1, i2⟩ := i rfl
  have h8 : (2 : Int) ≤ (m.inner_faces : Int) / 4 := by omega
  have h3 : 2 < s.currentFaceCount := by omega
  rcases i2 with c | ⟨c1, c2⟩
  · omega
  · refine ⟨s0, s, h0, h1, h2, i1, h3, c1, ?_⟩
    rw [← h2]
    exact c2

/-! ## The queue of the records -/

theorem set_find_false {α : Type} {lt : α → α → Bool} (hlt : StrictWeak lt) (x : α)
    (l : List α) (hs : l.Pairwise (fun a b => lt a b = true))
    (h : set_find lt x l = false) : ∀ y ∈ l, lt x y = true ∨ lt y x = true := by
  induction l with
  | nil => intro y hy; exact absurd hy (List.not_mem_nil y)
  | cons a l ih =>
    rw [List.pairwise_cons] at hs
    intro y hy
    unfold set_find at h
    split_ifs at h with c1 c2
    · rcases List.mem_cons.1 hy with rfl | hy
      · exact Or.inl c1
      · exact Or.inl (hlt.trans _ _ _ c1 (hs.1 y hy))
    · rcases List.mem_cons.1 hy with rfl | hy
      · exact Or.inr c2
      · exact ih hs.2 h y hy

theorem set_erase_mem {α : Type} {lt : α → α → Bool} (hlt : StrictWeak lt) (x : α)
    (l : List α) (hs : l.Pairwise (fun a b => lt a b = true)) :
    ∀ y ∈ set_erase lt x l, y ∈ l ∧ (lt x y = true ∨ lt y x = true) := by
  induction l with
  | nil => intro y hy; simp [set_erase] at hy
  | cons a l ih =>
    rw [List.pairwise_cons] at hs
    intro y hy
    unfold set_erase at hy
    split_ifs at hy with c1 c2
    · refine ⟨hy, ?_⟩
      rcases List.mem_cons.1 hy with rfl | hy
      · exact Or.inl c1
      · exact Or.inl (hlt.trans _ _ _ c1 (hs.1 y hy))
    · rcases List.mem_cons.1 hy with rfl | hy
      · exact ⟨List.mem_cons_self _ _, Or.inr c2⟩
      · exact ⟨List.mem_cons_of_mem _ (ih hs.2 y hy).1, (ih hs.2 y hy).2⟩
    · refine ⟨List.mem_cons_of_mem _ hy, ?_⟩
      rcases hlt.incomp a y x (hs.1 y hy) with c | c
      · exact absurd c c2
      · exact Or.inl c

/-- After `remove(item)` on a queue in increasing order, the queue is in increasing order,
holds only elements that it held, and none that is equivalent to the item. -/
theorem PQueue.remove_spec {α : Type} {lt : α → α → Bool} (hlt : StrictWeak lt)
    (q : PQueue α) (x : α) (hs : q.queue.Pairwise (fun a b => lt a b = true)) :
    (q.remove lt x).queue.Pairwise (fun a b => lt a b = true) ∧
    ∀ y ∈ (q.remove lt x).queue, y ∈ q.queue ∧ (lt x y = true ∨ lt y x = true) := by
  unfold PQueue.remove
  by_cases c : set_find lt x q.queue = true
  · rw [if_pos c]
    exact ⟨hs.sublist (set_erase_sublist lt x q.queue), set_erase_mem hlt x q.queue hs⟩
  · rw [if_neg c]
    simp only [Bool.not_eq_true] at c
    exact ⟨hs, fun y hy => ⟨hy, set_find_false hlt x q.queue hs c y hy⟩⟩

theorem Edge_Record.build_edge (m : Halfedge_Mesh) (vq : Nat → Mat4) (e : Nat) :
    (Edge_Record.build m vq e).edge = e := rfl

/-- The statements `record = edge_records[e]; edge_queue.remove(record);` keep the
invariant of the queue and leave no record of the edge `e` in it. -/
theorem remove_record_spec (addr : Nat → Nat) (s : Simplify_State) (e : Nat)
    (hq : QInv addr s) :
    QInv addr (s.remove_record addr e) ∧
    ∀ r ∈ (s.remove_record addr e).edge_queue.queue, r ∈ s.edge_queue.queue ∧ r.edge ≠ e := by
  obtain ⟨h1, h2⟩ := PQueue.remove_spec (Edge_Record.lt_strict_weak addr) s.edge_queue
    (s.edge_records e) hq.1
  refine ⟨⟨h1, fun r hr => hq.2 r (h2 r hr).1⟩, fun r hr => ⟨(h2 r hr).1, fun c => ?_⟩⟩
  have hr' := hq.2 r (h2 r hr).1
  rw [c] at hr'
  have := (h2 r hr).2
  rw [hr', or_self, (Edge_Record.lt_strict_weak addr).irrefl] at this
  exact absurd this (by simp)

/-- The statements `edge_records[e] = Edge_Record(vertex_quadrics, e);
edge_queue.insert(edge_records[e]);` keep the invariant of the queue when every record of
the edge `e` that the queue holds is the record being built. -/
theorem insert_record_spec (addr : Nat → Nat) (s : Simplify_State) (e : Nat)
    (hq : QInv addr s)
    (he : ∀ r ∈ s.edge_queue.queue, r.edge = e →
      r = Edge_Record.build s.mesh s.vertex_quadrics e) :
    QInv addr (s.insert_record addr e) ∧
    ∀ r ∈ (s.insert_record addr e).edge_queue.queue,
      r ∈ s.edge_queue.queue ∨ r = Edge_Record.build s.mesh s.vertex_quadrics e := by
  have hm : ∀ r ∈ (s.insert_record addr e).edge_queue.queue,
      r = Edge_Record.build s.mesh s.vertex_quadrics e ∨ r ∈ s.edge_queue.queue :=
    set_insert_mem _ _ _
  refine ⟨⟨set_insert_sorted (Edge_Record.lt_strict_weak addr) _ _ hq.1, fun r hr => ?_⟩,
    fun r hr => (hm r hr).symm⟩
  show upd s.edge_records e (Edge_Record.build s.mesh s.vertex_quadrics e) r.edge = r
  rcases hm r hr with c | c
  · rw [c, Edge_Record.build_edge, upd_same]
  · by_cases ce : r.edge = e
    · rw [ce, upd_same, he r c ce]
    · rw [upd_other _ _ _ _ ce]
      exact hq.2 r c

/-! ## The loops around a vertex, half-edge by half-edge -/

theorem Valid.vertex_iter_rot {m : Halfedge_Mesh} (hv : Valid m) {h : Nat} (hh : m.live_h h)
    (n : Nat) : m.vertex (m.rot^[n] h) = m.vertex h := by
  induction n with
  | zero => rfl
  | succ n ih =>
    rw [Function.iterate_succ_apply', hv.vertex_rot (hv.live_iter_rot hh n), ih]

/-- On a valid mesh a loop around a vertex ends after it has run its body for the half-edges
`rot^[j] hStart`, `j < d`, which are live half-edges of the vertex of `hStart`, and every
live half-edge of that vertex is one of them. -/
theorem around_orbit {σ : Type} {m : Halfedge_Mesh} (hv : Valid m) {hStart : Nat}
    (hh : m.live_h hStart) {fuel : Nat} (hfuel : m.halfedges.length ≤ fuel)
    (body : Nat → σ → Except Fault σ) (I : Nat → σ → Prop)
    (hbody : ∀ j s, m.live_h (m.rot^[j] hStart) →
      m.vertex (m.rot^[j] hStart) = m.vertex hStart → I j s →
      ∃ s', body (m.rot^[j] hStart) s = .ok s' ∧ I (j + 1) s') (s : σ) (hI : I 0 s) :
    ∃ d s', 0 < d ∧ around m hStart body fuel hStart s = .ok s' ∧ I d s' ∧
      ∀ h, m.live_h h → m.vertex h = m.vertex hStart → ∃ j, j < d ∧ h = m.rot^[j] hStart := by
  obtain ⟨d, h1, h2, h3, h4⟩ := hv.vdegree_spec hh hfuel
  have hdle : d ≤ fuel := by
    unfold vdegree at h1
    have := (count_loop_sound m.rot _ fuel 0 d h1).2.1
    omega
  have := around_inv m hStart body I d h3 h4
    (fun j s _ hs => hbody j s (hv.live_iter_rot hh j) (hv.vertex_iter_rot hh j) hs)
    fuel 0 s h2 (by omega) hI
  rw [Function.iterate_zero, id] at this
  obtain ⟨s', a1, a2⟩ := this
  refine ⟨d, s', h2, a1, a2, fun h lh hvx => ?_⟩
  have ls := hv.live_vhalfedge (hv.live_vertex hh)
  obtain ⟨i, -, hi⟩ := hv.vertex_orbit hStart hh.1 hh
  obtain ⟨k, -, hk⟩ := hv.vertex_orbit h lh.1 lh
  rw [hvx] at hk
  obtain ⟨p, hp0, -, hp⟩ := hv.rot_period ls
  obtain ⟨j, hj⟩ := orbit_of_orbit m.rot _ p hp0 hp i k
  rw [hk, hi] at hj
  refine ⟨j % d, Nat.mod_lt _ h2, ?_⟩
  rw [hj]
  conv_lhs => rw [← Nat.div_add_mod j d, Nat.add_comm, Function.iterate_add_apply,
    iterate_mul_period m.rot hStart d h3]

/-! ## An iteration of the decimation loop and the queue -/

/-- The loops of lines 1401-1421 on a valid mesh: the records of all the edges around the
vertex of `hStart` are taken out of the queue, and nothing else changes. -/
theorem remove_loop_queue (addr : Nat → Nat) {M : Halfedge_Mesh} (hv : Valid M)
    {hStart : Nat} (hh : M.live_h hStart) {fuel : Nat} (hfuel : M.halfedges.length ≤ fuel)
    (s : Simplify_State) (hs : s.mesh = M) (hq : QInv addr s) :
    ∃ s', around M hStart (remove_body addr) fuel hStart s = .ok s' ∧ s'.mesh = M ∧
      s'.currentFaceCount = s.currentFaceCount ∧ s'.vertex_quadrics = s.vertex_quadrics ∧
      s'.edge_records = s.edge_records ∧ QInv addr s' ∧
      (∀ r ∈ s'.edge_queue.queue, r ∈ s.edge_queue.queue) ∧
      ∀ h, M.live_h h → M.vertex h = M.vertex hStart →
        ∀ r ∈ s'.edge_queue.queue, r.edge ≠ M.edge h := by
  obtain ⟨d, s', -, h1, h2, h3⟩ := around_orbit hv hh hfuel (remove_body addr)
    (fun j t => t.mesh = M ∧ t.currentFaceCount = s.currentFaceCount ∧
      t.vertex_quadrics = s.vertex_quadrics ∧ t.edge_records = s.edge_records ∧
      QInv addr t ∧ (∀ r ∈ t.edge_queue.queue, r ∈ s.edge_queue.queue) ∧
      ∀ i, i < j → ∀ r ∈ t.edge_queue.queue, r.edge ≠ M.edge (M.rot^[i] hStart))
    (fun j t _ _ ht => by
      obtain ⟨t1, t2, t3, t4, t5, t6, t7⟩ := ht
      obtain ⟨r1, r2⟩ := remove_record_spec addr t (t.mesh.edge (M.rot^[j] hStart)) t5
      refine ⟨_, rfl, t1, t2, t3, t4, r1, fun r hr => t6 r (r2 r hr).1, fun i hi r hr => ?_⟩
      rcases Nat.lt_succ_iff_lt_or_eq.1 hi with c | c
      · exact t7 i c r (r2 r hr).1
      · have h2 := (r2 r hr).2
        rw [t1] at h2
        rw [c]
        exact h2)
    s ⟨hs, rfl, rfl, rfl, hq, fun r hr => hr, fun i hi => absurd hi (Nat.not_lt_zero i)⟩
  obtain ⟨a1, a2, a3, a4, a5, a6, a7⟩ := h2
  refine ⟨s', h1, a1, a2, a3, a4, a5, a6, fun h lh hvx r hr => ?_⟩
  obtain ⟨j, hj, rfl⟩ := h3 h lh hvx
  exact a7 j hj r hr

/-- The loops of lines 1443-1482 on a valid mesh: a record is put in the queue for the
edges around the vertex of `hStart` that are not the chosen edge and that pass the test, and
nothing else changes. The set `S` holds the edges around the vertex; no record of an edge of
`S` is in the queue unless it is the record that the loop builds. -/
theorem reset_loop_queue (addr : Nat → Nat) {M : Halfedge_Mesh} (hv : Valid M)
    {hStart : Nat} (hh : M.live_h hStart) {fuel : Nat} (hfuel : M.halfedges.length ≤ fuel)
    (chosen_e : Nat) (S : Nat → Prop)
    (hS : ∀ h, M.live_h h → M.vertex h = M.vertex hStart → S (M.edge h))
    (s : Simplify_State) (hs : s.mesh = M) (hq : QInv addr s)
    (hK : ∀ r ∈ s.edge_queue.queue, S r.edge →
      r = Edge_Record.build M s.vertex_quadrics r.edge) :
    ∃ s', around M hStart (reset_body addr fuel chosen_e) fuel hStart s = .ok s' ∧
      s'.mesh = M ∧ s'.currentFaceCount = s.currentFaceCount ∧
      s'.vertex_quadrics = s.vertex_quadrics ∧ QInv addr s' ∧
      (∀ r ∈ s'.edge_queue.queue, S r.edge →
        r = Edge_Record.build M s.vertex_quadrics r.edge) ∧
      ∀ r ∈ s'.edge_queue.queue, r ∈ s.edge_queue.queue ∨
        (r.edge ≠ chosen_e ∧ (∃ h, M.live_h h ∧ M.vertex h = M.vertex hStart ∧
          M.edge h = r.edge) ∧ eligible M fuel r.edge = .ok true ∧
          r = Edge_Record.build M s.vertex_quadrics r.edge) := by
  obtain ⟨d, s', -, h1, h2, -⟩ := around_orbit hv hh hfuel (reset_body addr fuel chosen_e)
    (fun _ t => t.mesh = M ∧ t.currentFaceCount = s.currentFaceCount ∧
      t.vertex_quadrics = s.vertex_quadrics ∧ QInv addr t ∧
      (∀ r ∈ t.edge_queue.queue, S r.edge →
        r = Edge_Record.build M s.vertex_quadrics r.edge) ∧
      ∀ r ∈ t.edge_queue.queue, r ∈ s.edge_queue.queue ∨
        (r.edge ≠ chosen_e ∧ (∃ h, M.live_h h ∧ M.vertex h = M.vertex hStart ∧
          M.edge h = r.edge) ∧ eligible M fuel r.edge = .ok true ∧
          r = Edge_Record.build M s.vertex_quadrics r.edge))
    (fun j t lj vj ht => by
      obtain ⟨t1, t2, t3, t4, t5, t6⟩ := ht
      unfold reset_body
      dsimp only
      rw [t1]
      by_cases c : M.edge (M.rot^[j] hStart) = chosen_e
      · rw [if_neg (not_not.2 c)]
        exact ⟨t, rfl, t1, t2, t3, t4, t5, t6⟩
      · rw [if_pos c]
        obtain ⟨b, -, -, hb, -⟩ := eligible_spec hv (hv.live_edge lj) hfuel
        rw [hb, ok_bind]
        cases b with
        | false => exact ⟨t, rfl, t1, t2, t3, t4, t5, t6⟩
        | true =>
          have hE : Edge_Record.build t.mesh t.vertex_quadrics (M.edge (M.rot^[j] hStart)) =
              Edge_Record.build M s.vertex_quadrics (M.edge (M.rot^[j] hStart)) := by
            rw [t1, t3]
          obtain ⟨r1, r2⟩ := insert_record_spec addr t (M.edge (M.rot^[j] hStart)) t4
            (fun r hr he => by rw [hE, ← he]; exact t5 r hr (he ▸ hS _ lj vj))
          refine ⟨_, rfl, t1, t2, t3, r1, fun r hr hrS => ?_, fun r hr => ?_⟩
          · rcases r2 r hr with c1 | c1
            · exact t5 r c1 hrS
            · rw [c1, hE, Edge_Record.build_edge]
          · rcases r2 r hr with c1 | c1
            · exact t6 r c1
            · right
              rw [c1, hE, Edge_Record.build_edge]
              exact ⟨c, ⟨_, lj, vj, rfl⟩, hb, rfl⟩)
    s ⟨hs, rfl, rfl, hq, hK, fun r hr => Or.inl hr⟩
  obtain ⟨a1, a2, a3, a4, a5, a6⟩ := h2
  exact ⟨s', h1, a1, a2, a3, a4, a5, a6⟩

/-- The removal of the elements marked erased does nothing when none is. -/
theorem do_erase_eq {m : Halfedge_Mesh} (h : m.no_pending) : m.do_erase = m := by
  obtain ⟨h1, h2, h3, h4⟩ := h
  cases m
  simp only at h1 h2 h3 h4
  subst h1 h2 h3 h4
  simp [do_erase]

/-- A call of collapse_edge that returns the absent result leaves the mesh as it is. -/
theorem collapse_edge_none {m m' : Halfedge_Mesh} {fuel e : Nat}
    (h : m.collapse_edge fuel e = .ok (none, m')) : m' = m := by
  unfold collapse_edge at h
  dsimp only at h
  have key : ∀ {x : Except Fault (Option Nat × Halfedge_Mesh)},
      x = .ok (none, m) → x = .ok (none, m') → m' = m := by
    intro x h1 h2
    rw [h1] at h2
    simp only [Except.ok.injEq, Prod.mk.injEq, true_and] at h2
    exact h2.symm
  obtain ⟨d1, -, h⟩ := bind_eq_ok.1 h
  by_cases c1 : d1 ≤ 2
  · rw [if_pos c1] at h
    exact key rfl h
  rw [if_neg c1] at h
  obtain ⟨d0, -, h⟩ := bind_eq_ok.1 h
  by_cases c0 : d0 ≤ 2
  · rw [if_pos c0] at h
    exact key rfl h
  rw [if_neg c0] at h
  by_cases cv : m.vertex (m.ehalfedge e) = m.vertex (m.twin (m.ehalfedge e))
  · rw [if_pos cv] at h
    exact key rfl h
  rw [if_neg cv] at h
  obtain ⟨x, -, h⟩ := bind_eq_ok.1 h
  simp only [Except.ok.injEq, Prod.mk.injEq] at h
  exact absurd h.1 (by simp)

/-- What the test of lines 1373-1375 grants when it holds. -/
theorem eligible_true {m : Halfedge_Mesh} {fuel e : Nat} (h : eligible m fuel e = .ok true) :
    ∃ d0 d1, m.vdegree fuel (m.vertex (m.ehalfedge e)) = .ok d0 ∧ 2 < d0 ∧
      m.vdegree fuel (m.vertex (m.twin (m.ehalfedge e))) = .ok d1 ∧ 2 < d1 ∧
      m.vertex (m.twin (m.ehalfedge e)) ≠ m.vertex (m.ehalfedge e) := by
  unfold eligible at h
  obtain ⟨d0, hd0, h⟩ := bind_eq_ok.1 h
  split_ifs at h with c0
  · obtain ⟨d1, hd1, h⟩ := bind_eq_ok.1 h
    split_ifs at h with c1
    · simp only [Except.ok.injEq, decide_eq_true_eq] at h
      exact ⟨d0, d1, hd0, c0, hd1, c1, h⟩
    · simp at h
  · simp at h

/-- An iteration of the decimation loop in which collapse_edge_erase refuses the chosen
edge, on a valid mesh without pending erasures and with the invariant of the queue. -/
theorem decimate_refused (addr : Nat → Nat) (fuel : Nat) (s : Simplify_State)
    (b : Edge_Record) (M1 : Halfedge_Mesh) (hv : Valid s.mesh) (hnp : s.mesh.no_pending)
    (hfuel : s.mesh.halfedges.length ≤ fuel) (htop : s.edge_queue.top = .ok b)
    (he : s.mesh.live_e b.edge) (hq : QInv addr s)
    (hc : s.mesh.collapse_edge_erase fuel b.edge = .ok (none, M1)) :
    ∃ s', decimate addr fuel s = .ok s' ∧ s'.mesh = s.mesh ∧
      s'.currentFaceCount = s.currentFaceCount ∧
      s'.vertex_quadrics = s.vertex_quadrics ∧ QInv addr s' ∧
      (∀ r ∈ s'.edge_queue.queue, r.edge ≠ b.edge) ∧
      ∀ r ∈ s'.edge_queue.queue, r ∈ s.edge_queue.queue ∨
        (r.edge ≠ b.edge ∧
          (∃ h, s.mesh.live_h h ∧ (s.mesh.vertex h = s.mesh.vertex (s.mesh.ehalfedge b.edge) ∨
            s.mesh.vertex h = s.mesh.vertex (s.mesh.twin (s.mesh.ehalfedge b.edge))) ∧
            s.mesh.edge h = r.edge) ∧
          eligible s.mesh fuel r.edge = .ok true ∧
          r = Edge_Record.build s.mesh s.vertex_quadrics r.edge) := by
  have l0 := hv.live_ehalfedge he
  have l1 := hv.live_twin l0
  have hM1 : M1 = s.mesh := by
    unfold collapse_edge_erase at hc
    obtain ⟨x, hx, hc⟩ := bind_eq_ok.1 hc
    obtain ⟨x1, x2⟩ := x
    simp only [Except.ok.injEq, Prod.mk.injEq] at hc
    obtain ⟨rfl, rfl⟩ := hc
    rw [collapse_edge_none hx, do_erase_eq hnp]
  subst hM1
  obtain ⟨s2, a1, a2, a3, a4, a5, a6, a7, a8⟩ := remove_loop_queue addr hv l0 hfuel
    { s with currentFaceCount :=
      if s.mesh.on_boundary b.edge then s.currentFaceCount - 1 else s.currentFaceCount - 2 }
    rfl hq
  obtain ⟨s3, b1, b2, b3, b4, b5, b6, b7, b8⟩ := remove_loop_queue addr hv l1 hfuel s2 a2 a6
  -- the edges around the two endpoints
  let S : Nat → Prop := fun e => ∃ h, s.mesh.live_h h ∧
    (s.mesh.vertex h = s.mesh.vertex (s.mesh.ehalfedge b.edge) ∨
      s.mesh.vertex h = s.mesh.vertex (s.mesh.twin (s.mesh.ehalfedge b.edge))) ∧
    s.mesh.edge h = e
  have hS3 : ∀ r ∈ s3.edge_queue.queue, ¬ S r.edge := by
    rintro r hr ⟨h, lh, hvx | hvx, hed⟩
    · exact a8 h lh hvx r (b7 r hr) hed.symm
    · exact b8 h lh hvx r hr hed.symm
  have hq3 : QInv addr { s3 with mesh := s.mesh } := b6
  obtain ⟨s4, c1, c2, c3, c4, c5, c6, c7⟩ := reset_loop_queue addr hv l0 hfuel b.edge S
    (fun h lh hvx => ⟨h, lh, Or.inl hvx, rfl⟩) { s3 with mesh := s.mesh } rfl hq3
    (fun r hr hrS => absurd hrS (hS3 r hr))
  obtain ⟨s5, d1, d2, d3, d4, d5, d6, d7⟩ := reset_loop_queue addr hv l1 hfuel b.edge S
    (fun h lh hvx => ⟨h, lh, Or.inr hvx, rfl⟩) s4 c2 c5
    (fun r hr hrS => by rw [c4]; exact c6 r hr hrS)
  have hvq : s3.vertex_quadrics = s.vertex_quadrics := b4.trans a4
  have hvq4 : s4.vertex_quadrics = s.vertex_quadrics := c4.trans hvq
  have hedge : s.mesh.edge (s.mesh.ehalfedge b.edge) = b.edge := (hv.edge_he _ he.1 he).2
  refine ⟨{ s5 with currentFaceCount :=
      if s5.mesh.on_boundary b.edge then s5.currentFaceCount + 1
      else s5.currentFaceCount + 2 }, ?_, d2, ?_, d4.trans hvq4, d5, fun r hr => ?_,
    fun r hr => ?_⟩
  · unfold decimate
    rw [htop, ok_bind]
    dsimp only
    rw [a1, ok_bind, a2, b1, ok_bind, b2, hc, ok_bind]
    dsimp only
    rw [c1, ok_bind, c2, d1, ok_bind]
  · show (if s5.mesh.on_boundary b.edge then s5.currentFaceCount + 1
      else s5.currentFaceCount + 2) = s.currentFaceCount
    rw [d2, d3, c3]
    show (if s.mesh.on_boundary b.edge then s3.currentFaceCount + 1
      else s3.currentFaceCount + 2) = s.currentFaceCount
    rw [b3, a3]
    show (if s.mesh.on_boundary b.edge then
      (if s.mesh.on_boundary b.edge then s.currentFaceCount - 1
        else s.currentFaceCount - 2) + 1
      else (if s.mesh.on_boundary b.edge then s.currentFaceCount - 1
        else s.currentFaceCount - 2) + 2) = s.currentFaceCount
    split_ifs <;> omega
  · have hr5 : r ∈ s5.edge_queue.queue := hr
    rcases d7 r hr5 with k | ⟨k, -⟩
    · rcases c7 r k with k' | ⟨k', -⟩
      · have hr3 : r ∈ s3.edge_queue.queue := k'
        intro ce
        exact a8 _ l0 rfl r (b7 r hr3) (ce.trans hedge.symm)
      · exact k'
    · exact k
  · have hr5 : r ∈ s5.edge_queue.queue := hr
    rcases d7 r hr5 with k | ⟨k1, ⟨h, lh, hvx, hed⟩, k3, k4⟩
    · rcases c7 r k with k' | ⟨k1, ⟨h, lh, hvx, hed⟩, k3, k4⟩
      · have hr3 : r ∈ s3.edge_queue.queue := k'
        exact Or.inl (a7 r (b7 r hr3))
      · refine Or.inr ⟨k1, ⟨h, lh, Or.inl hvx, hed⟩, k3, ?_⟩
        rw [k4]
        show Edge_Record.build s.mesh s3.vertex_quadrics _ = _
        rw [hvq, Edge_Record.build_edge]
    · refine Or.inr ⟨k1, ⟨h, lh, Or.inr hvx, hed⟩, k3, ?_⟩
      rw [k4, hvq4, Edge_Record.build_edge]

/-- C32: an iteration of the decimation loop of simplify in which collapse_edge_erase
refuses the chosen edge, begun on a valid mesh without pending erasures with the queue in
order and its records equal to the entries of the table: the iteration ends, the mesh is
the same, the counter has the value it had at the start of the iteration, no record of the
chosen edge is in the queue, and every record of the queue that was not in it at the start
belongs to an edge other than the chosen one, with a half-edge at one of the endpoints of
the chosen edge, and whose two endpoints are different vertices of degree more than 2. -/
theorem C32_refused_iteration (addr : Nat → Nat) (fuel : Nat) (s : Simplify_State)
    (b : Edge_Record) (M1 : Halfedge_Mesh) (hv : Valid s.mesh) (hnp : s.mesh.no_pending)
    (hfuel : s.mesh.halfedges.length ≤ fuel) (htop : s.edge_queue.top = .ok b)
    (he : s.mesh.live_e b.edge) (hq : QInv addr s)
    (hc : s.mesh.collapse_edge_erase fuel b.edge = .ok (none, M1)) :
    ∃ s', decimate addr fuel s = .ok s' ∧ M1 = s.mesh ∧ s'.mesh = s.mesh ∧
      s'.currentFaceCount = s.currentFaceCount ∧
      (∀ r ∈ s'.edge_queue.queue, r.edge ≠ b.edge) ∧
      ∀ r ∈ s'.edge_queue.queue, r ∉ s.edge_queue.queue →
        r.edge ≠ b.edge ∧
        (∃ h, s.mesh.live_h h ∧ (s.mesh.vertex h = s.mesh.vertex (s.mesh.ehalfedge b.edge) ∨
          s.mesh.vertex h = s.mesh.vertex (s.mesh.twin (s.mesh.ehalfedge b.edge))) ∧
          s.mesh.edge h = r.edge) ∧
        ∃ d0 d1, s.mesh.vdegree fuel (s.mesh.vertex (s.mesh.ehalfedge r.edge)) = .ok d0 ∧
          2 < d0 ∧
          s.mesh.vdegree fuel (s.mesh.vertex (s.mesh.twin (s.mesh.ehalfedge r.edge))) =
            .ok d1 ∧ 2 < d1 ∧
          s.mesh.vertex (s.mesh.twin (s.mesh.ehalfedge r.edge)) ≠
            s.mesh.vertex (s.mesh.ehalfedge r.edge) := by
  obtain ⟨s', h1, h2, h3, -, -, h6, h7⟩ :=
    decimate_refused addr fuel s b M1 hv hnp hfuel htop he hq hc
  have hM1 : M1 = s.mesh := by
    unfold collapse_edge_erase at hc
    obtain ⟨x, hx, hc⟩ := bind_eq_ok.1 hc
    obtain ⟨x1, x2⟩ := x
    simp only [Except.ok.injEq, Prod.mk.injEq] at hc
    obtain ⟨rfl, rfl⟩ := hc
    rw [collapse_edge_none hx, do_erase_eq hnp]
  refine ⟨s', h1, hM1, h2, h3, h6, fun r hr hn => ?_⟩
  rcases h7 r hr with c | ⟨c1, c2, c3, -⟩
  · exact absurd c hn
  · exact ⟨c1, c2, eligible_true c3⟩

theorem addr_first_injective (e0 : Nat) : Function.Injective (addr_first e0) := by
  intro a b h
  unfold addr_first at h
  by_cases c1 : a = e0
  · by_cases c2 : b = e0
    · exact c1.trans c2.symm
    · rw [if_pos c1, if_neg c2] at h
      omega
  · by_cases c2 : b = e0
    · rw [if_neg c1, if_pos c2] at h
      omega
    · rw [if_neg c1, if_neg c2] at h
      omega

/-! ## The queue after the initialisation -/

theorem set_insert_keeps {α : Type} (lt : α → α → Bool) (x : α) (l : List α) :
    ∀ y ∈ l, y ∈ set_insert lt x l := by
  induction l with
  | nil => intro y hy; exact absurd hy (List.not_mem_nil y)
  | cons a l ih =>
    intro y hy
    unfold set_insert
    split_ifs with c1 c2
    · exact List.mem_cons_of_mem _ hy
    · rcases List.mem_cons.1 hy with rfl | hy
      · exact List.mem_cons_self _ _
      · exact List.mem_cons_of_mem _ (ih y hy)
    · exact hy

/-- After `insert(item)` the set holds the item or an element equivalent to it. -/
theorem set_insert_has {α : Type} (lt : α → α → Bool) (x : α) (l : List α) :
    x ∈ set_insert lt x l ∨ ∃ y ∈ l, lt x y = false ∧ lt y x = false := by
  induction l with
  | nil => left; simp [set_insert]
  | cons a l ih =>
    unfold set_insert
    split_ifs with c1 c2
    · exact Or.inl (List.mem_cons_self _ _)
    · rcases ih with c | ⟨y, hy, c⟩
      · exact Or.inl (List.mem_cons_of_mem _ c)
      · exact Or.inr ⟨y, List.mem_cons_of_mem _ hy, c⟩
    · exact Or.inr ⟨a, List.mem_cons_self _ _, by simpa using c1, by simpa using c2⟩

/-- Two records that the comparison does not tell apart belong to the same edge, when no
two edges are at the same address. -/
theorem Edge_Record.equiv_edge {addr : Nat → Nat} {S : Nat → Prop}
    (hinj : ∀ a b, S a → S b → addr a = addr b → a = b) {r1 r2 : Edge_Record}
    (h1 : Edge_Record.lt addr r1 r2 = false) (h2 : Edge_Record.lt addr r2 r1 = false)
    (s1 : S r1.edge) (s2 : S r2.edge) : r1.edge = r2.edge := by
  apply hinj _ _ s1 s2
  have a1 : ¬ (r1.cost < r2.cost ∨ (r1.cost = r2.cost ∧ addr r1.edge < addr r2.edge)) := by
    rw [← Edge_Record.lt_iff, h1]; simp
  have a2 : ¬ (r2.cost < r1.cost ∨ (r2.cost = r1.cost ∧ addr r2.edge < addr r1.edge)) := by
    rw [← Edge_Record.lt_iff, h2]; simp
  push_neg at a1 a2
  have hc : r1.cost = r2.cost := le_antisymm a2.1 a1.1
  have b1 := a1.2 hc
  have b2 := a2.2 hc.symm
  omega

/-- The loop of lines 1357-1361 over edges that are all different and at different
addresses: the queue is in order, its records are the entries of the table, and it holds
exactly one record for each edge of the list and the records it held. -/
theorem insert_fold_queue (addr : Nat → Nat) (S : Nat → Prop)
    (hinj : ∀ a b, S a → S b → addr a = addr b → a = b) :
    ∀ (es : List Nat) (s : Simplify_State), es.Nodup → (∀ e ∈ es, S e) → QInv addr s →
      (∀ r ∈ s.edge_queue.queue, S r.edge ∧ r.edge ∉ es) →
      QInv addr (es.foldl (fun s e => s.insert_record addr e) s) ∧
      (∀ r ∈ (es.foldl (fun s e => s.insert_record addr e) s).edge_queue.queue,
        r ∈ s.edge_queue.queue ∨ r.edge ∈ es) ∧
      ∀ e ∈ es, ∃ r ∈ (es.foldl (fun s e => s.insert_record addr e) s).edge_queue.queue,
        r.edge = e := by
  intro es
  induction es with
  | nil =>
    intro s _ _ hq _
    exact ⟨hq, fun r hr => Or.inl hr, fun e he => absurd he (List.not_mem_nil e)⟩
  | cons e es ih =>
    intro s hnd hS hq hfresh
    rw [List.nodup_cons] at hnd
    have he : ∀ r ∈ s.edge_queue.queue, r.edge = e →
        r = Edge_Record.build s.mesh s.vertex_quadrics e :=
      fun r hr c => absurd (c ▸ List.mem_cons_self e es) (hfresh r hr).2
    obtain ⟨q1, q2⟩ := insert_record_spec addr s e hq he
    have hin : Edge_Record.build s.mesh s.vertex_quadrics e ∈
        (s.insert_record addr e).edge_queue.queue := by
      rcases set_insert_has (Edge_Record.lt addr)
        (Edge_Record.build s.mesh s.vertex_quadrics e) s.edge_queue.queue with c | ⟨y, hy, c1, c2⟩
      · exact c
      · have := Edge_Record.equiv_edge hinj c1 c2
          (by rw [Edge_Record.build_edge]; exact hS e (List.mem_cons_self _ _)) (hfresh y hy).1
        rw [Edge_Record.build_edge] at this
        exact absurd (this ▸ List.mem_cons_self e es) (hfresh y hy).2
    obtain ⟨i1, i2, i3⟩ := ih (s.insert_record addr e) hnd.2
      (fun x hx => hS x (List.mem_cons_of_mem _ hx)) q1
      (fun r hr => by
        rcases q2 r hr with c | c
        · exact ⟨(hfresh r c).1, fun d => (hfresh r c).2 (List.mem_cons_of_mem _ d)⟩
        · rw [c, Edge_Record.build_edge]
          exact ⟨hS e (List.mem_cons_self _ _), hnd.1⟩)
    rw [List.foldl_cons]
    refine ⟨i1, fun r hr => ?_, fun x hx => ?_⟩
    · rcases i2 r hr with c | c
      · rcases q2 r c with d | d
        · exact Or.inl d
        · rw [d, Edge_Record.build_edge]
          exact Or.inr (List.mem_cons_self _ _)
      · exact Or.inr (List.mem_cons_of_mem _ c)
    · rcases List.mem_cons.1 hx with rfl | hx
      · refine ⟨_, ?_, Edge_Record.build_edge s.mesh s.vertex_quadrics x⟩
        have key : ∀ (l : List Nat) (t : Simplify_State) (r : Edge_Record),
            r ∈ t.edge_queue.queue →
            r ∈ (l.foldl (fun s e => s.insert_record addr e) t).edge_queue.queue := by
          intro l
          induction l with
          | nil => intro t r hr; exact hr
          | cons a l ihl =>
            intro t r hr
            rw [List.foldl_cons]
            exact ihl _ r (set_insert_keeps _ _ _ r hr)
        exact key es _ _ hin
      · exact i3 x hx

/-- The queue at the first head of the decimation loop, on a mesh whose edges are all
different, none marked erased, and at different addresses: the queue is in order, its
records are the entries of the table, all of edges of the mesh, and every edge of the mesh
has its record in the queue. -/
theorem simplify_init_queue (g : Geometry) (addr : Nat → Nat) (m : Halfedge_Mesh) (fuel : Nat)
    (hnd : m.edges.Nodup) (hne : m.eerased = [])
    (hinj : ∀ a b, a ∈ m.edges → b ∈ m.edges → addr a = addr b → a = b)
    {n : Int} {s : Simplify_State} (h : simplify_init g addr m fuel = .ok (some (n, s))) :
    QInv addr s ∧ QLive s ∧ ∀ e ∈ m.edges, ∃ r ∈ s.edge_queue.queue, r.edge = e := by
  have hmesh := (simplify_init_mesh g addr m fuel h).1
  unfold simplify_init at h
  cases hf : face_loop g m m.faces (fun _ => Mat4.Zero) 0 with
  | none =>
    rw [hf] at h
    simp at h
  | some x =>
    obtain ⟨fq, n'⟩ := x
    rw [hf] at h
    dsimp only at h
    obtain ⟨vq, -, h⟩ := bind_eq_ok.1 h
    simp only [Except.ok.injEq, Option.some.injEq, Prod.mk.injEq] at h
    obtain ⟨-, h2⟩ := h
    obtain ⟨a1, a2, a3⟩ := insert_fold_queue addr (fun e => e ∈ m.edges) hinj m.edges
      { mesh := m, vertex_quadrics := vq,
        edge_records := fun e => ⟨e, ⟨0, 0, 0⟩, Mat4.Zero, 0⟩, edge_queue := ⟨[]⟩,
        currentFaceCount := n' } hnd (fun e he => he)
      ⟨List.Pairwise.nil, fun r hr => absurd hr (List.not_mem_nil r)⟩
      (fun r hr => absurd hr (List.not_mem_nil r))
    rw [h2] at a1 a2 a3
    refine ⟨a1, fun r hr => ?_, a3⟩
    rw [hmesh]
    rcases a2 r hr with c | c
    · exact absurd c (List.not_mem_nil r)
    · exact ⟨c, by rw [hne]; exact List.not_mem_nil _⟩

set_option maxRecDepth 1000000 in
theorem kite_refusal_check :
    returned ((simplify_init exact (addr_first 9) kite 22).bind fun r =>
        match r with
        | some x => Except.ok x
        | none => .error .out_of_bounds) 4
      (fun s => decide (s.edge_queue.queue.head?.map (fun r => r.edge) = some 9)) = true ∧
    returned (kite.collapse_edge_erase 22 9) none (fun _ => true) = true := by
  decide!

set_option maxRecDepth 1000000 in
theorem quad_square_check :
    returned ((quad_square.bevel_face_positions exact false 8
        [⟨4, 0, 0⟩, ⟨0, 4, 0⟩, ⟨-4, 0, 0⟩, ⟨0, -4, 0⟩] 0 (-3) 3).bind fun m1 =>
      (m1.bevel_face_positions exact false 8
        [⟨4, 0, 0⟩, ⟨0, 4, 0⟩, ⟨-4, 0, 0⟩, ⟨0, -4, 0⟩] 0 (-3) 3).bind fun m2 =>
      .ok ((), (m1, m2))) ()
      (fun s => decide (s.1.pos 0 = ⟨1, 0, -3⟩) && decide (s.2.pos 0 = ⟨8 / 5, 0, -24 / 5⟩) &&
        decide (exact.center quad_square 0 = ⟨0, 0, 0⟩) &&
        decide (exact.center s.1 0 = ⟨0, 0, -3⟩) &&
        decide (exact.normal quad_square 0 = ⟨0, 0, 1⟩) &&
        decide (exact.normal s.1 0 = ⟨0, 0, 1⟩)) = true := by
  decide!

/-- C21 (bevel_face_positions is idempotent): on the square `quad_square`, whose vertices are
at the start positions, two calls in succession with the same start positions and the same
offsets (tangent offset -3, normal offset 3) do not leave the vertex 0 where the first call
put it. The first call reads the centre (0, 0, 0) of the face and puts the vertex 0 at
(1, 0, -3); the second call reads the centre of the face as the first call left it,
(0, 0, -3), so the tangent vector is (4, 0, 3) instead of (4, 0, 0), and puts the vertex 0
at (8/5, 0, -24/5). -/
theorem C21_bevel_face_positions_reads_current_positions :
    Valid quad_square ∧
    (∀ i, i < 4 → quad_square.pos i =
      ([⟨4, 0, 0⟩, ⟨0, 4, 0⟩, ⟨-4, 0, 0⟩, ⟨0, -4, 0⟩] : List Vec3).getD i ⟨0, 0, 0⟩) ∧
    ∃ m1 m2,
      quad_square.bevel_face_positions exact false 8
        [⟨4, 0, 0⟩, ⟨0, 4, 0⟩, ⟨-4, 0, 0⟩, ⟨0, -4, 0⟩] 0 (-3) 3 = .ok m1 ∧
      m1.bevel_face_positions exact false 8
        [⟨4, 0, 0⟩, ⟨0, 4, 0⟩, ⟨-4, 0, 0⟩, ⟨0, -4, 0⟩] 0 (-3) 3 = .ok m2 ∧
      m1.pos 0 = ⟨1, 0, -3⟩ ∧ m2.pos 0 = ⟨8 / 5, 0, -24 / 5⟩ ∧ m2.pos 0 ≠ m1.pos 0 ∧
      exact.center quad_square 0 = ⟨0, 0, 0⟩ ∧ exact.center m1 0 = ⟨0, 0, -3⟩ ∧
      exact.normal quad_square 0 = ⟨0, 0, 1⟩ ∧ exact.normal m1 0 = ⟨0, 0, 1⟩ := by
  refine ⟨quad_square_valid, fun i _ => rfl, ?_⟩
  obtain ⟨s, h, hP⟩ := returned_spec quad_square_check
  obtain ⟨m1, h1, h⟩ := bind_eq_ok.1 h
  obtain ⟨m2, h2, h⟩ := bind_eq_ok.1 h
  simp only [Except.ok.injEq, Prod.mk.injEq, true_and] at h
  subst h
  simp only [Bool.and_eq_true, decide_eq_true_eq] at hP
  obtain ⟨⟨⟨⟨⟨p1, p2⟩, p3⟩, p4⟩, p5⟩, p6⟩ := hP
  refine ⟨m1, m2, h1, h2, p1, p2, ?_, p3, p4, p5, p6⟩
  rw [p1, p2]
  intro c
  have := congrArg Vec3.x c
  norm_num at this

set_option maxRecDepth 1000000 in
theorem loop_fan_collapse_check :
    returned (loop_fan.collapse_edge 20 0) (some 0)
      (fun m => decide (m.live_f 1) && decide (m.fhalfedge 1 = 2) && decide (m.live_h 2) &&
        decide (m.face 2 = 1) && decide (m.next 2 = 3) && decide (3 ∈ m.herased) &&
        decide (m.twin 3 = 1) && decide (1 ∈ m.herased) && decide (1 ∈ m.eerased) &&
        decide (m.edge 3 = 1)) = true := by
  decide!

/-- C33 (code defect): on the valid mesh `loop_fan`, collapse_edge succeeds on the edge 0,
whose half-edge 0 lies in the face 0, a loop of three half-edges. The twin 3 of the
half-edge `h2 = h0->next()` is alone in the loop of the face 1; lines 102 and 109-113 set
`h4->next()` to `h2_twin->next()`, which is `h2_twin` itself, and `h2_twin->next()` to `h4`,
and line 182 erases `h2_twin`. After the call the face 1 is live, its half-edge is the live
half-edge 2 = `h4`, and the loop of `next` from it passes the erased half-edge 3. -/
theorem C33_collapse_leaves_erased_halfedge_in_face_loop :
    Valid loop_fan ∧ loop_fan.live_e 0 ∧ loop_fan.ehalfedge 0 = 0 ∧
    loop_fan.triangle 0 ∧ loop_fan.twin (loop_fan.next 0) = 3 ∧ loop_fan.next 3 = 3 ∧
    ∃ m', loop_fan.collapse_edge 20 0 = .ok (some 0, m') ∧
      m'.live_f 1 ∧ m'.fhalfedge 1 = 2 ∧ m'.live_h 2 ∧ m'.face 2 = 1 ∧
      m'.next 2 = 3 ∧ 3 ∈ m'.herased ∧ ¬ m'.live_h 3 := by
  obtain ⟨m', h, hP⟩ := returned_spec loop_fan_collapse_check
  simp only [Bool.and_eq_true, decide_eq_true_eq] at hP
  obtain ⟨⟨⟨⟨⟨⟨⟨⟨⟨a1, a2⟩, a3⟩, a4⟩, a5⟩, a6⟩, -⟩, -⟩, -⟩, -⟩ := hP
  exact ⟨loop_fan_valid, by decide, rfl, by decide, rfl, rfl, m', h, a1, a2, a3, a4, a5, a6,
    fun c => c.2 a6⟩

set_option maxRecDepth 1000000 in
theorem loop_fan_first_check :
    returned ((simplify_init exact (fun e => e) loop_fan 20).bind fun r =>
        match r with
        | some (n, s) => (decimate (fun e => e) 20 s).bind fun s1 => .ok (n, s1)
        | none => .error .out_of_bounds) 3
      (fun s1 => decide (s1.currentFaceCount = 2) &&
        decide (s1.mesh.edges = [2, 4, 5, 6, 7]) &&
        decide (s1.edge_queue.queue.map (fun r => r.edge) = [1, 2, 4, 5, 6, 7]) &&
        decide (s1.mesh.inner_faces = 2)) = true := by
  decide!

set_option maxRecDepth 1000000 in
theorem loop_fan_check :
    returned (simplify exact (fun e => e) loop_fan 20) false
      (fun m => decide (m.edges = [2, 4, 5, 6, 7])) = true := by
  decide!

/-- C36 (code defect): on the valid mesh `loop_fan`, whose three faces that are not boundary
faces are triangles, with the edges at the addresses of their ids, the queue at the first
head of the loop is in order, holds the records of the table and only records of live
edges. The first iteration collapses the edge 0 and with it erases the edge 1; the loop of
lines 1429-1435 around the surviving vertex then passes the erased half-edge 3, reached as
`next` of the half-edge 2, and inserts a record for its edge 1. At the second head of the
loop the counter 2 is over the quarter of 3, the queue holds a record of the edge 1, and
the edge 1 is no edge of the mesh. -/
theorem C36_queue_keeps_record_of_erased_edge :
    Valid loop_fan ∧
    (∀ f ∈ loop_fan.faces, loop_fan.boundary f = false →
      loop_fan.triangle (loop_fan.fhalfedge f)) ∧
    (∃ m', ∀ k, simplify exact (fun e => e) loop_fan (20 + k) = .ok (false, m')) ∧
    ∃ s0 s1, simplify_init exact (fun e => e) loop_fan 20 = .ok (some (3, s0)) ∧
      QInv (fun e => e) s0 ∧ QLive s0 ∧
      decimate (fun e => e) 20 s0 = .ok s1 ∧ s1.currentFaceCount = 2 ∧
      (3 : Int) / 4 < s1.currentFaceCount ∧
      (∃ r ∈ s1.edge_queue.queue, r.edge = 1) ∧ 1 ∉ s1.mesh.edges ∧ ¬ s1.mesh.live_e 1 ∧
      ¬ QLive s1 := by
  refine ⟨loop_fan_valid, by decide, ?_, ?_⟩
  · obtain ⟨m', h, -⟩ := returned_spec loop_fan_check
    exact ⟨m', fun k => simplify_mono _ _ _ _ k h⟩
  · obtain ⟨s1, h, hP⟩ := returned_spec loop_fan_first_check
    simp only [Bool.and_eq_true, decide_eq_true_eq] at hP
    obtain ⟨⟨⟨c1, c2⟩, c3⟩, -⟩ := hP
    obtain ⟨r, hr, h⟩ := bind_eq_ok.1 h
    cases r with
    | none => simp at h
    | some x =>
      obtain ⟨n, s0⟩ := x
      dsimp only at h
      obtain ⟨s1', hd, h⟩ := bind_eq_ok.1 h
      simp only [Except.ok.injEq, Prod.mk.injEq] at h
      obtain ⟨rfl, rfl⟩ := h
      obtain ⟨q1, q2, -⟩ := simplify_init_queue exact (fun e => e) loop_fan 20
        loop_fan_valid.nodup_e rfl (fun a b _ _ hab => hab) hr
      have hmem : ∃ r ∈ s1'.edge_queue.queue, r.edge = 1 := by
        have : (1 : Nat) ∈ s1'.edge_queue.queue.map (fun r => r.edge) := by
          rw [c3]
          decide
        obtain ⟨r, hr1, hr2⟩ := List.mem_map.1 this
        exact ⟨r, hr1, hr2⟩
      have hno : (1 : Nat) ∉ s1'.mesh.edges := by
        rw [c2]
        decide
      refine ⟨s0, s1', hr, q1, q2, hd, c1, ?_, hmem, hno, fun c => hno c.1, ?_⟩
      · rw [c1]
        decide
      · intro c
        obtain ⟨r, hr1, hr2⟩ := hmem
        have := c r hr1
        rw [hr2] at this
        exact hno this.1

/-- C34 (code defect): on the valid mesh `loop_edge`, whose edge 0 is a boundary edge,
split_edge accepts the edge 0, because three steps of `next` from the half-edge 0, alone in
the loop of the face 0, lead back to it. The half-edges `h0`, `h1` and `h2` of the source are
the same half-edge 0, and the assignments of lines 449-519 overwrite one another: after the
call only two half-edges start at the new vertex 6, the half-edge of the face 0, which is
not a boundary face, references the created face 9, the half-edges 2 and 3 have the same
`next`, and the mesh is not valid. -/
theorem C34_split_loop_edge_breaks_the_mesh :
    Valid loop_edge ∧ loop_edge.live_e 0 ∧ loop_edge.on_boundary 0 = true ∧
    loop_edge.next (loop_edge.split_h0 0) = loop_edge.split_h0 0 ∧
    ∃ m', loop_edge.split_edge 10 0 = .ok (some 6, m') ∧
      (m'.halfedges.filter (fun h => m'.vertex h = 6)).length = 2 ∧
      m'.live_f 0 ∧ m'.boundary 0 = false ∧ m'.face (m'.fhalfedge 0) = 9 ∧
      m'.live_h 2 ∧ m'.live_h 3 ∧ m'.next 2 = m'.next 3 ∧ ¬ Valid m' :=
  ⟨loop_edge_valid, by decide, rfl, rfl, _, rfl, by decide, by decide, by decide, by decide,
    by decide, by decide, by decide, by decide⟩

/-- C1 at the single quadrilateral: each of the four operators refuses its input there. -/
theorem C1_witness :
    (∃ m', quad.collapse_edge 10 0 = .ok (none, m') ∧ m' = quad) ∧
    (∃ m', quad.flip_edge 10 0 = .ok (none, m') ∧ m' = quad) ∧
    (∃ m', quad.split_edge 10 0 = .ok (none, m') ∧ m' = quad) ∧
    (quad.boundary 1 = true ∧ ∃ r m', quad.bevel_face 10 1 = .ok (r, m') ∧ m' = quad) :=
  ⟨⟨quad, rfl, (C1_refused_call_leaves_mesh_unchanged quad 10 0 1).1 quad rfl⟩,
   ⟨quad, rfl, (C1_refused_call_leaves_mesh_unchanged quad 10 0 1).2.1 quad rfl⟩,
   ⟨quad, rfl, (C1_refused_call_leaves_mesh_unchanged quad 10 0 1).2.2.1 quad rfl⟩,
   ⟨rfl, some 1, quad, rfl,
    (C1_refused_call_leaves_mesh_unchanged quad 10 0 1).2.2.2 rfl (some 1) quad rfl⟩⟩

/-- C2 at the bipyramid and at the quadrilateral: the edge 1 of the bipyramid, between the
vertices 2 and 3 of degree 4, is collapsed into the vertex 2 and the vertex 3 is marked
erased; the edge 0 of the quadrilateral, whose endpoints have degree 2, is refused. -/
theorem C2_witness :
    (∃ d0 d1 r m', bipyramid.vdegree 20 (bipyramid.vertex (bipyramid.ehalfedge 1)) = .ok d0 ∧
      bipyramid.vdegree 20 (bipyramid.vertex (bipyramid.twin (bipyramid.ehalfedge 1))) =
        .ok d1 ∧
      bipyramid.collapse_edge 20 1 = .ok (r, m') ∧
      (r = none ↔ (d0 ≤ 2 ∨ d1 ≤ 2 ∨ bipyramid.vertex (bipyramid.ehalfedge 1) =
        bipyramid.vertex (bipyramid.twin (bipyramid.ehalfedge 1)))) ∧
      (r ≠ none → r = some (bipyramid.vertex (bipyramid.ehalfedge 1)) ∧
        bipyramid.vertex (bipyramid.twin (bipyramid.ehalfedge 1)) ∈ m'.verased ∧
        m'.live_v (bipyramid.vertex (bipyramid.ehalfedge 1)))) ∧
    (∃ d0 d1 r m', quad.vdegree 10 (quad.vertex (quad.ehalfedge 0)) = .ok d0 ∧
      quad.vdegree 10 (quad.vertex (quad.twin (quad.ehalfedge 0))) = .ok d1 ∧
      quad.collapse_edge 10 0 = .ok (r, m') ∧
      (r = none ↔ (d0 ≤ 2 ∨ d1 ≤ 2 ∨ quad.vertex (quad.ehalfedge 0) =
        quad.vertex (quad.twin (quad.ehalfedge 0)))) ∧
      (r ≠ none → r = some (quad.vertex (quad.ehalfedge 0)) ∧
        quad.vertex (quad.twin (quad.ehalfedge 0)) ∈ m'.verased ∧
        m'.live_v (quad.vertex (quad.ehalfedge 0)))) :=
  ⟨C2_collapse_edge_result bipyramid 20 1 bipyramid_valid (by decide) (by decide),
   C2_collapse_edge_result quad 10 0 quad_valid (by decide) (by decide)⟩

/-- C4 at the bipyramid: the vertex 2 returned by the collapse of the edge 1 is at the
midpoint of the positions of the vertices 2 and 3. -/
theorem C4_witness :
    ∃ m', bipyramid.collapse_edge 20 1 = .ok (some 2, m') ∧
      m'.pos 2 = ((bipyramid.pos 2).add (bipyramid.pos 3)).div 2 := by
  obtain ⟨r, m', h, hp⟩ := C4_collapse_edge_midpoint bipyramid 20 1 bipyramid_valid
    (by decide) (by decide)
  have hr : ∃ m'', bipyramid.collapse_edge 20 1 = .ok (some 2, m'') := ⟨_, rfl⟩
  obtain ⟨m'', h2⟩ := hr
  rw [h2] at h
  simp only [Except.ok.injEq, Prod.mk.injEq] at h
  obtain ⟨rfl, rfl⟩ := h
  exact ⟨_, h2, (hp 2 rfl).2.1⟩

/-- C5 at the two quadrilaterals: collapsing their common edge succeeds and returns the
vertex 0, which stays live, but the half-edge of vertex 0 is still the half-edge 0 of the
collapsed edge, one of the half-edges the call has erased. -/
theorem C5_collapse_leaves_erased_halfedge_on_vertex :
    Valid two_quads ∧ two_quads.live_e 0 ∧
    ∃ m', two_quads.collapse_edge 20 0 = .ok (some 0, m') ∧ m'.live_v 0 ∧
      m'.vhalfedge 0 = 0 ∧ 0 ∈ m'.herased :=
  ⟨two_quads_valid, by decide, _, rfl, by decide, by decide, by decide⟩

/-- C6 at the two triangles: the common edge 0 is flipped, the boundary edge 1 is refused. -/
theorem C6_witness :
    (∃ r m', two_triangles.flip_edge 10 0 = .ok (r, m') ∧
      (r = none ↔ two_triangles.on_boundary 0 = true) ∧
      (two_triangles.on_boundary 0 = false → r = some 0)) ∧
    (∃ r m', two_triangles.flip_edge 10 1 = .ok (r, m') ∧
      (r = none ↔ two_triangles.on_boundary 1 = true) ∧
      (two_triangles.on_boundary 1 = false → r = some 1)) :=
  ⟨C6_flip_edge_result two_triangles 10 0 two_triangles_valid (by decide) (by decide),
   C6_flip_edge_result two_triangles 10 1 two_triangles_valid (by decide) (by decide)⟩

/-- C7 at the two triangles (0,1,2) and (1,0,3): after the flip of the common edge its
half-edges 0 and 3 start at the vertices 3 and 2. -/
theorem C7_witness :
    ∃ m', two_triangles.flip_edge 10 0 = .ok (some 0, m') ∧ m'.vertex 0 = 3 ∧ m'.vertex 3 = 2 ∧
      m'.triangle 0 ∧ m'.triangle 3 ∧ m'.n_faces = two_triangles.n_faces := by
  obtain ⟨-, m', h1, -, h3, h4, h5, h6⟩ := C7_flip_edge_two_triangles two_triangles 10 0
    two_triangles_valid (by decide) (by decide) (by decide) (by decide) (by decide) (by decide)
  exact ⟨m', h1, h3.1, h3.2, h4.1, h5.1, h6.2.2.2⟩

/-- C8 as stated fails at the two triangles (0,1,2) and (1,0,3): after two flips of the
common edge 0, its half-edge 0 starts at vertex 1 instead of vertex 0 and is followed by
half-edge 4 instead of half-edge 1. -/
theorem C8_counterexample :
    Valid two_triangles ∧ two_triangles.live_e 0 ∧ two_triangles.on_boundary 0 = false ∧
    two_triangles.triangle 0 ∧ two_triangles.triangle 3 ∧
    ∃ m1 m2, two_triangles.flip_edge 10 0 = .ok (some 0, m1) ∧
      m1.flip_edge 10 0 = .ok (some 0, m2) ∧
      two_triangles.vertex 0 = 0 ∧ m2.vertex 0 = 1 ∧
      two_triangles.next 0 = 1 ∧ m2.next 0 = 4 :=
  ⟨two_triangles_valid, by decide, by decide, by decide, by decide, _, _, rfl, rfl,
    by decide, by decide, by decide, by decide⟩

/-- The amended C8 at the two triangles. -/
theorem C8_witness :
    ∃ m1 m2, two_triangles.flip_edge 10 0 = .ok (some 0, m1) ∧
      m1.flip_edge 10 0 = .ok (some 0, m2) ∧ m2.twin = two_triangles.twin ∧
      m2.vertex 0 = two_triangles.vertex 3 ∧ m2.vertex 3 = two_triangles.vertex 0 := by
  obtain ⟨m1, m2, h1, h2, h3, h4, -⟩ := C8_flip_twice two_triangles 10 0
    two_triangles_valid (by decide) (by decide) (by decide) (by decide) (by decide) (by decide)
  exact ⟨m1, m2, h1, h2, h3, h4.1, h4.2.1⟩

/-- C9 as stated fails in both directions. At the two spokes both sides of the edge 0 lie in
the boundary face, so no non-boundary face is adjacent to it, and yet split_edge refuses the
edge, because the boundary loop of the half-edge 3 it works from has four half-edges. At the
loop edge the half-edge 0 of the edge 0 is alone in the loop of the face 0, which is not a
boundary face and not a triangle, and yet split_edge accepts the edge: three steps of `next`
from the half-edge 0 lead back to it. -/
theorem C9_counterexample :
    (Valid two_spokes ∧ two_spokes.live_e 0 ∧
      two_spokes.split_edge 10 0 = .ok (none, two_spokes) ∧
      (∀ h, (h = two_spokes.ehalfedge 0 ∨ h = two_spokes.twin (two_spokes.ehalfedge 0)) →
        two_spokes.is_boundary h = true) ∧
      two_spokes.split_h0 0 = 3 ∧ ¬ two_spokes.triangle 3) ∧
    (Valid loop_edge ∧ loop_edge.live_e 0 ∧
      (∃ m', loop_edge.split_edge 10 0 = .ok (some 6, m')) ∧
      loop_edge.ehalfedge 0 = 0 ∧ loop_edge.is_boundary 0 = false ∧
      loop_edge.is_boundary (loop_edge.twin 0) = true ∧
      loop_edge.next 0 = 0 ∧ ¬ loop_edge.triangle 0) :=
  ⟨⟨two_spokes_valid, by decide, rfl, by rintro h (rfl | rfl) <;> rfl, rfl, by decide⟩,
    loop_edge_valid, by decide, ⟨_, rfl⟩, rfl, rfl, rfl, rfl, by decide⟩

/-- The amended C9 at the two triangles: the common edge 0 and the boundary edge 1 are
both accepted. -/
theorem C9_witness :
    (∃ r m', two_triangles.split_edge 10 0 = .ok (r, m') ∧ r ≠ none) ∧
    (∃ r m', two_triangles.split_edge 10 1 = .ok (r, m') ∧ r ≠ none) := by
  obtain ⟨r, m', h, h1, -⟩ := C9_split_edge_refusal two_triangles 10 0 two_triangles_valid
    (by decide) (by decide)
  obtain ⟨r', m'', h', -, h1', -⟩ := C9_split_edge_refusal two_triangles 10 1 two_triangles_valid
    (by decide) (by decide)
  refine ⟨⟨r, m', h, fun c => ?_⟩, ⟨r', m'', h', ?_⟩⟩
  · obtain ⟨x, hx, hb, hc⟩ := (h1 (by decide) (by
      rintro x (rfl | rfl) - <;> decide)).1 c
    rcases hx with rfl | rfl <;> exact hc (by decide)
  · exact h1' (two_triangles.ehalfedge 1) (Or.inl rfl) (by decide) (by decide) (by decide)

/-- C10 as stated fails at the two triangles: the split of their common edge 0, which is
off the boundary, creates 3 edges and 6 half-edges, not 4 and 8. -/
theorem C10_counterexample :
    Valid two_triangles ∧ two_triangles.live_e 0 ∧ two_triangles.on_boundary 0 = false ∧
    ∃ v m', two_triangles.split_edge 10 0 = .ok (some v, m') ∧
      m'.edges.length = two_triangles.edges.length + 3 ∧
      m'.halfedges.length = two_triangles.halfedges.length + 6 ∧
      m'.n_edges = two_triangles.n_edges + 3 ∧
      m'.n_halfedges = two_triangles.n_halfedges + 6 :=
  ⟨two_triangles_valid, by decide, by decide, _, _, rfl, by decide, by decide, by decide,
    by decide⟩

/-- The amended C10 at the two triangles, for the common edge 0 and the boundary edge 1. -/
theorem C10_witness :
    (∃ v m', two_triangles.split_edge 10 0 = .ok (some v, m') ∧
      m'.n_vertices = two_triangles.n_vertices + 1 ∧ m'.n_edges = two_triangles.n_edges + 3 ∧
      m'.n_halfedges = two_triangles.n_halfedges + 6 ∧
      m'.n_faces = two_triangles.n_faces + 2) ∧
    (∃ v m', two_triangles.split_edge 10 1 = .ok (some v, m') ∧
      m'.n_vertices = two_triangles.n_vertices + 1 ∧ m'.n_edges = two_triangles.n_edges + 2 ∧
      m'.n_halfedges = two_triangles.n_halfedges + 4 ∧
      m'.n_faces = two_triangles.n_faces + 1) :=
  ⟨⟨_, _, rfl, ((C10_split_edge_creates two_triangles _ 10 0 _ two_triangles_valid
      (by decide) rfl).2.2 (by decide)).2⟩,
   ⟨_, _, rfl, ((C10_split_edge_creates two_triangles _ 10 1 _ two_triangles_valid
      (by decide) rfl).2.1 (by decide)).2⟩⟩

/-- C15 at the boundary face 1 of the quadrilateral. -/
theorem C15_witness : quad.boundary 1 = true ∧ quad.bevel_face 10 1 = .ok (some 1, quad) :=
  ⟨rfl, C15_bevel_boundary_face quad 10 1 rfl⟩

/-- C16 as stated fails at the boundary face 1 of the quadrilateral: bevel_face refuses it
by returning a present result that holds the face, not the absent result. -/
theorem C16_counterexample :
    quad.boundary 1 = true ∧ ∃ r m', quad.bevel_face 10 1 = .ok (r, m') ∧ r = some 1 ∧
      r ≠ none :=
  ⟨rfl, _, _, rfl, rfl, by decide⟩

/-- The amended C16 at the quadrilateral, whose edge 0 every operator refuses. -/
theorem C16_witness :
    quad.collapse_edge 10 0 = .ok (none, quad) ∧ quad.flip_edge 10 0 = .ok (none, quad) ∧
    (∃ m', quad.split_edge 10 0 = .ok (none, m')) ∧
    quad.bevel_face 10 1 = .ok (some 1, quad) := by
  obtain ⟨⟨d0, d1, h0, h1, hc⟩, hf, hs, hb⟩ :=
    C16_refusal_signals quad 10 0 1 quad_valid (by decide) (by decide)
  have e0 : quad.vdegree 10 (quad.vertex (quad.ehalfedge 0)) = .ok 2 := rfl
  rw [e0] at h0
  simp only [Except.ok.injEq] at h0
  exact ⟨hc (Or.inl (by omega)), hf rfl, hs (Or.inl (by decide)), hb rfl⟩

/-- C11 (code defect): on the valid mesh `loop_edge` split_edge accepts the edge 0 and
returns the new vertex 6, whose half-edge is the half-edge 0 of the edge; but the vertex of
the half-edge 0 is the old vertex 0 and not the vertex 6. Line 451 assigns the new vertex to
`h0->vertex()`, and line 457 assigns `v1` to `h1->vertex()`, where `h1 = h0->next()` is the
half-edge `h0` itself. -/
theorem C11_split_edge_overwrites_vertex_of_halfedge :
    Valid loop_edge ∧ loop_edge.live_e 0 ∧
    loop_edge.next (loop_edge.split_h0 0) = loop_edge.split_h0 0 ∧
    ∃ m', loop_edge.split_edge 10 0 = .ok (some 6, m') ∧ m'.vhalfedge 6 = 0 ∧
      m'.edge (m'.vhalfedge 6) = 0 ∧ m'.vertex (m'.vhalfedge 6) = 0 ∧
      m'.vertex (m'.vhalfedge 6) ≠ 6 :=
  ⟨loop_edge_valid, by decide, by decide, _, rfl, by decide, by decide, by decide, by decide⟩

/-- The half-edge of the new vertex at the two triangles, for the common edge 0 and the
boundary edge 1. -/
theorem split_edge_vertex_halfedge_example :
    (∃ v4 m', two_triangles.split_edge 10 0 = .ok (some v4, m') ∧
      m'.vertex (m'.vhalfedge v4) = v4 ∧ m'.edge (m'.vhalfedge v4) = 0 ∧
      m'.vhalfedge v4 ∈ two_triangles.halfedges) ∧
    (∃ v4 m', two_triangles.split_edge 10 1 = .ok (some v4, m') ∧
      m'.vertex (m'.vhalfedge v4) = v4 ∧ m'.edge (m'.vhalfedge v4) = 1 ∧
      m'.vhalfedge v4 ∈ two_triangles.halfedges) := by
  have a := split_edge_vertex_halfedge two_triangles _ 10 0 _ two_triangles_valid
    (by decide) rfl (by decide) (by decide) (by decide) (by decide)
  have b := split_edge_vertex_halfedge two_triangles _ 10 1 _ two_triangles_valid
    (by decide) rfl (by decide) (by decide) (by decide) (by decide)
  exact ⟨⟨_, _, rfl, a.2.2.1, a.2.2.2.1, a.2.2.2.2.1⟩,
    ⟨_, _, rfl, b.2.2.1, b.2.2.2.1, b.2.2.2.2.1⟩⟩

/-- C17 (code defect): on the valid mesh `lens`, whose face 0 has degree 2 and is not a
boundary face, triangulate enters the inner loop, because the test of line 956,
`hIterator->next()->next() != hStart`, holds for a loop of two half-edges; it runs the body
twice and leaves a face 0 whose loop holds the half-edges 1 and 4 of the created face 6. The
face 0 is not a triangle whose three half-edges reference it, and the mesh is no longer
valid. -/
theorem C17_triangulate_breaks_face_of_degree_two :
    Valid lens ∧ lens.ferased = [] ∧ lens.boundary 0 = false ∧ lens.fdegree 10 0 = .ok 2 ∧
    ∃ m1, lens.triangulate 10 = .ok m1 ∧ 0 ∈ m1.faces ∧ m1.boundary 0 = false ∧
      ¬ m1.face_triangle 0 ∧ m1.face (m1.next (m1.fhalfedge 0)) = 6 ∧ ¬ Valid m1 :=
  ⟨lens_valid, rfl, rfl, rfl, _, rfl, by decide, by decide, by decide, by decide, by decide⟩

/-- The triangulation of the pentagon and of the two quadrilaterals. -/
theorem triangulate_triangles_example :
    (∃ m1, pentagon.triangulate 11 = .ok m1 ∧
      (∀ f ∈ m1.faces, m1.boundary f = false → m1.face_triangle f) ∧
      (∀ e ∈ m1.edges, e ∉ pentagon.edges → tri_edge pentagon m1 e)) ∧
    (∃ m1, two_quads.triangulate 15 = .ok m1 ∧
      (∀ f ∈ m1.faces, m1.boundary f = false → m1.face_triangle f) ∧
      (∀ e ∈ m1.edges, e ∉ two_quads.edges → tri_edge two_quads m1 e)) :=
  ⟨triangulate_triangles pentagon 11 pentagon_valid rfl (by decide) (by decide),
    triangulate_triangles two_quads 15 two_quads_valid rfl (by decide) (by decide)⟩

/-- C18 at the pentagon, when its face 0 of degree 5 is taken from the stack after the
boundary face 1. -/
theorem C18_witness :
    pentagon.faces.reverse = [1] ++ 0 :: [] ∧ pentagon.boundary 0 = false ∧
    ∃ cur cur1 m1, pentagon.fdegree 11 0 = .ok 5 ∧
      triangulate_stack 11 [1] pentagon = .ok cur ∧
      cur.triangulate_face 11 0 = .ok cur1 ∧ pentagon.triangulate 11 = .ok m1 ∧
      cur1.halfedges.length = cur.halfedges.length + 4 ∧
      cur1.edges.length = cur.edges.length + 2 ∧
      cur1.faces.length = cur.faces.length + 2 := by
  obtain ⟨D, cur, cur1, m1, h1, h2, h3, -, h5, -, h7, -⟩ :=
    C18_triangulate_creates pentagon 11 pentagon_valid rfl (by decide) [1] [] 0 rfl
  have hD : pentagon.fdegree 11 0 = .ok 5 := rfl
  rw [hD] at h1
  simp only [Except.ok.injEq] at h1
  subst h1
  obtain ⟨nh, ne, nf, e1, e2, e3, c1, c2, c3, -⟩ := h7 rfl (by omega)
  refine ⟨rfl, rfl, cur, cur1, m1, rfl, h2, h3, h5, ?_, ?_, ?_⟩
  · rw [e1, List.length_append, c1]
  · rw [e2, List.length_append, c2]
  · rw [e3, List.length_append, c3]

/-- C19 at the pentagon and at the lens. -/
theorem C19_witness :
    (∃ m1, pentagon.triangulate 11 = .ok m1 ∧ ∀ k, m1.triangulate k = .ok m1) ∧
    (∃ m1, lens.triangulate 5 = .ok m1 ∧ ∀ k, m1.triangulate k = .ok m1) := by
  obtain ⟨-, m1, h1, -, h2, -⟩ :=
    C19_triangulate_idempotent pentagon 11 pentagon_valid rfl (by decide)
  obtain ⟨-, m2, h3, -, h4, -⟩ :=
    C19_triangulate_idempotent lens 5 lens_valid rfl (by decide)
  exact ⟨⟨m1, h1, h2⟩, ⟨m2, h3, h4⟩⟩

/-- C20 as stated fails at the two spokes on a sphere: the loop of the face 0 passes through
the vertex 0 at the half-edges of index 1 and 3, so the position computed for the index 1
is overwritten by the one computed for the index 3. With the offsets 0, whatever `unit`,
`normal` and `center` are, the vertex of the half-edge of index 1 ends at
`start_positions[3]`, not at `start_positions[1]`. -/
theorem C20_counterexample :
    Valid spokes_sphere ∧ spokes_sphere.live_f 0 ∧ spokes_sphere.fdegree 10 0 = .ok 4 ∧
    spokes_sphere.next^[1] (spokes_sphere.fhalfedge 0) = 1 ∧ spokes_sphere.vertex 1 = 0 ∧
    spokes_sphere.next^[3] (spokes_sphere.fhalfedge 0) = 3 ∧ spokes_sphere.vertex 3 = 0 ∧
    ∀ g : Geometry, ∃ m1, spokes_sphere.bevel_face_positions g false 10
        [⟨1, 0, 0⟩, ⟨2, 0, 0⟩, ⟨3, 0, 0⟩, ⟨4, 0, 0⟩] 0 0 0 = .ok m1 ∧
      m1.pos (spokes_sphere.vertex 1) = ⟨4, 0, 0⟩ ∧
      bevel_position g false spokes_sphere 0 0 0 ⟨2, 0, 0⟩ = ⟨2, 0, 0⟩ ∧
      m1.pos (spokes_sphere.vertex 1) ≠
        bevel_position g false spokes_sphere 0 0 0 ⟨2, 0, 0⟩ := by
  refine ⟨spokes_sphere_valid, by decide, rfl, rfl, rfl, rfl, rfl, fun g => ?_⟩
  have h1 : ∀ p n u : Vec3, (p.sub (n.smul 0)).add (u.smul 0) = p := by
    intro p n u
    cases p
    simp [Vec3.sub, Vec3.smul, Vec3.add]
  have h2 := bevel_position_zero g false spokes_sphere 0 ⟨2, 0, 0⟩
  have h3 : ∀ m1, spokes_sphere.bevel_face_positions g false 10
      [⟨1, 0, 0⟩, ⟨2, 0, 0⟩, ⟨3, 0, 0⟩, ⟨4, 0, 0⟩] 0 0 0 = .ok m1 →
      m1.pos (spokes_sphere.vertex 1) = ⟨4, 0, 0⟩ := by
    intro m1 hm
    have hr : spokes_sphere.bevel_face_positions g false 10
      [⟨1, 0, 0⟩, ⟨2, 0, 0⟩, ⟨3, 0, 0⟩, ⟨4, 0, 0⟩] 0 0 0 = .ok _ := rfl
    rw [hr] at hm
    simp only [Except.ok.injEq] at hm
    rw [← hm]
    exact h1 _ _ _
  refine ⟨_, rfl, h3 _ rfl, h2, ?_⟩
  rw [h3 _ rfl, h2]
  exact fun c => absurd (congrArg Vec3.x c) (by norm_num)

/-- The amended C20 at the face 0 of the pentagon, whose five half-edges start at different
vertices, with the flag set, the tangent offset 1 and the normal offset 2; and at the face 0
of the two spokes on a sphere, whose half-edges of index 1 and 3 start at the vertex 0, which
ends at the position computed for the index 3; whatever `unit`, `normal` and `center`
are. -/
theorem C20_witness :
    pentagon.fdegree 10 0 = .ok 5 ∧
    pentagon.vertex (pentagon.next^[3] (pentagon.fhalfedge 0)) = 3 ∧
    spokes_sphere.fdegree 10 0 = .ok 4 ∧
    spokes_sphere.vertex (spokes_sphere.next^[1] (spokes_sphere.fhalfedge 0)) = 0 ∧
    spokes_sphere.vertex (spokes_sphere.next^[3] (spokes_sphere.fhalfedge 0)) = 0 ∧
    ∀ g : Geometry,
      (∃ m1, pentagon.bevel_face_positions g true 10
          [⟨1, 0, 0⟩, ⟨2, 0, 0⟩, ⟨3, 0, 0⟩, ⟨4, 0, 0⟩, ⟨5, 0, 0⟩] 0 1 2 = .ok m1 ∧
        m1.pos 3 = bevel_position g true pentagon 0 1 2 ⟨4, 0, 0⟩ ∧
        bevel_position g true pentagon 0 1 2 ⟨4, 0, 0⟩ =
          ((⟨4, 0, 0⟩ : Vec3).sub ((g.normal pentagon 0).smul (-2))).add
            (g.unit ((⟨4, 0, 0⟩ : Vec3).sub (g.center pentagon 0)))) ∧
      (∃ m1, spokes_sphere.bevel_face_positions g false 10
          [⟨1, 0, 0⟩, ⟨2, 0, 0⟩, ⟨3, 0, 0⟩, ⟨4, 0, 0⟩] 0 1 2 = .ok m1 ∧
        m1.pos 0 = bevel_position g false spokes_sphere 0 1 2 ⟨4, 0, 0⟩) := by
  refine ⟨rfl, rfl, rfl, rfl, rfl, fun g => ⟨?_, ?_⟩⟩
  · obtain ⟨m1, h1, -, h2, -⟩ := C20_bevel_face_positions g true pentagon 10 5
      [⟨1, 0, 0⟩, ⟨2, 0, 0⟩, ⟨3, 0, 0⟩, ⟨4, 0, 0⟩, ⟨5, 0, 0⟩] 0 1 2 pentagon_valid (by decide)
      (by decide) rfl rfl
    refine ⟨m1, h1, h2 (by
      intro i j hij hj
      interval_cases j <;> interval_cases i <;> decide) 3 _ (by omega) rfl, ?_⟩
    simp [bevel_position, Vec3.smul]
  · obtain ⟨m1, h1, h2, -⟩ := C20_bevel_face_positions g false spokes_sphere 10 4
      [⟨1, 0, 0⟩, ⟨2, 0, 0⟩, ⟨3, 0, 0⟩, ⟨4, 0, 0⟩] 0 1 2 spokes_sphere_valid (by decide)
      (by decide) rfl rfl
    exact ⟨m1, h1, h2 3 _ (by omega) rfl (fun j hij hj => by omega)⟩

/-- C27 at the strip of three triangles: the collapse of the boundary edge 0, between a
triangle and the boundary face of degree 5, erases the triangle and keeps the boundary
face: one face less. -/
theorem C27_witness :
    strip.on_boundary 0 = true ∧
    ∃ m', strip.collapse_edge 20 0 = .ok (some 0, m') ∧
      strip.fdegree 20 (strip.face (strip.ehalfedge 0)) = .ok 3 ∧
      strip.fdegree 20 (strip.face (strip.twin (strip.ehalfedge 0))) = .ok 5 ∧
      m'.n_faces + 1 = strip.n_faces ∧
      ¬ m'.live_f (strip.face (strip.ehalfedge 0)) ∧
      m'.live_f (strip.face (strip.twin (strip.ehalfedge 0))) := by
  refine ⟨by decide, _, rfl, rfl, rfl, ?_⟩
  obtain ⟨d0, d1, h0, h1, -, l0, l1, -, one, -, -⟩ :=
    C27_collapse_edge_faces strip 20 0 0 _ strip_valid (by decide) (by decide) rfl
  have e0 : strip.fdegree 20 (strip.face (strip.ehalfedge 0)) = .ok 3 := rfl
  have e1 : strip.fdegree 20 (strip.face (strip.twin (strip.ehalfedge 0))) = .ok 5 := rfl
  rw [e0] at h0
  rw [e1] at h1
  simp only [Except.ok.injEq] at h0 h1
  subst h0
  subst h1
  exact ⟨one.2 (Or.inl ⟨rfl, by decide⟩), fun c => l0.1 c rfl, l1.2 (by decide)⟩

/-- C27 refuted as stated: in the tetrahedron whose face 3 is a boundary face, the edge 2 is
a boundary edge (its half-edge 2 is in the face 0, the twin 9 in the boundary face 3), the
mesh is valid and collapse_edge succeeds on the edge, and the live faces go from 4 to 2:
the boundary face is a triangle and is erased as well. -/
theorem C27_boundary_collapse_can_erase_two_faces :
    Valid open_tetra ∧ open_tetra.live_e 2 ∧ open_tetra.on_boundary 2 = true ∧
    open_tetra.n_faces = 4 ∧
    ∃ m', open_tetra.collapse_edge 20 2 = .ok (some 2, m') ∧ m'.n_faces = 2 :=
  ⟨open_tetra_valid, by decide, by decide, by decide, _, rfl, by decide⟩

/-- C31 with the ids of the edges as their addresses. -/
theorem C31_witness :
    Function.Injective (fun e : Nat => e) ∧
    (∀ r, Edge_Record.lt (fun e => e) r r = false) ∧
    (∀ r1 r2 r3, Edge_Record.lt (fun e => e) r1 r2 = true →
      Edge_Record.lt (fun e => e) r2 r3 = true → Edge_Record.lt (fun e => e) r1 r3 = true) ∧
    (∀ r1 r2 : Edge_Record,
      (Edge_Record.lt (fun e => e) r1 r2 = true ∧ Edge_Record.lt (fun e => e) r2 r1 = false ∧
        ¬ (r1.cost = r2.cost ∧ r1.edge = r2.edge)) ∨
      (Edge_Record.lt (fun e => e) r1 r2 = false ∧ Edge_Record.lt (fun e => e) r2 r1 = true ∧
        ¬ (r1.cost = r2.cost ∧ r1.edge = r2.edge)) ∨
      (Edge_Record.lt (fun e => e) r1 r2 = false ∧ Edge_Record.lt (fun e => e) r2 r1 = false ∧
        r1.cost = r2.cost ∧ r1.edge = r2.edge)) ∧
    (∀ r1 r2 : Edge_Record, r1.cost < r2.cost → Edge_Record.lt (fun e => e) r1 r2 = true) ∧
    (∀ (r1 r2 : Edge_Record) (o1 o2 : Vec3) (q1 q2 : Mat4),
      Edge_Record.lt (fun e => e) { r1 with optimal := o1, edgeQuadric := q1 }
        { r2 with optimal := o2, edgeQuadric := q2 } = Edge_Record.lt (fun e => e) r1 r2) :=
  ⟨fun _ _ h => h, C31_edge_record_order (fun e => e) (fun _ _ h => h)⟩

/-- C28 at a queue of records, the addresses of the edges being their ids: after the
insertion of a record of cost 1 for the edge 0 and of a record of cost 0 for the edge 1, the
removal of the first, its insertion again and the insertion of a record of cost 0 for the
edge 2, the queue holds the three records, the one of the edge 1 first. -/
theorem C28_witness :
    StrictWeak (Edge_Record.lt (fun e => e)) ∧
    PQueue.run (Edge_Record.lt (fun e => e))
      [.insert ⟨0, ⟨0, 0, 0⟩, Mat4.Zero, 1⟩, .insert ⟨1, ⟨0, 0, 0⟩, Mat4.Zero, 0⟩,
        .remove ⟨0, ⟨0, 0, 0⟩, Mat4.Zero, 1⟩, .insert ⟨0, ⟨0, 0, 0⟩, Mat4.Zero, 1⟩,
        .insert ⟨2, ⟨0, 0, 0⟩, Mat4.Zero, 0⟩] ⟨[]⟩ =
      .ok ⟨[⟨1, ⟨0, 0, 0⟩, Mat4.Zero, 0⟩, ⟨2, ⟨0, 0, 0⟩, Mat4.Zero, 0⟩,
        ⟨0, ⟨0, 0, 0⟩, Mat4.Zero, 1⟩]⟩ ∧
    ∃ t q', (PQueue.mk [(⟨1, ⟨0, 0, 0⟩, Mat4.Zero, 0⟩ : Edge_Record),
        ⟨2, ⟨0, 0, 0⟩, Mat4.Zero, 0⟩, ⟨0, ⟨0, 0, 0⟩, Mat4.Zero, 1⟩]).top = .ok t ∧
      t ∈ (PQueue.mk [(⟨1, ⟨0, 0, 0⟩, Mat4.Zero, 0⟩ : Edge_Record),
        ⟨2, ⟨0, 0, 0⟩, Mat4.Zero, 0⟩, ⟨0, ⟨0, 0, 0⟩, Mat4.Zero, 1⟩]).queue ∧
      (∀ y ∈ (PQueue.mk [(⟨1, ⟨0, 0, 0⟩, Mat4.Zero, 0⟩ : Edge_Record),
        ⟨2, ⟨0, 0, 0⟩, Mat4.Zero, 0⟩, ⟨0, ⟨0, 0, 0⟩, Mat4.Zero, 1⟩]).queue,
        Edge_Record.lt (fun e => e) y t = false) ∧
      (PQueue.mk [(⟨1, ⟨0, 0, 0⟩, Mat4.Zero, 0⟩ : Edge_Record),
        ⟨2, ⟨0, 0, 0⟩, Mat4.Zero, 0⟩, ⟨0, ⟨0, 0, 0⟩, Mat4.Zero, 1⟩]).pop = .ok q' ∧
      t ∉ q'.queue ∧
      (∀ y, y ∈ q'.queue ↔ y ∈ (PQueue.mk [(⟨1, ⟨0, 0, 0⟩, Mat4.Zero, 0⟩ : Edge_Record),
        ⟨2, ⟨0, 0, 0⟩, Mat4.Zero, 0⟩, ⟨0, ⟨0, 0, 0⟩, Mat4.Zero, 1⟩]).queue ∧ y ≠ t) ∧
      q'.size + 1 = (PQueue.mk [(⟨1, ⟨0, 0, 0⟩, Mat4.Zero, 0⟩ : Edge_Record),
        ⟨2, ⟨0, 0, 0⟩, Mat4.Zero, 0⟩, ⟨0, ⟨0, 0, 0⟩, Mat4.Zero, 1⟩]).size ∧
      ∀ item, (∀ y ∈ (PQueue.mk [(⟨1, ⟨0, 0, 0⟩, Mat4.Zero, 0⟩ : Edge_Record),
          ⟨2, ⟨0, 0, 0⟩, Mat4.Zero, 0⟩, ⟨0, ⟨0, 0, 0⟩, Mat4.Zero, 1⟩]).queue,
          Edge_Record.lt (fun e => e) item y = true ∨
            Edge_Record.lt (fun e => e) y item = true) →
        (PQueue.mk [(⟨1, ⟨0, 0, 0⟩, Mat4.Zero, 0⟩ : Edge_Record),
          ⟨2, ⟨0, 0, 0⟩, Mat4.Zero, 0⟩, ⟨0, ⟨0, 0, 0⟩, Mat4.Zero, 1⟩]).remove
            (Edge_Record.lt (fun e => e)) item =
          PQueue.mk [(⟨1, ⟨0, 0, 0⟩, Mat4.Zero, 0⟩ : Edge_Record),
            ⟨2, ⟨0, 0, 0⟩, Mat4.Zero, 0⟩, ⟨0, ⟨0, 0, 0⟩, Mat4.Zero, 1⟩] :=
  ⟨Edge_Record.lt_strict_weak _, rfl,
    C28_pqueue_top_pop_remove (Edge_Record.lt (fun e => e)) (Edge_Record.lt_strict_weak _)
      [.insert ⟨0, ⟨0, 0, 0⟩, Mat4.Zero, 1⟩, .insert ⟨1, ⟨0, 0, 0⟩, Mat4.Zero, 0⟩,
        .remove ⟨0, ⟨0, 0, 0⟩, Mat4.Zero, 1⟩, .insert ⟨0, ⟨0, 0, 0⟩, Mat4.Zero, 1⟩,
        .insert ⟨2, ⟨0, 0, 0⟩, Mat4.Zero, 0⟩] _ rfl (by decide)⟩

/-- C29 at the flat strip of three triangles, in exact arithmetic. The vertex 0 has degree
3: the rotation from its half-edge 0 passes the half-edges 0, 10 and 4, in the face 0, the
boundary face 3 and the face 1. The quadric that simplify stores for it is the quadric of
the face 0, and not the sum of the quadrics of the faces 0 and 1. -/
theorem C29_witness :
    Valid strip_flat ∧ strip_flat.verased = [] ∧
    (∃ vq, vertex_loop strip_flat (fun f => face_quadric exact strip_flat f) 20
        strip_flat.vertices (fun _ => Mat4.Zero) = .ok vq ∧
      ∀ v ∈ strip_flat.vertices, ∃ d, strip_flat.vdegree 20 v = .ok d ∧ 0 < d ∧
        vq v = (List.range (d - 1)).foldl
          (fun acc j => acc.add (face_quadric exact strip_flat
            (strip_flat.face (strip_flat.rot^[j] (strip_flat.vhalfedge v))))) Mat4.Zero) ∧
    (strip_flat.vdegree 20 0 = .ok 3 ∧ strip_flat.vhalfedge 0 = 0 ∧
      strip_flat.rot 0 = 10 ∧ strip_flat.rot 10 = 4 ∧ strip_flat.rot 4 = 0 ∧
      strip_flat.face 0 = 0 ∧ strip_flat.face 10 = 3 ∧ strip_flat.face 4 = 1 ∧
      strip_flat.boundary 3 = true ∧ strip_flat.boundary 1 = false) ∧
    ∃ s, simplify_init exact (fun e => e) strip_flat 20 = .ok (some (3, s)) ∧
      s.vertex_quadrics 0 = face_quadric exact strip_flat 0 ∧
      s.vertex_quadrics 0 ≠
        (face_quadric exact strip_flat 0).add (face_quadric exact strip_flat 1) :=
  ⟨strip_flat_valid, rfl,
    C29_vertex_quadric_leaves_last_face_out strip_flat (fun f => face_quadric exact strip_flat f)
      20 strip_flat_valid rfl (by decide),
    ⟨rfl, rfl, rfl, rfl, rfl, rfl, rfl, rfl, rfl, rfl⟩,
    _, by with_unfolding_all rfl, by decide!, by decide!⟩

/-- C35 at the flat strip of three triangles, with an empty queue. -/
theorem C35_witness :
    Valid strip_flat ∧ strip_flat.halfedges.length ≤ 20 ∧ strip_flat.eerased = [] ∧
    (∀ e, strip_flat.live_e e → ∃ b r m', strip_flat.eligible 20 e = .ok b ∧
      strip_flat.collapse_edge 20 e = .ok (r, m') ∧ (b = true ↔ r ≠ none)) ∧
    ∃ s', repopulate (fun e => e) 20 strip_flat.edges
        ⟨strip_flat, fun _ => Mat4.Zero, fun e => ⟨e, ⟨0, 0, 0⟩, Mat4.Zero, 0⟩, ⟨[]⟩, 3⟩ =
        .ok s' ∧ s'.mesh = strip_flat ∧
      ∀ r ∈ s'.edge_queue.queue, ∃ v m',
        s'.mesh.collapse_edge_erase 20 r.edge = .ok (some v, m') :=
  ⟨strip_flat_valid, by decide, rfl,
    C35_filter_is_collapse_guard (fun e => e)
      ⟨strip_flat, fun _ => Mat4.Zero, fun e => ⟨e, ⟨0, 0, 0⟩, Mat4.Zero, 0⟩, ⟨[]⟩, 3⟩ 20
      strip_flat_valid (by decide) rfl rfl⟩

/-- On the pentagon simplify returns false at once. -/
theorem simplify_refuses_non_triangle_example :
    Valid pentagon ∧ pentagon.live_f 0 ∧ pentagon.boundary 0 = false ∧
    pentagon.halfedges.length ≤ 20 ∧ pentagon.fdegree 20 0 = .ok 5 ∧
    pentagon.next (pentagon.next (pentagon.next (pentagon.fhalfedge 0))) ≠
      pentagon.fhalfedge 0 ∧
    ∀ fuel, simplify exact (fun e => e) pentagon fuel = .ok (false, pentagon) :=
  ⟨pentagon_valid, by decide, rfl, by decide, rfl,
    simplify_refuses_non_triangle exact (fun e => e) pentagon 0 5 20 pentagon_valid
      (by decide) rfl (by decide) rfl (by decide) (by decide)⟩

/-- C22 (code defect): the flat tetrahedron `loop_tetra` is valid and its face 4, which is
not a boundary face, has degree 1 and is no triangle; it passes the test of line 1332. With
the addresses of the edges in the order of their ids, simplify collapses the edge 0, which
erases the faces 0 and 1 and the vertex 1, and then returns false: the mesh is not the mesh
before the call. The quadric of the face 4 is never read: the half-edge 12 of the face is
the last of the rotation around its vertex. -/
theorem C22_simplify_changes_mesh_with_one_gon :
    Valid loop_tetra ∧ loop_tetra.live_f 4 ∧ loop_tetra.boundary 4 = false ∧
    loop_tetra.fdegree 20 4 = .ok 1 ∧
    loop_tetra.faces = [0, 1, 2, 3, 4] ∧ loop_tetra.vertices = [0, 1, 2, 3] ∧
    ∃ m', simplify exact (fun e => e) loop_tetra 30 = .ok (false, m') ∧
      m'.faces = [2, 3, 4] ∧ m'.vertices = [0, 2, 3] := by
  obtain ⟨m', h, hp⟩ := returned_spec (by decide! :
    returned (simplify exact (fun e => e) loop_tetra 30) false
      (fun m' => decide (m'.faces = [2, 3, 4]) && decide (m'.vertices = [0, 2, 3])) = true)
  simp only [Bool.and_eq_true, decide_eq_true_eq] at hp
  exact ⟨loop_tetra_valid, by decide, rfl, rfl, rfl, rfl, m', h, hp.1, hp.2⟩

/-- The counter at the return of simplify on the mesh `kite`. -/
theorem simplify_true_counter_example :
    ∃ m', simplify exact kite_addr kite 22 = .ok (true, m') ∧
      ∃ s0 s, simplify_init exact kite_addr kite 22 = .ok (some ((kite.inner_faces : Int), s0)) ∧
        s0.mesh = kite ∧ s0.currentFaceCount = (kite.inner_faces : Int) ∧
        simplify_loop kite_addr 22 (kite.inner_faces : Int) 22 s0 = .ok (true, s) ∧
        s.mesh = m' ∧ s.currentFaceCount ≤ (kite.inner_faces : Int) / 4 := by
  obtain ⟨m', h, -⟩ := returned_spec kite_check
  exact ⟨m', h, simplify_true_counter exact kite_addr kite 22 m' h⟩

theorem C25_witness :
    ∃ m', simplify exact cube_addr cube_flat 36 = .ok (false, m') ∧
      ∃ s0 s, simplify_init exact cube_addr cube_flat 36 =
          .ok (some ((cube_flat.inner_faces : Int), s0)) ∧
        simplify_loop cube_addr 36 (cube_flat.inner_faces : Int) 36 s0 = .ok (false, s) ∧
        s.mesh = m' ∧ (cube_flat.inner_faces : Int) / 4 < s.currentFaceCount ∧
        2 < s.currentFaceCount ∧ s.edge_queue.queue = [] ∧
        ∀ e ∈ m'.edges, eligible m' 36 e = .ok false := by
  obtain ⟨m', h, -⟩ := returned_spec cube_flat_check
  exact ⟨m', h, C25_simplify_false_means_no_edge_left exact cube_addr cube_flat 36 m'
    (by decide) (by decide) h⟩

/-- C37 at the common edge of the two triangles. -/
theorem C37_witness :
    ∃ m1 m2 m3 m4, two_triangles.flip_edge 10 0 = .ok (some 0, m1) ∧
      m1.flip_edge 10 0 = .ok (some 0, m2) ∧ m2.flip_edge 10 0 = .ok (some 0, m3) ∧
      m3.flip_edge 10 0 = .ok (some 0, m4) ∧
      ∀ h, m4.next h = two_triangles.next h ∧ m4.twin h = two_triangles.twin h ∧
        m4.vertex h = two_triangles.vertex h ∧ m4.edge h = two_triangles.edge h ∧
        m4.face h = two_triangles.face h :=
  C37_flip_edge_four_times two_triangles 10 0 two_triangles_valid (by decide) (by decide)
    (by decide) (by decide) (by decide) (by decide)

/-- C32 at the first iteration of simplify on the mesh `kite`, with the edge 9 of the tree
at the lowest address: the vertex 6 at its end has degree 1, and collapse_edge_erase refuses
the edge. -/
theorem C32_witness :
    ∃ s b M1, simplify_init exact (addr_first 9) kite 22 = .ok (some (4, s)) ∧
      s.edge_queue.top = .ok b ∧ b.edge = 9 ∧
      s.mesh.collapse_edge_erase 22 b.edge = .ok (none, M1) ∧
      ∃ s', decimate (addr_first 9) 22 s = .ok s' ∧ M1 = s.mesh ∧ s'.mesh = s.mesh ∧
        s'.currentFaceCount = s.currentFaceCount ∧
        ∀ r ∈ s'.edge_queue.queue, r.edge ≠ b.edge := by
  obtain ⟨s, hs, hP⟩ := returned_spec kite_refusal_check.1
  obtain ⟨M1, hM1, -⟩ := returned_spec kite_refusal_check.2
  obtain ⟨r, hr, hr2⟩ := bind_eq_ok.1 hs
  have hinit : simplify_init exact (addr_first 9) kite 22 = .ok (some (4, s)) := by
    cases r with
    | none => simp at hr2
    | some x =>
      simp only [Except.ok.injEq] at hr2
      rw [hr, hr2]
  have hmesh := (simplify_init_mesh exact (addr_first 9) kite 22 hinit).1
  have hq2 := of_decide_eq_true hP
  obtain ⟨b, rest, hqueue, hb⟩ : ∃ b rest, s.edge_queue.queue = b :: rest ∧ b.edge = 9 := by
    cases hql : s.edge_queue.queue with
    | nil =>
      rw [hql] at hq2
      simp at hq2
    | cons b rest =>
      rw [hql] at hq2
      simp only [List.head?_cons, Option.map_some', Option.some.injEq] at hq2
      exact ⟨b, rest, rfl, hq2⟩
  have htop : s.edge_queue.top = .ok b := by
    unfold PQueue.top
    rw [hqueue]
  have hc : s.mesh.collapse_edge_erase 22 b.edge = .ok (none, M1) := by
    rw [hmesh, hb]
    exact hM1
  obtain ⟨q1, -, -⟩ := simplify_init_queue exact (addr_first 9) kite 22 kite_valid.nodup_e
    (by decide) (fun a b _ _ h => addr_first_injective 9 h) hinit
  obtain ⟨s', h1, h2, h3, h4, h5, -⟩ := C32_refused_iteration (addr_first 9) 22 s b M1
    (by rw [hmesh]; exact kite_valid) (by rw [hmesh]; exact ⟨rfl, rfl, rfl, rfl⟩)
    (by rw [hmesh]; decide) htop (by rw [hmesh, hb]; decide) q1 hc
  exact ⟨s, b, M1, hinit, htop, hb, hc, s', h1, h2, h3, h4, h5⟩

end Halfedge_Mesh

end MeshEdit
